import Mathlib

/-!
# PAL software video generator (PIC18): shallow embedding of `PAL_library.c`

The C library is embedded function by function.

* Machine integers are `Nat` / `Int` with the wrap of their C type written out:
  `unsigned char` is 8 bits, `int` / `unsigned int` are 16 bits and
  `unsigned long` is 32 bits (mikroC for PIC18).
* Plain `char` is unsigned in mikroC and signed in most other compilers; the
  embedding takes the signedness as the parameter `sg` wherever a value is
  converted to `char`, and the theorems hold for both choices.
* The framebuffer `PAL_screen` is a map from byte offsets to bytes.
* `PAL_linePtr` is kept as its offset from `PAL_ltype`; reading outside the
  table makes `PAL_ISR` fail (`none`).
* The output pins are observed through the list of `Out` events an invocation
  of `PAL_ISR` produces, one event per source statement that drives a pin,
  waits, or reads the framebuffer.
* The drawing primitives act on the framebuffer only through `PAL_setPixel`;
  `PAL_line_calls` lists the calls `PAL_line` makes, in order, and `PAL_line`
  replays them.  Loops run on fuel and return `none` when it runs out.
-/

namespace PAL

/-! ## Machine arithmetic -/

/-- A byte of data memory. -/
abbrev Byte := Fin 256

/-- Truncation of a natural number to a byte (a store to `unsigned char`). -/
def toByte (v : Nat) : Byte := ⟨v % 256, Nat.mod_lt _ (by decide)⟩

/-- Conversion of an integer to `char`: two's complement wrap to `[-128,127]`
when `char` is signed (`sg = true`), to `[0,255]` when it is unsigned. -/
def toChar (sg : Bool) (v : Int) : Int :=
  if sg then (v + 128) % 256 - 128 else v % 256

/-- Conversion of an integer to the 16-bit `int`. -/
def toInt16 (v : Int) : Int := (v + 32768) % 65536 - 32768

/-- The values a `char` can hold. -/
def isChar (sg : Bool) (v : Int) : Prop :=
  if sg then -128 ≤ v ∧ v ≤ 127 else 0 ≤ v ∧ v ≤ 255

instance (sg : Bool) (v : Int) : Decidable (isChar sg v) := by
  unfold isChar; exact inferInstance

/-! ## Constants of the header and of the library -/

def PAL_X : Nat := 128

def PAL_COLOR_BLACK : Nat := 0
def PAL_COLOR_WHITE : Nat := 1
def PAL_COLOR_REVERSE : Nat := 2

def PAL_DELAY4 : Nat := 1
def PAL_DELAY28 : Nat := 20

def PAL_LOW28 : Nat := 0
def PAL_UP28 : Nat := 1
def PAL_LOW4 : Nat := 2
def PAL_UP4 : Nat := 3

def PAL_P1 (x : Nat) : Nat := x
def PAL_P2 (x : Nat) : Nat := x <<< 2
def PAL_P3 (x : Nat) : Nat := x <<< 4
def PAL_P4 (x : Nat) : Nat := x <<< 6

def PAL_L1 : Nat := PAL_P1 PAL_LOW4 ||| PAL_P2 PAL_UP28 ||| PAL_P3 PAL_LOW4 ||| PAL_P4 PAL_UP28
def PAL_L2 : Nat := PAL_P1 PAL_LOW4 ||| PAL_P2 PAL_UP28 ||| PAL_P3 PAL_LOW4 ||| PAL_P4 PAL_UP28
def PAL_L3 : Nat := PAL_P1 PAL_LOW4 ||| PAL_P2 PAL_UP28 ||| PAL_P3 PAL_LOW4 ||| PAL_P4 PAL_UP28
def PAL_L4 : Nat := PAL_P1 PAL_LOW28 ||| PAL_P2 PAL_UP4 ||| PAL_P3 PAL_LOW28 ||| PAL_P4 PAL_UP4
def PAL_L5 : Nat := PAL_P1 PAL_LOW28 ||| PAL_P2 PAL_UP4 ||| PAL_P3 PAL_LOW28 ||| PAL_P4 PAL_UP4
def PAL_L6 : Nat := PAL_P1 PAL_LOW28 ||| PAL_P2 PAL_UP4 ||| PAL_P3 PAL_LOW4 ||| PAL_P4 PAL_UP28
def PAL_L7 : Nat := PAL_P1 PAL_LOW4 ||| PAL_P2 PAL_UP28 ||| PAL_P3 PAL_LOW4 ||| PAL_P4 PAL_UP28
def PAL_L8 : Nat := PAL_P1 PAL_LOW4 ||| PAL_P2 PAL_UP28 ||| PAL_P3 PAL_LOW4 ||| PAL_P4 PAL_UP28

def PAL_L311 : Nat := PAL_P1 PAL_LOW4 ||| PAL_P2 PAL_UP28 ||| PAL_P3 PAL_LOW4 ||| PAL_P4 PAL_UP28
def PAL_L312 : Nat := PAL_P1 PAL_LOW4 ||| PAL_P2 PAL_UP28 ||| PAL_P3 PAL_LOW4 ||| PAL_P4 PAL_UP28
def PAL_L313 : Nat := PAL_P1 PAL_LOW4 ||| PAL_P2 PAL_UP28 ||| PAL_P3 PAL_LOW28 ||| PAL_P4 PAL_UP4
def PAL_L314 : Nat := PAL_P1 PAL_LOW28 ||| PAL_P2 PAL_UP4 ||| PAL_P3 PAL_LOW28 ||| PAL_P4 PAL_UP4
def PAL_L315 : Nat := PAL_P1 PAL_LOW28 ||| PAL_P2 PAL_UP4 ||| PAL_P3 PAL_LOW28 ||| PAL_P4 PAL_UP4
def PAL_L316 : Nat := PAL_P1 PAL_LOW4 ||| PAL_P2 PAL_UP28 ||| PAL_P3 PAL_LOW4 ||| PAL_P4 PAL_UP28
def PAL_L317 : Nat := PAL_P1 PAL_LOW4 ||| PAL_P2 PAL_UP28 ||| PAL_P3 PAL_LOW4 ||| PAL_P4 PAL_UP28

/-- Code of the info lines, which are not visible on screen. -/
def PAL_LINFO : Nat := PAL_P1 PAL_LOW4 ||| PAL_P2 PAL_UP4 ||| PAL_P3 PAL_UP28 ||| PAL_P4 PAL_UP28

/-- Code of a visible video line. -/
def PAL_LVIDEO : Nat := 0

/-- The table of line types of one frame. -/
def PAL_ltype : List Nat :=
  [ PAL_LINFO, PAL_LINFO, PAL_LINFO, PAL_LINFO, PAL_LINFO, PAL_LINFO, PAL_LINFO, PAL_LINFO, PAL_LINFO,
    PAL_LINFO, PAL_LINFO, PAL_LINFO, PAL_LINFO, PAL_LINFO, PAL_LINFO, PAL_LINFO, PAL_LINFO, PAL_LINFO,
    PAL_LVIDEO,
    PAL_L311, PAL_L312, PAL_L313, PAL_L314, PAL_L315, PAL_L316, PAL_L317,
    PAL_LINFO, PAL_LINFO, PAL_LINFO, PAL_LINFO, PAL_LINFO, PAL_LINFO, PAL_LINFO, PAL_LINFO, PAL_LINFO,
    PAL_LINFO, PAL_LINFO, PAL_LINFO, PAL_LINFO, PAL_LINFO, PAL_LINFO, PAL_LINFO, PAL_LINFO, PAL_LINFO,
    PAL_LVIDEO,
    PAL_L1, PAL_L2, PAL_L3, PAL_L4, PAL_L5, PAL_L6, PAL_L7, PAL_L8 ]

/-! ## State and outputs -/

/-- The RAM variables of the library, the framebuffer and the timer flag. -/
structure PALState where
  /-- `INTCON.TMR0IF`, the timer 0 interrupt flag. -/
  TMR0IF : Bool
  /-- `PAL_linePtr - PAL_ltype`. -/
  PAL_linePtr : Nat
  /-- `unsigned char`. -/
  PAL_lineIdx : Nat
  /-- `unsigned char`. -/
  PAL_lineCode : Nat
  /-- `unsigned int`. -/
  PAL_lineVideo : Nat
  /-- `unsigned int`. -/
  PAL_border : Nat
  /-- `unsigned char`. -/
  PAL_y : Nat
  /-- `unsigned int`. -/
  PAL_max_y : Nat
  /-- `unsigned char`. -/
  PAL_shift_y : Nat
  /-- `unsigned char`. -/
  PAL_render : Nat
  /-- `unsigned long`. -/
  PAL_frameCtr : Nat
  /-- The byte at each offset from `PAL_screen`. -/
  PAL_screen : Nat → Byte

/-- What one source statement of `PAL_ISR` does to the outside world. -/
inductive Out where
  /-- `PAL_BVID = v`: a write of the luminance bit alone (blanking). -/
  | bvid (v : Nat)
  /-- `PAL_BSYNC = v`: a write of the sync bit. -/
  | bsync (v : Nat)
  /-- `Delay_us(d)`. -/
  | delay (d : Nat)
  /-- A write of a whole byte to `PORTD`; its bit 0 is the luminance. -/
  | portd (v : Nat)
  /-- A read of the framebuffer byte at the given offset from `PAL_screen`. -/
  | fbRead (off : Nat)
  deriving DecidableEq, Repr

/-- `RRCF PORTD, 1, 0`: rotate right through carry; gives the new register
value and the new carry. -/
def RRCF (f : Nat) (c : Bool) : Nat × Bool :=
  ((if c then 128 else 0) + f % 256 / 2, decide (f % 2 = 1))

/-- The values `PORTD` takes during `n` successive `RRCF PORTD`. -/
def RRCF_seq : Nat → Nat → Bool → List Out
  | 0, _, _ => []
  | n + 1, f, c => Out.portd (RRCF f c).1 :: RRCF_seq n (RRCF f c).1 (RRCF f c).2

/-- `PAL_MAKE_BORDER`: `MOVFF _PAL_border, PORTD` moves the low byte. -/
def PAL_MAKE_BORDER (s : PALState) : List Out := [Out.portd (s.PAL_border % 256)]

/-- `PAL_BLOCK_HEAD`: load `FSR0` with the row pointer and move the first byte
to `PORTD`. -/
def PAL_BLOCK_HEAD (s : PALState) (ptr : Nat) : List Out :=
  [Out.fbRead ptr, Out.portd (s.PAL_screen ptr).val]

/-- `PAL_BLOCK_SHIFT`: seven `RRCF PORTD` (the pointer bookkeeping between them
drives no pin); `portd` is the byte on the port and `c` the carry flag when the
block starts. -/
def PAL_BLOCK_SHIFT (portd : Nat) (c : Bool) : List Out := RRCF_seq 7 portd c

/-- `PAL_BLOCK_LOAD`: `MOVFF POSTINC0, PORTD`. -/
def PAL_BLOCK_LOAD (s : PALState) (fsr0 : Nat) : List Out :=
  [Out.fbRead fsr0, Out.portd (s.PAL_screen fsr0).val]

/-- The `n` pairs `PAL_BLOCK_SHIFT ; PAL_BLOCK_LOAD` that follow the byte at
`ptr + k`; `cin j` is the carry flag when the `j`-th `PAL_BLOCK_SHIFT` starts
(it depends on the compiled code and on the address of `PAL_screen`). -/
def PAL_shiftLoad (s : PALState) (cin : Nat → Bool) (ptr : Nat) : Nat → Nat → List Out
  | 0, _ => []
  | n + 1, k =>
    PAL_BLOCK_SHIFT (s.PAL_screen (ptr + k)).val (cin k)
      ++ PAL_BLOCK_LOAD s (ptr + k + 1)
      ++ PAL_shiftLoad s cin ptr n (k + 1)

/-- The row pointer `ptr` of `PAL_ISR`, as an offset from `PAL_screen`:
`((PAL_lineVideo - PAL_shift_y) & 0b11111110) << 3` in `unsigned int`. -/
def PAL_ISR_ptr (lineVideo shift_y : Nat) : Nat :=
  (((((lineVideo : Int) - (shift_y : Int)) % 65536).toNat &&& 254) <<< 3) % 65536

/-- The test `PAL_render && (PAL_lineVideo >= PAL_shift_y && PAL_lineVideo < PAL_max_y)`. -/
def PAL_ISR_content (s : PALState) (lineVideo : Nat) : Bool :=
  decide (s.PAL_render ≠ 0) && (decide (s.PAL_shift_y ≤ lineVideo) && decide (lineVideo < s.PAL_max_y))

/-- The statements of the content branch of `PAL_ISR`: the dummy read, the
header, fifteen shift/load pairs, the last shift and the right border. -/
def PAL_ISR_line (s : PALState) (cin : Nat → Bool) (ptr : Nat) : List Out :=
  [Out.fbRead ptr]
    ++ PAL_BLOCK_HEAD s ptr
    ++ PAL_shiftLoad s cin ptr 15 0
    ++ PAL_BLOCK_SHIFT (s.PAL_screen (ptr + 15)).val (cin 15)
    ++ PAL_MAKE_BORDER s

/-- The visible-video branch of `PAL_ISR`. -/
def PAL_ISR_video (cin : Nat → Bool) (s : PALState) : PALState × List Out :=
  let lineVideo := (s.PAL_lineVideo + 1) % 65536
  let s1 : PALState := { s with PAL_lineVideo := lineVideo }
  let s2 : PALState :=
    if lineVideo = 287 then
      { s1 with PAL_linePtr := s1.PAL_linePtr + 1, PAL_lineIdx := (s1.PAL_lineIdx + 1) % 256 }
    else s1
  let ptr := PAL_ISR_ptr lineVideo s.PAL_shift_y
  let hsync := [Out.bvid 0, Out.bsync 0, Out.delay 3, Out.bsync 1]
  if PAL_ISR_content s lineVideo then
    (s2, hsync ++ PAL_MAKE_BORDER s ++ PAL_ISR_line s cin ptr)
  else
    (s2, hsync ++ PAL_MAKE_BORDER s)

/-- The controlling expression written `PAL_lineCode != PAL_LINFO`.  The macro
`PAL_LINFO` has no parentheses of its own, so after expansion the text is
`PAL_lineCode != PAL_P1(PAL_LOW4) | PAL_P2(PAL_UP4) | PAL_P3(PAL_UP28) | PAL_P4(PAL_UP28)`,
in which `!=` binds tighter than `|`. -/
def PAL_ISR_notInfo (code : Nat) : Nat :=
  (if code ≠ PAL_P1 PAL_LOW4 then 1 else 0) ||| PAL_P2 PAL_UP4 ||| PAL_P3 PAL_UP28 ||| PAL_P4 PAL_UP28

/-- The vertical-synchronisation branch of `PAL_ISR`. -/
def PAL_ISR_sync (s : PALState) : PALState × List Out :=
  let code := s.PAL_lineCode
  let first :=
    [Out.bsync (if code &&& 1 ≠ 0 then 1 else 0),
     Out.delay (if code &&& 2 ≠ 0 then PAL_DELAY4 else PAL_DELAY28 - 6)]
  let s1 : PALState :=
    { s with PAL_linePtr := s.PAL_linePtr + 1, PAL_lineIdx := (s.PAL_lineIdx + 1) % 256,
             PAL_lineVideo := 0 }
  let s2 : PALState :=
    if s1.PAL_lineIdx = PAL_ltype.length then
      { s1 with PAL_lineIdx := 0, PAL_linePtr := 0,
                PAL_frameCtr := (s1.PAL_frameCtr + 1) % 4294967296 }
    else s1
  let second := [Out.bsync (if code &&& 4 ≠ 0 then 1 else 0)]
  let rest :=
    if PAL_ISR_notInfo code ≠ 0 then
      [Out.delay (if code &&& 8 ≠ 0 then PAL_DELAY4 else PAL_DELAY28),
       Out.bsync (if code &&& 16 ≠ 0 then 1 else 0),
       Out.delay (if code &&& 32 ≠ 0 then PAL_DELAY4 else PAL_DELAY28),
       Out.bsync (if code &&& 64 ≠ 0 then 1 else 0)]
    else []
  (s2, first ++ second ++ rest)

/-- The interrupt service routine.  `TABLAT` is saved and restored around the
table read and is left out. -/
def PAL_ISR (cin : Nat → Bool) (s : PALState) : Option (PALState × List Out) :=
  if s.TMR0IF then
    match PAL_ltype.get? s.PAL_linePtr with
    | none => none
    | some code =>
      let s1 : PALState := { s with PAL_lineCode := code }
      let r := if code = PAL_LVIDEO then PAL_ISR_video cin s1 else PAL_ISR_sync s1
      some ({ r.1 with TMR0IF := false }, [Out.bvid 0, Out.bsync 0] ++ r.2)
  else some (s, [])

/-- One scan line: the timer sets its flag and the interrupt runs. -/
def PAL_tick (cin : Nat → Bool) (s : PALState) : Option PALState :=
  (PAL_ISR cin { s with TMR0IF := true }).map Prod.fst

/-- The state after `n` scan lines. -/
def PAL_run (cin : Nat → Bool) : Nat → PALState → Option PALState
  | 0, s => some s
  | n + 1, s => (PAL_run cin n s).bind (PAL_tick cin)

/-- `PAL_init`, for `y` an `unsigned char`; the timer set-up registers are left
out. -/
def PAL_init (y : Nat) (s : PALState) : PALState :=
  let shift_y := (((286 / 2 : Int) - (y : Int)) % 256).toNat
  { s with TMR0IF := false,
           PAL_y := y,
           PAL_shift_y := shift_y,
           PAL_max_y := (y * 2 + shift_y) % 65536 }

/-! ## Drawing primitives -/

/-- `PAL_setPixel`: `x`, `y` are the values of the `char` arguments, `PAL_y`
the configured height and `screen` the framebuffer. -/
def PAL_setPixel (PAL_y : Nat) (screen : Nat → Byte) (x y : Int) (mode : Nat) : Nat → Byte :=
  if x < 0 then screen
  else if y < 0 then screen
  else if x ≥ (PAL_X : Int) then screen
  else if y ≥ (PAL_y : Int) then screen
  else
    -- `ptr = PAL_screen + (((y << 7) + x) >> 3)`, in `int`
    let off := (toInt16 (toInt16 (y * 128) + x) / 8).toNat
    -- `mask = 1 << (x & 7)`
    let mask := 1 <<< (x.toNat &&& 7)
    let b := (screen off).val
    let nb : Byte :=
      match mode with
      | 0 => toByte (b &&& (65535 - mask))
      | 1 => toByte (b ||| mask)
      | _ => toByte (b ^^^ mask)
    fun i => if i = off then nb else screen i

/-- The loop `while(x0 != x1)` of `PAL_line` (case `dx > dy`): the coordinates of
the `PAL_setPixel` calls it makes, or `none` when the fuel runs out. -/
def PAL_line_xloop (sg : Bool) (stepx stepy dx dy x1 : Int) :
    Nat → Int → Int → Int → Option (List (Int × Int))
  | 0, x0, _, _ => if x0 = x1 then some [] else none
  | fuel + 1, x0, y0, fraction =>
    if x0 = x1 then some []
    else
      let y0a := if fraction ≥ 0 then toChar sg (y0 + stepy) else y0
      let fra := if fraction ≥ 0 then toInt16 (fraction - dx) else fraction
      let x0a := toChar sg (x0 + stepx)
      let frb := toInt16 (fra + dy)
      (PAL_line_xloop sg stepx stepy dx dy x1 fuel x0a y0a frb).map (fun l => (x0a, y0a) :: l)

/-- The loop `while(y0 != y1)` of `PAL_line` (case `dx <= dy`). -/
def PAL_line_yloop (sg : Bool) (stepx stepy dx dy y1 : Int) :
    Nat → Int → Int → Int → Option (List (Int × Int))
  | 0, _, y0, _ => if y0 = y1 then some [] else none
  | fuel + 1, x0, y0, fraction =>
    if y0 = y1 then some []
    else
      let x0a := if fraction ≥ 0 then toChar sg (x0 + stepx) else x0
      let fra := if fraction ≥ 0 then toInt16 (fraction - dy) else fraction
      let y0a := toChar sg (y0 + stepy)
      let frb := toInt16 (fra + dx)
      (PAL_line_yloop sg stepx stepy dx dy y1 fuel x0a y0a frb).map (fun l => (x0a, y0a) :: l)

/-- The coordinates `PAL_line(x0,y0,x1,y1,_)` passes to `PAL_setPixel`, in call
order; `none` when a loop runs out of fuel. -/
def PAL_line_calls (sg : Bool) (fuel : Nat) (x0 y0 x1 y1 : Int) : Option (List (Int × Int)) :=
  let dy0 := toInt16 (y1 - y0)
  let dx0 := toInt16 (x1 - x0)
  let dy1 := if dy0 < 0 then toInt16 (-dy0) else dy0
  let stepy : Int := if dy0 < 0 then -1 else 1
  let dx1 := if dx0 < 0 then toInt16 (-dx0) else dx0
  let stepx : Int := if dx0 < 0 then -1 else 1
  -- `dy <<= 1 ; dx <<= 1`
  let dy := toInt16 (dy1 * 2)
  let dx := toInt16 (dx1 * 2)
  if dx > dy then
    -- `fraction = dy - (dx >> 1)`
    let fraction := toInt16 (dy - dx / 2)
    (PAL_line_xloop sg stepx stepy dx dy x1 fuel x0 y0 fraction).map (fun l => (x0, y0) :: l)
  else
    let fraction := toInt16 (dx - dy / 2)
    (PAL_line_yloop sg stepx stepy dx dy y1 fuel x0 y0 fraction).map (fun l => (x0, y0) :: l)

/-- The effect of a sequence of `PAL_setPixel` calls with one mode. -/
def PAL_draw (PAL_y : Nat) (mode : Nat) (screen : Nat → Byte) (calls : List (Int × Int)) :
    Nat → Byte :=
  calls.foldl (fun scr p => PAL_setPixel PAL_y scr p.1 p.2 mode) screen

/-- `PAL_line`. -/
def PAL_line (PAL_y : Nat) (sg : Bool) (fuel : Nat) (screen : Nat → Byte)
    (x0 y0 x1 y1 : Int) (pcolor : Nat) : Option (Nat → Byte) :=
  (PAL_line_calls sg fuel x0 y0 x1 y1).map (PAL_draw PAL_y pcolor screen)

/-! ## The schedule walk on its own

`PAL_ISR` moves `PAL_linePtr`, `PAL_lineIdx`, `PAL_lineVideo` and
`PAL_frameCtr` without looking at anything else; `schedStep` is that walk,
with the number of frame-counter increments in place of the counter. -/

/-- Pointer offset, index, sub-line counter, frame-counter increments. -/
structure Sched where
  ptr : Nat
  idx : Nat
  lv : Nat
  frames : Nat
  deriving DecidableEq, Repr

/-- One scan line of the schedule walk. -/
def schedStep (t : Sched) : Option Sched :=
  match PAL_ltype.get? t.ptr with
  | none => none
  | some code =>
    if code = PAL_LVIDEO then
      if (t.lv + 1) % 65536 = 287 then
        some { t with ptr := t.ptr + 1, idx := (t.idx + 1) % 256, lv := (t.lv + 1) % 65536 }
      else some { t with lv := (t.lv + 1) % 65536 }
    else if (t.idx + 1) % 256 = PAL_ltype.length then
      some { ptr := 0, idx := 0, lv := 0, frames := t.frames + 1 }
    else some { t with ptr := t.ptr + 1, idx := (t.idx + 1) % 256, lv := 0 }

/-- The schedule walk after `n` scan lines. -/
def schedRun : Nat → Sched → Option Sched
  | 0, t => some t
  | n + 1, t => (schedRun n t).bind schedStep

/-- `PAL_frameCtr++`, `k` times. -/
def incFrames : Nat → Nat → Nat
  | 0, f => f
  | k + 1, f => (incFrames k f + 1) % 4294967296

/-- The state `s` is at position `t` of the schedule walk, `f0` being the value
of the frame counter when the walk started. -/
def atSched (f0 : Nat) (s : PALState) (t : Sched) : Prop :=
  s.PAL_linePtr = t.ptr ∧ s.PAL_lineIdx = t.idx ∧ s.PAL_lineVideo = t.lv ∧
    s.PAL_frameCtr = incFrames t.frames f0

/-- The number of scan lines `PAL_ISR` spends on a table entry: a video entry
is left when `PAL_lineVideo` reaches 287, any other entry at once. -/
def expandedLineCount (code : Nat) : Nat := if code = PAL_LVIDEO then 287 else 1

/-- The variables as the C initialisers leave them at reset (the ones without an
initialiser are zero), with a black framebuffer. -/
def resetState : PALState :=
  { TMR0IF := false, PAL_linePtr := 0, PAL_lineIdx := 0, PAL_lineCode := 0, PAL_lineVideo := 0,
    PAL_border := 0, PAL_y := 0, PAL_max_y := 0, PAL_shift_y := 0, PAL_render := 0,
    PAL_frameCtr := 0, PAL_screen := fun _ => 0 }

/-- A carry flag that is always clear. -/
def carryClear : Nat → Bool := fun _ => false

/-- The configuration variables of `s` hold what `PAL_init(R)` stores in them. -/
def configured (R : Nat) (s : PALState) : Prop :=
  s.PAL_y = (PAL_init R s).PAL_y ∧ s.PAL_shift_y = (PAL_init R s).PAL_shift_y ∧
    s.PAL_max_y = (PAL_init R s).PAL_max_y

/-- The offsets of the framebuffer reads among the events of one invocation. -/
def fbReads : List Out → List Nat
  | [] => []
  | Out.fbRead off :: l => off :: fbReads l
  | _ :: l => fbReads l

/-- The bytes written to `PORTD` among the events of one invocation. -/
def portdWrites : List Out → List Nat
  | [] => []
  | Out.portd v :: l => v :: portdWrites l
  | _ :: l => portdWrites l

/-- A state inside the first active-video block (table entry 18), after
`PAL_init(R)` and with rendering enabled: the timer flag is set and
`PAL_lineVideo` is `lv`. -/
def videoState (R lv : Nat) : PALState :=
  { PAL_init R resetState with
    TMR0IF := true, PAL_linePtr := 18, PAL_lineIdx := 18, PAL_lineVideo := lv, PAL_render := 1 }

/-! ## The line in closed form (Bresenham reference) -/

/-- The offset along the minor axis of the `i`-th pixel of a line whose extent
is `M` along the driving axis and `m` along the other:
`floor((2*m*i + M) / (2*M))`. -/
def lineMinor (M m i : Nat) : Nat := (2 * m * i + M) / (2 * M)

/-- The pixels of the line from `(x0,y0)` to `(x1,y1)` in closed form, with
`a = |x1-x0|`, `b = |y1-y0|` and `sx`, `sy` the step signs: the `i`-th pixel is
`(x0 + sx*i, y0 + sy*floor((2*b*i + a)/(2*a)))` for `i = 0..a` when `a > b`, and
`(x0 + sx*floor((2*a*i + b)/(2*b)), y0 + sy*i)` for `i = 0..b` otherwise. -/
def linePixels (x0 y0 x1 y1 : Int) : List (Int × Int) :=
  let a := (x1 - x0).natAbs
  let b := (y1 - y0).natAbs
  let sx : Int := if x1 - x0 < 0 then -1 else 1
  let sy : Int := if y1 - y0 < 0 then -1 else 1
  if b < a then
    (List.range (a + 1)).map
      (fun (i : Nat) => (x0 + sx * (i : Int), y0 + sy * (lineMinor a b i : Int)))
  else
    (List.range (b + 1)).map
      (fun (i : Nat) => (x0 + sx * (lineMinor b a i : Int), y0 + sy * (i : Int)))

/-- Step `i` of a line is a tie when the ideal line passes exactly midway
between two pixels there: `2*m*i + M` is a multiple of `2*M` (`M > 0`). -/
def lineTie (M m i : Nat) : Bool := decide (0 < M ∧ (2 * m * i + M) % (2 * M) = 0)

/-- Whether the line between two points has a tie at one of its steps, with `M`
the larger and `m` the smaller of `|x1-x0|` and `|y1-y0|`. -/
def lineHasTie (x0 y0 x1 y1 : Int) : Bool :=
  (List.range (max (x1 - x0).natAbs (y1 - y0).natAbs + 1)).any
    (fun i => lineTie (max (x1 - x0).natAbs (y1 - y0).natAbs)
      (min (x1 - x0).natAbs (y1 - y0).natAbs) i)

/-! ## Pixels, fill, circle, box, rectangle -/

/-- The pixel `(x,y)` of a framebuffer as `PAL_setPixel` and the renderer
address it: bit `x mod 8` of byte `16*y + x/8`. -/
def pixel (screen : Nat → Byte) (x y : Nat) : Bool :=
  (screen (16 * y + x / 8)).val.testBit (x % 8)

/-- `PAL_fill`: `memset(PAL_screen, c, PAL_X * PAL_y / 8)`, the length computed
in `int`; `memset` stores the byte `c` at the first `n` offsets. -/
def PAL_fill (PAL_y : Nat) (screen : Nat → Byte) (c : Nat) : Nat → Byte :=
  let n := (toInt16 ((PAL_X : Int) * (PAL_y : Int)) / 8).toNat
  fun i => if i < n then toByte c else screen i

/-- Conversion of an integer to the 32-bit `long`. -/
def toInt32 (v : Int) : Int := (v + 2147483648) % 4294967296 - 2147483648

/-- The sample `(px, py)` of `PAL_circle` at angle `a`: `px = (long)sinE3(a) * r`,
`px /= 1000`, `px += x`, and the same with `cosE3` and `y`.  `sinE3` and `cosE3`
are functions of the compiler's library, returning `int`; they are parameters
here. -/
def PAL_circle_sample (sinE3 cosE3 : Int → Int) (x y r a : Int) : Int × Int :=
  (toInt32 (Int.tdiv (toInt32 (toInt16 (sinE3 a) * r)) 1000 + x),
   toInt32 (Int.tdiv (toInt32 (toInt16 (cosE3 a) * r)) 1000 + y))

/-- The body of the loop of `PAL_circle` over the remaining angles, with the
previous sample `(opx, opy)`: the argument lists of the `PAL_line` calls, the
`long` values converted to `char`. -/
def PAL_circle_loop (sg : Bool) (sinE3 cosE3 : Int → Int) (x y r : Int) :
    List Int → Int → Int → List (Int × Int × Int × Int)
  | [], _, _ => []
  | a :: rest, opx, opy =>
    let p := PAL_circle_sample sinE3 cosE3 x y r a
    (if a > 0 then [(toChar sg opx, toChar sg opy, toChar sg p.1, toChar sg p.2)] else [])
      ++ PAL_circle_loop sg sinE3 cosE3 x y r rest p.1 p.2

/-- The angles of `for(a = 0 ; a <= 360 ; a += 15)`. -/
def PAL_circle_angles : List Int := (List.range 25).map (fun (k : Nat) => 15 * (k : Int))

/-- The `PAL_line` calls of `PAL_circle(x,y,r,_)`, in order, as
`(x0, y0, x1, y1)`; `opx` and `opy` are not initialised and not used at the
first angle. -/
def PAL_circle_lines (sg : Bool) (sinE3 cosE3 : Int → Int) (x y r : Int) :
    List (Int × Int × Int × Int) :=
  PAL_circle_loop sg sinE3 cosE3 x y r PAL_circle_angles 0 0

/-- A sequence of `PAL_line` calls with one colour. -/
def PAL_lines (PAL_y : Nat) (sg : Bool) (fuel : Nat) (pcolor : Nat) :
    (Nat → Byte) → List (Int × Int × Int × Int) → Option (Nat → Byte)
  | screen, [] => some screen
  | screen, l :: rest =>
    (PAL_line PAL_y sg fuel screen l.1 l.2.1 l.2.2.1 l.2.2.2 pcolor).bind
      (fun scr => PAL_lines PAL_y sg fuel pcolor scr rest)

/-- `PAL_circle`. -/
def PAL_circle (PAL_y : Nat) (sg : Bool) (fuel : Nat) (sinE3 cosE3 : Int → Int)
    (screen : Nat → Byte) (x y r : Int) (pcolor : Nat) : Option (Nat → Byte) :=
  PAL_lines PAL_y sg fuel pcolor screen (PAL_circle_lines sg sinE3 cosE3 x y r)

/-- The loop `while(x0 != x1)` of `PAL_box`: the argument lists of its `PAL_line`
calls, or `none` when the fuel runs out. -/
def PAL_box_loop (sg : Bool) (y0 x1 y1 : Int) : Nat → Int → Option (List (Int × Int × Int × Int))
  | 0, x0 => if x0 = x1 then some [] else none
  | fuel + 1, x0 =>
    if x0 = x1 then some []
    else (PAL_box_loop sg y0 x1 y1 fuel (toChar sg (x0 + 1))).map (fun l => (x0, y0, x0, y1) :: l)

/-- `PAL_box`. -/
def PAL_box (PAL_y : Nat) (sg : Bool) (fuel : Nat) (screen : Nat → Byte)
    (x0 y0 x1 y1 : Int) (pcolor : Nat) : Option (Nat → Byte) :=
  (PAL_box_loop sg y0 x1 y1 fuel x0).bind (PAL_lines PAL_y sg fuel pcolor screen)

/-- The four `PAL_line` calls of `PAL_rectangle`. -/
def PAL_rectangle_lines (x0 y0 x1 y1 : Int) : List (Int × Int × Int × Int) :=
  [(x0, y0, x1, y0), (x1, y0, x1, y1), (x1, y1, x0, y1), (x0, y1, x0, y0)]

/-- `PAL_rectangle`. -/
def PAL_rectangle (PAL_y : Nat) (sg : Bool) (fuel : Nat) (screen : Nat → Byte)
    (x0 y0 x1 y1 : Int) (pcolor : Nat) : Option (Nat → Byte) :=
  PAL_lines PAL_y sg fuel pcolor screen (PAL_rectangle_lines x0 y0 x1 y1)

/-! ## Characters, strings, pictures -/

/-- The 6x8 character table: six column bytes per glyph, 256 glyphs. -/
def PAL_charTable : List Nat :=
  [
    0x00, 0x00, 0x00, 0x00, 0x00, 0x00,
    0x3E, 0x5B, 0x4F, 0x5B, 0x3E, 0x00,
    0x3E, 0x6B, 0x4F, 0x6B, 0x3E, 0x00,
    0x1C, 0x3E, 0x7C, 0x3E, 0x1C, 0x00,
    0x18, 0x3C, 0x7E, 0x3C, 0x18, 0x00,
    0x1C, 0x57, 0x7D, 0x57, 0x1C, 0x00,
    0x1C, 0x5E, 0x7F, 0x5E, 0x1C, 0x00,
    0x00, 0x18, 0x3C, 0x18, 0x00, 0x00,
    0xFF, 0xE7, 0xC3, 0xE7, 0xFF, 0x00,
    0x00, 0x18, 0x24, 0x18, 0x00, 0x00,
    0xFF, 0xE7, 0xDB, 0xE7, 0xFF, 0x00,
    0x30, 0x48, 0x3A, 0x06, 0x0E, 0x00,
    0x26, 0x29, 0x79, 0x29, 0x26, 0x00,
    0x40, 0x7F, 0x05, 0x05, 0x07, 0x00,
    0x40, 0x7F, 0x05, 0x25, 0x3F, 0x00,
    0x5A, 0x3C, 0xE7, 0x3C, 0x5A, 0x00,
    0x7F, 0x3E, 0x1C, 0x1C, 0x08, 0x00,
    0x08, 0x1C, 0x1C, 0x3E, 0x7F, 0x00,
    0x14, 0x22, 0x7F, 0x22, 0x14, 0x00,
    0x5F, 0x5F, 0x00, 0x5F, 0x5F, 0x00,
    0x06, 0x09, 0x7F, 0x01, 0x7F, 0x00,
    0x00, 0x66, 0x89, 0x95, 0x6A, 0x00,
    0x60, 0x60, 0x60, 0x60, 0x60, 0x60,
    0x94, 0xA2, 0xFF, 0xA2, 0x94, 0x00,
    0x08, 0x04, 0x7E, 0x04, 0x08, 0x00,
    0x10, 0x20, 0x7E, 0x20, 0x10, 0x00,
    0x08, 0x08, 0x2A, 0x1C, 0x08, 0x00,
    0x08, 0x1C, 0x2A, 0x08, 0x08, 0x00,
    0x1E, 0x10, 0x10, 0x10, 0x10, 0x00,
    0x0C, 0x1E, 0x0C, 0x1E, 0x0C, 0x00,
    0x30, 0x38, 0x3E, 0x38, 0x30, 0x00,
    0x06, 0x0E, 0x3E, 0x0E, 0x06, 0x00,
    0x00, 0x00, 0x00, 0x00, 0x00, 0x00,
    0x00, 0x00, 0x5F, 0x00, 0x00, 0x00,
    0x00, 0x07, 0x00, 0x07, 0x00, 0x00,
    0x14, 0x7F, 0x14, 0x7F, 0x14, 0x00,
    0x24, 0x2A, 0x7F, 0x2A, 0x12, 0x00,
    0x23, 0x13, 0x08, 0x64, 0x62, 0x00,
    0x36, 0x49, 0x56, 0x20, 0x50, 0x00,
    0x00, 0x08, 0x07, 0x03, 0x00, 0x00,
    0x00, 0x1C, 0x22, 0x41, 0x00, 0x00,
    0x00, 0x41, 0x22, 0x1C, 0x00, 0x00,
    0x2A, 0x1C, 0x7F, 0x1C, 0x2A, 0x00,
    0x08, 0x08, 0x3E, 0x08, 0x08, 0x00,
    0x00, 0x80, 0x70, 0x30, 0x00, 0x00,
    0x08, 0x08, 0x08, 0x08, 0x08, 0x00,
    0x00, 0x00, 0x60, 0x60, 0x00, 0x00,
    0x20, 0x10, 0x08, 0x04, 0x02, 0x00,
    0x3E, 0x51, 0x49, 0x45, 0x3E, 0x00,
    0x00, 0x42, 0x7F, 0x40, 0x00, 0x00,
    0x72, 0x49, 0x49, 0x49, 0x46, 0x00,
    0x21, 0x41, 0x49, 0x4D, 0x33, 0x00,
    0x18, 0x14, 0x12, 0x7F, 0x10, 0x00,
    0x27, 0x45, 0x45, 0x45, 0x39, 0x00,
    0x3C, 0x4A, 0x49, 0x49, 0x31, 0x00,
    0x41, 0x21, 0x11, 0x09, 0x07, 0x00,
    0x36, 0x49, 0x49, 0x49, 0x36, 0x00,
    0x46, 0x49, 0x49, 0x29, 0x1E, 0x00,
    0x00, 0x00, 0x14, 0x00, 0x00, 0x00,
    0x00, 0x40, 0x34, 0x00, 0x00, 0x00,
    0x00, 0x08, 0x14, 0x22, 0x41, 0x00,
    0x14, 0x14, 0x14, 0x14, 0x14, 0x00,
    0x00, 0x41, 0x22, 0x14, 0x08, 0x00,
    0x02, 0x01, 0x59, 0x09, 0x06, 0x00,
    0x3E, 0x41, 0x5D, 0x59, 0x4E, 0x00,
    0x7C, 0x12, 0x11, 0x12, 0x7C, 0x00,
    0x7F, 0x49, 0x49, 0x49, 0x36, 0x00,
    0x3E, 0x41, 0x41, 0x41, 0x22, 0x00,
    0x7F, 0x41, 0x41, 0x41, 0x3E, 0x00,
    0x7F, 0x49, 0x49, 0x49, 0x41, 0x00,
    0x7F, 0x09, 0x09, 0x09, 0x01, 0x00,
    0x3E, 0x41, 0x41, 0x51, 0x73, 0x00,
    0x7F, 0x08, 0x08, 0x08, 0x7F, 0x00,
    0x00, 0x41, 0x7F, 0x41, 0x00, 0x00,
    0x20, 0x40, 0x41, 0x3F, 0x01, 0x00,
    0x7F, 0x08, 0x14, 0x22, 0x41, 0x00,
    0x7F, 0x40, 0x40, 0x40, 0x40, 0x00,
    0x7F, 0x02, 0x1C, 0x02, 0x7F, 0x00,
    0x7F, 0x04, 0x08, 0x10, 0x7F, 0x00,
    0x3E, 0x41, 0x41, 0x41, 0x3E, 0x00,
    0x7F, 0x09, 0x09, 0x09, 0x06, 0x00,
    0x3E, 0x41, 0x51, 0x21, 0x5E, 0x00,
    0x7F, 0x09, 0x19, 0x29, 0x46, 0x00,
    0x26, 0x49, 0x49, 0x49, 0x32, 0x00,
    0x03, 0x01, 0x7F, 0x01, 0x03, 0x00,
    0x3F, 0x40, 0x40, 0x40, 0x3F, 0x00,
    0x1F, 0x20, 0x40, 0x20, 0x1F, 0x00,
    0x3F, 0x40, 0x38, 0x40, 0x3F, 0x00,
    0x63, 0x14, 0x08, 0x14, 0x63, 0x00,
    0x03, 0x04, 0x78, 0x04, 0x03, 0x00,
    0x61, 0x59, 0x49, 0x4D, 0x43, 0x00,
    0x00, 0x7F, 0x41, 0x41, 0x41, 0x00,
    0x02, 0x04, 0x08, 0x10, 0x20, 0x00,
    0x00, 0x41, 0x41, 0x41, 0x7F, 0x00,
    0x04, 0x02, 0x01, 0x02, 0x04, 0x00,
    0x40, 0x40, 0x40, 0x40, 0x40, 0x00,
    0x00, 0x03, 0x07, 0x08, 0x00, 0x00,
    0x20, 0x54, 0x54, 0x78, 0x40, 0x00,
    0x7F, 0x28, 0x44, 0x44, 0x38, 0x00,
    0x38, 0x44, 0x44, 0x44, 0x28, 0x00,
    0x38, 0x44, 0x44, 0x28, 0x7F, 0x00,
    0x38, 0x54, 0x54, 0x54, 0x18, 0x00,
    0x00, 0x08, 0x7E, 0x09, 0x02, 0x00,
    0x18, 0xA4, 0xA4, 0x9C, 0x78, 0x00,
    0x7F, 0x08, 0x04, 0x04, 0x78, 0x00,
    0x00, 0x44, 0x7D, 0x40, 0x00, 0x00,
    0x20, 0x40, 0x40, 0x3D, 0x00, 0x00,
    0x7F, 0x10, 0x28, 0x44, 0x00, 0x00,
    0x00, 0x41, 0x7F, 0x40, 0x00, 0x00,
    0x7C, 0x04, 0x78, 0x04, 0x78, 0x00,
    0x7C, 0x08, 0x04, 0x04, 0x78, 0x00,
    0x38, 0x44, 0x44, 0x44, 0x38, 0x00,
    0xFC, 0x18, 0x24, 0x24, 0x18, 0x00,
    0x18, 0x24, 0x24, 0x18, 0xFC, 0x00,
    0x7C, 0x08, 0x04, 0x04, 0x08, 0x00,
    0x48, 0x54, 0x54, 0x54, 0x24, 0x00,
    0x04, 0x04, 0x3F, 0x44, 0x24, 0x00,
    0x3C, 0x40, 0x40, 0x20, 0x7C, 0x00,
    0x1C, 0x20, 0x40, 0x20, 0x1C, 0x00,
    0x3C, 0x40, 0x30, 0x40, 0x3C, 0x00,
    0x44, 0x28, 0x10, 0x28, 0x44, 0x00,
    0x4C, 0x90, 0x90, 0x90, 0x7C, 0x00,
    0x44, 0x64, 0x54, 0x4C, 0x44, 0x00,
    0x00, 0x08, 0x36, 0x41, 0x00, 0x00,
    0x00, 0x00, 0x77, 0x00, 0x00, 0x00,
    0x00, 0x41, 0x36, 0x08, 0x00, 0x00,
    0x02, 0x01, 0x02, 0x04, 0x02, 0x00,
    0x3C, 0x26, 0x23, 0x26, 0x3C, 0x00,
    0x1E, 0xA1, 0xA1, 0x61, 0x12, 0x00,
    0x3A, 0x40, 0x40, 0x20, 0x7A, 0x00,
    0x38, 0x54, 0x54, 0x55, 0x59, 0x00,
    0x21, 0x55, 0x55, 0x79, 0x41, 0x00,
    0x21, 0x54, 0x54, 0x78, 0x41, 0x00,
    0x21, 0x55, 0x54, 0x78, 0x40, 0x00,
    0x20, 0x54, 0x55, 0x79, 0x40, 0x00,
    0x0C, 0x1E, 0x52, 0x72, 0x12, 0x00,
    0x39, 0x55, 0x55, 0x55, 0x59, 0x00,
    0x39, 0x54, 0x54, 0x54, 0x59, 0x00,
    0x39, 0x55, 0x54, 0x54, 0x58, 0x00,
    0x00, 0x00, 0x45, 0x7C, 0x41, 0x00,
    0x00, 0x02, 0x45, 0x7D, 0x42, 0x00,
    0x00, 0x01, 0x45, 0x7C, 0x40, 0x00,
    0xF0, 0x29, 0x24, 0x29, 0xF0, 0x00,
    0xF0, 0x28, 0x25, 0x28, 0xF0, 0x00,
    0x7C, 0x54, 0x55, 0x45, 0x00, 0x00,
    0x20, 0x54, 0x54, 0x7C, 0x54, 0x44,
    0x7C, 0x0A, 0x09, 0x7F, 0x49, 0x41,
    0x32, 0x49, 0x49, 0x49, 0x32, 0x00,
    0x32, 0x48, 0x48, 0x48, 0x32, 0x00,
    0x32, 0x4A, 0x48, 0x48, 0x30, 0x00,
    0x3A, 0x41, 0x41, 0x21, 0x7A, 0x00,
    0x3A, 0x42, 0x40, 0x20, 0x78, 0x00,
    0x00, 0x9D, 0xA0, 0xA0, 0x7D, 0x00,
    0x39, 0x44, 0x44, 0x44, 0x39, 0x00,
    0x3D, 0x40, 0x40, 0x40, 0x3D, 0x00,
    0x3C, 0x24, 0xFF, 0x24, 0x24, 0x00,
    0x48, 0x7E, 0x49, 0x43, 0x66, 0x00,
    0x2B, 0x2F, 0xFC, 0x2F, 0x2B, 0x00,
    0xFF, 0x09, 0x29, 0xF6, 0x20, 0x00,
    0xC0, 0x88, 0x7E, 0x09, 0x03, 0x00,
    0x20, 0x54, 0x54, 0x79, 0x41, 0x00,
    0x00, 0x00, 0x44, 0x7D, 0x41, 0x00,
    0x30, 0x48, 0x48, 0x4A, 0x32, 0x00,
    0x38, 0x40, 0x40, 0x22, 0x7A, 0x00,
    0x00, 0x7A, 0x0A, 0x0A, 0x72, 0x00,
    0x7D, 0x0D, 0x19, 0x31, 0x7D, 0x00,
    0x26, 0x29, 0x29, 0x2F, 0x28, 0x00,
    0x26, 0x29, 0x29, 0x29, 0x26, 0x00,
    0x30, 0x48, 0x4D, 0x40, 0x20, 0x00,
    0x38, 0x08, 0x08, 0x08, 0x08, 0x00,
    0x08, 0x08, 0x08, 0x08, 0x38, 0x00,
    0x2F, 0x10, 0xC8, 0xAC, 0xBA, 0x00,
    0x2F, 0x10, 0x28, 0x34, 0xFA, 0x00,
    0x00, 0x00, 0x7B, 0x00, 0x00, 0x00,
    0x08, 0x14, 0x2A, 0x14, 0x22, 0x00,
    0x22, 0x14, 0x2A, 0x14, 0x08, 0x00,
    0xAA, 0x00, 0x55, 0x00, 0xAA, 0x00,
    0xAA, 0x55, 0xAA, 0x55, 0xAA, 0x55,
    0x55, 0xAA, 0x55, 0xAA, 0x55, 0xAA,
    0x00, 0x00, 0x00, 0xFF, 0x00, 0x00,
    0x10, 0x10, 0x10, 0xFF, 0x00, 0x00,
    0x14, 0x14, 0x14, 0xFF, 0x00, 0x00,
    0x10, 0x10, 0xFF, 0x00, 0xFF, 0x00,
    0x10, 0x10, 0xF0, 0x10, 0xF0, 0x00,
    0x14, 0x14, 0x14, 0xFC, 0x00, 0x00,
    0x14, 0x14, 0xF7, 0x00, 0xFF, 0x00,
    0x00, 0x00, 0xFF, 0x00, 0xFF, 0x00,
    0x14, 0x14, 0xF4, 0x04, 0xFC, 0x00,
    0x14, 0x14, 0x17, 0x10, 0x1F, 0x00,
    0x10, 0x10, 0x1F, 0x10, 0x1F, 0x00,
    0x14, 0x14, 0x14, 0x1F, 0x00, 0x00,
    0x10, 0x10, 0x10, 0xF0, 0x00, 0x00,
    0x00, 0x00, 0x00, 0x1F, 0x10, 0x10,
    0x10, 0x10, 0x10, 0x1F, 0x10, 0x10,
    0x10, 0x10, 0x10, 0xF0, 0x10, 0x10,
    0x00, 0x00, 0x00, 0xFF, 0x10, 0x10,
    0x10, 0x10, 0x10, 0x10, 0x10, 0x10,
    0x10, 0x10, 0x10, 0xFF, 0x10, 0x10,
    0x00, 0x00, 0x00, 0xFF, 0x14, 0x14,
    0x00, 0x00, 0xFF, 0x00, 0xFF, 0x10,
    0x00, 0x00, 0x1F, 0x10, 0x17, 0x14,
    0x00, 0x00, 0xFC, 0x04, 0xF4, 0x14,
    0x14, 0x14, 0x17, 0x10, 0x17, 0x14,
    0x14, 0x14, 0xF4, 0x04, 0xF4, 0x14,
    0x00, 0x00, 0xFF, 0x00, 0xF7, 0x14,
    0x14, 0x14, 0x14, 0x14, 0x14, 0x14,
    0x14, 0x14, 0xF7, 0x00, 0xF7, 0x14,
    0x14, 0x14, 0x14, 0x17, 0x14, 0x14,
    0x10, 0x10, 0x1F, 0x10, 0x1F, 0x10,
    0x14, 0x14, 0x14, 0xF4, 0x14, 0x14,
    0x10, 0x10, 0xF0, 0x10, 0xF0, 0x10,
    0x00, 0x00, 0x1F, 0x10, 0x1F, 0x10,
    0x00, 0x00, 0x00, 0x1F, 0x14, 0x14,
    0x00, 0x00, 0x00, 0xFC, 0x14, 0x14,
    0x00, 0x00, 0xF0, 0x10, 0xF0, 0x10,
    0x10, 0x10, 0xFF, 0x10, 0xFF, 0x10,
    0x14, 0x14, 0x14, 0xFF, 0x14, 0x14,
    0x10, 0x10, 0x10, 0x1F, 0x00, 0x00,
    0x00, 0x00, 0x00, 0xF0, 0x10, 0x10,
    0xFF, 0xFF, 0xFF, 0xFF, 0xFF, 0xFF,
    0xF0, 0xF0, 0xF0, 0xF0, 0xF0, 0xF0,
    0xFF, 0xFF, 0xFF, 0x00, 0x00, 0x00,
    0x00, 0x00, 0x00, 0xFF, 0xFF, 0xFF,
    0x0F, 0x0F, 0x0F, 0x0F, 0x0F, 0x0F,
    0x38, 0x44, 0x44, 0x38, 0x44, 0x00,
    0x7C, 0x2A, 0x2A, 0x3E, 0x14, 0x00,
    0x7E, 0x02, 0x02, 0x06, 0x06, 0x00,
    0x02, 0x7E, 0x02, 0x7E, 0x02, 0x00,
    0x63, 0x55, 0x49, 0x41, 0x63, 0x00,
    0x38, 0x44, 0x44, 0x3C, 0x04, 0x00,
    0x40, 0x7E, 0x20, 0x1E, 0x20, 0x00,
    0x06, 0x02, 0x7E, 0x02, 0x02, 0x00,
    0x99, 0xA5, 0xE7, 0xA5, 0x99, 0x00,
    0x1C, 0x2A, 0x49, 0x2A, 0x1C, 0x00,
    0x4C, 0x72, 0x01, 0x72, 0x4C, 0x00,
    0x30, 0x4A, 0x4D, 0x4D, 0x30, 0x00,
    0x30, 0x48, 0x78, 0x48, 0x30, 0x00,
    0xBC, 0x62, 0x5A, 0x46, 0x3D, 0x00,
    0x3E, 0x49, 0x49, 0x49, 0x00, 0x00,
    0x7E, 0x01, 0x01, 0x01, 0x7E, 0x00,
    0x2A, 0x2A, 0x2A, 0x2A, 0x2A, 0x00,
    0x44, 0x44, 0x5F, 0x44, 0x44, 0x00,
    0x40, 0x51, 0x4A, 0x44, 0x40, 0x00,
    0x40, 0x44, 0x4A, 0x51, 0x40, 0x00,
    0x00, 0x00, 0xFF, 0x01, 0x03, 0x00,
    0xE0, 0x80, 0xFF, 0x00, 0x00, 0x00,
    0x08, 0x08, 0x6B, 0x6B, 0x08, 0x08,
    0x36, 0x12, 0x36, 0x24, 0x36, 0x00,
    0x06, 0x0F, 0x09, 0x0F, 0x06, 0x00,
    0x00, 0x00, 0x18, 0x18, 0x00, 0x00,
    0x00, 0x00, 0x10, 0x10, 0x00, 0x00,
    0x30, 0x40, 0xFF, 0x01, 0x01, 0x00,
    0x00, 0x1F, 0x01, 0x01, 0x1E, 0x00,
    0x00, 0x19, 0x1D, 0x17, 0x12, 0x00,
    0x00, 0x3C, 0x3C, 0x3C, 0x3C, 0x00,
    0x00, 0x00, 0x00, 0x00, 0x00, 0x00 ]

/-- The calls of the two inner loops of `PAL_char` for one glyph bit:
`PAL_setPixel(px + sx, py + sy, c & 1)` for `sx < mx`, `sy < my`; the `int` sums
are converted to the `char` parameters. -/
def PAL_char_cell (sg : Bool) (mx my px py c : Nat) : List (Int × Int × Nat) :=
  (List.range mx).flatMap (fun (sx : Nat) =>
    (List.range my).map (fun (sy : Nat) =>
      (toChar sg ((px : Int) + (sx : Int)), toChar sg ((py : Int) + (sy : Int)), c &&& 1)))

/-- The loop over `j` of `PAL_char` with `n` rounds left, from the pattern `c`
and the row `py`: after each cell `c >>= 1` and `py += my` (`unsigned char`). -/
def PAL_char_column (sg : Bool) (mx my px : Nat) : Nat → Nat → Nat → List (Int × Int × Nat)
  | 0, _, _ => []
  | n + 1, c, py =>
    PAL_char_cell sg mx my px py c
      ++ PAL_char_column sg mx my px n (c >>> 1) ((py + my) % 256)

/-- The loop over `i` of `PAL_char` with `n` rounds left, from column `i` and
the pointer `ptr` into the table it points into: `px = x + i * mx`
(`unsigned char`), `c = *ptr++`, `py = y`.  A read outside the table fails. -/
def PAL_char_columns (sg : Bool) (table : List Nat) (x y mx my : Nat) :
    Nat → Nat → Nat → Option (List (Int × Int × Nat))
  | 0, _, _ => some []
  | n + 1, i, ptr =>
    match table[ptr]? with
    | none => none
    | some c =>
      (PAL_char_columns sg table x y mx my n (i + 1) (ptr + 1)).map
        (fun l => PAL_char_column sg mx my ((x + i * mx) % 256) 8 c y ++ l)

/-- The `PAL_setPixel` calls of `PAL_char(x,y,c,size)`, in order, as
`(x, y, mode)`; the arguments are `unsigned char`. -/
def PAL_char_calls (sg : Bool) (x y c size : Nat) : Option (List (Int × Int × Nat)) :=
  let mx := size &&& 0x0f
  let my := size >>> 4
  PAL_char_columns sg PAL_charTable x y mx my 6 0 (c * 6)

/-- The effect of a sequence of `PAL_setPixel` calls, each with its mode. -/
def PAL_drawModes (PAL_y : Nat) (screen : Nat → Byte) (calls : List (Int × Int × Nat)) :
    Nat → Byte :=
  calls.foldl (fun scr q => PAL_setPixel PAL_y scr q.1 q.2.1 q.2.2) screen

/-- `PAL_char`. -/
def PAL_char (PAL_y : Nat) (sg : Bool) (screen : Nat → Byte) (x y c size : Nat) :
    Option (Nat → Byte) :=
  (PAL_char_calls sg x y c size).map (PAL_drawModes PAL_y screen)

/-- A sequence of `PAL_char` calls, as `(x, y, c, size)`. -/
def PAL_chars (PAL_y : Nat) (sg : Bool) :
    (Nat → Byte) → List (Nat × Nat × Nat × Nat) → Option (Nat → Byte)
  | screen, [] => some screen
  | screen, q :: rest =>
    (PAL_char PAL_y sg screen q.1 q.2.1 q.2.2.1 q.2.2.2).bind
      (fun scr => PAL_chars PAL_y sg scr rest)

/-- The loop `while(c = *s++)` of `PAL_write` over the bytes stored from `s` on,
with the current column: the argument lists of its `PAL_char` calls.  Running
off the bytes given without meeting a zero byte fails. -/
def PAL_write_loop (lig size : Nat) : List Nat → Nat → Option (List (Nat × Nat × Nat × Nat))
  | [], _ => none
  | c :: s, col =>
    if c = 0 then some []
    else
      (PAL_write_loop lig size s ((col + 6 * (size &&& 0x0f)) % 256)).map
        (fun l => (col, lig, c, size) :: l)

/-- The `PAL_char` calls of `PAL_write(lig,col,s,size)`: `lig <<= 3`, `col *= 6`
in `unsigned char`, then the loop. -/
def PAL_write_calls (lig col : Nat) (s : List Nat) (size : Nat) :
    Option (List (Nat × Nat × Nat × Nat)) :=
  PAL_write_loop ((lig <<< 3) % 256) size s ((col * 6) % 256)

/-- `PAL_write`. -/
def PAL_write (PAL_y : Nat) (sg : Bool) (screen : Nat → Byte) (lig col : Nat) (s : List Nat)
    (size : Nat) : Option (Nat → Byte) :=
  (PAL_write_calls lig col s size).bind (PAL_chars PAL_y sg screen)

/-- The loop `while(c = *s++)` of `PAL_constWrite`. -/
def PAL_constWrite_loop (lig size : Nat) :
    List Nat → Nat → Option (List (Nat × Nat × Nat × Nat))
  | [], _ => none
  | c :: s, col =>
    if c = 0 then some []
    else
      (PAL_constWrite_loop lig size s ((col + 6 * (size &&& 0x0f)) % 256)).map
        (fun l => (col, lig, c, size) :: l)

/-- The `PAL_char` calls of `PAL_constWrite(lig,col,s,size)`. -/
def PAL_constWrite_calls (lig col : Nat) (s : List Nat) (size : Nat) :
    Option (List (Nat × Nat × Nat × Nat)) :=
  PAL_constWrite_loop ((lig <<< 3) % 256) size s ((col * 6) % 256)

/-- `PAL_constWrite`. -/
def PAL_constWrite (PAL_y : Nat) (sg : Bool) (screen : Nat → Byte) (lig col : Nat)
    (s : List Nat) (size : Nat) : Option (Nat → Byte) :=
  (PAL_constWrite_calls lig col s size).bind (PAL_chars PAL_y sg screen)

/-- The loop over `k` of `PAL_picture` with `n` rounds left: `rc <<= 1`,
`rc |= c & 1`, `c >>= 1`, on `unsigned char`; gives the final `rc`. -/
def PAL_picture_reverse : Nat → Nat → Nat → Nat
  | 0, rc, _ => rc
  | n + 1, rc, c => PAL_picture_reverse n (((rc <<< 1) % 256) ||| (c &&& 1)) (c >>> 1)

/-- The loop over `i` of `PAL_picture` with `n` rounds left, from column `i` and
bitmap offset `p` (`bm` advanced `p` times): `px = x + i`, `c = *bm++`, the
reversal loop from the value `rc0 p` the uninitialised `rc` happens to hold,
then `PAL_screen[px + py] = rc`. -/
def PAL_picture_row (bm : Nat → Byte) (rc0 : Nat → Nat) (x py : Nat) :
    Nat → Nat → Nat → (Nat → Byte) → (Nat → Byte)
  | 0, _, _, screen => screen
  | n + 1, i, p, screen =>
    let px := (x + i) % 256
    let rc := PAL_picture_reverse 8 (rc0 p % 256) (bm p).val
    PAL_picture_row bm rc0 x py n (i + 1) (p + 1)
      (fun o => if o = (px + py) % 65536 then toByte rc else screen o)

/-- The loop over `j` of `PAL_picture` with `n` rounds left, from row `j` and
bitmap offset `p`: `py = (y + j) << 4`, then the loop over `i < sx`. -/
def PAL_picture_rows (bm : Nat → Byte) (rc0 : Nat → Nat) (x y sx : Nat) :
    Nat → Nat → Nat → (Nat → Byte) → (Nat → Byte)
  | 0, _, _, screen => screen
  | n + 1, j, p, screen =>
    PAL_picture_rows bm rc0 x y sx n (j + 1) (p + sx)
      (PAL_picture_row bm rc0 x (((y + j) <<< 4) % 65536) sx 0 p screen)

/-- `PAL_picture(x,y,bm,sx,sy)`: `sx /= 8`, `x /= 8`, then the loops; `bm i` is
the byte at `bm + i`. -/
def PAL_picture (screen : Nat → Byte) (bm : Nat → Byte) (rc0 : Nat → Nat) (x y sx sy : Nat) :
    Nat → Byte :=
  PAL_picture_rows bm rc0 (x / 8) y (sx / 8) sy 0 0 screen

/-- The bit reversal of a byte: bit `k` goes to bit `7 - k`. -/
def bitReverse8 (c : Nat) : Nat :=
  (c % 2) * 128 + (c / 2 % 2) * 64 + (c / 4 % 2) * 32 + (c / 8 % 2) * 16
    + (c / 16 % 2) * 8 + (c / 32 % 2) * 4 + (c / 64 % 2) * 2 + c / 128 % 2

/-! ## Views of the events and of the state of `PAL_ISR` -/

/-- The levels written to the sync pin (`PAL_BSYNC = v`) among the events of
one invocation, in order. -/
def bsyncWrites : List Out → List Nat
  | [] => []
  | Out.bsync v :: l => v :: bsyncWrites l
  | _ :: l => bsyncWrites l

/-- The arguments of the `Delay_us` calls among the events of one invocation,
in order. -/
def delays : List Out → List Nat
  | [] => []
  | Out.delay d :: l => d :: delays l
  | _ :: l => delays l

/-- The values the luminance pin `PORTD.F0` takes through the writes of whole
bytes to `PORTD`: bit 0 of each byte written, in order. -/
def luminance (out : List Out) : List Nat := (portdWrites out).map (fun v => v % 2)

/-- The variables the schedule walk of `PAL_ISR` reads and writes: the timer
flag, the table pointer, the schedule index, the sub-line counter and the
frame counter. -/
def timingState (s : PALState) : Bool × Nat × Nat × Nat × Nat :=
  (s.TMR0IF, s.PAL_linePtr, s.PAL_lineIdx, s.PAL_lineVideo, s.PAL_frameCtr)

/-- The invariant of the table traversal: the index is inside the table, the
pointer designates the entry at the index, the sub-line counter is at most 287,
and at most 286 on a video entry. -/
def traversalInv (s : PALState) : Prop :=
  s.PAL_lineIdx < PAL_ltype.length ∧ s.PAL_linePtr = s.PAL_lineIdx ∧ s.PAL_lineVideo ≤ 287 ∧
    (PAL_ltype.get? s.PAL_linePtr = some PAL_LVIDEO → s.PAL_lineVideo ≤ 286)

/-- The states reached from `s0` by invocations of `PAL_ISR`, each entered
with the timer flag either as the last invocation left it or set again by the
timer, and with any carry flag. -/
inductive Reachable (s0 : PALState) : PALState → Prop where
  | start : Reachable s0 s0
  | isr (cin : Nat → Bool) (s s' : PALState) (out : List Out) :
      Reachable s0 s → PAL_ISR cin s = some (s', out) → Reachable s0 s'
  | timer (s : PALState) : Reachable s0 s → Reachable s0 { s with TMR0IF := true }

/-! ## Lemmas on bytes and on `PAL_setPixel` -/

theorem testBit_byte_high (b j : Nat) (hb : b < 256) (hj : 8 ≤ j) : b.testBit j = false := by
  apply Nat.testBit_lt_two_pow
  calc b < 2 ^ 8 := hb
    _ ≤ 2 ^ j := Nat.pow_le_pow_right (by decide) hj

theorem two_pow_lt_of_lt_eight (k : Nat) (hk : k < 8) : 2 ^ k < 2 ^ 16 :=
  Nat.pow_lt_pow_right (by decide) (by omega)

/-- Bits of a byte after `*ptr &= ~mask`. -/
theorem testBit_clear (b k j : Nat) (hb : b < 256) (hk : k < 8) :
    ((b &&& (65535 - 1 <<< k)) % 256).testBit j = (decide (j ≠ k) && b.testBit j) := by
  have h1 : 65535 - 1 <<< k = 2 ^ 16 - (2 ^ k + 1) := by
    rw [Nat.one_shiftLeft]; norm_num; omega
  rw [h1, show (256 : Nat) = 2 ^ 8 from rfl, Nat.testBit_mod_two_pow, Nat.testBit_and,
    Nat.testBit_two_pow_sub_succ (two_pow_lt_of_lt_eight k hk), Nat.testBit_two_pow]
  by_cases hj : j < 8
  · by_cases hjk : k = j
    · subst hjk; simp
    · have : j ≠ k := fun h => hjk h.symm
      have h16 : j < 16 := by omega
      simp [hj, hjk, this, h16]
  · rw [testBit_byte_high b j hb (by omega)]; simp

/-- Bits of a byte after `*ptr |= mask`. -/
theorem testBit_set (b k j : Nat) (hb : b < 256) (hk : k < 8) :
    ((b ||| 1 <<< k) % 256).testBit j = (decide (j = k) || b.testBit j) := by
  rw [Nat.one_shiftLeft, show (256 : Nat) = 2 ^ 8 from rfl, Nat.testBit_mod_two_pow,
    Nat.testBit_or, Nat.testBit_two_pow]
  by_cases hj : j < 8
  · by_cases hjk : k = j
    · subst hjk; simp [hj]
    · have : j ≠ k := fun h => hjk h.symm
      simp [hj, hjk, this]
  · have : j ≠ k := by omega
    rw [testBit_byte_high b j hb (by omega)]; simp [hj, this]

/-- Bits of a byte after `*ptr ^= mask`. -/
theorem testBit_toggle (b k j : Nat) (hb : b < 256) (hk : k < 8) :
    ((b ^^^ 1 <<< k) % 256).testBit j = (decide (j = k) ^^ b.testBit j) := by
  rw [Nat.one_shiftLeft, show (256 : Nat) = 2 ^ 8 from rfl, Nat.testBit_mod_two_pow,
    Nat.testBit_xor, Nat.testBit_two_pow]
  by_cases hj : j < 8
  · by_cases hjk : k = j
    · subst hjk; simp [hj, Bool.xor_comm]
    · have : j ≠ k := fun h => hjk h.symm
      simp [hj, hjk, this]
  · have : j ≠ k := by omega
    rw [testBit_byte_high b j hb (by omega)]; simp [hj, this]


theorem toInt16_id (v : Int) (h1 : -32768 ≤ v) (h2 : v ≤ 32767) : toInt16 v = v := by
  unfold toInt16; omega

/-- The byte offset `PAL_setPixel` computes for an in-bounds pixel. -/
theorem PAL_setPixel_offset (x y : Int) (hx0 : 0 ≤ x) (hx : x < 128) (hy0 : 0 ≤ y) (hy : y ≤ 255) :
    (toInt16 (toInt16 (y * 128) + x) / 8).toNat = 16 * y.toNat + x.toNat / 8 := by
  rw [toInt16_id (y * 128) (by omega) (by omega), toInt16_id _ (by omega) (by omega)]
  omega

/-- `PAL_setPixel` outside the screen is the identity. -/
theorem PAL_setPixel_outside (PAL_y : Nat) (screen : Nat → Byte) (x y : Int) (mode : Nat)
    (h : x < 0 ∨ y < 0 ∨ 128 ≤ x ∨ (PAL_y : Int) ≤ y) :
    PAL_setPixel PAL_y screen x y mode = screen := by
  unfold PAL_setPixel PAL_X
  by_cases h1 : x < 0
  · simp [h1]
  by_cases h2 : y < 0
  · simp [h1, h2]
  by_cases h3 : (128 : Int) ≤ x
  · simp [h1, h2, h3]
  by_cases h4 : (PAL_y : Int) ≤ y
  · simp [h1, h2, h3, h4]
  · omega

/-- `PAL_setPixel` inside the screen rewrites one byte. -/
theorem PAL_setPixel_inside (PAL_y : Nat) (screen : Nat → Byte) (x y : Int) (mode : Nat)
    (hP : PAL_y ≤ 256) (hx0 : 0 ≤ x) (hx : x < 128) (hy0 : 0 ≤ y) (hy : y < PAL_y) :
    PAL_setPixel PAL_y screen x y mode =
      fun i => if i = 16 * y.toNat + x.toNat / 8 then
          (match mode with
            | 0 => toByte ((screen (16 * y.toNat + x.toNat / 8)).val &&& (65535 - 1 <<< (x.toNat % 8)))
            | 1 => toByte ((screen (16 * y.toNat + x.toNat / 8)).val ||| 1 <<< (x.toNat % 8))
            | _ => toByte ((screen (16 * y.toNat + x.toNat / 8)).val ^^^ 1 <<< (x.toNat % 8)))
        else screen i := by
  have h7 : x.toNat &&& 7 = x.toNat % 8 := Nat.and_pow_two_sub_one_eq_mod x.toNat 3
  unfold PAL_setPixel PAL_X
  rw [if_neg (by omega), if_neg (by omega), if_neg (by push_cast; omega), if_neg (by omega)]
  simp only [PAL_setPixel_offset x y hx0 hx hy0 (by omega), h7]
/-! ## C2, C3: `PAL_setPixel` -/

/-- C2: for every framebuffer, every mode and every coordinate pair outside
`[0,128) x [0,PAL_y)` (x negative, y negative, `x >= 128` or `y >= PAL_y`),
`PAL_setPixel` returns the framebuffer it was given, so no byte changes. -/
theorem C2_setPixel_out_of_bounds (PAL_y : Nat) (screen : Nat → Byte) (x y : Int) (mode : Nat)
    (h : x < 0 ∨ y < 0 ∨ 128 ≤ x ∨ (PAL_y : Int) ≤ y) :
    PAL_setPixel PAL_y screen x y mode = screen ∧
      ∀ i, PAL_setPixel PAL_y screen x y mode i = screen i := by
  have e := PAL_setPixel_outside PAL_y screen x y mode h
  exact ⟨e, fun i => by rw [e]⟩

/-- C2 at `x = 200`, `y = 5`, `PAL_y = 120`, mode white, on a framebuffer of sevens. -/
theorem C2_setPixel_out_of_bounds_witness :
    ((200 : Int) < 0 ∨ (5 : Int) < 0 ∨ (128 : Int) ≤ 200 ∨ ((120 : Nat) : Int) ≤ 5) ∧
      (PAL_setPixel 120 (fun _ => 7) 200 5 PAL_COLOR_WHITE = (fun _ => 7) ∧
        ∀ i, PAL_setPixel 120 (fun _ => 7) 200 5 PAL_COLOR_WHITE i = (fun _ => 7) i) :=
  ⟨by decide, C2_setPixel_out_of_bounds 120 (fun _ => 7) 200 5 PAL_COLOR_WHITE (by decide)⟩

/-- C3: for `0 <= x < 128` and `0 <= y < PAL_y` (`PAL_y` an `unsigned char`),
`PAL_setPixel(x,y,mode)` touches only byte `16*y + x/8`, whose index is below
`16*PAL_y`, and in it only bit `x mod 8`: that bit becomes 1 with
`PAL_COLOR_WHITE`, 0 with `PAL_COLOR_BLACK` and is inverted with
`PAL_COLOR_REVERSE`; every other bit of the framebuffer keeps its value. -/
theorem C3_setPixel_one_bit (PAL_y : Nat) (screen : Nat → Byte) (x y : Int) (mode : Nat)
    (hP : PAL_y ≤ 255) (hx0 : 0 ≤ x) (hx : x < 128) (hy0 : 0 ≤ y) (hy : y < PAL_y) :
    16 * y.toNat + x.toNat / 8 < 16 * PAL_y ∧
    (∀ i, i ≠ 16 * y.toNat + x.toNat / 8 → PAL_setPixel PAL_y screen x y mode i = screen i) ∧
    (∀ j, j ≠ x.toNat % 8 →
      (PAL_setPixel PAL_y screen x y mode (16 * y.toNat + x.toNat / 8)).val.testBit j
        = (screen (16 * y.toNat + x.toNat / 8)).val.testBit j) ∧
    (mode = PAL_COLOR_WHITE →
      (PAL_setPixel PAL_y screen x y mode (16 * y.toNat + x.toNat / 8)).val.testBit (x.toNat % 8)
        = true) ∧
    (mode = PAL_COLOR_BLACK →
      (PAL_setPixel PAL_y screen x y mode (16 * y.toNat + x.toNat / 8)).val.testBit (x.toNat % 8)
        = false) ∧
    (mode = PAL_COLOR_REVERSE →
      (PAL_setPixel PAL_y screen x y mode (16 * y.toNat + x.toNat / 8)).val.testBit (x.toNat % 8)
        = !(screen (16 * y.toNat + x.toNat / 8)).val.testBit (x.toNat % 8)) := by
  have e := PAL_setPixel_inside PAL_y screen x y mode (by omega) hx0 hx hy0 hy
  have hb : (screen (16 * y.toNat + x.toNat / 8)).val < 256 := (screen _).isLt
  have hk : x.toNat % 8 < 8 := Nat.mod_lt _ (by decide)
  refine ⟨by omega, ?_, ?_, ?_, ?_, ?_⟩
  · intro i hi
    rw [e]; simp [hi]
  · intro j hj
    rw [e]; simp only [if_true]
    match mode with
    | 0 => simp only [toByte]; rw [testBit_clear _ _ _ hb hk]; simp [hj]
    | 1 => simp only [toByte]; rw [testBit_set _ _ _ hb hk]; simp [hj]
    | n + 2 => simp only [toByte]; rw [testBit_toggle _ _ _ hb hk]; simp [hj]
  · intro hm
    rw [e, hm]; simp only [if_true, PAL_COLOR_WHITE, toByte]
    rw [testBit_set _ _ _ hb hk]; simp
  · intro hm
    rw [e, hm]; simp only [if_true, PAL_COLOR_BLACK, toByte]
    rw [testBit_clear _ _ _ hb hk]; simp
  · intro hm
    rw [e, hm]; simp only [if_true, PAL_COLOR_REVERSE, toByte]
    rw [testBit_toggle _ _ _ hb hk]; simp

/-- C3 at the pixel `(10,3)`, `PAL_y = 120`, mode white, on a black framebuffer. -/
theorem C3_setPixel_one_bit_witness :
    16 * (3 : Int).toNat + (10 : Int).toNat / 8 < 16 * 120 ∧
    (∀ i, i ≠ 16 * (3 : Int).toNat + (10 : Int).toNat / 8 →
      PAL_setPixel 120 (fun _ => 0) 10 3 PAL_COLOR_WHITE i = (fun _ => 0) i) ∧
    (∀ j, j ≠ (10 : Int).toNat % 8 →
      (PAL_setPixel 120 (fun _ => 0) 10 3 PAL_COLOR_WHITE
          (16 * (3 : Int).toNat + (10 : Int).toNat / 8)).val.testBit j
        = ((fun _ => 0 : Nat → Byte) (16 * (3 : Int).toNat + (10 : Int).toNat / 8)).val.testBit j) ∧
    (PAL_COLOR_WHITE = PAL_COLOR_WHITE →
      (PAL_setPixel 120 (fun _ => 0) 10 3 PAL_COLOR_WHITE
          (16 * (3 : Int).toNat + (10 : Int).toNat / 8)).val.testBit ((10 : Int).toNat % 8)
        = true) ∧
    (PAL_COLOR_WHITE = PAL_COLOR_BLACK →
      (PAL_setPixel 120 (fun _ => 0) 10 3 PAL_COLOR_WHITE
          (16 * (3 : Int).toNat + (10 : Int).toNat / 8)).val.testBit ((10 : Int).toNat % 8)
        = false) ∧
    (PAL_COLOR_WHITE = PAL_COLOR_REVERSE →
      (PAL_setPixel 120 (fun _ => 0) 10 3 PAL_COLOR_WHITE
          (16 * (3 : Int).toNat + (10 : Int).toNat / 8)).val.testBit ((10 : Int).toNat % 8)
        = !((fun _ => 0 : Nat → Byte) (16 * (3 : Int).toNat + (10 : Int).toNat / 8)).val.testBit
            ((10 : Int).toNat % 8)) :=
  C3_setPixel_one_bit 120 (fun _ => 0) 10 3 PAL_COLOR_WHITE (by decide) (by decide) (by decide)
    (by decide) (by decide)
/-! ## The schedule walk of `PAL_ISR` -/

/-- One scan line follows `schedStep`. -/
theorem PAL_tick_sched (cin : Nat → Bool) (f0 : Nat) (s : PALState) (t u : Sched)
    (h : atSched f0 s t) (hu : schedStep t = some u) :
    ∃ s', PAL_tick cin s = some s' ∧ atSched f0 s' u := by
  obtain ⟨hp, hi, hl, hf⟩ := h
  unfold schedStep at hu
  unfold PAL_tick PAL_ISR
  simp only [if_true]
  rw [hp]
  cases hc : PAL_ltype.get? t.ptr with
  | none => rw [hc] at hu; simp at hu
  | some code =>
    rw [hc] at hu
    simp only at hu ⊢
    by_cases hv : code = PAL_LVIDEO
    · rw [if_pos hv] at hu
      rw [if_pos hv]
      by_cases h287 : (t.lv + 1) % 65536 = 287
      · rw [if_pos h287] at hu
        injection hu with hu
        subst hu
        refine ⟨_, rfl, ?_⟩
        unfold PAL_ISR_video
        simp only [hl, h287, if_true]
        split <;> simp [atSched, hp, hi, hf]
      · rw [if_neg h287] at hu
        injection hu with hu
        subst hu
        refine ⟨_, rfl, ?_⟩
        unfold PAL_ISR_video
        simp only [hl, h287, if_false]
        split <;> simp [atSched, hp, hi, hf]
    · rw [if_neg hv] at hu
      rw [if_neg hv]
      by_cases hend : (t.idx + 1) % 256 = PAL_ltype.length
      · rw [if_pos hend] at hu
        injection hu with hu
        subst hu
        refine ⟨_, rfl, ?_⟩
        unfold PAL_ISR_sync
        simp [atSched, hi, hend, hf, incFrames]
      · rw [if_neg hend] at hu
        injection hu with hu
        subst hu
        refine ⟨_, rfl, ?_⟩
        unfold PAL_ISR_sync
        simp [atSched, hp, hi, hend, hf]

/-- `n` scan lines follow `schedRun`. -/
theorem PAL_run_sched (cin : Nat → Bool) (f0 : Nat) (s : PALState) (t : Sched)
    (h : atSched f0 s t) :
    ∀ n u, schedRun n t = some u → ∃ s', PAL_run cin n s = some s' ∧ atSched f0 s' u := by
  intro n
  induction n with
  | zero =>
    intro u hu
    simp only [schedRun, Option.some.injEq] at hu
    subst hu
    exact ⟨s, rfl, h⟩
  | succ n ih =>
    intro u hu
    simp only [schedRun] at hu
    cases hm : schedRun n t with
    | none => rw [hm] at hu; simp at hu
    | some m =>
      rw [hm] at hu
      simp only [Option.some_bind] at hu
      obtain ⟨sm, hsm, hat⟩ := ih m hm
      obtain ⟨s', hs', hat'⟩ := PAL_tick_sched cin f0 sm m u hat hu
      exact ⟨s', by simp only [PAL_run, hsm, Option.some_bind, hs'], hat'⟩
set_option maxRecDepth 100000 in
/-- The schedule walk does not come back to index 0 during the first 624 lines. -/
theorem schedRun_before_625 :
    ∀ n : Fin 625, 0 < n.val →
      ∃ t, schedRun n.val ⟨0, 0, 0, 0⟩ = some t ∧ t.idx ≠ 0 ∧ t.frames = 0 := by
  decide

set_option maxRecDepth 100000 in
/-- The schedule walk is back at the start after 625 lines, one frame later. -/
theorem schedRun_625 : schedRun 625 ⟨0, 0, 0, 0⟩ = some ⟨0, 0, 0, 1⟩ := by
  decide

/-! ## C1: schedule traversal -/

/-- C1: the 53 entries of `PAL_ltype` expand to 18 + 287 + 7 + 18 + 287 + 8 = 625
scan lines.  Starting with the table pointer and the schedule index at 0 and
the sub-line counter at 0, with the timer flag set on every call, after exactly
625 invocations of `PAL_ISR` the index is 0 again and `PAL_frameCtr` has been
incremented once (an `unsigned long` increment); after any smaller positive
number of invocations the index is not 0 and the frame counter is unchanged. -/
theorem C1_schedule_traversal (cin : Nat → Bool) (s : PALState)
    (hp : s.PAL_linePtr = 0) (hi : s.PAL_lineIdx = 0) (hl : s.PAL_lineVideo = 0) :
    PAL_ltype.length = 53 ∧
    (PAL_ltype.map expandedLineCount).sum = 625 ∧
    (∃ s', PAL_run cin 625 s = some s' ∧ s'.PAL_lineIdx = 0 ∧ s'.PAL_linePtr = 0 ∧
        s'.PAL_frameCtr = (s.PAL_frameCtr + 1) % 4294967296) ∧
    (∀ n, 0 < n → n < 625 →
      ∃ sn, PAL_run cin n s = some sn ∧ sn.PAL_lineIdx ≠ 0 ∧
        sn.PAL_frameCtr = s.PAL_frameCtr) := by
  have h0 : atSched s.PAL_frameCtr s ⟨0, 0, 0, 0⟩ := ⟨hp, hi, hl, rfl⟩
  refine ⟨by decide, by decide, ?_, ?_⟩
  · obtain ⟨s', hs', hp', hi', _, hf'⟩ :=
      PAL_run_sched cin s.PAL_frameCtr s _ h0 625 _ schedRun_625
    exact ⟨s', hs', hi', hp', hf'⟩
  · intro n hn0 hn
    obtain ⟨t, ht, hidx, hfr⟩ := schedRun_before_625 ⟨n, hn⟩ hn0
    obtain ⟨sn, hsn, _, hi', _, hf'⟩ := PAL_run_sched cin s.PAL_frameCtr s _ h0 n t ht
    refine ⟨sn, hsn, ?_, ?_⟩
    · rw [hi']; exact hidx
    · rw [hf', hfr]; rfl

/-- C1 at the reset state, with the carry flag clear. -/
theorem C1_schedule_traversal_witness :
    (resetState.PAL_linePtr = 0 ∧ resetState.PAL_lineIdx = 0 ∧ resetState.PAL_lineVideo = 0) ∧
    (PAL_ltype.length = 53 ∧
    (PAL_ltype.map expandedLineCount).sum = 625 ∧
    (∃ s', PAL_run carryClear 625 resetState = some s' ∧ s'.PAL_lineIdx = 0 ∧ s'.PAL_linePtr = 0 ∧
        s'.PAL_frameCtr = (resetState.PAL_frameCtr + 1) % 4294967296) ∧
    (∀ n, 0 < n → n < 625 →
      ∃ sn, PAL_run carryClear n resetState = some sn ∧ sn.PAL_lineIdx ≠ 0 ∧
        sn.PAL_frameCtr = resetState.PAL_frameCtr)) :=
  ⟨⟨rfl, rfl, rfl⟩, C1_schedule_traversal carryClear resetState rfl rfl rfl⟩

/-! ## C4: the step on a sync or info line -/

/-- C4: when the pointer designates the entry at the current schedule index and
that entry is not the active-video code, one invocation of `PAL_ISR` (timer
flag set) resets `PAL_lineVideo` to 0 and advances the index by one; if the
advanced index equals the table length 53 the index and the pointer go back to
0 and `PAL_frameCtr` is incremented (`unsigned long`), and otherwise the index
and pointer stay advanced and `PAL_frameCtr` is unchanged. -/
theorem C4_non_video_step (cin : Nat → Bool) (s : PALState) (code : Nat)
    (hT : s.TMR0IF = true) (hp : s.PAL_linePtr = s.PAL_lineIdx)
    (hc : PAL_ltype.get? s.PAL_lineIdx = some code) (hv : code ≠ PAL_LVIDEO) :
    ∃ s' out, PAL_ISR cin s = some (s', out) ∧
      s'.PAL_lineVideo = 0 ∧
      (s.PAL_lineIdx + 1 = 53 →
        s'.PAL_lineIdx = 0 ∧ s'.PAL_linePtr = 0 ∧
          s'.PAL_frameCtr = (s.PAL_frameCtr + 1) % 4294967296) ∧
      (s.PAL_lineIdx + 1 ≠ 53 →
        s'.PAL_lineIdx = s.PAL_lineIdx + 1 ∧ s'.PAL_linePtr = s.PAL_linePtr + 1 ∧
          s'.PAL_frameCtr = s.PAL_frameCtr) := by
  have hlt : s.PAL_lineIdx < 53 := by
    have := List.get?_eq_some.1 hc
    obtain ⟨h, _⟩ := this
    exact h
  have hmod : (s.PAL_lineIdx + 1) % 256 = s.PAL_lineIdx + 1 := Nat.mod_eq_of_lt (by omega)
  unfold PAL_ISR
  rw [if_pos hT, hp, hc]
  simp only [if_neg hv]
  refine ⟨_, _, rfl, ?_, ?_, ?_⟩
  · unfold PAL_ISR_sync
    simp only [hmod]
    split <;> rfl
  · intro h53
    unfold PAL_ISR_sync
    simp [hmod, h53, show PAL_ltype.length = 53 from rfl]
  · intro h53
    unfold PAL_ISR_sync
    simp [hmod, h53, show PAL_ltype.length = 53 from rfl, hp]

/-- C4 at the last table entry (index 52), where the index wraps. -/
theorem C4_non_video_step_witness :
    (({ resetState with TMR0IF := true, PAL_linePtr := 52, PAL_lineIdx := 52 } : PALState).TMR0IF
        = true ∧
      ({ resetState with TMR0IF := true, PAL_linePtr := 52, PAL_lineIdx := 52 } : PALState).PAL_linePtr
        = ({ resetState with TMR0IF := true, PAL_linePtr := 52, PAL_lineIdx := 52 } : PALState).PAL_lineIdx ∧
      PAL_ltype.get? 52 = some PAL_L8 ∧ PAL_L8 ≠ PAL_LVIDEO) ∧
    ∃ s' out,
      PAL_ISR carryClear { resetState with TMR0IF := true, PAL_linePtr := 52, PAL_lineIdx := 52 }
        = some (s', out) ∧
      s'.PAL_lineVideo = 0 ∧
      (52 + 1 = 53 →
        s'.PAL_lineIdx = 0 ∧ s'.PAL_linePtr = 0 ∧ s'.PAL_frameCtr = (0 + 1) % 4294967296) ∧
      (52 + 1 ≠ 53 →
        s'.PAL_lineIdx = 52 + 1 ∧ s'.PAL_linePtr = 52 + 1 ∧ s'.PAL_frameCtr = 0) :=
  ⟨⟨rfl, rfl, by decide, by decide⟩,
    C4_non_video_step carryClear
      { resetState with TMR0IF := true, PAL_linePtr := 52, PAL_lineIdx := 52 } PAL_L8
      rfl rfl (by decide) (by decide)⟩
/-! ## C5: the step on an active-video line -/

/-- C5, counterexample: after `PAL_init(120)` the incremented sub-line counter
240 equals `2*PAL_y` and the schedule index stays at 18, while at the
incremented counter 287, which is not `2*PAL_y`, the index advances to 19. -/
theorem C5_counterexample :
    (PAL_ISR carryClear (videoState 120 239)).map
        (fun r => (r.1.PAL_lineVideo, 2 * r.1.PAL_y, r.1.PAL_lineIdx)) = some (240, 240, 18) ∧
    (PAL_ISR carryClear (videoState 120 286)).map
        (fun r => (r.1.PAL_lineVideo, 2 * r.1.PAL_y, r.1.PAL_lineIdx)) = some (287, 240, 19) := by
  constructor <;> rfl

/-- C5, amended: when the pointer designates the entry at the current schedule
index and that entry is the active-video code, one invocation of `PAL_ISR`
increments the sub-line counter by one (`unsigned int`) and advances the
schedule index (and the pointer) if and only if the incremented counter equals
287, whatever vertical resolution is configured; the frame counter is
unchanged. -/
theorem C5_video_step (cin : Nat → Bool) (s : PALState)
    (hT : s.TMR0IF = true) (hp : s.PAL_linePtr = s.PAL_lineIdx)
    (hc : PAL_ltype.get? s.PAL_lineIdx = some PAL_LVIDEO) :
    ∃ s' out, PAL_ISR cin s = some (s', out) ∧
      s'.PAL_lineVideo = (s.PAL_lineVideo + 1) % 65536 ∧
      (s'.PAL_lineVideo = 287 →
        s'.PAL_lineIdx = s.PAL_lineIdx + 1 ∧ s'.PAL_linePtr = s.PAL_linePtr + 1) ∧
      (s'.PAL_lineVideo ≠ 287 →
        s'.PAL_lineIdx = s.PAL_lineIdx ∧ s'.PAL_linePtr = s.PAL_linePtr) ∧
      s'.PAL_frameCtr = s.PAL_frameCtr ∧ s'.PAL_y = s.PAL_y := by
  have hlt : s.PAL_lineIdx < 53 := (List.get?_eq_some.1 hc).1
  have hmod : (s.PAL_lineIdx + 1) % 256 = s.PAL_lineIdx + 1 := Nat.mod_eq_of_lt (by omega)
  unfold PAL_ISR
  rw [if_pos hT, hp, hc]
  simp only [if_true]
  refine ⟨_, _, rfl, ?_, ?_, ?_, ?_, ?_⟩
  · unfold PAL_ISR_video
    by_cases h : (s.PAL_lineVideo + 1) % 65536 = 287 <;> simp only [h, if_true, if_false] <;>
      split <;> rfl
  · intro h
    have h' : (s.PAL_lineVideo + 1) % 65536 = 287 := by
      unfold PAL_ISR_video at h
      by_cases h2 : (s.PAL_lineVideo + 1) % 65536 = 287
      · exact h2
      · exfalso
        simp only [h2, if_false] at h
        split at h <;> exact h2 h
    unfold PAL_ISR_video
    simp only [h', if_true]
    split <;> simp [hmod, hp]
  · intro h
    have h' : (s.PAL_lineVideo + 1) % 65536 ≠ 287 := by
      intro h2
      apply h
      unfold PAL_ISR_video
      simp only [h2, if_true]
      split <;> rfl
    unfold PAL_ISR_video
    simp only [h', if_false]
    split <;> simp [hp]
  · unfold PAL_ISR_video
    by_cases h : (s.PAL_lineVideo + 1) % 65536 = 287 <;> simp only [h, if_true, if_false] <;>
      split <;> rfl
  · unfold PAL_ISR_video
    by_cases h : (s.PAL_lineVideo + 1) % 65536 = 287 <;> simp only [h, if_true, if_false] <;>
      split <;> rfl

/-- C5 (amended) at sub-line 239 of the first video block, after `PAL_init(120)`. -/
theorem C5_video_step_witness :
    ((videoState 120 239).TMR0IF = true ∧
      (videoState 120 239).PAL_linePtr = (videoState 120 239).PAL_lineIdx ∧
      PAL_ltype.get? (videoState 120 239).PAL_lineIdx = some PAL_LVIDEO) ∧
    ∃ s' out, PAL_ISR carryClear (videoState 120 239) = some (s', out) ∧
      s'.PAL_lineVideo = ((videoState 120 239).PAL_lineVideo + 1) % 65536 ∧
      (s'.PAL_lineVideo = 287 →
        s'.PAL_lineIdx = (videoState 120 239).PAL_lineIdx + 1 ∧
          s'.PAL_linePtr = (videoState 120 239).PAL_linePtr + 1) ∧
      (s'.PAL_lineVideo ≠ 287 →
        s'.PAL_lineIdx = (videoState 120 239).PAL_lineIdx ∧
          s'.PAL_linePtr = (videoState 120 239).PAL_linePtr) ∧
      s'.PAL_frameCtr = (videoState 120 239).PAL_frameCtr ∧
      s'.PAL_y = (videoState 120 239).PAL_y :=
  ⟨⟨rfl, rfl, by decide⟩, C5_video_step carryClear (videoState 120 239) rfl rfl (by decide)⟩
/-! ## C6, C7, C8: the choice between content and border -/

/-- What `PAL_init(R)` stores, for an `unsigned char` `R`. -/
theorem configured_values (R : Nat) (s : PALState) (hR : R ≤ 255) (h : configured R s) :
    s.PAL_y = R ∧ s.PAL_shift_y = (if R ≤ 143 then 143 - R else 399 - R) ∧
      s.PAL_max_y = s.PAL_shift_y + 2 * R := by
  obtain ⟨h1, h2, h3⟩ := h
  unfold PAL_init at h1 h2 h3
  simp only at h1 h2 h3
  have e : (((286 / 2 : Int) - (R : Int)) % 256).toNat = if R ≤ 143 then 143 - R else 399 - R := by
    split <;> omega
  rw [e] at h2 h3
  refine ⟨h1, h2, ?_⟩
  rw [h3, h2]
  split <;> omega

/-- `PAL_ISR` on a video entry runs `PAL_ISR_video`. -/
theorem PAL_ISR_on_video (cin : Nat → Bool) (s : PALState) (hT : s.TMR0IF = true)
    (hc : PAL_ltype.get? s.PAL_linePtr = some PAL_LVIDEO) :
    PAL_ISR cin s =
      some ({ (PAL_ISR_video cin { s with PAL_lineCode := PAL_LVIDEO }).1 with TMR0IF := false },
        [Out.bvid 0, Out.bsync 0] ++ (PAL_ISR_video cin { s with PAL_lineCode := PAL_LVIDEO }).2) := by
  unfold PAL_ISR
  rw [if_pos hT, hc]
  simp only [if_true]

/-- The events of a video line, by the outcome of the test. -/
theorem PAL_ISR_video_out (cin : Nat → Bool) (s : PALState) :
    (PAL_ISR_video cin s).2 =
      if PAL_ISR_content s ((s.PAL_lineVideo + 1) % 65536) then
        [Out.bvid 0, Out.bsync 0, Out.delay 3, Out.bsync 1] ++ PAL_MAKE_BORDER s
          ++ PAL_ISR_line s cin (PAL_ISR_ptr ((s.PAL_lineVideo + 1) % 65536) s.PAL_shift_y)
      else [Out.bvid 0, Out.bsync 0, Out.delay 3, Out.bsync 1] ++ PAL_MAKE_BORDER s := by
  unfold PAL_ISR_video
  simp only
  split <;> rfl

/-- The framebuffer reads of the content branch: the dummy read and the sixteen
bytes of the row. -/
theorem fbReads_PAL_ISR_line (s : PALState) (cin : Nat → Bool) (ptr : Nat) :
    fbReads (PAL_ISR_line s cin ptr) = ptr :: (List.range 16).map (fun k => ptr + k) := by
  simp [PAL_ISR_line, PAL_shiftLoad, PAL_BLOCK_HEAD, PAL_BLOCK_SHIFT, PAL_BLOCK_LOAD,
    PAL_MAKE_BORDER, RRCF_seq, fbReads, List.range, List.range.loop]
/-- The sub-line counter after a video line. -/
theorem PAL_ISR_video_lineVideo (cin : Nat → Bool) (s : PALState) :
    (PAL_ISR_video cin s).1.PAL_lineVideo = (s.PAL_lineVideo + 1) % 65536 := by
  unfold PAL_ISR_video
  by_cases h : (s.PAL_lineVideo + 1) % 65536 = 287 <;> simp only [h, if_true, if_false] <;>
    split <;> rfl

/-- The test of `PAL_ISR`, as a proposition. -/
theorem PAL_ISR_content_iff (s : PALState) (L : Nat) :
    PAL_ISR_content s L = true ↔ (s.PAL_render ≠ 0 ∧ s.PAL_shift_y ≤ L ∧ L < s.PAL_max_y) := by
  simp [PAL_ISR_content]

/-- C6: after `PAL_init(R)` (`R` an `unsigned char`), `PAL_max_y` is
`PAL_shift_y + 2*R`, and on every invocation of `PAL_ISR` on an active-video
entry, with `L` the incremented sub-line counter, the content path is taken
(the framebuffer is read and a row is shifted out) if and only if `PAL_render`
is non-zero and `PAL_shift_y <= L < PAL_shift_y + 2*R`.  In every other case no
framebuffer byte is read and, the blanking of the horizontal sync apart, the
only value written to the luminance port is the border value. -/
theorem C6_content_or_border (cin : Nat → Bool) (s : PALState) (R : Nat) (hR : R ≤ 255)
    (hcfg : configured R s) (hT : s.TMR0IF = true)
    (hc : PAL_ltype.get? s.PAL_linePtr = some PAL_LVIDEO) :
    s.PAL_max_y = s.PAL_shift_y + 2 * R ∧
    ∃ s' out, PAL_ISR cin s = some (s', out) ∧
      s'.PAL_lineVideo = (s.PAL_lineVideo + 1) % 65536 ∧
      ((∃ off, Out.fbRead off ∈ out) ↔
        (s.PAL_render ≠ 0 ∧ s.PAL_shift_y ≤ s'.PAL_lineVideo ∧
          s'.PAL_lineVideo < s.PAL_shift_y + 2 * R)) ∧
      ((s.PAL_render ≠ 0 ∧ s.PAL_shift_y ≤ s'.PAL_lineVideo ∧
          s'.PAL_lineVideo < s.PAL_shift_y + 2 * R) →
        out = [Out.bvid 0, Out.bsync 0, Out.bvid 0, Out.bsync 0, Out.delay 3, Out.bsync 1]
          ++ PAL_MAKE_BORDER s
          ++ PAL_ISR_line s cin (PAL_ISR_ptr s'.PAL_lineVideo s.PAL_shift_y)) ∧
      (¬ (s.PAL_render ≠ 0 ∧ s.PAL_shift_y ≤ s'.PAL_lineVideo ∧
          s'.PAL_lineVideo < s.PAL_shift_y + 2 * R) →
        out = [Out.bvid 0, Out.bsync 0, Out.bvid 0, Out.bsync 0, Out.delay 3, Out.bsync 1,
          Out.portd (s.PAL_border % 256)] ∧
        fbReads out = [] ∧ portdWrites out = [s.PAL_border % 256]) := by
  obtain ⟨_, _, hmax⟩ := configured_values R s hR hcfg
  refine ⟨hmax, _, _, PAL_ISR_on_video cin s hT hc, ?_, ?_, ?_, ?_⟩
  · exact PAL_ISR_video_lineVideo cin _
  · simp only [PAL_ISR_video_lineVideo, PAL_ISR_video_out]
    rw [← hmax]
    by_cases hcond : PAL_ISR_content { s with PAL_lineCode := PAL_LVIDEO }
        ((s.PAL_lineVideo + 1) % 65536) = true
    · have h2 := (PAL_ISR_content_iff _ _).1 hcond
      simp only [hcond, if_true]
      constructor
      · intro _; exact h2
      · intro _
        refine ⟨PAL_ISR_ptr ((s.PAL_lineVideo + 1) % 65536) s.PAL_shift_y, ?_⟩
        simp [PAL_ISR_line]
    · have h2 : ¬ _ := fun h => hcond ((PAL_ISR_content_iff _ _).2 h)
      simp only [hcond]
      constructor
      · rintro ⟨off, hoff⟩
        simp [PAL_MAKE_BORDER] at hoff
      · intro h; exact absurd h h2
  · intro hcond
    rw [← hmax] at hcond
    simp only [PAL_ISR_video_lineVideo] at hcond ⊢
    have h2 := (PAL_ISR_content_iff { s with PAL_lineCode := PAL_LVIDEO } _).2 hcond
    rw [PAL_ISR_video_out, if_pos h2]
    rfl
  · intro hcond
    rw [← hmax] at hcond
    simp only [PAL_ISR_video_lineVideo] at hcond
    have h2 : ¬ PAL_ISR_content { s with PAL_lineCode := PAL_LVIDEO }
        ((s.PAL_lineVideo + 1) % 65536) = true :=
      fun h => hcond ((PAL_ISR_content_iff _ _).1 h)
    rw [PAL_ISR_video_out, if_neg h2]
    exact ⟨rfl, rfl, rfl⟩

/-- C6 at sub-line 22 of the first video block, after `PAL_init(120)`. -/
theorem C6_content_or_border_witness :
    ((120 : Nat) ≤ 255 ∧ configured 120 (videoState 120 22) ∧ (videoState 120 22).TMR0IF = true ∧
      PAL_ltype.get? (videoState 120 22).PAL_linePtr = some PAL_LVIDEO) ∧
    ((videoState 120 22).PAL_max_y = (videoState 120 22).PAL_shift_y + 2 * 120 ∧
    ∃ s' out, PAL_ISR carryClear (videoState 120 22) = some (s', out) ∧
      s'.PAL_lineVideo = ((videoState 120 22).PAL_lineVideo + 1) % 65536 ∧
      ((∃ off, Out.fbRead off ∈ out) ↔
        ((videoState 120 22).PAL_render ≠ 0 ∧ (videoState 120 22).PAL_shift_y ≤ s'.PAL_lineVideo ∧
          s'.PAL_lineVideo < (videoState 120 22).PAL_shift_y + 2 * 120)) ∧
      (((videoState 120 22).PAL_render ≠ 0 ∧ (videoState 120 22).PAL_shift_y ≤ s'.PAL_lineVideo ∧
          s'.PAL_lineVideo < (videoState 120 22).PAL_shift_y + 2 * 120) →
        out = [Out.bvid 0, Out.bsync 0, Out.bvid 0, Out.bsync 0, Out.delay 3, Out.bsync 1]
          ++ PAL_MAKE_BORDER (videoState 120 22)
          ++ PAL_ISR_line (videoState 120 22) carryClear
              (PAL_ISR_ptr s'.PAL_lineVideo (videoState 120 22).PAL_shift_y)) ∧
      (¬ ((videoState 120 22).PAL_render ≠ 0 ∧ (videoState 120 22).PAL_shift_y ≤ s'.PAL_lineVideo ∧
          s'.PAL_lineVideo < (videoState 120 22).PAL_shift_y + 2 * 120) →
        out = [Out.bvid 0, Out.bsync 0, Out.bvid 0, Out.bsync 0, Out.delay 3, Out.bsync 1,
          Out.portd ((videoState 120 22).PAL_border % 256)] ∧
        fbReads out = [] ∧ portdWrites out = [(videoState 120 22).PAL_border % 256])) :=
  ⟨⟨by decide, ⟨rfl, rfl, rfl⟩, rfl, by decide⟩,
    C6_content_or_border carryClear (videoState 120 22) 120 (by decide) ⟨rfl, rfl, rfl⟩ rfl
      (by decide)⟩
theorem fbReads_append (a b : List Out) : fbReads (a ++ b) = fbReads a ++ fbReads b := by
  induction a with
  | nil => rfl
  | cons e a ih => cases e <;> simp [fbReads, ih]

set_option maxRecDepth 100000 in
/-- Clearing bit 0 and shifting left by 3, on a byte. -/
theorem and_254_shift (r : Nat) (hr : r < 256) : ((r &&& 254) <<< 3) % 65536 = 16 * (r / 2) := by
  have h : ∀ q : Fin 256, ((q.val &&& 254) <<< 3) % 65536 = 16 * (q.val / 2) := by decide
  exact h ⟨r, hr⟩

/-- The row pointer of `PAL_ISR` when the relative line number fits a byte. -/
theorem PAL_ISR_ptr_eq (L shift : Nat) (h1 : shift ≤ L) (h2 : L - shift < 256) :
    PAL_ISR_ptr L shift = 16 * ((L - shift) / 2) := by
  unfold PAL_ISR_ptr
  have e : (((L : Int) - (shift : Int)) % 65536).toNat = L - shift := by omega
  rw [e, and_254_shift _ h2]

/-- C7: after `PAL_init(R)` with `1 <= R <= 128`, on a content-path line with
relative line number `rel = PAL_lineVideo - PAL_shift_y` (after the increment;
`rel < 2*R`), the row pointer of `PAL_ISR` is
`PAL_screen + 8*(rel with bit 0 cleared) = PAL_screen + 16*(rel/2)`, the start of
row `rel/2 < R`; the bytes read are the sixteen bytes of that row (the first
also by the dummy read), all inside the `16*R` bytes of the framebuffer; and
the lines `rel = 2k` and `rel = 2k+1` get the same row `k`. -/
theorem C7_row_selection (cin : Nat → Bool) (s : PALState) (R : Nat) (hR1 : 1 ≤ R) (hR : R ≤ 128)
    (hcfg : configured R s) (hT : s.TMR0IF = true)
    (hc : PAL_ltype.get? s.PAL_linePtr = some PAL_LVIDEO) (hrender : s.PAL_render ≠ 0)
    (hlo : s.PAL_shift_y ≤ (s.PAL_lineVideo + 1) % 65536)
    (hhi : (s.PAL_lineVideo + 1) % 65536 < s.PAL_max_y) :
    (s.PAL_lineVideo + 1) % 65536 - s.PAL_shift_y < 2 * R ∧
    PAL_ISR_ptr ((s.PAL_lineVideo + 1) % 65536) s.PAL_shift_y
      = 8 * (((s.PAL_lineVideo + 1) % 65536 - s.PAL_shift_y)
              - ((s.PAL_lineVideo + 1) % 65536 - s.PAL_shift_y) % 2) ∧
    PAL_ISR_ptr ((s.PAL_lineVideo + 1) % 65536) s.PAL_shift_y
      = 16 * (((s.PAL_lineVideo + 1) % 65536 - s.PAL_shift_y) / 2) ∧
    ((s.PAL_lineVideo + 1) % 65536 - s.PAL_shift_y) / 2 < R ∧
    (∃ s' out, PAL_ISR cin s = some (s', out) ∧
      fbReads out =
        PAL_ISR_ptr ((s.PAL_lineVideo + 1) % 65536) s.PAL_shift_y ::
          (List.range 16).map
            (fun k => 16 * (((s.PAL_lineVideo + 1) % 65536 - s.PAL_shift_y) / 2) + k) ∧
      ∀ off ∈ fbReads out, off < 16 * R) ∧
    (∀ k, k < R →
      PAL_ISR_ptr (s.PAL_shift_y + 2 * k) s.PAL_shift_y = 16 * k ∧
      PAL_ISR_ptr (s.PAL_shift_y + (2 * k + 1)) s.PAL_shift_y = 16 * k) := by
  obtain ⟨_, _, hmax⟩ := configured_values R s (by omega) hcfg
  have hrel : (s.PAL_lineVideo + 1) % 65536 - s.PAL_shift_y < 2 * R := by omega
  have hptr := PAL_ISR_ptr_eq ((s.PAL_lineVideo + 1) % 65536) s.PAL_shift_y hlo (by omega)
  have hcond : PAL_ISR_content { s with PAL_lineCode := PAL_LVIDEO }
      ((s.PAL_lineVideo + 1) % 65536) = true :=
    (PAL_ISR_content_iff _ _).2 ⟨hrender, hlo, hhi⟩
  have hreads : fbReads ([Out.bvid 0, Out.bsync 0]
      ++ (PAL_ISR_video cin { s with PAL_lineCode := PAL_LVIDEO }).2) =
        PAL_ISR_ptr ((s.PAL_lineVideo + 1) % 65536) s.PAL_shift_y ::
          (List.range 16).map
            (fun k => 16 * (((s.PAL_lineVideo + 1) % 65536 - s.PAL_shift_y) / 2) + k) := by
    rw [PAL_ISR_video_out, if_pos hcond, fbReads_append, fbReads_append, fbReads_PAL_ISR_line, hptr]
    rfl
  refine ⟨hrel, ?_, hptr, by omega, ?_, ?_⟩
  · rw [hptr]; omega
  · refine ⟨_, _, PAL_ISR_on_video cin s hT hc, hreads, ?_⟩
    intro off hoff
    rw [hreads, hptr] at hoff
    simp only [List.mem_cons, List.mem_map, List.mem_range] at hoff
    rcases hoff with h | ⟨k, hk, h⟩ <;> omega
  · intro k hk
    constructor
    · rw [PAL_ISR_ptr_eq _ _ (by omega) (by omega)]; omega
    · rw [PAL_ISR_ptr_eq _ _ (by omega) (by omega)]; omega

/-- C7 at sub-line 25 of the first video block, after `PAL_init(120)`. -/
theorem C7_row_selection_witness :
    ((1 : Nat) ≤ 120 ∧ (120 : Nat) ≤ 128 ∧ configured 120 (videoState 120 25) ∧
      (videoState 120 25).TMR0IF = true ∧
      PAL_ltype.get? (videoState 120 25).PAL_linePtr = some PAL_LVIDEO ∧
      (videoState 120 25).PAL_render ≠ 0 ∧
      (videoState 120 25).PAL_shift_y ≤ ((videoState 120 25).PAL_lineVideo + 1) % 65536 ∧
      ((videoState 120 25).PAL_lineVideo + 1) % 65536 < (videoState 120 25).PAL_max_y) ∧
    (((videoState 120 25).PAL_lineVideo + 1) % 65536 - (videoState 120 25).PAL_shift_y < 2 * 120 ∧
    PAL_ISR_ptr (((videoState 120 25).PAL_lineVideo + 1) % 65536) (videoState 120 25).PAL_shift_y
      = 8 * ((((videoState 120 25).PAL_lineVideo + 1) % 65536 - (videoState 120 25).PAL_shift_y)
              - (((videoState 120 25).PAL_lineVideo + 1) % 65536
                  - (videoState 120 25).PAL_shift_y) % 2) ∧
    PAL_ISR_ptr (((videoState 120 25).PAL_lineVideo + 1) % 65536) (videoState 120 25).PAL_shift_y
      = 16 * ((((videoState 120 25).PAL_lineVideo + 1) % 65536
                - (videoState 120 25).PAL_shift_y) / 2) ∧
    (((videoState 120 25).PAL_lineVideo + 1) % 65536 - (videoState 120 25).PAL_shift_y) / 2 < 120 ∧
    (∃ s' out, PAL_ISR carryClear (videoState 120 25) = some (s', out) ∧
      fbReads out =
        PAL_ISR_ptr (((videoState 120 25).PAL_lineVideo + 1) % 65536)
            (videoState 120 25).PAL_shift_y ::
          (List.range 16).map
            (fun k => 16 * ((((videoState 120 25).PAL_lineVideo + 1) % 65536
                - (videoState 120 25).PAL_shift_y) / 2) + k) ∧
      ∀ off ∈ fbReads out, off < 16 * 120) ∧
    (∀ k, k < 120 →
      PAL_ISR_ptr ((videoState 120 25).PAL_shift_y + 2 * k) (videoState 120 25).PAL_shift_y
        = 16 * k ∧
      PAL_ISR_ptr ((videoState 120 25).PAL_shift_y + (2 * k + 1)) (videoState 120 25).PAL_shift_y
        = 16 * k)) :=
  ⟨⟨by decide, by decide, ⟨rfl, rfl, rfl⟩, rfl, by decide, by decide, by decide, by decide⟩,
    C7_row_selection carryClear (videoState 120 25) 120 (by decide) (by decide) ⟨rfl, rfl, rfl⟩ rfl
      (by decide) (by decide) (by decide) (by decide)⟩
/-- `PAL_ISR` leaves the configuration, the flags and the framebuffer alone. -/
theorem PAL_ISR_keeps (cin : Nat → Bool) (s s' : PALState) (out : List Out)
    (h : PAL_ISR cin s = some (s', out)) :
    s'.PAL_y = s.PAL_y ∧ s'.PAL_shift_y = s.PAL_shift_y ∧ s'.PAL_max_y = s.PAL_max_y ∧
      s'.PAL_render = s.PAL_render ∧ s'.PAL_border = s.PAL_border ∧
      s'.PAL_screen = s.PAL_screen := by
  unfold PAL_ISR at h
  by_cases hT : s.TMR0IF = true
  · rw [if_pos hT] at h
    cases hc : PAL_ltype.get? s.PAL_linePtr with
    | none => rw [hc] at h; simp at h
    | some code =>
      rw [hc] at h
      simp only [Option.some.injEq, Prod.mk.injEq] at h
      obtain ⟨h1, _⟩ := h
      subst h1
      by_cases hv : code = PAL_LVIDEO
      · simp only [if_pos hv]
        unfold PAL_ISR_video
        by_cases h287 : (s.PAL_lineVideo + 1) % 65536 = 287 <;>
          simp only [h287, if_true, if_false] <;> split <;> simp
      · simp only [if_neg hv]
        unfold PAL_ISR_sync
        simp only
        split <;> simp
  · rw [if_neg hT] at h
    simp only [Option.some.injEq, Prod.mk.injEq] at h
    obtain ⟨h1, _⟩ := h
    subst h1
    simp

/-- `PAL_tick` leaves the configuration, the flags and the framebuffer alone. -/
theorem PAL_tick_keeps (cin : Nat → Bool) (s s' : PALState) (h : PAL_tick cin s = some s') :
    s'.PAL_y = s.PAL_y ∧ s'.PAL_shift_y = s.PAL_shift_y ∧ s'.PAL_max_y = s.PAL_max_y ∧
      s'.PAL_render = s.PAL_render ∧ s'.PAL_border = s.PAL_border ∧
      s'.PAL_screen = s.PAL_screen := by
  unfold PAL_tick at h
  cases hr : PAL_ISR cin { s with TMR0IF := true } with
  | none => rw [hr] at h; simp at h
  | some r =>
    rw [hr] at h
    simp only [Option.map_some', Option.some.injEq] at h
    subst h
    exact PAL_ISR_keeps cin { s with TMR0IF := true } r.1 r.2 hr

/-- `PAL_run` leaves the configuration, the flags and the framebuffer alone. -/
theorem PAL_run_keeps (cin : Nat → Bool) (s : PALState) :
    ∀ n s', PAL_run cin n s = some s' →
      s'.PAL_y = s.PAL_y ∧ s'.PAL_shift_y = s.PAL_shift_y ∧ s'.PAL_max_y = s.PAL_max_y ∧
        s'.PAL_render = s.PAL_render ∧ s'.PAL_border = s.PAL_border ∧
        s'.PAL_screen = s.PAL_screen := by
  intro n
  induction n with
  | zero =>
    intro s' h
    simp only [PAL_run, Option.some.injEq] at h
    subst h
    exact ⟨rfl, rfl, rfl, rfl, rfl, rfl⟩
  | succ n ih =>
    intro s' h
    simp only [PAL_run] at h
    cases hm : PAL_run cin n s with
    | none => rw [hm] at h; simp at h
    | some m =>
      rw [hm] at h
      simp only [Option.some_bind] at h
      obtain ⟨a1, a2, a3, a4, a5, a6⟩ := ih m hm
      obtain ⟨b1, b2, b3, b4, b5, b6⟩ := PAL_tick_keeps cin m s' h
      exact ⟨b1.trans a1, b2.trans a2, b3.trans a3, b4.trans a4, b5.trans a5, b6.trans a6⟩

/-- Inside a video entry the walk only counts sub-lines, up to 286. -/
theorem schedRun_video (p i f : Nat) (hc : PAL_ltype.get? p = some PAL_LVIDEO) :
    ∀ j, j ≤ 286 → schedRun j ⟨p, i, 0, f⟩ = some ⟨p, i, j, f⟩ := by
  intro j
  induction j with
  | zero => intro _; rfl
  | succ j ih =>
    intro hj
    simp only [schedRun, ih (by omega), Option.some_bind]
    unfold schedStep
    simp only [hc, if_true]
    have h1 : (j + 1) % 65536 = j + 1 := Nat.mod_eq_of_lt (by omega)
    rw [h1, if_neg (by omega)]
/-- The events of `PAL_ISR` on a video entry. -/
theorem PAL_ISR_video_events (cin : Nat → Bool) (s : PALState) (hT : s.TMR0IF = true)
    (hc : PAL_ltype.get? s.PAL_linePtr = some PAL_LVIDEO) :
    ∃ s', PAL_ISR cin s = some (s',
      if PAL_ISR_content s ((s.PAL_lineVideo + 1) % 65536) then
        [Out.bvid 0, Out.bsync 0, Out.bvid 0, Out.bsync 0, Out.delay 3, Out.bsync 1]
          ++ PAL_MAKE_BORDER s
          ++ PAL_ISR_line s cin (PAL_ISR_ptr ((s.PAL_lineVideo + 1) % 65536) s.PAL_shift_y)
      else [Out.bvid 0, Out.bsync 0, Out.bvid 0, Out.bsync 0, Out.delay 3, Out.bsync 1,
        Out.portd (s.PAL_border % 256)]) := by
  refine ⟨{ (PAL_ISR_video cin { s with PAL_lineCode := PAL_LVIDEO }).1 with TMR0IF := false }, ?_⟩
  rw [PAL_ISR_on_video cin s hT hc, PAL_ISR_video_out]
  by_cases hcond : PAL_ISR_content s ((s.PAL_lineVideo + 1) % 65536) = true
  · have hcond' : PAL_ISR_content { s with PAL_lineCode := PAL_LVIDEO }
        ((s.PAL_lineVideo + 1) % 65536) = true := hcond
    rw [if_pos hcond, if_pos hcond']
    rfl
  · have hcond' : ¬ PAL_ISR_content { s with PAL_lineCode := PAL_LVIDEO }
        ((s.PAL_lineVideo + 1) % 65536) = true := hcond
    rw [if_neg hcond, if_neg hcond']
    rfl

/-! ## C8: the layout of an active-video block -/

set_option maxRecDepth 100000 in
/-- C8, counterexample: after `PAL_init(120)` the offset `PAL_shift_y` is 23, yet
the 23rd sub-line of the block already reads framebuffer row 0 (content path),
and the 264th sub-line, 24 lines before the end of the 287-line block, reads
nothing (border-only path). -/
theorem C8_counterexample :
    (videoState 120 0).PAL_shift_y = 23 ∧
    ((PAL_run carryClear 22 (videoState 120 0)).bind
        (fun sk => PAL_ISR carryClear { sk with TMR0IF := true })).map (fun r => fbReads r.2)
      = some [0, 0, 1, 2, 3, 4, 5, 6, 7, 8, 9, 10, 11, 12, 13, 14, 15] ∧
    ((PAL_run carryClear 263 (videoState 120 0)).bind
        (fun sk => PAL_ISR carryClear { sk with TMR0IF := true })).map (fun r => fbReads r.2)
      = some [] := by
  refine ⟨rfl, ?_, ?_⟩ <;> decide
/-- The events of `PAL_ISR` on a video entry, with the values it uses named. -/
theorem PAL_ISR_video_events_at (cin : Nat → Bool) (s : PALState) (hT : s.TMR0IF = true)
    (hc : PAL_ltype.get? s.PAL_linePtr = some PAL_LVIDEO) (L shift border : Nat)
    (hL : (s.PAL_lineVideo + 1) % 65536 = L) (hS : s.PAL_shift_y = shift)
    (hB : s.PAL_border = border) :
    ∃ s', PAL_ISR cin s = some (s',
      if PAL_ISR_content s L then
        [Out.bvid 0, Out.bsync 0, Out.bvid 0, Out.bsync 0, Out.delay 3, Out.bsync 1,
            Out.portd (border % 256)]
          ++ PAL_ISR_line s cin (PAL_ISR_ptr L shift)
      else [Out.bvid 0, Out.bsync 0, Out.bvid 0, Out.bsync 0, Out.delay 3, Out.bsync 1,
        Out.portd (border % 256)]) := by
  subst hL hS hB
  exact PAL_ISR_video_events cin s hT hc

/-- C8, amended: after `PAL_init(R)` with `R <= 142` and with rendering enabled,
an active-video block entered with `PAL_lineVideo = 0` has 287 sub-lines, and
its `k`-th invocation of `PAL_ISR` (`k = 1..287`) takes the border-only path for
the first `PAL_shift_y - 1 = 142 - R` sub-lines, the content path (it reads the
sixteen bytes of a framebuffer row) for the next `2*R` sub-lines, and the
border-only path for the last `PAL_shift_y + 2 = 145 - R` sub-lines. -/
theorem C8_block_layout (cin : Nat → Bool) (s : PALState) (R : Nat) (hR : R ≤ 142)
    (hcfg : configured R s) (hrender : s.PAL_render ≠ 0)
    (hc : PAL_ltype.get? s.PAL_linePtr = some PAL_LVIDEO) (hl : s.PAL_lineVideo = 0) :
    s.PAL_shift_y = 143 - R ∧
    (s.PAL_shift_y - 1) + 2 * R + (s.PAL_shift_y + 2) = 287 ∧
    ∀ k, 1 ≤ k → k ≤ 287 →
      ∃ sk s' out, PAL_run cin (k - 1) s = some sk ∧
        PAL_ISR cin { sk with TMR0IF := true } = some (s', out) ∧
        (k ≤ s.PAL_shift_y - 1 →
          out = [Out.bvid 0, Out.bsync 0, Out.bvid 0, Out.bsync 0, Out.delay 3, Out.bsync 1,
            Out.portd (s.PAL_border % 256)]) ∧
        (s.PAL_shift_y - 1 < k ∧ k ≤ s.PAL_shift_y - 1 + 2 * R →
          fbReads out = PAL_ISR_ptr k s.PAL_shift_y ::
            (List.range 16).map (fun j => PAL_ISR_ptr k s.PAL_shift_y + j)) ∧
        (s.PAL_shift_y - 1 + 2 * R < k →
          out = [Out.bvid 0, Out.bsync 0, Out.bvid 0, Out.bsync 0, Out.delay 3, Out.bsync 1,
            Out.portd (s.PAL_border % 256)]) := by
  obtain ⟨_, hshift, hmax⟩ := configured_values R s (by omega) hcfg
  rw [if_pos (by omega)] at hshift
  refine ⟨hshift, by omega, ?_⟩
  intro k hk1 hk2
  obtain ⟨sk, hsk, hp, _, hlv, _⟩ :=
    PAL_run_sched cin s.PAL_frameCtr s ⟨s.PAL_linePtr, s.PAL_lineIdx, 0, 0⟩ ⟨rfl, rfl, hl, rfl⟩
      (k - 1) _ (schedRun_video s.PAL_linePtr s.PAL_lineIdx 0 hc (k - 1) (by omega))
  obtain ⟨_, ks, km, kr, kb, _⟩ := PAL_run_keeps cin s (k - 1) sk hsk
  simp only at hp hlv
  have hc' : PAL_ltype.get? ({ sk with TMR0IF := true } : PALState).PAL_linePtr
      = some PAL_LVIDEO := by
    show PAL_ltype.get? sk.PAL_linePtr = some PAL_LVIDEO
    rw [hp]; exact hc
  have hL : (({ sk with TMR0IF := true } : PALState).PAL_lineVideo + 1) % 65536 = k := by
    show (sk.PAL_lineVideo + 1) % 65536 = k
    rw [hlv]; omega
  obtain ⟨s', hs'⟩ := PAL_ISR_video_events_at cin { sk with TMR0IF := true } rfl hc'
    k s.PAL_shift_y s.PAL_border hL ks kb
  have hiff : PAL_ISR_content { sk with TMR0IF := true } k = true ↔
      (s.PAL_render ≠ 0 ∧ s.PAL_shift_y ≤ k ∧ k < s.PAL_max_y) := by
    rw [PAL_ISR_content_iff]
    show (sk.PAL_render ≠ 0 ∧ sk.PAL_shift_y ≤ k ∧ k < sk.PAL_max_y) ↔ _
    rw [ks, km, kr]
  refine ⟨sk, s', _, hsk, hs', ?_, ?_, ?_⟩
  · intro hk
    have hn : ¬ PAL_ISR_content { sk with TMR0IF := true } k = true := by
      rw [hiff]; omega
    rw [if_neg hn]
  · intro hk
    have hy : PAL_ISR_content { sk with TMR0IF := true } k = true := by
      rw [hiff]; exact ⟨hrender, by omega, by omega⟩
    rw [if_pos hy, fbReads_append, fbReads_PAL_ISR_line]
    rfl
  · intro hk
    have hn : ¬ PAL_ISR_content { sk with TMR0IF := true } k = true := by
      rw [hiff]; omega
    rw [if_neg hn]

/-- C8 (amended) at the start of the first video block, after `PAL_init(120)`. -/
theorem C8_block_layout_witness :
    ((120 : Nat) ≤ 142 ∧ configured 120 (videoState 120 0) ∧ (videoState 120 0).PAL_render ≠ 0 ∧
      PAL_ltype.get? (videoState 120 0).PAL_linePtr = some PAL_LVIDEO ∧
      (videoState 120 0).PAL_lineVideo = 0) ∧
    ((videoState 120 0).PAL_shift_y = 143 - 120 ∧
    ((videoState 120 0).PAL_shift_y - 1) + 2 * 120 + ((videoState 120 0).PAL_shift_y + 2) = 287 ∧
    ∀ k, 1 ≤ k → k ≤ 287 →
      ∃ sk s' out, PAL_run carryClear (k - 1) (videoState 120 0) = some sk ∧
        PAL_ISR carryClear { sk with TMR0IF := true } = some (s', out) ∧
        (k ≤ (videoState 120 0).PAL_shift_y - 1 →
          out = [Out.bvid 0, Out.bsync 0, Out.bvid 0, Out.bsync 0, Out.delay 3, Out.bsync 1,
            Out.portd ((videoState 120 0).PAL_border % 256)]) ∧
        ((videoState 120 0).PAL_shift_y - 1 < k ∧ k ≤ (videoState 120 0).PAL_shift_y - 1 + 2 * 120 →
          fbReads out = PAL_ISR_ptr k (videoState 120 0).PAL_shift_y ::
            (List.range 16).map (fun j => PAL_ISR_ptr k (videoState 120 0).PAL_shift_y + j)) ∧
        ((videoState 120 0).PAL_shift_y - 1 + 2 * 120 < k →
          out = [Out.bvid 0, Out.bsync 0, Out.bvid 0, Out.bsync 0, Out.delay 3, Out.bsync 1,
            Out.portd ((videoState 120 0).PAL_border % 256)])) :=
  ⟨⟨by decide, ⟨rfl, rfl, rfl⟩, by decide, by decide, rfl⟩,
    C8_block_layout carryClear (videoState 120 0) 120 (by decide) ⟨rfl, rfl, rfl⟩ (by decide)
      (by decide) rfl⟩
/-! ## `PAL_line`: the loops compute the closed form -/

theorem toChar_id (sg : Bool) (v : Int) (h : isChar sg v) : toChar sg v = v := by
  unfold isChar at h
  unfold toChar
  cases sg <;> simp at h ⊢ <;> omega

theorem isChar_between (sg : Bool) (u v w : Int) (hu : isChar sg u) (hw : isChar sg w)
    (h : (u ≤ v ∧ v ≤ w) ∨ (w ≤ v ∧ v ≤ u)) : isChar sg v := by
  unfold isChar at *
  cases sg <;> simp at hu hw ⊢ <;> omega

theorem isChar_diff (sg : Bool) (u w : Int) (hu : isChar sg u) (hw : isChar sg w) :
    -255 ≤ w - u ∧ w - u ≤ 255 := by
  unfold isChar at *
  cases sg <;> simp at hu hw <;> omega

theorem lineMinor_bounds (M m i : Nat) (hM : 0 < M) :
    2 * M * lineMinor M m i ≤ 2 * m * i + M ∧ 2 * m * i + M < 2 * M * (lineMinor M m i + 1) := by
  unfold lineMinor
  have h1 := Nat.div_add_mod (2 * m * i + M) (2 * M)
  have h2 := Nat.mod_lt (2 * m * i + M) (show 0 < 2 * M by omega)
  constructor
  · omega
  · rw [Nat.mul_add]; omega

theorem lineMinor_unique (M m i k : Nat) (h1 : 2 * M * k ≤ 2 * m * i + M)
    (h2 : 2 * m * i + M < 2 * M * (k + 1)) : lineMinor M m i = k := by
  unfold lineMinor
  exact Nat.div_eq_of_lt_le (by linarith) (by linarith)

theorem lineMinor_zero (M m : Nat) : lineMinor M m 0 = 0 := by
  unfold lineMinor
  rcases Nat.eq_zero_or_pos M with h | h
  · subst h; simp
  · simp only [Nat.mul_zero, Nat.zero_add]
    exact Nat.div_eq_of_lt (by omega)

theorem lineMinor_last (M m : Nat) (hM : 0 < M) : lineMinor M m M = m := by
  apply lineMinor_unique
  · nlinarith
  · nlinarith

/-- The minor offset of the next pixel, decided by the sign of the error
accumulator `2*m*(i+1) - M - 2*M*k`. -/
theorem lineMinor_succ (M m i : Nat) (hM : 0 < M) (hmM : m ≤ M) :
    (2 * M * lineMinor M m i + M ≤ 2 * m * (i + 1) → lineMinor M m (i + 1) = lineMinor M m i + 1) ∧
    (2 * m * (i + 1) < 2 * M * lineMinor M m i + M → lineMinor M m (i + 1) = lineMinor M m i) := by
  obtain ⟨h1, h2⟩ := lineMinor_bounds M m i hM
  have e : 2 * m * (i + 1) = 2 * m * i + 2 * m := by ring
  have e2 : 2 * M * (lineMinor M m i + 1) = 2 * M * lineMinor M m i + 2 * M := by ring
  have e3 : 2 * M * (lineMinor M m i + 1 + 1) = 2 * M * lineMinor M m i + 2 * M + 2 * M := by ring
  constructor
  · intro h
    apply lineMinor_unique <;> omega
  · intro h
    apply lineMinor_unique <;> omega

theorem lineMinor_le (M m i : Nat) (hM : 0 < M) (hi : i ≤ M) : lineMinor M m i ≤ m := by
  obtain ⟨h1, _⟩ := lineMinor_bounds M m i hM
  by_contra hc
  have h3 : m + 1 ≤ lineMinor M m i := by omega
  have h4 : 2 * M * (m + 1) ≤ 2 * M * lineMinor M m i := Nat.mul_le_mul_left _ h3
  have h5 : 2 * m * i ≤ 2 * m * M := Nat.mul_le_mul_left _ hi
  have e : 2 * M * (m + 1) = 2 * m * M + 2 * M := by ring
  omega
/-- The `while(x0 != x1)` loop from step `i` on: it makes the `r = M - i`
remaining calls of the closed form and never wraps a `char` or the `int`
accumulator. -/
theorem PAL_line_xloop_eq (sg : Bool) (su sv : Int) (M m : Nat) (u0 v0 : Int)
    (hsu : su = 1 ∨ su = -1) (hsv : sv = 1 ∨ sv = -1) (hmM : m ≤ M) (hM : M ≤ 255)
    (hu0 : isChar sg u0) (hu1 : isChar sg (u0 + su * (M : Int)))
    (hv0 : isChar sg v0) (hv1 : isChar sg (v0 + sv * (m : Int))) :
    ∀ r i fuel, i + r = M → r ≤ fuel →
      PAL_line_xloop sg su sv (2 * (M : Int)) (2 * (m : Int)) (u0 + su * (M : Int)) fuel
          (u0 + su * (i : Int)) (v0 + sv * (lineMinor M m i : Int))
          (2 * (m : Int) * ((i : Int) + 1) - (M : Int) - 2 * (M : Int) * (lineMinor M m i : Int))
        = some ((List.range' (i + 1) r).map
            (fun (j : Nat) => (u0 + su * (j : Int), v0 + sv * (lineMinor M m j : Int)))) := by
  intro r
  induction r with
  | zero =>
    intro i fuel hi _
    have : i = M := by omega
    subst this
    cases fuel <;> simp [PAL_line_xloop]
  | succ r ih =>
    intro i fuel hi hfuel
    obtain ⟨fuel, rfl⟩ : ∃ f, fuel = f + 1 := ⟨fuel - 1, by omega⟩
    have hMpos : 0 < M := by omega
    have hne : u0 + su * (i : Int) ≠ u0 + su * (M : Int) := by
      rcases hsu with rfl | rfl <;> omega
    obtain ⟨b1, b2⟩ := lineMinor_bounds M m i hMpos
    obtain ⟨s1, s2⟩ := lineMinor_succ M m i hMpos hmM
    have hle := lineMinor_le M m (i + 1) hMpos (by omega)
    have hle0 := lineMinor_le M m i hMpos (by omega)
    have hxc : isChar sg (u0 + su * ((i + 1 : Nat) : Int)) := by
      apply isChar_between sg _ _ _ hu0 hu1
      rcases hsu with rfl | rfl
      · left; constructor <;> push_cast <;> omega
      · right; constructor <;> push_cast <;> omega
    have hyc : isChar sg (v0 + sv * ((lineMinor M m (i + 1) : Nat) : Int)) := by
      apply isChar_between sg _ _ _ hv0 hv1
      rcases hsv with rfl | rfl
      · left; constructor <;> omega
      · right; constructor <;> omega
    have hmi : (m : Int) * (i : Int) = ((m * i : Nat) : Int) := by push_cast; ring
    have hMk : (M : Int) * (lineMinor M m i : Int) = ((M * lineMinor M m i : Nat) : Int) := by
      push_cast; ring
    have e1 : 2 * (m : Int) * ((i : Int) + 1) - (M : Int) - 2 * (M : Int) * (lineMinor M m i : Int)
        = 2 * ((m * i : Nat) : Int) + 2 * (m : Int) - (M : Int)
          - 2 * ((M * lineMinor M m i : Nat) : Int) := by
      rw [← hmi, ← hMk]; ring
    have n1 : 2 * M * lineMinor M m i = 2 * (M * lineMinor M m i) := by ring
    have n2 : 2 * m * i = 2 * (m * i) := by ring
    have n3 : 2 * M * (lineMinor M m i + 1) = 2 * (M * lineMinor M m i) + 2 * M := by ring
    have n4 : 2 * m * (i + 1) = 2 * (m * i) + 2 * m := by ring
    rw [n1, n2] at b1
    rw [n3, n2] at b2
    rw [n1, n4] at s1 s2
    rw [PAL_line_xloop, if_neg hne]
    simp only
    by_cases hfr : 2 * (m : Int) * ((i : Int) + 1) - (M : Int)
        - 2 * (M : Int) * (lineMinor M m i : Int) ≥ 0
    · have hk : lineMinor M m (i + 1) = lineMinor M m i + 1 := s1 (by rw [e1] at hfr; omega)
      have hy' : v0 + sv * (lineMinor M m i : Int) + sv
          = v0 + sv * ((lineMinor M m (i + 1) : Nat) : Int) := by
        rw [hk]; push_cast; ring
      have hx' : u0 + su * (i : Int) + su = u0 + su * ((i + 1 : Nat) : Int) := by
        push_cast; ring
      rw [if_pos hfr, if_pos hfr, hy', hx', toChar_id sg _ hyc, toChar_id sg _ hxc]
      have hf1 : toInt16 (2 * (m : Int) * ((i : Int) + 1) - (M : Int)
          - 2 * (M : Int) * (lineMinor M m i : Int) - 2 * (M : Int))
          = 2 * (m : Int) * ((i : Int) + 1) - (M : Int)
          - 2 * (M : Int) * (lineMinor M m i : Int) - 2 * (M : Int) := by
        apply toInt16_id <;> rw [e1] at * <;> omega
      rw [hf1]
      have hf2 : toInt16 (2 * (m : Int) * ((i : Int) + 1) - (M : Int)
          - 2 * (M : Int) * (lineMinor M m i : Int) - 2 * (M : Int) + 2 * (m : Int))
          = 2 * (m : Int) * (((i + 1 : Nat) : Int) + 1) - (M : Int)
            - 2 * (M : Int) * ((lineMinor M m (i + 1) : Nat) : Int) := by
        rw [toInt16_id]
        · rw [hk]; push_cast; ring
        · rw [e1] at *; omega
        · rw [e1] at *; omega
      rw [hf2, ih (i + 1) fuel (by omega) (by omega)]
      rfl
    · have hk : lineMinor M m (i + 1) = lineMinor M m i := s2 (by rw [e1] at hfr; omega)
      have hy' : v0 + sv * (lineMinor M m i : Int)
          = v0 + sv * ((lineMinor M m (i + 1) : Nat) : Int) := by
        rw [hk]
      have hx' : u0 + su * (i : Int) + su = u0 + su * ((i + 1 : Nat) : Int) := by
        push_cast; ring
      rw [if_neg hfr, if_neg hfr, hx', toChar_id sg _ hxc]
      have hf2 : toInt16 (2 * (m : Int) * ((i : Int) + 1) - (M : Int)
          - 2 * (M : Int) * (lineMinor M m i : Int) + 2 * (m : Int))
          = 2 * (m : Int) * (((i + 1 : Nat) : Int) + 1) - (M : Int)
            - 2 * (M : Int) * ((lineMinor M m (i + 1) : Nat) : Int) := by
        rw [toInt16_id]
        · rw [hk]; push_cast; ring
        · rw [e1] at *; omega
        · rw [e1] at *; omega
      rw [hf2]
      conv_lhs => rw [hy']
      rw [ih (i + 1) fuel (by omega) (by omega)]
      rfl
/-- The `while(y0 != y1)` loop is the other loop with the axes exchanged. -/
theorem PAL_line_yloop_swap (sg : Bool) (stepx stepy dx dy y1 : Int) :
    ∀ fuel x0 y0 fr,
      PAL_line_yloop sg stepx stepy dx dy y1 fuel x0 y0 fr
        = (PAL_line_xloop sg stepy stepx dy dx y1 fuel y0 x0 fr).map (List.map Prod.swap) := by
  intro fuel
  induction fuel with
  | zero =>
    intro x0 y0 fr
    simp only [PAL_line_yloop, PAL_line_xloop]
    split <;> rfl
  | succ fuel ih =>
    intro x0 y0 fr
    simp only [PAL_line_yloop, PAL_line_xloop]
    split
    · rfl
    · rw [ih]
      simp only [Option.map_map]
      rfl

/-- The `int` differences, their absolute values and step signs as `PAL_line`
computes them. -/
theorem PAL_line_delta (sg : Bool) (p q : Int) (hp : isChar sg p) (hq : isChar sg q) :
    toInt16 (q - p) = q - p ∧
    (if q - p < 0 then toInt16 (-(q - p)) else q - p) = ((q - p).natAbs : Int) ∧
    q = p + (if q - p < 0 then -1 else 1) * ((q - p).natAbs : Int) ∧
    (q - p).natAbs ≤ 255 ∧
    toInt16 (((q - p).natAbs : Int) * 2) = 2 * ((q - p).natAbs : Int) := by
  obtain ⟨h1, h2⟩ := isChar_diff sg p q hp hq
  refine ⟨toInt16_id _ (by omega) (by omega), ?_, ?_, by omega, ?_⟩
  · split
    · rw [toInt16_id _ (by omega) (by omega)]; omega
    · omega
  · split <;> omega
  · rw [toInt16_id _ (by omega) (by omega)]; ring

/-- `PAL_line` makes exactly the calls of the closed form, given fuel for
`max(|dx|,|dy|)` iterations. -/
theorem PAL_line_calls_eq (sg : Bool) (fuel : Nat) (x0 y0 x1 y1 : Int)
    (hx0 : isChar sg x0) (hy0 : isChar sg y0) (hx1 : isChar sg x1) (hy1 : isChar sg y1)
    (hfuel : max (x1 - x0).natAbs (y1 - y0).natAbs ≤ fuel) :
    PAL_line_calls sg fuel x0 y0 x1 y1 = some (linePixels x0 y0 x1 y1) := by
  obtain ⟨dx0, dx1, ex, ax, dx2⟩ := PAL_line_delta sg x0 x1 hx0 hx1
  obtain ⟨dy0, dy1, ey, ay, dy2⟩ := PAL_line_delta sg y0 y1 hy0 hy1
  have hsx : (if x1 - x0 < 0 then (-1 : Int) else 1) = 1 ∨
      (if x1 - x0 < 0 then (-1 : Int) else 1) = -1 := by split <;> simp
  have hsy : (if y1 - y0 < 0 then (-1 : Int) else 1) = 1 ∨
      (if y1 - y0 < 0 then (-1 : Int) else 1) = -1 := by split <;> simp
  unfold PAL_line_calls linePixels
  simp only [dx0, dy0, dx1, dy1, dx2, dy2]
  by_cases hab : (y1 - y0).natAbs < (x1 - x0).natAbs
  · have hgt : 2 * ((x1 - x0).natAbs : Int) > 2 * ((y1 - y0).natAbs : Int) := by omega
    rw [if_pos hgt, if_pos hab]
    have hfr : toInt16 (2 * ((y1 - y0).natAbs : Int) - 2 * ((x1 - x0).natAbs : Int) / 2)
        = 2 * ((y1 - y0).natAbs : Int) * (((0 : Nat) : Int) + 1) - ((x1 - x0).natAbs : Int)
          - 2 * ((x1 - x0).natAbs : Int) * ((lineMinor (x1 - x0).natAbs (y1 - y0).natAbs 0 : Nat) : Int) := by
      rw [lineMinor_zero, toInt16_id _ (by omega) (by omega)]
      push_cast; omega
    have hloop := PAL_line_xloop_eq sg _ _ (x1 - x0).natAbs (y1 - y0).natAbs x0 y0 hsx hsy
      (by omega) ax hx0 (by rw [← ex]; exact hx1) hy0 (by rw [← ey]; exact hy1)
      (x1 - x0).natAbs 0 fuel (by omega) (by omega)
    rw [← ex] at hloop
    rw [lineMinor_zero] at hloop
    simp only [Nat.cast_zero, mul_zero, add_zero, zero_add] at hloop
    rw [lineMinor_zero] at hfr
    simp only [Nat.cast_zero, mul_zero, add_zero, zero_add] at hfr
    rw [hfr, hloop]
    simp only [Option.map_some', Option.some.injEq]
    rw [List.range_eq_range', List.range'_succ, List.map_cons]
    simp [lineMinor_zero]
  · have hgt : ¬ 2 * ((x1 - x0).natAbs : Int) > 2 * ((y1 - y0).natAbs : Int) := by omega
    rw [if_neg hgt, if_neg hab]
    have hfr : toInt16 (2 * ((x1 - x0).natAbs : Int) - 2 * ((y1 - y0).natAbs : Int) / 2)
        = 2 * ((x1 - x0).natAbs : Int) * (((0 : Nat) : Int) + 1) - ((y1 - y0).natAbs : Int)
          - 2 * ((y1 - y0).natAbs : Int) * ((lineMinor (y1 - y0).natAbs (x1 - x0).natAbs 0 : Nat) : Int) := by
      rw [lineMinor_zero, toInt16_id _ (by omega) (by omega)]
      push_cast; omega
    have hloop := PAL_line_xloop_eq sg _ _ (y1 - y0).natAbs (x1 - x0).natAbs y0 x0 hsy hsx
      (by omega) ay hy0 (by rw [← ey]; exact hy1) hx0 (by rw [← ex]; exact hx1)
      (y1 - y0).natAbs 0 fuel (by omega) (by omega)
    rw [← ey] at hloop
    rw [lineMinor_zero] at hloop
    simp only [Nat.cast_zero, mul_zero, add_zero, zero_add] at hloop
    rw [lineMinor_zero] at hfr
    simp only [Nat.cast_zero, mul_zero, add_zero, zero_add] at hfr
    rw [PAL_line_yloop_swap, hfr, hloop]
    simp only [Option.map_some', Option.some.injEq, List.map_map]
    rw [List.range_eq_range', List.range'_succ, List.map_cons]
    simp [lineMinor_zero, Function.comp_def]
/-! ## Shape of the closed form -/

/-- Successive minor offsets differ by zero or one. -/
theorem lineMinor_step (M m i : Nat) (hM : 0 < M) (hmM : m ≤ M) :
    lineMinor M m (i + 1) = lineMinor M m i ∨ lineMinor M m (i + 1) = lineMinor M m i + 1 := by
  obtain ⟨s1, s2⟩ := lineMinor_succ M m i hM hmM
  by_cases h : 2 * M * lineMinor M m i + M ≤ 2 * m * (i + 1)
  · exact Or.inr (s1 h)
  · exact Or.inl (s2 (by omega))

/-- The pixels of a line along its driving axis `u`: there are `M + 1` of them,
from `(u0,v0)` to the far end, each one step further along `u` and zero or one
step further along `v`, all different. -/
theorem lineList_shape (M m : Nat) (hmM : m ≤ M) (u0 v0 su sv : Int)
    (hsu : su = 1 ∨ su = -1) :
    ((List.range (M + 1)).map
        (fun (i : Nat) => (u0 + su * (i : Int), v0 + sv * (lineMinor M m i : Int)))).length
      = M + 1 ∧
    ((List.range (M + 1)).map
        (fun (i : Nat) => (u0 + su * (i : Int), v0 + sv * (lineMinor M m i : Int)))).head?
      = some (u0, v0) ∧
    ((List.range (M + 1)).map
        (fun (i : Nat) => (u0 + su * (i : Int), v0 + sv * (lineMinor M m i : Int)))).getLast?
      = some (u0 + su * (M : Int), v0 + sv * (m : Int)) ∧
    (∀ i p q,
      ((List.range (M + 1)).map
        (fun (i : Nat) => (u0 + su * (i : Int), v0 + sv * (lineMinor M m i : Int))))[i]? = some p →
      ((List.range (M + 1)).map
        (fun (i : Nat) => (u0 + su * (i : Int), v0 + sv * (lineMinor M m i : Int))))[i + 1]?
          = some q →
      q.1 = p.1 + su ∧ (q.2 = p.2 ∨ q.2 = p.2 + sv)) ∧
    ((List.range (M + 1)).map
        (fun (i : Nat) => (u0 + su * (i : Int), v0 + sv * (lineMinor M m i : Int)))).Nodup := by
  refine ⟨by simp, ?_, ?_, ?_, ?_⟩
  · rw [List.head?_map, List.head?_range]
    simp [lineMinor_zero]
  · rw [List.getLast?_map, List.getLast?_range]
    simp only [Nat.add_one_ne_zero, if_false, Nat.add_sub_cancel, Option.map_some']
    rcases Nat.eq_zero_or_pos M with h | h
    · subst h
      have : m = 0 := by omega
      subst this
      simp [lineMinor_zero]
    · rw [lineMinor_last M m h]
  · intro i p q hp hq
    rw [List.getElem?_map] at hp hq
    have hi : i + 1 < M + 1 := by
      by_contra hc
      rw [List.getElem?_eq_none (by simp; omega)] at hq
      simp at hq
    rw [List.getElem?_range (by omega)] at hp
    rw [List.getElem?_range hi] at hq
    simp only [Option.map_some', Option.some.injEq] at hp hq
    subst hp hq
    simp only
    constructor
    · push_cast; ring
    · rcases lineMinor_step M m i (by omega) hmM with h | h
      · left; rw [h]
      · right; rw [h]; push_cast; ring
  · apply List.Nodup.map _ (List.nodup_range _)
    intro i j hij
    simp only [Prod.mk.injEq] at hij
    obtain ⟨h1, _⟩ := hij
    rcases hsu with rfl | rfl <;> omega

/-- The closed form when `x` drives. -/
theorem linePixels_x (x0 y0 x1 y1 : Int) (h : (y1 - y0).natAbs < (x1 - x0).natAbs) :
    linePixels x0 y0 x1 y1 =
      (List.range ((x1 - x0).natAbs + 1)).map
        (fun (i : Nat) => (x0 + (if x1 - x0 < 0 then -1 else 1) * (i : Int),
          y0 + (if y1 - y0 < 0 then -1 else 1)
            * (lineMinor (x1 - x0).natAbs (y1 - y0).natAbs i : Int))) := by
  unfold linePixels
  simp only [if_pos h]

/-- The closed form when `y` drives: the same list with the axes exchanged. -/
theorem linePixels_y (x0 y0 x1 y1 : Int) (h : ¬ (y1 - y0).natAbs < (x1 - x0).natAbs) :
    linePixels x0 y0 x1 y1 =
      ((List.range ((y1 - y0).natAbs + 1)).map
        (fun (i : Nat) => (y0 + (if y1 - y0 < 0 then -1 else 1) * (i : Int),
          x0 + (if x1 - x0 < 0 then -1 else 1)
            * (lineMinor (y1 - y0).natAbs (x1 - x0).natAbs i : Int)))).map Prod.swap := by
  unfold linePixels
  simp only [if_neg h, List.map_map]
  rfl
/-! ## C10: the calls of `PAL_line` -/

/-- C10: for all `char` endpoints `PAL_line` terminates (fuel for
`max(|x1-x0|,|y1-y0|)` iterations is enough) and performs exactly
`max(|x1-x0|,|y1-y0|) + 1` calls of `PAL_setPixel`: the first at `(x0,y0)`, the
last at `(x1,y1)`, each later one a single step further along the driving axis
(`x` when `|dx| > |dy|`, otherwise `y`) towards its endpoint and zero or one
step further along the other axis; the coordinates are pairwise distinct. -/
theorem C10_line_calls (sg : Bool) (fuel : Nat) (x0 y0 x1 y1 : Int)
    (hx0 : isChar sg x0) (hy0 : isChar sg y0) (hx1 : isChar sg x1) (hy1 : isChar sg y1)
    (hfuel : max (x1 - x0).natAbs (y1 - y0).natAbs ≤ fuel) :
    ∃ calls, PAL_line_calls sg fuel x0 y0 x1 y1 = some calls ∧
      calls.length = max (x1 - x0).natAbs (y1 - y0).natAbs + 1 ∧
      calls.head? = some (x0, y0) ∧
      calls.getLast? = some (x1, y1) ∧
      (∀ i p q, calls[i]? = some p → calls[i + 1]? = some q →
        ((y1 - y0).natAbs < (x1 - x0).natAbs →
          q.1 = p.1 + (if x1 - x0 < 0 then -1 else 1) ∧
          (q.2 = p.2 ∨ q.2 = p.2 + (if y1 - y0 < 0 then -1 else 1))) ∧
        (¬ (y1 - y0).natAbs < (x1 - x0).natAbs →
          q.2 = p.2 + (if y1 - y0 < 0 then -1 else 1) ∧
          (q.1 = p.1 ∨ q.1 = p.1 + (if x1 - x0 < 0 then -1 else 1)))) ∧
      calls.Nodup := by
  refine ⟨_, PAL_line_calls_eq sg fuel x0 y0 x1 y1 hx0 hy0 hx1 hy1 hfuel, ?_⟩
  obtain ⟨_, _, ex, _, _⟩ := PAL_line_delta sg x0 x1 hx0 hx1
  obtain ⟨_, _, ey, _, _⟩ := PAL_line_delta sg y0 y1 hy0 hy1
  have hsx : (if x1 - x0 < 0 then (-1 : Int) else 1) = 1 ∨
      (if x1 - x0 < 0 then (-1 : Int) else 1) = -1 := by split <;> simp
  have hsy : (if y1 - y0 < 0 then (-1 : Int) else 1) = 1 ∨
      (if y1 - y0 < 0 then (-1 : Int) else 1) = -1 := by split <;> simp
  by_cases hab : (y1 - y0).natAbs < (x1 - x0).natAbs
  · obtain ⟨h1, h2, h3, h4, h5⟩ := lineList_shape (x1 - x0).natAbs (y1 - y0).natAbs (by omega)
      x0 y0 _ (if y1 - y0 < 0 then (-1 : Int) else 1) hsx
    rw [linePixels_x x0 y0 x1 y1 hab]
    refine ⟨by rw [h1, Nat.max_eq_left (by omega)], h2, ?_, ?_, h5⟩
    · rw [h3, ← ex, ← ey]
    · intro i p q hp hq
      exact ⟨fun _ => h4 i p q hp hq, fun h => absurd hab h⟩
  · obtain ⟨h1, h2, h3, h4, h5⟩ := lineList_shape (y1 - y0).natAbs (x1 - x0).natAbs (by omega)
      y0 x0 _ (if x1 - x0 < 0 then (-1 : Int) else 1) hsy
    rw [linePixels_y x0 y0 x1 y1 hab]
    refine ⟨?_, ?_, ?_, ?_, ?_⟩
    · rw [List.length_map, h1, Nat.max_eq_right (by omega)]
    · rw [List.head?_map, h2]; rfl
    · rw [List.getLast?_map, h3, ← ex, ← ey]; rfl
    · intro i p q hp hq
      rw [List.getElem?_map] at hp hq
      refine ⟨fun h => absurd h hab, fun _ => ?_⟩
      cases hp' : ((List.range ((y1 - y0).natAbs + 1)).map
        (fun (i : Nat) => (y0 + (if y1 - y0 < 0 then -1 else 1) * (i : Int),
          x0 + (if x1 - x0 < 0 then -1 else 1)
            * (lineMinor (y1 - y0).natAbs (x1 - x0).natAbs i : Int))))[i]? with
      | none => rw [hp'] at hp; simp at hp
      | some p' =>
        cases hq' : ((List.range ((y1 - y0).natAbs + 1)).map
          (fun (i : Nat) => (y0 + (if y1 - y0 < 0 then -1 else 1) * (i : Int),
            x0 + (if x1 - x0 < 0 then -1 else 1)
              * (lineMinor (y1 - y0).natAbs (x1 - x0).natAbs i : Int))))[i + 1]? with
        | none => rw [hq'] at hq; simp at hq
        | some q' =>
          rw [hp'] at hp
          rw [hq'] at hq
          simp only [Option.map_some', Option.some.injEq] at hp hq
          subst hp hq
          exact h4 i p' q' hp' hq'
    · exact List.Nodup.map Prod.swap_injective h5

/-- C10 at the line from `(0,0)` to `(2,1)`, with unsigned `char`. -/
theorem C10_line_calls_witness :
    (isChar false 0 ∧ isChar false 0 ∧ isChar false 2 ∧ isChar false 1 ∧
      max ((2 : Int) - 0).natAbs ((1 : Int) - 0).natAbs ≤ 255) ∧
    ∃ calls, PAL_line_calls false 255 0 0 2 1 = some calls ∧
      calls.length = max ((2 : Int) - 0).natAbs ((1 : Int) - 0).natAbs + 1 ∧
      calls.head? = some (0, 0) ∧
      calls.getLast? = some (2, 1) ∧
      (∀ i p q, calls[i]? = some p → calls[i + 1]? = some q →
        (((1 : Int) - 0).natAbs < ((2 : Int) - 0).natAbs →
          q.1 = p.1 + (if (2 : Int) - 0 < 0 then -1 else 1) ∧
          (q.2 = p.2 ∨ q.2 = p.2 + (if (1 : Int) - 0 < 0 then -1 else 1))) ∧
        (¬ ((1 : Int) - 0).natAbs < ((2 : Int) - 0).natAbs →
          q.2 = p.2 + (if (1 : Int) - 0 < 0 then -1 else 1) ∧
          (q.1 = p.1 ∨ q.1 = p.1 + (if (2 : Int) - 0 < 0 then -1 else 1)))) ∧
      calls.Nodup :=
  ⟨⟨by decide, by decide, by decide, by decide, by decide⟩,
    C10_line_calls false 255 0 0 2 1 (by decide) (by decide) (by decide) (by decide) (by decide)⟩
/-! ## Reversing a line -/

/-- Without a tie at step `i`, the minor offsets seen from the two ends add up
to `m`. -/
theorem lineMinor_reflect (M m i : Nat) (hM : 0 < M) (hi : i ≤ M)
    (hnt : lineTie M m i = false) : lineMinor M m (M - i) + lineMinor M m i = m := by
  obtain ⟨b1, b2⟩ := lineMinor_bounds M m i hM
  have hL := lineMinor_le M m i hM hi
  have hne : 2 * M * lineMinor M m i ≠ 2 * m * i + M := by
    intro h
    have : (2 * m * i + M) % (2 * M) = 0 := by rw [← h]; exact Nat.mul_mod_right _ _
    simp [lineTie, hM, this] at hnt
  have hk : lineMinor M m (M - i) = m - lineMinor M m i := by
    apply lineMinor_unique
    · have e1 : 2 * M * (m - lineMinor M m i) = 2 * (M * m) - 2 * (M * lineMinor M m i) := by
        rw [Nat.mul_sub, Nat.mul_assoc, Nat.mul_assoc]
      have e2 : 2 * m * (M - i) = 2 * (M * m) - 2 * (m * i) := by
        rw [Nat.mul_sub, Nat.mul_assoc, Nat.mul_assoc, Nat.mul_comm m M]
      have e3 : 2 * M * lineMinor M m i = 2 * (M * lineMinor M m i) := by ring
      have e4 : 2 * m * i = 2 * (m * i) := by ring
      have h5 : m * i ≤ M * m := by rw [Nat.mul_comm M m]; exact Nat.mul_le_mul_left _ hi
      have h6 : M * lineMinor M m i ≤ M * m := Nat.mul_le_mul_left _ hL
      have e5 : 2 * M * (lineMinor M m i + 1) = 2 * (M * lineMinor M m i) + 2 * M := by ring
      rw [e1, e2]
      rw [e3, e4] at b1 hne
      rw [e5, e4] at b2
      omega
    · have e1 : 2 * M * (m - lineMinor M m i + 1)
          = 2 * (M * m) - 2 * (M * lineMinor M m i) + 2 * M := by
        rw [Nat.mul_add, Nat.mul_sub, Nat.mul_assoc, Nat.mul_assoc]; ring_nf
      have e2 : 2 * m * (M - i) = 2 * (M * m) - 2 * (m * i) := by
        rw [Nat.mul_sub, Nat.mul_assoc, Nat.mul_assoc, Nat.mul_comm m M]
      have e3 : 2 * M * lineMinor M m i = 2 * (M * lineMinor M m i) := by ring
      have e4 : 2 * m * i = 2 * (m * i) := by ring
      have h5 : m * i ≤ M * m := by rw [Nat.mul_comm M m]; exact Nat.mul_le_mul_left _ hi
      have h6 : M * lineMinor M m i ≤ M * m := Nat.mul_le_mul_left _ hL
      have e5 : 2 * M * (lineMinor M m i + 1) = 2 * (M * lineMinor M m i) + 2 * M := by ring
      rw [e1, e2]
      rw [e3, e4] at b1 hne
      rw [e5, e4] at b2
      omega
  rw [hk]; omega

/-- At a tie the minor offsets seen from the two ends add up to `m + 1`. -/
theorem lineMinor_reflect_tie (M m i : Nat) (hi : i ≤ M) (ht : lineTie M m i = true) :
    lineMinor M m (M - i) + lineMinor M m i = m + 1 := by
  simp only [lineTie, decide_eq_true_eq] at ht
  obtain ⟨hM, hmod⟩ := ht
  obtain ⟨b1, b2⟩ := lineMinor_bounds M m i hM
  have hL := lineMinor_le M m i hM hi
  have heq : 2 * M * lineMinor M m i = 2 * m * i + M := by
    have h := Nat.div_add_mod (2 * m * i + M) (2 * M)
    rw [hmod] at h
    unfold lineMinor
    omega
  have hpos : 0 < lineMinor M m i := by
    rcases Nat.eq_zero_or_pos (lineMinor M m i) with h | h
    · rw [h] at heq; omega
    · exact h
  have hk : lineMinor M m (M - i) = m + 1 - lineMinor M m i := by
    have e3 : 2 * M * lineMinor M m i = 2 * (M * lineMinor M m i) := by ring
    have e4 : 2 * m * i = 2 * (m * i) := by ring
    have h5 : m * i ≤ M * m := by rw [Nat.mul_comm M m]; exact Nat.mul_le_mul_left _ hi
    have h6 : M * lineMinor M m i ≤ M * m := Nat.mul_le_mul_left _ hL
    have e2 : 2 * m * (M - i) = 2 * (M * m) - 2 * (m * i) := by
      rw [Nat.mul_sub, Nat.mul_assoc, Nat.mul_assoc, Nat.mul_comm m M]
    rw [e3, e4] at heq
    apply lineMinor_unique
    · have e1 : 2 * M * (m + 1 - lineMinor M m i)
          = 2 * (M * m) + 2 * M - 2 * (M * lineMinor M m i) := by
        rw [Nat.mul_sub, Nat.mul_add, Nat.mul_assoc, Nat.mul_assoc]; ring_nf
      rw [e1, e2]; omega
    · have e1 : 2 * M * (m + 1 - lineMinor M m i + 1)
          = 2 * (M * m) + 2 * M - 2 * (M * lineMinor M m i) + 2 * M := by
        rw [Nat.mul_add, Nat.mul_sub, Nat.mul_add, Nat.mul_assoc, Nat.mul_assoc]; ring_nf
      rw [e1, e2]; omega
  rw [hk]; omega
theorem lineTie_minor_pos (M m i : Nat) (ht : lineTie M m i = true) : 0 < M ∧ 0 < m := by
  simp only [lineTie, decide_eq_true_eq] at ht
  obtain ⟨hM, hmod⟩ := ht
  refine ⟨hM, ?_⟩
  rcases Nat.eq_zero_or_pos m with h | h
  · subst h
    simp only [Nat.mul_zero, Nat.zero_mul, Nat.zero_add] at hmod
    rw [Nat.mod_eq_of_lt (by omega)] at hmod
    omega
  · exact h

/-- Step `i` of a line and step `M - i` of the reversed line are the same pixel
unless step `i` is a tie. -/
theorem lineList_reverse_point (M m : Nat) (hmM : m ≤ M) (u0 v0 su sv su' sv' : Int)
    (hsu' : 0 < M → su' = -su) (hsv' : 0 < m → sv' = -sv) (i : Nat) (hi : i ≤ M)
    (hnt : lineTie M m i = false) :
    (u0 + su * (M : Int) + su' * ((M - i : Nat) : Int),
        v0 + sv * (m : Int) + sv' * (lineMinor M m (M - i) : Int))
      = (u0 + su * (i : Int), v0 + sv * (lineMinor M m i : Int)) := by
  rcases Nat.eq_zero_or_pos M with hM | hM
  · subst hM
    have hm : m = 0 := by omega
    have hi0 : i = 0 := by omega
    subst hm hi0
    simp [lineMinor_zero]
  · have hcast : ((M - i : Nat) : Int) = (M : Int) - (i : Int) := by omega
    rw [hsu' hM, hcast]
    have hr := lineMinor_reflect M m i hM hi hnt
    rcases Nat.eq_zero_or_pos m with hm | hm
    · subst hm
      have h1 : lineMinor M 0 (M - i) = 0 := by omega
      have h2 : lineMinor M 0 i = 0 := by omega
      rw [h1, h2]
      simp only [Nat.cast_zero, mul_zero, add_zero, Prod.mk.injEq, and_true]
      ring
    · rw [hsv' hm]
      have h3 : (lineMinor M m (M - i) : Int) = (m : Int) - (lineMinor M m i : Int) := by omega
      rw [h3]
      simp only [Prod.mk.injEq]
      constructor <;> ring

/-- A line and its reverse draw the same set of pixels exactly when no step is
a tie. -/
theorem lineList_reverse_iff (M m : Nat) (hmM : m ≤ M) (u0 v0 su sv su' sv' : Int)
    (hsu : su = 1 ∨ su = -1) (hsv : sv = 1 ∨ sv = -1)
    (hsu' : 0 < M → su' = -su) (hsv' : 0 < m → sv' = -sv) :
    (∀ p : Int × Int,
      p ∈ (List.range (M + 1)).map
          (fun (i : Nat) => (u0 + su * (i : Int), v0 + sv * (lineMinor M m i : Int))) ↔
      p ∈ (List.range (M + 1)).map
          (fun (j : Nat) => (u0 + su * (M : Int) + su' * (j : Int),
            v0 + sv * (m : Int) + sv' * (lineMinor M m j : Int)))) ↔
    (∀ i, i ≤ M → lineTie M m i = false) := by
  constructor
  · intro hset i hi
    by_contra hc
    have ht : lineTie M m i = true := by
      cases h : lineTie M m i
      · exact absurd h hc
      · rfl
    obtain ⟨hM, hm⟩ := lineTie_minor_pos M m i ht
    have hmem := (hset (u0 + su * (i : Int), v0 + sv * (lineMinor M m i : Int))).1
      (List.mem_map.2 ⟨i, List.mem_range.2 (by omega), rfl⟩)
    obtain ⟨j, hj, hjeq⟩ := List.mem_map.1 hmem
    have hj' : j ≤ M := by have := List.mem_range.1 hj; omega
    simp only [Prod.mk.injEq] at hjeq
    obtain ⟨e1, e2⟩ := hjeq
    rw [hsu' hM] at e1
    rw [hsv' hm] at e2
    have hji : j = M - i := by
      rcases hsu with rfl | rfl <;> omega
    subst hji
    have hr := lineMinor_reflect_tie M m i hi ht
    rcases hsv with rfl | rfl <;> omega
  · intro hnt p
    constructor
    · intro hp
      obtain ⟨i, hi, rfl⟩ := List.mem_map.1 hp
      have hi' : i ≤ M := by have := List.mem_range.1 hi; omega
      refine List.mem_map.2 ⟨M - i, List.mem_range.2 (by omega), ?_⟩
      exact lineList_reverse_point M m hmM u0 v0 su sv su' sv' hsu' hsv' i hi' (hnt i hi')
    · intro hp
      obtain ⟨j, hj, rfl⟩ := List.mem_map.1 hp
      have hj' : j ≤ M := by have := List.mem_range.1 hj; omega
      refine List.mem_map.2 ⟨M - j, List.mem_range.2 (by omega), ?_⟩
      have h := lineList_reverse_point M m hmM u0 v0 su sv su' sv' hsu' hsv' (M - j) (by omega)
        (hnt (M - j) (by omega))
      have hMj : M - (M - j) = j := by omega
      rw [hMj] at h
      exact h.symm
theorem mem_map_swap (l : List (Int × Int)) (p : Int × Int) :
    p ∈ l.map Prod.swap ↔ p.swap ∈ l := by
  rw [List.mem_map]
  constructor
  · rintro ⟨q, hq, rfl⟩
    rw [Prod.swap_swap]; exact hq
  · intro h
    exact ⟨p.swap, h, Prod.swap_swap p⟩

theorem forall_mem_map_swap (l1 l2 : List (Int × Int)) :
    (∀ p, p ∈ l1.map Prod.swap ↔ p ∈ l2.map Prod.swap) ↔ (∀ p, p ∈ l1 ↔ p ∈ l2) := by
  constructor
  · intro h p
    have := h p.swap
    rw [mem_map_swap, mem_map_swap, Prod.swap_swap] at this
    exact this
  · intro h p
    rw [mem_map_swap, mem_map_swap]
    exact h p.swap

theorem lineHasTie_eq_false (x0 y0 x1 y1 : Int) :
    lineHasTie x0 y0 x1 y1 = false ↔
      ∀ i, i ≤ max (x1 - x0).natAbs (y1 - y0).natAbs →
        lineTie (max (x1 - x0).natAbs (y1 - y0).natAbs)
          (min (x1 - x0).natAbs (y1 - y0).natAbs) i = false := by
  unfold lineHasTie
  rw [List.any_eq_false]
  constructor
  · intro h i hi
    have := h i (List.mem_range.2 (by omega))
    simpa using this
  · intro h i hi
    have := h i (by have := List.mem_range.1 hi; omega)
    simp [this]

/-- Lines without a tie: the minor extent is zero, the two extents are equal,
or the major extent is odd. -/
theorem lineTie_false_of (M m i : Nat) (hmM : m ≤ M) (h : m = 0 ∨ m = M ∨ M % 2 = 1) :
    lineTie M m i = false := by
  by_contra hc
  have ht : lineTie M m i = true := by
    cases h' : lineTie M m i
    · exact absurd h' hc
    · rfl
  obtain ⟨hM, hm⟩ := lineTie_minor_pos M m i ht
  simp only [lineTie, decide_eq_true_eq] at ht
  obtain ⟨_, hmod⟩ := ht
  have hd := Nat.div_add_mod (2 * m * i + M) (2 * M)
  rw [hmod] at hd
  generalize (2 * m * i + M) / (2 * M) = q at hd
  rcases h with h | h | h
  · omega
  · subst h
    have h3 : m * (2 * q) = m * (2 * i + 1) := by linarith
    have h4 := Nat.eq_of_mul_eq_mul_left hm h3
    omega
  · have e1 : 2 * m * i = 2 * (m * i) := by ring
    have e2 : 2 * M * q = 2 * (M * q) := by ring
    rw [e1, e2] at hd
    omega
/-! ## C9: drawing a line from the other end -/

/-- C9, counterexample: from `(0,0)` to `(2,1)` `PAL_line` passes `(1,1)` to
`PAL_setPixel`, from `(2,1)` to `(0,0)` it passes `(1,0)` instead, whether `char`
is signed or not. -/
theorem C9_counterexample :
    PAL_line_calls false 255 0 0 2 1 = some [(0, 0), (1, 1), (2, 1)] ∧
    PAL_line_calls false 255 2 1 0 0 = some [(2, 1), (1, 0), (0, 0)] ∧
    PAL_line_calls true 255 0 0 2 1 = some [(0, 0), (1, 1), (2, 1)] ∧
    PAL_line_calls true 255 2 1 0 0 = some [(2, 1), (1, 0), (0, 0)] ∧
    ((1, 1) : Int × Int) ∈ [((0, 0) : Int × Int), (1, 1), (2, 1)] ∧
    ((1, 1) : Int × Int) ∉ [((2, 1) : Int × Int), (1, 0), (0, 0)] := by
  decide

/-- C9, amended: for all `char` endpoints, `PAL_line(x0,y0,x1,y1,mode)` and
`PAL_line(x1,y1,x0,y0,mode)` make the same number of `PAL_setPixel` calls, and
the sets of coordinates they pass are identical if and only if the line has no
tie, i.e. no step `i` in `0..M` at which `2*m*i + M` is a multiple of `2*M`
(`M > 0` the larger and `m` the smaller of `|x1-x0|`, `|y1-y0|`): there the ideal
line passes midway between two pixels and each direction rounds away from its
own start.  Lines that are horizontal, vertical or diagonal, or whose larger
extent is odd, have no tie. -/
theorem C9_line_symmetric_iff_no_tie (sg : Bool) (fuel : Nat) (x0 y0 x1 y1 : Int)
    (hx0 : isChar sg x0) (hy0 : isChar sg y0) (hx1 : isChar sg x1) (hy1 : isChar sg y1)
    (hfuel : max (x1 - x0).natAbs (y1 - y0).natAbs ≤ fuel) :
    ∃ fwd bwd, PAL_line_calls sg fuel x0 y0 x1 y1 = some fwd ∧
      PAL_line_calls sg fuel x1 y1 x0 y0 = some bwd ∧
      fwd.length = bwd.length ∧
      ((∀ p, p ∈ fwd ↔ p ∈ bwd) ↔ lineHasTie x0 y0 x1 y1 = false) ∧
      ((min (x1 - x0).natAbs (y1 - y0).natAbs = 0 ∨ (x1 - x0).natAbs = (y1 - y0).natAbs ∨
          max (x1 - x0).natAbs (y1 - y0).natAbs % 2 = 1) →
        lineHasTie x0 y0 x1 y1 = false) := by
  have hax : (x0 - x1).natAbs = (x1 - x0).natAbs := by omega
  have hay : (y0 - y1).natAbs = (y1 - y0).natAbs := by omega
  obtain ⟨_, _, ex, _, _⟩ := PAL_line_delta sg x0 x1 hx0 hx1
  obtain ⟨_, _, ey, _, _⟩ := PAL_line_delta sg y0 y1 hy0 hy1
  have hsx : (if x1 - x0 < 0 then (-1 : Int) else 1) = 1 ∨
      (if x1 - x0 < 0 then (-1 : Int) else 1) = -1 := by split <;> simp
  have hsy : (if y1 - y0 < 0 then (-1 : Int) else 1) = 1 ∨
      (if y1 - y0 < 0 then (-1 : Int) else 1) = -1 := by split <;> simp
  have hsx' : 0 < (x1 - x0).natAbs →
      (if x0 - x1 < 0 then (-1 : Int) else 1) = -(if x1 - x0 < 0 then (-1 : Int) else 1) := by
    intro h; split <;> split <;> omega
  have hsy' : 0 < (y1 - y0).natAbs →
      (if y0 - y1 < 0 then (-1 : Int) else 1) = -(if y1 - y0 < 0 then (-1 : Int) else 1) := by
    intro h; split <;> split <;> omega
  refine ⟨_, _, PAL_line_calls_eq sg fuel x0 y0 x1 y1 hx0 hy0 hx1 hy1 hfuel,
    PAL_line_calls_eq sg fuel x1 y1 x0 y0 hx1 hy1 hx0 hy0 (by rw [hax, hay]; exact hfuel),
    ?_, ?_, ?_⟩
  · by_cases hab : (y1 - y0).natAbs < (x1 - x0).natAbs
    · rw [linePixels_x x0 y0 x1 y1 hab, linePixels_x x1 y1 x0 y0 (by rw [hax, hay]; exact hab)]
      simp [hax]
    · rw [linePixels_y x0 y0 x1 y1 hab, linePixels_y x1 y1 x0 y0 (by rw [hax, hay]; exact hab)]
      simp [hay]
  · rw [lineHasTie_eq_false]
    by_cases hab : (y1 - y0).natAbs < (x1 - x0).natAbs
    · rw [linePixels_x x0 y0 x1 y1 hab, linePixels_x x1 y1 x0 y0 (by rw [hax, hay]; exact hab),
        hax, hay, Nat.max_eq_left (by omega), Nat.min_eq_right (by omega)]
      have hfun : (fun (j : Nat) => (x1 + (if x0 - x1 < 0 then -1 else 1) * (j : Int),
            y1 + (if y0 - y1 < 0 then -1 else 1)
              * (lineMinor (x1 - x0).natAbs (y1 - y0).natAbs j : Int)))
          = (fun (j : Nat) =>
            (x0 + (if x1 - x0 < 0 then -1 else 1) * ((x1 - x0).natAbs : Int)
              + (if x0 - x1 < 0 then -1 else 1) * (j : Int),
            y0 + (if y1 - y0 < 0 then -1 else 1) * ((y1 - y0).natAbs : Int)
              + (if y0 - y1 < 0 then -1 else 1)
                * (lineMinor (x1 - x0).natAbs (y1 - y0).natAbs j : Int))) := by
        funext j
        rw [← ex, ← ey]
      rw [hfun]
      exact lineList_reverse_iff (x1 - x0).natAbs (y1 - y0).natAbs (by omega) x0 y0 _ _ _ _
        hsx hsy hsx' hsy'
    · rw [linePixels_y x0 y0 x1 y1 hab, linePixels_y x1 y1 x0 y0 (by rw [hax, hay]; exact hab),
        hax, hay, Nat.max_eq_right (by omega), Nat.min_eq_left (by omega), forall_mem_map_swap]
      have hfun : (fun (j : Nat) => (y1 + (if y0 - y1 < 0 then -1 else 1) * (j : Int),
            x1 + (if x0 - x1 < 0 then -1 else 1)
              * (lineMinor (y1 - y0).natAbs (x1 - x0).natAbs j : Int)))
          = (fun (j : Nat) =>
            (y0 + (if y1 - y0 < 0 then -1 else 1) * ((y1 - y0).natAbs : Int)
              + (if y0 - y1 < 0 then -1 else 1) * (j : Int),
            x0 + (if x1 - x0 < 0 then -1 else 1) * ((x1 - x0).natAbs : Int)
              + (if x0 - x1 < 0 then -1 else 1)
                * (lineMinor (y1 - y0).natAbs (x1 - x0).natAbs j : Int))) := by
        funext j
        rw [← ex, ← ey]
      rw [hfun]
      exact lineList_reverse_iff (y1 - y0).natAbs (x1 - x0).natAbs (by omega) y0 x0 _ _ _ _
        hsy hsx hsy' hsx'
  · intro h
    rw [lineHasTie_eq_false]
    intro i _
    apply lineTie_false_of _ _ _ (by omega)
    omega

/-- C9 (amended) at the line from `(0,0)` to `(3,1)`, with unsigned `char`. -/
theorem C9_line_symmetric_iff_no_tie_witness :
    (isChar false 0 ∧ isChar false 0 ∧ isChar false 3 ∧ isChar false 1 ∧
      max ((3 : Int) - 0).natAbs ((1 : Int) - 0).natAbs ≤ 255) ∧
    ∃ fwd bwd, PAL_line_calls false 255 0 0 3 1 = some fwd ∧
      PAL_line_calls false 255 3 1 0 0 = some bwd ∧
      fwd.length = bwd.length ∧
      ((∀ p, p ∈ fwd ↔ p ∈ bwd) ↔ lineHasTie 0 0 3 1 = false) ∧
      ((min ((3 : Int) - 0).natAbs ((1 : Int) - 0).natAbs = 0 ∨
          ((3 : Int) - 0).natAbs = ((1 : Int) - 0).natAbs ∨
          max ((3 : Int) - 0).natAbs ((1 : Int) - 0).natAbs % 2 = 1) →
        lineHasTie 0 0 3 1 = false) :=
  ⟨⟨by decide, by decide, by decide, by decide, by decide⟩,
    C9_line_symmetric_iff_no_tie false 255 0 0 3 1 (by decide) (by decide) (by decide)
      (by decide) (by decide)⟩
/-! ## Pixels under `PAL_setPixel` -/

/-- Two pixels with columns below 128 share byte and bit only if they are the
same pixel. -/
theorem pixel_addr_inj (x y px py : Nat) (hx : x < 128) (hpx : px < 128)
    (h1 : 16 * py + px / 8 = 16 * y + x / 8) (h2 : px % 8 = x % 8) : px = x ∧ py = y := by
  omega

/-- The value of a pixel after `PAL_setPixel`. -/
theorem pixel_setPixel (PAL_y : Nat) (screen : Nat → Byte) (x y : Int) (mode : Nat)
    (hP : PAL_y ≤ 255) (px py : Nat) (hpx : px < 128) :
    pixel (PAL_setPixel PAL_y screen x y mode) px py =
      if 0 ≤ x ∧ x < 128 ∧ 0 ≤ y ∧ y < (PAL_y : Int) ∧ x = (px : Int) ∧ y = (py : Int) then
        (match mode with
          | 0 => false
          | 1 => true
          | _ => !pixel screen px py)
      else pixel screen px py := by
  by_cases hin : 0 ≤ x ∧ x < 128 ∧ 0 ≤ y ∧ y < (PAL_y : Int)
  · obtain ⟨hx0, hx, hy0, hy⟩ := hin
    rw [PAL_setPixel_inside PAL_y screen x y mode (by omega) hx0 hx hy0 hy]
    have hb : (screen (16 * y.toNat + x.toNat / 8)).val < 256 := (screen _).isLt
    have hk : x.toNat % 8 < 8 := Nat.mod_lt _ (by decide)
    unfold pixel
    by_cases hsame : x = (px : Int) ∧ y = (py : Int)
    · obtain ⟨e1, e2⟩ := hsame
      have e1' : x.toNat = px := by omega
      have e2' : y.toNat = py := by omega
      rw [if_pos ⟨hx0, hx, hy0, hy, e1, e2⟩, e1', e2'] 
      rw [e1', e2'] at hb
      simp only [if_true]
      match mode with
      | 0 => simp only [toByte]; rw [testBit_clear _ _ _ hb (Nat.mod_lt _ (by decide))]; simp
      | 1 => simp only [toByte]; rw [testBit_set _ _ _ hb (Nat.mod_lt _ (by decide))]; simp
      | n + 2 =>
        simp only [toByte]; rw [testBit_toggle _ _ _ hb (Nat.mod_lt _ (by decide))]; simp
    · rw [if_neg (fun h => hsame ⟨h.2.2.2.2.1, h.2.2.2.2.2⟩)]
      by_cases hbyte : 16 * py + px / 8 = 16 * y.toNat + x.toNat / 8
      · have hbit : px % 8 ≠ x.toNat % 8 := by
          intro hbit
          have := pixel_addr_inj x.toNat y.toNat px py (by omega) hpx hbyte hbit
          apply hsame
          omega
        simp only [hbyte, if_true]
        match mode with
        | 0 => simp only [toByte]; rw [testBit_clear _ _ _ hb hk]; simp [hbit]
        | 1 => simp only [toByte]; rw [testBit_set _ _ _ hb hk]; simp [hbit]
        | n + 2 => simp only [toByte]; rw [testBit_toggle _ _ _ hb hk]; simp [hbit]
      · simp only [hbyte, if_false]
  · rw [PAL_setPixel_outside PAL_y screen x y mode (by omega), if_neg (fun h => hin ⟨h.1, h.2.1, h.2.2.1, h.2.2.2.1⟩)]

/-! ## C11: the degenerate line -/

/-- A line from a point to itself makes the single call at that point. -/
theorem PAL_line_calls_point (sg : Bool) (fuel : Nat) (x y : Int) :
    PAL_line_calls sg fuel x y x y = some [(x, y)] := by
  unfold PAL_line_calls
  simp only [sub_self]
  have h0 : toInt16 0 = 0 := by decide
  simp only [h0, lt_irrefl, if_false, zero_mul, gt_iff_lt]
  cases fuel <;> simp [PAL_line_yloop]

/-- A line from a point to itself is one `PAL_setPixel`. -/
theorem PAL_line_point (PAL_y : Nat) (sg : Bool) (fuel : Nat) (screen : Nat → Byte)
    (x y : Int) (mode : Nat) :
    PAL_line PAL_y sg fuel screen x y x y mode = some (PAL_setPixel PAL_y screen x y mode) := by
  unfold PAL_line
  rw [PAL_line_calls_point]
  rfl

/-- C11: for every `(x,y)` and mode (and any fuel, the loop is not entered),
`PAL_line(x,y,x,y,mode)` performs exactly one `PAL_setPixel` call, at `(x,y)`
with that mode, so its effect on the framebuffer is that of
`PAL_setPixel(x,y,mode)`; every pixel other than `(x,y)` keeps its value. -/
theorem C11_degenerate_line (PAL_y : Nat) (sg : Bool) (fuel : Nat) (screen : Nat → Byte)
    (x y : Int) (mode : Nat) :
    PAL_line_calls sg fuel x y x y = some [(x, y)] ∧
    PAL_line PAL_y sg fuel screen x y x y mode = some (PAL_setPixel PAL_y screen x y mode) ∧
    (PAL_y ≤ 255 → ∀ px py : Nat, px < 128 → ¬ (x = (px : Int) ∧ y = (py : Int)) →
      pixel (PAL_setPixel PAL_y screen x y mode) px py = pixel screen px py) ∧
    (PAL_y ≤ 255 → ∀ px py : Nat, px < 128 → py < PAL_y → x = (px : Int) → y = (py : Int) →
      pixel (PAL_setPixel PAL_y screen x y mode) px py =
        (match mode with
          | 0 => false
          | 1 => true
          | _ => !pixel screen px py)) := by
  refine ⟨PAL_line_calls_point sg fuel x y, PAL_line_point PAL_y sg fuel screen x y mode, ?_, ?_⟩
  · intro hP px py hpx hne
    rw [pixel_setPixel PAL_y screen x y mode hP px py hpx,
      if_neg (fun h => hne ⟨h.2.2.2.2.1, h.2.2.2.2.2⟩)]
  · intro hP px py hpx hpy hx hy
    rw [pixel_setPixel PAL_y screen x y mode hP px py hpx,
      if_pos ⟨by omega, by omega, by omega, by omega, hx, hy⟩]
/-! ## C12: `PAL_fill` -/

/-- The length `PAL_X * PAL_y / 8` of the `memset` of `PAL_fill`. -/
theorem PAL_fill_length (PAL_y : Nat) (hP : PAL_y ≤ 255) :
    (toInt16 ((PAL_X : Int) * (PAL_y : Int)) / 8).toNat = 16 * PAL_y := by
  unfold PAL_X
  rw [toInt16_id _ (by push_cast; omega) (by push_cast; omega)]
  push_cast
  omega

/-- `PAL_fill` byte by byte. -/
theorem PAL_fill_apply (PAL_y : Nat) (screen : Nat → Byte) (c : Nat) (hP : PAL_y ≤ 255)
    (i : Nat) :
    PAL_fill PAL_y screen c i = if i < 16 * PAL_y then toByte c else screen i := by
  unfold PAL_fill
  simp only [PAL_fill_length PAL_y hP]

/-- C12: after `PAL_init(R)` (`R` an `unsigned char`), `PAL_fill(c)` makes every
framebuffer byte with index below `16*R` equal to `c`, whatever it held, and
changes no byte from index `16*R` on; so every pixel `(x,y)` with `x < 128`,
`y < R` equals bit `x mod 8` of `c`: all set after `PAL_fill(0xFF)`, all clear
after `PAL_fill(0x00)`. -/
theorem C12_fill (s : PALState) (R c : Nat) (hR : R ≤ 255) (hc : c ≤ 255) :
    (∀ i, i < 16 * R →
      (PAL_fill (PAL_init R s).PAL_y (PAL_init R s).PAL_screen c i).val = c) ∧
    (∀ i, 16 * R ≤ i →
      PAL_fill (PAL_init R s).PAL_y (PAL_init R s).PAL_screen c i = s.PAL_screen i) ∧
    (∀ x y, x < 128 → y < R →
      pixel (PAL_fill (PAL_init R s).PAL_y (PAL_init R s).PAL_screen c) x y
        = c.testBit (x % 8)) ∧
    (∀ x y, x < 128 → y < R →
      pixel (PAL_fill (PAL_init R s).PAL_y (PAL_init R s).PAL_screen 255) x y = true) ∧
    (∀ x y, x < 128 → y < R →
      pixel (PAL_fill (PAL_init R s).PAL_y (PAL_init R s).PAL_screen 0) x y = false) := by
  have hy : (PAL_init R s).PAL_y = R := rfl
  have hs : (PAL_init R s).PAL_screen = s.PAL_screen := rfl
  rw [hy, hs]
  have hpix : ∀ d x y, x < 128 → y < R → d ≤ 255 →
      pixel (PAL_fill R s.PAL_screen d) x y = d.testBit (x % 8) := by
    intro d x y hx hy' hd
    unfold pixel
    rw [PAL_fill_apply R s.PAL_screen d hR, if_pos (by omega)]
    simp only [toByte]
    rw [Nat.mod_eq_of_lt (by omega)]
  refine ⟨?_, ?_, ?_, ?_, ?_⟩
  · intro i hi
    rw [PAL_fill_apply R s.PAL_screen c hR, if_pos hi]
    simp only [toByte]
    exact Nat.mod_eq_of_lt (by omega)
  · intro i hi
    rw [PAL_fill_apply R s.PAL_screen c hR, if_neg (by omega)]
  · intro x y hx hy'
    exact hpix c x y hx hy' hc
  · intro x y hx hy'
    rw [hpix 255 x y hx hy' (by omega)]
    have h8 : x % 8 < 8 := Nat.mod_lt _ (by decide)
    have : ∀ k : Fin 8, (255 : Nat).testBit k.val = true := by decide
    exact this ⟨x % 8, h8⟩
  · intro x y hx hy'
    rw [hpix 0 x y hx hy' (by omega)]
    exact Nat.zero_testBit _

/-- C12 at `R = 120`, `c = 0xAA`, from the reset state. -/
theorem C12_fill_witness :
    ((120 : Nat) ≤ 255 ∧ (170 : Nat) ≤ 255) ∧
    ((∀ i, i < 16 * 120 →
      (PAL_fill (PAL_init 120 resetState).PAL_y (PAL_init 120 resetState).PAL_screen 170 i).val
        = 170) ∧
    (∀ i, 16 * 120 ≤ i →
      PAL_fill (PAL_init 120 resetState).PAL_y (PAL_init 120 resetState).PAL_screen 170 i
        = resetState.PAL_screen i) ∧
    (∀ x y, x < 128 → y < 120 →
      pixel (PAL_fill (PAL_init 120 resetState).PAL_y (PAL_init 120 resetState).PAL_screen 170) x y
        = (170 : Nat).testBit (x % 8)) ∧
    (∀ x y, x < 128 → y < 120 →
      pixel (PAL_fill (PAL_init 120 resetState).PAL_y (PAL_init 120 resetState).PAL_screen 255) x y
        = true) ∧
    (∀ x y, x < 128 → y < 120 →
      pixel (PAL_fill (PAL_init 120 resetState).PAL_y (PAL_init 120 resetState).PAL_screen 0) x y
        = false)) :=
  ⟨⟨by decide, by decide⟩, C12_fill resetState 120 170 (by decide) (by decide)⟩
/-! ## Repeating a `PAL_setPixel` -/

set_option maxRecDepth 100000 in
theorem byte_set_twice : ∀ (b : Byte) (k : Fin 8),
    toByte ((toByte (b.val ||| 1 <<< k.val)).val ||| 1 <<< k.val)
      = toByte (b.val ||| 1 <<< k.val) := by
  decide

set_option maxRecDepth 100000 in
theorem byte_clear_twice : ∀ (b : Byte) (k : Fin 8),
    toByte ((toByte (b.val &&& (65535 - 1 <<< k.val))).val &&& (65535 - 1 <<< k.val))
      = toByte (b.val &&& (65535 - 1 <<< k.val)) := by
  decide

set_option maxRecDepth 100000 in
theorem byte_toggle_twice : ∀ (b : Byte) (k : Fin 8),
    toByte ((toByte (b.val ^^^ 1 <<< k.val)).val ^^^ 1 <<< k.val) = b := by
  decide

/-- Inside the screen `PAL_setPixel` rewrites one byte with an operation that
depends on the mode and on `x` only. -/
theorem PAL_setPixel_raw (PAL_y : Nat) (screen : Nat → Byte) (x y : Int) (mode : Nat)
    (h : ¬ (x < 0 ∨ y < 0 ∨ 128 ≤ x ∨ (PAL_y : Int) ≤ y)) :
    PAL_setPixel PAL_y screen x y mode =
      fun i => if i = (toInt16 (toInt16 (y * 128) + x) / 8).toNat then
        (match mode with
          | 0 => toByte ((screen (toInt16 (toInt16 (y * 128) + x) / 8).toNat).val
                  &&& (65535 - 1 <<< (x.toNat &&& 7)))
          | 1 => toByte ((screen (toInt16 (toInt16 (y * 128) + x) / 8).toNat).val
                  ||| 1 <<< (x.toNat &&& 7))
          | _ => toByte ((screen (toInt16 (toInt16 (y * 128) + x) / 8).toNat).val
                  ^^^ 1 <<< (x.toNat &&& 7)))
      else screen i := by
  unfold PAL_setPixel PAL_X
  rw [if_neg (by omega), if_neg (by omega), if_neg (by push_cast; omega)]
  exact if_neg (by omega)

/-- Setting or clearing a pixel twice is setting or clearing it once. -/
theorem PAL_setPixel_twice (PAL_y : Nat) (screen : Nat → Byte) (x y : Int) (mode : Nat)
    (hm : mode = 0 ∨ mode = 1) :
    PAL_setPixel PAL_y (PAL_setPixel PAL_y screen x y mode) x y mode
      = PAL_setPixel PAL_y screen x y mode := by
  have hk : x.toNat &&& 7 < 8 := Nat.lt_succ_of_le Nat.and_le_right
  by_cases hout : x < 0 ∨ y < 0 ∨ 128 ≤ x ∨ (PAL_y : Int) ≤ y
  · rw [PAL_setPixel_outside PAL_y screen x y mode hout,
      PAL_setPixel_outside PAL_y screen x y mode hout]
  · rw [PAL_setPixel_raw PAL_y (PAL_setPixel PAL_y screen x y mode) x y mode hout,
      PAL_setPixel_raw PAL_y screen x y mode hout]
    funext i
    by_cases hi : i = (toInt16 (toInt16 (y * 128) + x) / 8).toNat
    · simp only [hi, if_true]
      rcases hm with rfl | rfl
      · exact byte_clear_twice _ ⟨x.toNat &&& 7, hk⟩
      · exact byte_set_twice _ ⟨x.toNat &&& 7, hk⟩
    · simp only [hi, if_false]

/-- Toggling a pixel twice restores the framebuffer. -/
theorem PAL_setPixel_toggle_twice (PAL_y : Nat) (screen : Nat → Byte) (x y : Int) (mode : Nat)
    (hm : 2 ≤ mode) :
    PAL_setPixel PAL_y (PAL_setPixel PAL_y screen x y mode) x y mode = screen := by
  have hk : x.toNat &&& 7 < 8 := Nat.lt_succ_of_le Nat.and_le_right
  obtain ⟨n, rfl⟩ : ∃ n, mode = n + 2 := ⟨mode - 2, by omega⟩
  by_cases hout : x < 0 ∨ y < 0 ∨ 128 ≤ x ∨ (PAL_y : Int) ≤ y
  · rw [PAL_setPixel_outside PAL_y screen x y _ hout,
      PAL_setPixel_outside PAL_y screen x y _ hout]
  · rw [PAL_setPixel_raw PAL_y (PAL_setPixel PAL_y screen x y (n + 2)) x y _ hout,
      PAL_setPixel_raw PAL_y screen x y _ hout]
    funext i
    by_cases hi : i = (toInt16 (toInt16 (y * 128) + x) / 8).toNat
    · simp only [hi, if_true]
      exact byte_toggle_twice _ ⟨x.toNat &&& 7, hk⟩
    · simp only [hi, if_false]
/-! ## C20: the circle of radius 0 -/

/-- With radius 0 every sample is the centre. -/
theorem PAL_circle_sample_zero (sg : Bool) (sinE3 cosE3 : Int → Int) (x y a : Int)
    (hx : isChar sg x) (hy : isChar sg y) :
    PAL_circle_sample sinE3 cosE3 x y 0 a = (x, y) := by
  have hx' : -128 ≤ x ∧ x ≤ 255 := by
    unfold isChar at hx; cases sg <;> simp at hx <;> omega
  have hy' : -128 ≤ y ∧ y ≤ 255 := by
    unfold isChar at hy; cases sg <;> simp at hy <;> omega
  unfold PAL_circle_sample
  have h0 : toInt32 0 = 0 := by decide
  simp only [mul_zero, h0, Int.zero_tdiv, zero_add]
  have e1 : toInt32 x = x := by unfold toInt32; omega
  have e2 : toInt32 y = y := by unfold toInt32; omega
  rw [e1, e2]

/-- With radius 0 the loop of `PAL_circle`, once past the first angle, joins the
centre to itself at every angle. -/
theorem PAL_circle_loop_zero (sg : Bool) (sinE3 cosE3 : Int → Int) (x y : Int)
    (hx : isChar sg x) (hy : isChar sg y) :
    ∀ angles : List Int, (∀ a ∈ angles, a > 0) →
      PAL_circle_loop sg sinE3 cosE3 x y 0 angles x y
        = List.replicate angles.length (x, y, x, y) := by
  intro angles
  induction angles with
  | nil => intro _; rfl
  | cons a rest ih =>
    intro h
    have ha : a > 0 := h a (List.mem_cons_self _ _)
    simp only [PAL_circle_loop, PAL_circle_sample_zero sg sinE3 cosE3 x y a hx hy, if_pos ha,
      toChar_id sg x hx, toChar_id sg y hy, List.length_cons, List.replicate_succ,
      List.singleton_append]
    rw [ih (fun b hb => h b (List.mem_cons_of_mem _ hb))]

theorem PAL_circle_angles_eq :
    PAL_circle_angles = 0 :: (List.range 24).map (fun (k : Nat) => 15 * ((k : Int) + 1)) := by
  decide

/-- At the first angle no line is drawn. -/
theorem PAL_circle_loop_first (sg : Bool) (sinE3 cosE3 : Int → Int) (x y r : Int)
    (rest : List Int) (opx opy : Int) :
    PAL_circle_loop sg sinE3 cosE3 x y r (0 :: rest) opx opy
      = PAL_circle_loop sg sinE3 cosE3 x y r rest
          (PAL_circle_sample sinE3 cosE3 x y r 0).1 (PAL_circle_sample sinE3 cosE3 x y r 0).2 := by
  simp [PAL_circle_loop]

/-- With radius 0, `PAL_circle` makes 24 calls `PAL_line(x,y,x,y,_)`. -/
theorem PAL_circle_lines_zero (sg : Bool) (sinE3 cosE3 : Int → Int) (x y : Int)
    (hx : isChar sg x) (hy : isChar sg y) :
    PAL_circle_lines sg sinE3 cosE3 x y 0 = List.replicate 24 (x, y, x, y) := by
  unfold PAL_circle_lines
  rw [PAL_circle_angles_eq, PAL_circle_loop_first,
    PAL_circle_sample_zero sg sinE3 cosE3 x y 0 hx hy,
    PAL_circle_loop_zero sg sinE3 cosE3 x y hx hy]
  · rw [List.length_map, List.length_range]
  · intro a ha
    obtain ⟨k, _, rfl⟩ := List.mem_map.1 ha
    omega

/-- Degenerate lines at one point are repeated `PAL_setPixel` calls. -/
theorem PAL_lines_replicate (PAL_y : Nat) (sg : Bool) (fuel : Nat) (mode : Nat) (x y : Int) :
    ∀ n screen,
      PAL_lines PAL_y sg fuel mode screen (List.replicate n (x, y, x, y))
        = some ((fun scr => PAL_setPixel PAL_y scr x y mode)^[n] screen) := by
  intro n
  induction n with
  | zero => intro screen; rfl
  | succ n ih =>
    intro screen
    rw [List.replicate_succ, PAL_lines]
    simp only [PAL_line_point, Option.some_bind]
    rw [ih, Function.iterate_succ_apply]

/-- Setting or clearing a pixel any positive number of times. -/
theorem PAL_setPixel_iterate (PAL_y : Nat) (x y : Int) (mode : Nat) (hm : mode = 0 ∨ mode = 1) :
    ∀ n screen,
      (fun scr => PAL_setPixel PAL_y scr x y mode)^[n + 1] screen
        = PAL_setPixel PAL_y screen x y mode := by
  intro n
  induction n with
  | zero => intro screen; rfl
  | succ n ih =>
    intro screen
    rw [Function.iterate_succ_apply, ih, PAL_setPixel_twice PAL_y screen x y mode hm]

/-- Toggling a pixel an even number of times. -/
theorem PAL_setPixel_iterate_even (PAL_y : Nat) (x y : Int) (mode : Nat) (hm : 2 ≤ mode) :
    ∀ n screen, (fun scr => PAL_setPixel PAL_y scr x y mode)^[2 * n] screen = screen := by
  intro n
  induction n with
  | zero => intro screen; rfl
  | succ n ih =>
    intro screen
    rw [show 2 * (n + 1) = 2 * n + 1 + 1 by ring, Function.iterate_succ_apply,
      Function.iterate_succ_apply, PAL_setPixel_toggle_twice PAL_y screen x y mode hm, ih]

set_option maxRecDepth 100000 in
/-- C20, counterexample: on a black framebuffer `PAL_circle(0,0,0,PAL_COLOR_REVERSE)`
leaves pixel `(0,0)` clear (byte 0 is 0), while `PAL_setPixel(0,0,PAL_COLOR_REVERSE)`
sets it (byte 0 is 1). -/
theorem C20_counterexample :
    (PAL_circle 120 false 0 (fun _ => 1000) (fun _ => 1000) (fun _ => 0) 0 0 0
        PAL_COLOR_REVERSE).map (fun scr => scr 0) = some 0 ∧
    PAL_setPixel 120 (fun _ => 0) 0 0 PAL_COLOR_REVERSE 0 = 1 := by
  decide

/-- C20, amended: for every centre `(cx,cy)`, framebuffer and `sinE3`/`cosE3`,
all samples of `PAL_circle(cx,cy,0,mode)` coincide with `(cx,cy)` and the call
makes 24 calls `PAL_line(cx,cy,cx,cy,mode)`, each a single
`PAL_setPixel(cx,cy,mode)`.  With `PAL_COLOR_BLACK` or `PAL_COLOR_WHITE` the
resulting framebuffer is that of one `PAL_setPixel(cx,cy,mode)`; with
`PAL_COLOR_REVERSE` (any other mode) the point is toggled 24 times and the
framebuffer is left as it was. -/
theorem C20_circle_radius_zero (PAL_y : Nat) (sg : Bool) (fuel : Nat) (sinE3 cosE3 : Int → Int)
    (screen : Nat → Byte) (cx cy : Int) (mode : Nat) (hx : isChar sg cx) (hy : isChar sg cy) :
    (∀ a, PAL_circle_sample sinE3 cosE3 cx cy 0 a = (cx, cy)) ∧
    PAL_circle_lines sg sinE3 cosE3 cx cy 0 = List.replicate 24 (cx, cy, cx, cy) ∧
    PAL_circle PAL_y sg fuel sinE3 cosE3 screen cx cy 0 mode
      = some ((fun scr => PAL_setPixel PAL_y scr cx cy mode)^[24] screen) ∧
    (mode = PAL_COLOR_BLACK ∨ mode = PAL_COLOR_WHITE →
      PAL_circle PAL_y sg fuel sinE3 cosE3 screen cx cy 0 mode
        = some (PAL_setPixel PAL_y screen cx cy mode)) ∧
    (2 ≤ mode → PAL_circle PAL_y sg fuel sinE3 cosE3 screen cx cy 0 mode = some screen) := by
  have hrun : PAL_circle PAL_y sg fuel sinE3 cosE3 screen cx cy 0 mode
      = some ((fun scr => PAL_setPixel PAL_y scr cx cy mode)^[24] screen) := by
    unfold PAL_circle
    rw [PAL_circle_lines_zero sg sinE3 cosE3 cx cy hx hy, PAL_lines_replicate]
  refine ⟨fun a => PAL_circle_sample_zero sg sinE3 cosE3 cx cy a hx hy,
    PAL_circle_lines_zero sg sinE3 cosE3 cx cy hx hy, hrun, ?_, ?_⟩
  · intro hm
    rw [hrun, PAL_setPixel_iterate PAL_y cx cy mode hm 23 screen]
  · intro hm
    rw [hrun, PAL_setPixel_iterate_even PAL_y cx cy mode hm 12 screen]

/-- C20 (amended) at the centre `(3,5)`, mode white, with unsigned `char`. -/
theorem C20_circle_radius_zero_witness :
    (isChar false 3 ∧ isChar false 5) ∧
    ((∀ a, PAL_circle_sample (fun _ => 1000) (fun _ => 1000) 3 5 0 a = (3, 5)) ∧
    PAL_circle_lines false (fun _ => 1000) (fun _ => 1000) 3 5 0 = List.replicate 24 (3, 5, 3, 5) ∧
    PAL_circle 120 false 0 (fun _ => 1000) (fun _ => 1000) (fun _ => 0) 3 5 0 PAL_COLOR_WHITE
      = some ((fun scr => PAL_setPixel 120 scr 3 5 PAL_COLOR_WHITE)^[24] (fun _ => 0)) ∧
    (PAL_COLOR_WHITE = PAL_COLOR_BLACK ∨ PAL_COLOR_WHITE = PAL_COLOR_WHITE →
      PAL_circle 120 false 0 (fun _ => 1000) (fun _ => 1000) (fun _ => 0) 3 5 0 PAL_COLOR_WHITE
        = some (PAL_setPixel 120 (fun _ => 0) 3 5 PAL_COLOR_WHITE)) ∧
    (2 ≤ PAL_COLOR_WHITE →
      PAL_circle 120 false 0 (fun _ => 1000) (fun _ => 1000) (fun _ => 0) 3 5 0 PAL_COLOR_WHITE
        = some (fun _ => 0))) :=
  ⟨⟨by decide, by decide⟩,
    C20_circle_radius_zero 120 false 0 (fun _ => 1000) (fun _ => 1000) (fun _ => 0) 3 5
      PAL_COLOR_WHITE (by decide) (by decide)⟩
/-! ## Drawing lists of pixels in white -/

theorem PAL_draw_append (PAL_y mode : Nat) (screen : Nat → Byte) (a b : List (Int × Int)) :
    PAL_draw PAL_y mode screen (a ++ b) = PAL_draw PAL_y mode (PAL_draw PAL_y mode screen a) b := by
  unfold PAL_draw
  rw [List.foldl_append]

/-- After drawing a list of pixels in white, a pixel is set exactly if it was
set before or is in the list (and inside the screen). -/
theorem pixel_draw_white (PAL_y : Nat) (hP : PAL_y ≤ 255) (calls : List (Int × Int)) :
    ∀ (screen : Nat → Byte) (px py : Nat), px < 128 →
      (pixel (PAL_draw PAL_y PAL_COLOR_WHITE screen calls) px py = true ↔
        pixel screen px py = true ∨ (((px : Int), (py : Int)) ∈ calls ∧ py < PAL_y)) := by
  induction calls with
  | nil =>
    intro screen px py _
    simp [PAL_draw]
  | cons q rest ih =>
    intro screen px py hpx
    have hstep : PAL_draw PAL_y PAL_COLOR_WHITE screen (q :: rest)
        = PAL_draw PAL_y PAL_COLOR_WHITE (PAL_setPixel PAL_y screen q.1 q.2 PAL_COLOR_WHITE) rest := rfl
    rw [hstep, ih _ px py hpx, pixel_setPixel PAL_y screen q.1 q.2 PAL_COLOR_WHITE hP px py hpx]
    by_cases hq : q = ((px : Int), (py : Int))
    · subst hq
      by_cases hpy : py < PAL_y
      · rw [if_pos ⟨by omega, by omega, by omega, by omega, rfl, rfl⟩]
        simp [PAL_COLOR_WHITE, hpy]
      · rw [if_neg (fun h => hpy (by omega))]
        simp [hpy]
    · have hne : ¬ (q.1 = (px : Int) ∧ q.2 = (py : Int)) := by
        intro h
        apply hq
        exact Prod.ext h.1 h.2
      rw [if_neg (fun h => hne ⟨h.2.2.2.2.1, h.2.2.2.2.2⟩)]
      have hmem : (((px : Int), (py : Int)) ∈ q :: rest) ↔ ((px : Int), (py : Int)) ∈ rest := by
        rw [List.mem_cons]
        constructor
        · rintro (h | h)
          · exact absurd h.symm hq
          · exact h
        · exact Or.inr
      rw [hmem]

/-- A sequence of `PAL_line` calls between `char` points, with fuel for the
longest, draws the concatenation of their closed forms. -/
theorem PAL_lines_eq (PAL_y : Nat) (sg : Bool) (fuel : Nat) (mode : Nat) :
    ∀ (lines : List (Int × Int × Int × Int)) (screen : Nat → Byte),
      (∀ l ∈ lines, isChar sg l.1 ∧ isChar sg l.2.1 ∧ isChar sg l.2.2.1 ∧ isChar sg l.2.2.2 ∧
        max (l.2.2.1 - l.1).natAbs (l.2.2.2 - l.2.1).natAbs ≤ fuel) →
      PAL_lines PAL_y sg fuel mode screen lines
        = some (PAL_draw PAL_y mode screen
            (lines.flatMap (fun l => linePixels l.1 l.2.1 l.2.2.1 l.2.2.2))) := by
  intro lines
  induction lines with
  | nil => intro screen _; rfl
  | cons l rest ih =>
    intro screen h
    obtain ⟨h1, h2, h3, h4, h5⟩ := h l (List.mem_cons_self _ _)
    rw [PAL_lines, PAL_line, PAL_line_calls_eq sg fuel l.1 l.2.1 l.2.2.1 l.2.2.2 h1 h2 h3 h4 h5]
    simp only [Option.map_some', Option.some_bind]
    rw [ih _ (fun m hm => h m (List.mem_cons_of_mem _ hm)), List.flatMap_cons, PAL_draw_append]

/-! ## Horizontal and vertical lines -/

theorem lineMinor_minor_zero (M i : Nat) : lineMinor M 0 i = 0 := by
  unfold lineMinor
  rcases Nat.eq_zero_or_pos M with h | h
  · subst h; simp
  · simp only [Nat.mul_zero, Nat.zero_mul, Nat.zero_add]
    exact Nat.div_eq_of_lt (by omega)

/-- The pixels of a vertical line. -/
theorem mem_linePixels_vertical (x y0 y1 : Int) (q : Int × Int) :
    q ∈ linePixels x y0 x y1 ↔ q.1 = x ∧ min y0 y1 ≤ q.2 ∧ q.2 ≤ max y0 y1 := by
  have hlt : ¬ (y1 - y0).natAbs < (x - x).natAbs := by simp
  rw [linePixels_y x y0 x y1 hlt, mem_map_swap, List.mem_map]
  simp only [sub_self, Int.natAbs_zero, lineMinor_minor_zero, Nat.cast_zero, mul_zero, add_zero,
    List.mem_range]
  constructor
  · rintro ⟨i, hi, he⟩
    have e1 : q.2 = y0 + (if y1 - y0 < 0 then -1 else 1) * (i : Int) :=
      (congrArg Prod.fst he).symm
    have e2 : q.1 = x := (congrArg Prod.snd he).symm
    refine ⟨e2, ?_, ?_⟩ <;> rw [e1] <;> split <;> omega
  · rintro ⟨e2, h1, h2⟩
    refine ⟨(q.2 - y0).natAbs, by omega, ?_⟩
    apply Prod.ext
    · simp only [Prod.fst_swap]
      split <;> omega
    · simp only [Prod.snd_swap]
      exact e2.symm

/-- The pixels of a horizontal line. -/
theorem mem_linePixels_horizontal (x0 x1 y : Int) (q : Int × Int) :
    q ∈ linePixels x0 y x1 y ↔ q.2 = y ∧ min x0 x1 ≤ q.1 ∧ q.1 ≤ max x0 x1 := by
  by_cases hlt : (y - y).natAbs < (x1 - x0).natAbs
  · rw [linePixels_x x0 y x1 y hlt, List.mem_map]
    simp only [sub_self, Int.natAbs_zero, lineMinor_minor_zero, Nat.cast_zero, mul_zero, add_zero,
      List.mem_range]
    constructor
    · rintro ⟨i, hi, he⟩
      have e1 : q.1 = x0 + (if x1 - x0 < 0 then -1 else 1) * (i : Int) :=
        (congrArg Prod.fst he).symm
      have e2 : q.2 = y := (congrArg Prod.snd he).symm
      refine ⟨e2, ?_, ?_⟩ <;> rw [e1] <;> split <;> omega
    · rintro ⟨e2, h1, h2⟩
      refine ⟨(q.1 - x0).natAbs, by omega, ?_⟩
      apply Prod.ext
      · simp only
        split <;> omega
      · simp only
        exact e2.symm
  · have hx : x1 = x0 := by
      simp only [sub_self, Int.natAbs_zero, Nat.not_lt, Nat.le_zero_eq, Int.natAbs_eq_zero] at hlt
      omega
    subst hx
    rw [mem_linePixels_vertical]
    constructor
    · rintro ⟨h1, h2, h3⟩
      refine ⟨by omega, by omega, by omega⟩
    · rintro ⟨h1, h2, h3⟩
      refine ⟨by omega, by omega, by omega⟩
/-! ## C18: `PAL_box` -/

theorem isChar_of_range (sg : Bool) (v : Int) (h0 : 0 ≤ v) (h1 : v < 128) : isChar sg v := by
  unfold isChar
  cases sg <;> simp <;> omega

/-- The loop of `PAL_box` from `x0` up to `x1`: one vertical line per column
`x0, ..., x1 - 1`. -/
theorem PAL_box_loop_eq (sg : Bool) (y0 x1 y1 : Int) (hx1 : x1 < 128) :
    ∀ (n fuel : Nat) (x0 : Int), 0 ≤ x0 → x0 + (n : Int) = x1 → n ≤ fuel →
      PAL_box_loop sg y0 x1 y1 fuel x0
        = some ((List.range n).map (fun (k : Nat) => (x0 + (k : Int), y0, x0 + (k : Int), y1))) := by
  intro n
  induction n with
  | zero =>
    intro fuel x0 _ hx _
    have : x0 = x1 := by omega
    cases fuel <;> simp [PAL_box_loop, this]
  | succ n ih =>
    intro fuel x0 h0 hx hfuel
    obtain ⟨fuel, rfl⟩ : ∃ f, fuel = f + 1 := ⟨fuel - 1, by omega⟩
    have hne : x0 ≠ x1 := by omega
    rw [PAL_box_loop, if_neg hne, toChar_id sg (x0 + 1) (isChar_of_range sg _ (by omega) (by omega)),
      ih fuel (x0 + 1) (by omega) (by push_cast at hx; omega) (by omega)]
    simp only [Option.map_some', Option.some.injEq]
    rw [List.range_succ_eq_map, List.map_cons, List.map_map]
    simp only [Nat.cast_zero, add_zero, List.cons.injEq, true_and]
    apply List.map_congr_left
    intro k _
    simp only [Function.comp_apply, Nat.succ_eq_add_one, Nat.cast_add, Nat.cast_one]
    have e : x0 + 1 + (k : Int) = x0 + ((k : Int) + 1) := by ring
    rw [e]

/-- The pixels of the vertical lines of a box. -/
theorem mem_box_pixels (x0 y0 y1 : Int) (n : Nat) (q : Int × Int) :
    q ∈ ((List.range n).map (fun (k : Nat) => (x0 + (k : Int), y0, x0 + (k : Int), y1))).flatMap
        (fun l => linePixels l.1 l.2.1 l.2.2.1 l.2.2.2) ↔
      (x0 ≤ q.1 ∧ q.1 < x0 + (n : Int)) ∧ min y0 y1 ≤ q.2 ∧ q.2 ≤ max y0 y1 := by
  rw [List.mem_flatMap]
  constructor
  · rintro ⟨l, hl, hq⟩
    obtain ⟨k, hk, rfl⟩ := List.mem_map.1 hl
    have hk' := List.mem_range.1 hk
    simp only at hq
    rw [mem_linePixels_vertical] at hq
    obtain ⟨h1, h2, h3⟩ := hq
    exact ⟨⟨by omega, by omega⟩, h2, h3⟩
  · rintro ⟨⟨h1, h2⟩, h3, h4⟩
    refine ⟨(x0 + ((q.1 - x0).toNat : Int), y0, x0 + ((q.1 - x0).toNat : Int), y1),
      List.mem_map.2 ⟨(q.1 - x0).toNat, List.mem_range.2 (by omega), rfl⟩, ?_⟩
    simp only
    rw [mem_linePixels_vertical]
    exact ⟨by omega, h3, h4⟩

/-- C18: for `0 <= x0 <= x1 < 128` and `y0`, `y1` in `[0,PAL_y)`, `PAL_box` is
exactly the sequence of vertical lines `PAL_line(x,y0,x,y1,mode)` for
`x = x0, ..., x1 - 1`; with `PAL_COLOR_WHITE` a pixel is set afterwards iff it
was set before or `x0 <= x < x1` and `min(y0,y1) <= y <= max(y0,y1)`.  Column
`x1` is not drawn, and with `x0 = x1` nothing is drawn. -/
theorem C18_box (PAL_y : Nat) (sg : Bool) (fuel : Nat) (screen : Nat → Byte)
    (x0 y0 x1 y1 : Int) (mode : Nat) (hP : PAL_y ≤ 255)
    (hx0 : 0 ≤ x0) (hx01 : x0 ≤ x1) (hx1 : x1 < 128)
    (hy0 : 0 ≤ y0 ∧ y0 < (PAL_y : Int)) (hy1 : 0 ≤ y1 ∧ y1 < (PAL_y : Int))
    (hcy0 : isChar sg y0) (hcy1 : isChar sg y1)
    (hfuel : max (x1 - x0).natAbs (y1 - y0).natAbs ≤ fuel) :
    PAL_box_loop sg y0 x1 y1 fuel x0
      = some ((List.range (x1 - x0).toNat).map
          (fun (k : Nat) => (x0 + (k : Int), y0, x0 + (k : Int), y1))) ∧
    (∃ scr, PAL_box PAL_y sg fuel screen x0 y0 x1 y1 mode = some scr ∧
      PAL_lines PAL_y sg fuel mode screen
        ((List.range (x1 - x0).toNat).map
          (fun (k : Nat) => (x0 + (k : Int), y0, x0 + (k : Int), y1))) = some scr ∧
      (mode = PAL_COLOR_WHITE → ∀ px py : Nat, px < 128 →
        (pixel scr px py = true ↔
          pixel screen px py = true ∨
            (x0 ≤ (px : Int) ∧ (px : Int) < x1 ∧ min y0 y1 ≤ (py : Int) ∧ (py : Int) ≤ max y0 y1))) ∧
      (∀ px py : Nat, px < 128 → (px : Int) = x1 → mode = PAL_COLOR_WHITE →
        pixel scr px py = pixel screen px py) ∧
      (x0 = x1 → scr = screen)) := by
  have hloop := PAL_box_loop_eq sg y0 x1 y1 hx1 (x1 - x0).toNat fuel x0 hx0 (by omega) (by omega)
  have hlines := PAL_lines_eq PAL_y sg fuel mode
    ((List.range (x1 - x0).toNat).map (fun (k : Nat) => (x0 + (k : Int), y0, x0 + (k : Int), y1)))
    screen (by
      intro l hl
      obtain ⟨k, hk, rfl⟩ := List.mem_map.1 hl
      have hk' := List.mem_range.1 hk
      have hc := isChar_of_range sg (x0 + (k : Int)) (by omega) (by omega)
      exact ⟨hc, hcy0, hc, hcy1, by simp only; omega⟩)
  have hwhite : ∀ px py : Nat, px < 128 →
      (pixel (PAL_draw PAL_y PAL_COLOR_WHITE screen
          (((List.range (x1 - x0).toNat).map
            (fun (k : Nat) => (x0 + (k : Int), y0, x0 + (k : Int), y1))).flatMap
            (fun l => linePixels l.1 l.2.1 l.2.2.1 l.2.2.2))) px py = true ↔
        pixel screen px py = true ∨
          (x0 ≤ (px : Int) ∧ (px : Int) < x1 ∧ min y0 y1 ≤ (py : Int) ∧ (py : Int) ≤ max y0 y1)) := by
    intro px py hpx
    rw [pixel_draw_white PAL_y hP _ screen px py hpx, mem_box_pixels]
    simp only
    constructor
    · rintro (h | ⟨⟨⟨h1, h2⟩, h3, h4⟩, _⟩)
      · exact Or.inl h
      · exact Or.inr ⟨h1, by omega, h3, h4⟩
    · rintro (h | ⟨h1, h2, h3, h4⟩)
      · exact Or.inl h
      · refine Or.inr ⟨⟨⟨h1, by omega⟩, h3, h4⟩, ?_⟩
        have : (py : Int) < (PAL_y : Int) := by
          rcases le_total y0 y1 with h | h
          · rw [max_eq_right h] at h4; omega
          · rw [max_eq_left h] at h4; omega
        omega
  refine ⟨hloop, _, ?_, hlines, ?_, ?_, ?_⟩
  · unfold PAL_box
    rw [hloop, Option.some_bind, hlines]
  · intro hm px py hpx
    rw [hm]
    exact hwhite px py hpx
  · intro px py hpx hpx1 hm
    rw [hm]
    have h := hwhite px py hpx
    cases hb : pixel screen px py
    · cases ha : pixel (PAL_draw PAL_y PAL_COLOR_WHITE screen
          (((List.range (x1 - x0).toNat).map
            (fun (k : Nat) => (x0 + (k : Int), y0, x0 + (k : Int), y1))).flatMap
            (fun l => linePixels l.1 l.2.1 l.2.2.1 l.2.2.2))) px py
      · rfl
      · rw [ha, hb] at h
        rcases h.1 rfl with h | h
        · exact absurd h (by simp)
        · omega
    · rw [hb] at h
      exact h.2 (Or.inl rfl)
  · intro h
    have : (x1 - x0).toNat = 0 := by omega
    rw [this]
    rfl

/-- C18 at the box from `(2,1)` to `(5,3)`, mode white, on a black framebuffer of
height 120, with unsigned `char`. -/
theorem C18_box_witness :
    ((120 : Nat) ≤ 255 ∧ (0 : Int) ≤ 2 ∧ (2 : Int) ≤ 5 ∧ (5 : Int) < 128 ∧
      ((0 : Int) ≤ 1 ∧ (1 : Int) < ((120 : Nat) : Int)) ∧
      ((0 : Int) ≤ 3 ∧ (3 : Int) < ((120 : Nat) : Int)) ∧
      isChar false 1 ∧ isChar false 3 ∧
      max ((5 : Int) - 2).natAbs ((3 : Int) - 1).natAbs ≤ 255) ∧
    (PAL_box_loop false 1 5 3 255 2
      = some ((List.range ((5 : Int) - 2).toNat).map
          (fun (k : Nat) => ((2 : Int) + (k : Int), (1 : Int), (2 : Int) + (k : Int), (3 : Int)))) ∧
    (∃ scr, PAL_box 120 false 255 (fun _ => 0) 2 1 5 3 PAL_COLOR_WHITE = some scr ∧
      PAL_lines 120 false 255 PAL_COLOR_WHITE (fun _ => 0)
        ((List.range ((5 : Int) - 2).toNat).map
          (fun (k : Nat) => ((2 : Int) + (k : Int), (1 : Int), (2 : Int) + (k : Int), (3 : Int))))
        = some scr ∧
      (PAL_COLOR_WHITE = PAL_COLOR_WHITE → ∀ px py : Nat, px < 128 →
        (pixel scr px py = true ↔
          pixel (fun _ => 0) px py = true ∨
            ((2 : Int) ≤ (px : Int) ∧ (px : Int) < 5 ∧ min (1 : Int) 3 ≤ (py : Int) ∧
              (py : Int) ≤ max (1 : Int) 3))) ∧
      (∀ px py : Nat, px < 128 → (px : Int) = 5 → PAL_COLOR_WHITE = PAL_COLOR_WHITE →
        pixel scr px py = pixel (fun _ => 0) px py) ∧
      ((2 : Int) = 5 → scr = (fun _ => 0)))) :=
  ⟨⟨by decide, by decide, by decide, by decide, ⟨by decide, by decide⟩, ⟨by decide, by decide⟩,
      by decide, by decide, by decide⟩,
    C18_box 120 false 255 (fun _ => 0) 2 1 5 3 PAL_COLOR_WHITE (by decide) (by decide) (by decide)
      (by decide) ⟨by decide, by decide⟩ ⟨by decide, by decide⟩ (by decide) (by decide)
      (by decide)⟩

/-! ## C19: `PAL_rectangle` -/

/-- C19: for corners with `0 <= x0 <= x1 < 128` and `y0 <= y1 < PAL_y`, after
`PAL_rectangle(x0,y0,x1,y1,PAL_COLOR_WHITE)` a pixel is set iff it was set
before or lies on the perimeter (`x0 <= x <= x1`, `y0 <= y <= y1` and `x = x0`
or `x = x1` or `y = y0` or `y = y1`); so no interior or exterior pixel
changes. -/
theorem C19_rectangle (PAL_y : Nat) (sg : Bool) (fuel : Nat) (screen : Nat → Byte)
    (x0 y0 x1 y1 : Int) (hP : PAL_y ≤ 255)
    (hx0 : 0 ≤ x0) (hx01 : x0 ≤ x1) (hx1 : x1 < 128)
    (hy01 : y0 ≤ y1) (hy1 : y1 < (PAL_y : Int))
    (hcy0 : isChar sg y0) (hcy1 : isChar sg y1)
    (hfuel : max (x1 - x0).natAbs (y1 - y0).natAbs ≤ fuel) :
    ∃ scr, PAL_rectangle PAL_y sg fuel screen x0 y0 x1 y1 PAL_COLOR_WHITE = some scr ∧
      (∀ px py : Nat, px < 128 →
        (pixel scr px py = true ↔
          pixel screen px py = true ∨
            (x0 ≤ (px : Int) ∧ (px : Int) ≤ x1 ∧ y0 ≤ (py : Int) ∧ (py : Int) ≤ y1 ∧
              ((px : Int) = x0 ∨ (px : Int) = x1 ∨ (py : Int) = y0 ∨ (py : Int) = y1)))) ∧
      (∀ px py : Nat, px < 128 →
        ¬ (x0 ≤ (px : Int) ∧ (px : Int) ≤ x1 ∧ y0 ≤ (py : Int) ∧ (py : Int) ≤ y1 ∧
              ((px : Int) = x0 ∨ (px : Int) = x1 ∨ (py : Int) = y0 ∨ (py : Int) = y1)) →
        pixel scr px py = pixel screen px py) := by
  have hcx0 := isChar_of_range sg x0 hx0 (by omega)
  have hcx1 := isChar_of_range sg x1 (by omega) hx1
  have hlines := PAL_lines_eq PAL_y sg fuel PAL_COLOR_WHITE (PAL_rectangle_lines x0 y0 x1 y1)
    screen (by
      intro l hl
      simp only [PAL_rectangle_lines, List.mem_cons, List.mem_singleton, List.not_mem_nil,
        or_false] at hl
      rcases hl with rfl | rfl | rfl | rfl
      · exact ⟨hcx0, hcy0, hcx1, hcy0, by simp only; omega⟩
      · exact ⟨hcx1, hcy0, hcx1, hcy1, by simp only; omega⟩
      · exact ⟨hcx1, hcy1, hcx0, hcy1, by simp only; omega⟩
      · exact ⟨hcx0, hcy1, hcx0, hcy0, by simp only; omega⟩)
  have hiff : ∀ px py : Nat, px < 128 →
      (pixel (PAL_draw PAL_y PAL_COLOR_WHITE screen
          ((PAL_rectangle_lines x0 y0 x1 y1).flatMap
            (fun l => linePixels l.1 l.2.1 l.2.2.1 l.2.2.2))) px py = true ↔
        pixel screen px py = true ∨
          (x0 ≤ (px : Int) ∧ (px : Int) ≤ x1 ∧ y0 ≤ (py : Int) ∧ (py : Int) ≤ y1 ∧
            ((px : Int) = x0 ∨ (px : Int) = x1 ∨ (py : Int) = y0 ∨ (py : Int) = y1))) := by
    intro px py hpx
    rw [pixel_draw_white PAL_y hP _ screen px py hpx]
    simp only [PAL_rectangle_lines, List.flatMap_cons, List.flatMap_nil, List.append_nil,
      List.mem_append, mem_linePixels_horizontal, mem_linePixels_vertical,
      min_eq_left hx01, max_eq_right hx01, min_eq_left hy01, max_eq_right hy01,
      min_eq_right hx01, max_eq_left hx01, min_eq_right hy01, max_eq_left hy01]
    constructor
    · rintro (h | ⟨h, _⟩)
      · exact Or.inl h
      · right
        rcases h with h | h | h | h <;> omega
    · rintro (h | h)
      · exact Or.inl h
      · right
        refine ⟨?_, by omega⟩
        obtain ⟨h1, h2, h3, h4, h5 | h5 | h5 | h5⟩ := h
        · exact Or.inr (Or.inr (Or.inr ⟨h5, h3, h4⟩))
        · exact Or.inr (Or.inl ⟨h5, h3, h4⟩)
        · exact Or.inl ⟨h5, h1, h2⟩
        · exact Or.inr (Or.inr (Or.inl ⟨h5, h1, h2⟩))
  refine ⟨_, hlines, hiff, ?_⟩
  intro px py hpx hnot
  have h := hiff px py hpx
  cases hb : pixel screen px py
  · cases ha : pixel (PAL_draw PAL_y PAL_COLOR_WHITE screen
        ((PAL_rectangle_lines x0 y0 x1 y1).flatMap
          (fun l => linePixels l.1 l.2.1 l.2.2.1 l.2.2.2))) px py
    · rfl
    · rw [ha, hb] at h
      rcases h.1 rfl with h | h
      · exact absurd h (by simp)
      · exact absurd h hnot
  · rw [hb] at h
    exact h.2 (Or.inl rfl)

/-- C19 at the rectangle from `(2,1)` to `(5,3)` on a black framebuffer of
height 120, with unsigned `char`. -/
theorem C19_rectangle_witness :
    ((120 : Nat) ≤ 255 ∧ (0 : Int) ≤ 2 ∧ (2 : Int) ≤ 5 ∧ (5 : Int) < 128 ∧
      (1 : Int) ≤ 3 ∧ (3 : Int) < ((120 : Nat) : Int) ∧
      isChar false 1 ∧ isChar false 3 ∧
      max ((5 : Int) - 2).natAbs ((3 : Int) - 1).natAbs ≤ 255) ∧
    ∃ scr, PAL_rectangle 120 false 255 (fun _ => 0) 2 1 5 3 PAL_COLOR_WHITE = some scr ∧
      (∀ px py : Nat, px < 128 →
        (pixel scr px py = true ↔
          pixel (fun _ => 0) px py = true ∨
            ((2 : Int) ≤ (px : Int) ∧ (px : Int) ≤ 5 ∧ (1 : Int) ≤ (py : Int) ∧ (py : Int) ≤ 3 ∧
              ((px : Int) = 2 ∨ (px : Int) = 5 ∨ (py : Int) = 1 ∨ (py : Int) = 3)))) ∧
      (∀ px py : Nat, px < 128 →
        ¬ ((2 : Int) ≤ (px : Int) ∧ (px : Int) ≤ 5 ∧ (1 : Int) ≤ (py : Int) ∧ (py : Int) ≤ 3 ∧
              ((px : Int) = 2 ∨ (px : Int) = 5 ∨ (py : Int) = 1 ∨ (py : Int) = 3)) →
        pixel scr px py = pixel (fun _ => 0) px py) :=
  ⟨⟨by decide, by decide, by decide, by decide, by decide, by decide, by decide,
      by decide, by decide⟩,
    C19_rectangle 120 false 255 (fun _ => 0) 2 1 5 3 (by decide) (by decide) (by decide)
      (by decide) (by decide) (by decide) (by decide) (by decide) (by decide)⟩
/-! ## PAL_char -/

theorem flatMap_range_succ {α : Type} (f : Nat → List α) (n : Nat) :
    (List.range (n + 1)).flatMap f = f 0 ++ (List.range n).flatMap (fun k => f (k + 1)) := by
  rw [List.range_succ_eq_map, List.flatMap_cons, List.flatMap_map]

theorem getElem?_eq_some_getD (l : List Nat) (k : Nat) (h : k < l.length) :
    l[k]? = some (l.getD k 0) := by
  rw [List.getD_eq_getElem?_getD, List.getElem?_eq_getElem h]
  rfl

/-- The loop over `j` of `PAL_char`: cell `j` is drawn from row
`(py + j * my) mod 256` with the pattern shifted `j` times. -/
theorem PAL_char_column_eq (sg : Bool) (mx my px : Nat) :
    ∀ (n c py : Nat), py < 256 →
      PAL_char_column sg mx my px n c py
        = (List.range n).flatMap (fun (j : Nat) =>
            PAL_char_cell sg mx my px ((py + j * my) % 256) (c >>> j)) := by
  intro n
  induction n with
  | zero => intro c py _; rfl
  | succ n ih =>
    intro c py hpy
    refine Eq.trans ?_ (flatMap_range_succ _ n).symm
    rw [PAL_char_column, ih (c >>> 1) ((py + my) % 256) (Nat.mod_lt _ (by decide))]
    have h0 : (py + 0 * my) % 256 = py := by
      rw [Nat.zero_mul, Nat.add_zero]; exact Nat.mod_eq_of_lt hpy
    have e1 : ∀ j : Nat, ((py + my) % 256 + j * my) % 256 = (py + (j + 1) * my) % 256 := by
      intro j
      rw [Nat.succ_mul]; omega
    have e2 : ∀ j : Nat, c >>> 1 >>> j = c >>> (j + 1) := by
      intro j
      rw [Nat.add_comm j 1, Nat.shiftRight_add]
    simp only [h0, e1, e2, Nat.shiftRight_zero]

/-- The loop over `i` of `PAL_char` inside the table: column `i + k` is
drawn from the table byte at `ptr + k`. -/
theorem PAL_char_columns_eq (sg : Bool) (table : List Nat) (x y mx my : Nat) (hy : y < 256) :
    ∀ (n i ptr : Nat), ptr + n ≤ table.length →
      PAL_char_columns sg table x y mx my n i ptr
        = some ((List.range n).flatMap (fun (k : Nat) =>
            (List.range 8).flatMap (fun (j : Nat) =>
              PAL_char_cell sg mx my ((x + (i + k) * mx) % 256) ((y + j * my) % 256)
                (table.getD (ptr + k) 0 >>> j)))) := by
  intro n
  induction n with
  | zero => intro i ptr _; rfl
  | succ n ih =>
    intro i ptr hptr
    have hlt : ptr < table.length := by omega
    refine Eq.trans ?_ (congrArg some (flatMap_range_succ _ n).symm)
    rw [PAL_char_columns, getElem?_eq_some_getD table ptr hlt]
    simp only []
    rw [ih (i + 1) (ptr + 1) (by omega), Option.map_some', PAL_char_column_eq sg mx my _ 8 _ y hy]
    have e1 : ∀ k : Nat, i + 1 + k = i + (k + 1) := by intro k; omega
    have e2 : ∀ k : Nat, ptr + 1 + k = ptr + (k + 1) := by intro k; omega
    simp only [e1, e2, Nat.add_zero]

set_option maxRecDepth 100000 in
theorem PAL_charTable_length : PAL_charTable.length = 1536 := by
  rfl

theorem cell_bound (i n m s : Nat) (hi : i < n) (hs : s < m) : i * m + s < n * m := by
  have h1 : (i + 1) * m ≤ n * m := Nat.mul_le_mul_right m hi
  rw [Nat.succ_mul] at h1
  omega

theorem cell_div (i m s : Nat) (hs : s < m) : (i * m + s) / m = i := by
  rw [Nat.add_comm, Nat.add_mul_div_right _ _ (by omega), Nat.div_eq_of_lt hs, Nat.zero_add]

theorem cell_decompose (d m n : Nat) (hd : d < n * m) :
    d / m < n ∧ d % m < m ∧ d = d / m * m + d % m := by
  have hm : 0 < m := by
    rcases Nat.eq_zero_or_pos m with h | h
    · subst h; simp at hd
    · exact h
  refine ⟨(Nat.div_lt_iff_lt_mul hm).2 hd, Nat.mod_lt _ hm, ?_⟩
  have := Nat.div_add_mod d m
  rw [Nat.mul_comm] at this
  omega

theorem and_one_eq_testBit (c j : Nat) : (c >>> j) &&& 1 = if c.testBit j then 1 else 0 := by
  rw [Nat.and_one_is_mod, Nat.testBit_to_div_mod, Nat.shiftRight_eq_div_pow]
  by_cases h : c / 2 ^ j % 2 = 1
  · simp [h]
  · have : c / 2 ^ j % 2 = 0 := by omega
    simp [this]

/-- The `PAL_setPixel` calls of `PAL_char` for a glyph cell rectangle that
lies inside the screen: no coordinate wraps. -/
theorem PAL_char_calls_eq (PAL_y : Nat) (sg : Bool) (x y c size : Nat)
    (hP : PAL_y ≤ 255) (hs : sg = true → PAL_y ≤ 128) (hc : c < 256)
    (hx : x + 6 * (size &&& 0x0f) ≤ 128) (hy : y + 8 * (size >>> 4) ≤ PAL_y) :
    PAL_char_calls sg x y c size
      = some ((List.range 6).flatMap (fun (i : Nat) =>
          (List.range 8).flatMap (fun (j : Nat) =>
            (List.range (size &&& 0x0f)).flatMap (fun (sx : Nat) =>
              (List.range (size >>> 4)).map (fun (sy : Nat) =>
                (((x + i * (size &&& 0x0f) + sx : Nat) : Int),
                 ((y + j * (size >>> 4) + sy : Nat) : Int),
                 if (PAL_charTable.getD (6 * c + i) 0).testBit j then 1 else 0)))))) := by
  unfold PAL_char_calls
  simp only []
  rw [PAL_char_columns_eq sg PAL_charTable x y _ _ (by omega) 6 0 (c * 6)
    (by rw [PAL_charTable_length]; omega)]
  congr 1
  apply List.flatMap_congr
  intro i hi
  apply List.flatMap_congr
  intro j hj
  unfold PAL_char_cell
  apply List.flatMap_congr
  intro sx hsx
  apply List.map_congr_left
  intro sy hsy
  rw [List.mem_range] at hi hj hsx hsy
  have bx := cell_bound i 6 _ sx hi hsx
  have by1 := cell_bound j 8 _ sy hj hsy
  have e1 : (x + (0 + i) * (size &&& 0x0f)) % 256 = x + i * (size &&& 0x0f) := by
    rw [Nat.zero_add]; exact Nat.mod_eq_of_lt (by omega)
  have e2 : (y + j * (size >>> 4)) % 256 = y + j * (size >>> 4) :=
    Nat.mod_eq_of_lt (by omega)
  have e3 : c * 6 + i = 6 * c + i := by omega
  rw [e1, e2, e3, and_one_eq_testBit]
  have c1 : toChar sg (((x + i * (size &&& 0x0f) : Nat) : Int) + (sx : Int))
      = ((x + i * (size &&& 0x0f) + sx : Nat) : Int) := by
    rw [toChar_id sg _ (isChar_of_range sg _ (by omega) (by omega))]
    push_cast
    rfl
  have c2 : toChar sg (((y + j * (size >>> 4) : Nat) : Int) + (sy : Int))
      = ((y + j * (size >>> 4) + sy : Nat) : Int) := by
    have hch : isChar sg (((y + j * (size >>> 4) : Nat) : Int) + (sy : Int)) := by
      unfold isChar
      cases sg
      · simp only [Bool.false_eq_true, if_false]; omega
      · have := hs rfl
        simp only [if_true]; omega
    rw [toChar_id sg _ hch]
    push_cast
    rfl
  rw [c1, c2]

/-- A pixel after a sequence of `PAL_setPixel` calls of modes 0 and 1 whose
mode at each in-screen position is given by `f`: a pixel that is addressed
takes the value `f`, any other pixel keeps its value. -/
theorem pixel_drawModes (PAL_y : Nat) (hP : PAL_y ≤ 255) (f : Nat → Nat → Bool)
    (calls : List (Int × Int × Nat)) :
    ∀ (screen : Nat → Byte),
      (∀ q ∈ calls, ∀ (px py : Nat), q.1 = (px : Int) → q.2.1 = (py : Int) →
        q.2.2 = if f px py then 1 else 0) →
      ∀ (px py : Nat), px < 128 →
        ((∃ q ∈ calls, q.1 = (px : Int) ∧ q.2.1 = (py : Int) ∧ py < PAL_y) →
          pixel (PAL_drawModes PAL_y screen calls) px py = f px py) ∧
        ((¬ ∃ q ∈ calls, q.1 = (px : Int) ∧ q.2.1 = (py : Int) ∧ py < PAL_y) →
          pixel (PAL_drawModes PAL_y screen calls) px py = pixel screen px py) := by
  induction calls with
  | nil =>
    intro screen _ px py _
    simp [PAL_drawModes]
  | cons q rest ih =>
    intro screen hf px py hpx
    have hstep : PAL_drawModes PAL_y screen (q :: rest)
        = PAL_drawModes PAL_y (PAL_setPixel PAL_y screen q.1 q.2.1 q.2.2) rest := rfl
    have hrest := ih (PAL_setPixel PAL_y screen q.1 q.2.1 q.2.2)
      (fun q' hq' => hf q' (List.mem_cons_of_mem _ hq')) px py hpx
    have hset := pixel_setPixel PAL_y screen q.1 q.2.1 q.2.2 hP px py hpx
    rw [hstep]
    by_cases hr : ∃ q' ∈ rest, q'.1 = (px : Int) ∧ q'.2.1 = (py : Int) ∧ py < PAL_y
    · have hall : ∃ q' ∈ q :: rest, q'.1 = (px : Int) ∧ q'.2.1 = (py : Int) ∧ py < PAL_y := by
        obtain ⟨q', hq', h⟩ := hr
        exact ⟨q', List.mem_cons_of_mem _ hq', h⟩
      exact ⟨fun _ => hrest.1 hr, fun hn => absurd hall hn⟩
    · rw [hrest.2 hr, hset]
      by_cases hq : q.1 = (px : Int) ∧ q.2.1 = (py : Int) ∧ py < PAL_y
      · have hall : ∃ q' ∈ q :: rest, q'.1 = (px : Int) ∧ q'.2.1 = (py : Int) ∧ py < PAL_y :=
          ⟨q, List.mem_cons_self _ _, hq⟩
        refine ⟨fun _ => ?_, fun hn => absurd hall hn⟩
        have hm := hf q (List.mem_cons_self _ _) px py hq.1 hq.2.1
        rw [if_pos ⟨by omega, by omega, by omega, by omega, hq.1, hq.2.1⟩, hm]
        cases f px py <;> rfl
      · have hnone : ¬ ∃ q' ∈ q :: rest, q'.1 = (px : Int) ∧ q'.2.1 = (py : Int) ∧ py < PAL_y := by
          rintro ⟨q', hq', h⟩
          rcases List.mem_cons.1 hq' with he | hm
          · subst he; exact hq h
          · exact hr ⟨q', hm, h⟩
        refine ⟨fun h => absurd h hnone, fun _ => ?_⟩
        rw [if_neg]
        rintro ⟨_, _, _, h4, h5, h6⟩
        exact hq ⟨h5, h6, by omega⟩
/-- The pixels after `PAL_char` when the magnified glyph lies inside the
screen: each pixel of cell `(i, j)` takes the value of bit `j` of the table
byte `6 * c + i`, and the pixels outside the glyph rectangle keep theirs. -/
theorem PAL_char_pixels (PAL_y : Nat) (sg : Bool) (screen : Nat → Byte) (x y c size : Nat)
    (hP : PAL_y ≤ 255) (hs : sg = true → PAL_y ≤ 128) (hc : c < 256)
    (hx : x + 6 * (size &&& 0x0f) ≤ 128) (hy : y + 8 * (size >>> 4) ≤ PAL_y) :
    ∃ scr, PAL_char PAL_y sg screen x y c size = some scr ∧
      (∀ i j sx sy : Nat, i < 6 → j < 8 → sx < size &&& 0x0f → sy < size >>> 4 →
        pixel scr (x + i * (size &&& 0x0f) + sx) (y + j * (size >>> 4) + sy)
          = (PAL_charTable.getD (6 * c + i) 0).testBit j) ∧
      (∀ px py : Nat, px < 128 →
        ¬ (x ≤ px ∧ px < x + 6 * (size &&& 0x0f) ∧ y ≤ py ∧ py < y + 8 * (size >>> 4)) →
        pixel scr px py = pixel screen px py) := by
  have hcalls := PAL_char_calls_eq PAL_y sg x y c size hP hs hc hx hy
  generalize hmx : size &&& 0x0f = mx at hcalls hx ⊢
  generalize hmy : size >>> 4 = my at hcalls hy ⊢
  generalize hL : ((List.range 6).flatMap (fun (i : Nat) =>
          (List.range 8).flatMap (fun (j : Nat) =>
            (List.range mx).flatMap (fun (sx : Nat) =>
              (List.range my).map (fun (sy : Nat) =>
                (((x + i * mx + sx : Nat) : Int),
                 ((y + j * my + sy : Nat) : Int),
                 if (PAL_charTable.getD (6 * c + i) 0).testBit j then 1 else 0)))))) = L
    at hcalls
  have hmem : ∀ q : Int × Int × Nat, q ∈ L ↔
      ∃ i j sx sy : Nat, i < 6 ∧ j < 8 ∧ sx < mx ∧ sy < my ∧
        q = (((x + i * mx + sx : Nat) : Int), ((y + j * my + sy : Nat) : Int),
          if (PAL_charTable.getD (6 * c + i) 0).testBit j then 1 else 0) := by
    intro q
    rw [← hL]
    simp only [List.mem_flatMap, List.mem_map, List.mem_range]
    constructor
    · rintro ⟨i, hi, j, hj, sx, hsx, sy, hsy, rfl⟩
      exact ⟨i, j, sx, sy, hi, hj, hsx, hsy, rfl⟩
    · rintro ⟨i, j, sx, sy, hi, hj, hsx, hsy, rfl⟩
      exact ⟨i, hi, j, hj, sx, hsx, sy, hsy, rfl⟩
  have hf : ∀ q ∈ L, ∀ (px py : Nat), q.1 = (px : Int) → q.2.1 = (py : Int) →
      q.2.2 = if (fun (px py : Nat) =>
        (PAL_charTable.getD (6 * c + (px - x) / mx) 0).testBit ((py - y) / my)) px py
        then 1 else 0 := by
    intro q hq px py h1 h2
    obtain ⟨i', j', sx', sy', _, _, hsx', hsy', rfl⟩ := (hmem q).1 hq
    simp only at h1 h2 ⊢
    have e1 : px = x + i' * mx + sx' := by omega
    have e2 : py = y + j' * my + sy' := by omega
    have d1 : (px - x) / mx = i' := by
      rw [e1, show x + i' * mx + sx' - x = i' * mx + sx' by omega]
      exact cell_div i' mx sx' hsx'
    have d2 : (py - y) / my = j' := by
      rw [e2, show y + j' * my + sy' - y = j' * my + sy' by omega]
      exact cell_div j' my sy' hsy'
    show _ = if (PAL_charTable.getD (6 * c + (px - x) / mx) 0).testBit ((py - y) / my) then 1 else 0
    rw [d1, d2]
  refine ⟨PAL_drawModes PAL_y screen L, ?_, ?_, ?_⟩
  · unfold PAL_char
    rw [hcalls]
    rfl
  · intro i j sx sy hi hj hsx hsy
    have bx := cell_bound i 6 mx sx hi hsx
    have by1 := cell_bound j 8 my sy hj hsy
    have h := (pixel_drawModes PAL_y hP _ L screen hf (x + i * mx + sx) (y + j * my + sy)
      (by omega)).1 ⟨_, (hmem _).2 ⟨i, j, sx, sy, hi, hj, hsx, hsy, rfl⟩, rfl, rfl, by omega⟩
    rw [h]
    rw [show x + i * mx + sx - x = i * mx + sx by omega,
      show y + j * my + sy - y = j * my + sy by omega, cell_div i mx sx hsx, cell_div j my sy hsy]
  · intro px py hpx hout
    refine (pixel_drawModes PAL_y hP _ L screen hf px py hpx).2 ?_
    rintro ⟨q, hq, h1, h2, _⟩
    obtain ⟨i', j', sx', sy', hi', hj', hsx', hsy', rfl⟩ := (hmem q).1 hq
    simp only at h1 h2
    have bx := cell_bound i' 6 mx sx' hi' hsx'
    have by1 := cell_bound j' 8 my sy' hj' hsy'
    exact hout ⟨by omega, by omega, by omega, by omega⟩

/-- C13: with `mx = size & 0x0F` and `my = size >> 4`, for every character
code `c` and every `(x, y)` with `x + 6*mx <= 128` and `y + 8*my <= PAL_y`,
`PAL_char(x,y,c,size)` returns, and afterwards the pixel
`(x + i*mx + sx, y + j*my + sy)` is set if and only if bit `j` of
`PAL_charTable[6*c + i]` is 1, for all `i < 6`, `j < 8`, `sx < mx`, `sy < my`;
no pixel outside the rectangle `[x, x+6*mx) x [y, y+8*my)` is changed.
(`PAL_y` fits the `unsigned char` row counter, and a signed `char` can only
address the rows below 128.) -/
theorem C13_char_magnification (PAL_y : Nat) (sg : Bool) (screen : Nat → Byte)
    (x y c size : Nat)
    (hP : PAL_y ≤ 255) (hs : sg = true → PAL_y ≤ 128) (hc : c < 256)
    (hx : x + 6 * (size &&& 0x0f) ≤ 128) (hy : y + 8 * (size >>> 4) ≤ PAL_y) :
    ∃ scr, PAL_char PAL_y sg screen x y c size = some scr ∧
      (∀ i j sx sy : Nat, i < 6 → j < 8 → sx < size &&& 0x0f → sy < size >>> 4 →
        6 * c + i < PAL_charTable.length ∧
        (pixel scr (x + i * (size &&& 0x0f) + sx) (y + j * (size >>> 4) + sy) = true ↔
          (PAL_charTable.getD (6 * c + i) 0).testBit j = true)) ∧
      (∀ px py : Nat, px < 128 →
        ¬ (x ≤ px ∧ px < x + 6 * (size &&& 0x0f) ∧ y ≤ py ∧ py < y + 8 * (size >>> 4)) →
        pixel scr px py = pixel screen px py) := by
  obtain ⟨scr, h1, h2, h3⟩ := PAL_char_pixels PAL_y sg screen x y c size hP hs hc hx hy
  refine ⟨scr, h1, ?_, h3⟩
  intro i j sx sy hi hj hsx hsy
  refine ⟨by rw [PAL_charTable_length]; omega, ?_⟩
  rw [h2 i j sx sy hi hj hsx hsy]

/-- Witness of C13: the letter `A` (code 65) at `(10, 20)` with `size = 0x21`
(twice as high as wide) on an empty 120-row screen. -/
theorem C13_char_magnification_witness :
    ((120 : Nat) ≤ 255 ∧ ((false : Bool) = true → (120 : Nat) ≤ 128) ∧ (65 : Nat) < 256 ∧
      10 + 6 * ((0x21 : Nat) &&& 0x0f) ≤ 128 ∧ 20 + 8 * ((0x21 : Nat) >>> 4) ≤ 120) ∧
    ∃ scr, PAL_char 120 false (fun _ => 0) 10 20 65 0x21 = some scr ∧
      (∀ i j sx sy : Nat, i < 6 → j < 8 → sx < (0x21 : Nat) &&& 0x0f → sy < (0x21 : Nat) >>> 4 →
        6 * 65 + i < PAL_charTable.length ∧
        (pixel scr (10 + i * ((0x21 : Nat) &&& 0x0f) + sx) (20 + j * ((0x21 : Nat) >>> 4) + sy)
            = true ↔
          (PAL_charTable.getD (6 * 65 + i) 0).testBit j = true)) ∧
      (∀ px py : Nat, px < 128 →
        ¬ (10 ≤ px ∧ px < 10 + 6 * ((0x21 : Nat) &&& 0x0f) ∧ 20 ≤ py ∧
            py < 20 + 8 * ((0x21 : Nat) >>> 4)) →
        pixel scr px py = pixel (fun _ => 0) px py) :=
  ⟨⟨by decide, by decide, by decide, by decide, by decide⟩,
    C13_char_magnification 120 false (fun _ => 0) 10 20 65 0x21 (by decide) (by decide)
      (by decide) (by decide) (by decide)⟩

/-- Counterexample to C14 as stated: on an all-white framebuffer,
`PAL_char(0,0,' ',0x11)` clears the pixel `(0, 0)`, which lies in a cell whose
glyph bit is 0. -/
theorem C14_counterexample :
    ∃ scr, PAL_char 120 false (fun _ => toByte 255) 0 0 32 0x11 = some scr ∧
      (PAL_charTable.getD (6 * 32 + 0) 0).testBit 0 = false ∧
      pixel (fun _ => toByte 255) 0 0 = true ∧
      pixel scr 0 0 = false := by
  obtain ⟨scr, h1, h2, _⟩ := PAL_char_pixels 120 false (fun _ => toByte 255) 0 0 32 0x11
    (by decide) (by decide) (by decide) (by decide) (by decide)
  have hbit : (PAL_charTable.getD (6 * 32 + 0) 0).testBit 0 = false := by
    set_option maxRecDepth 100000 in decide
  refine ⟨scr, h1, hbit, by decide, ?_⟩
  have h := h2 0 0 0 0 (by decide) (by decide) (by decide) (by decide)
  rw [hbit] at h
  exact h

/-- C14 amended: `PAL_char` draws white on black.  For a magnified glyph inside
the screen, every pixel of a cell whose glyph bit is 0 is clear after the
call, whatever its value before, so it keeps its value only if it was clear. -/
theorem C14_char_background (PAL_y : Nat) (sg : Bool) (screen : Nat → Byte)
    (x y c size : Nat)
    (hP : PAL_y ≤ 255) (hs : sg = true → PAL_y ≤ 128) (hc : c < 256)
    (hx : x + 6 * (size &&& 0x0f) ≤ 128) (hy : y + 8 * (size >>> 4) ≤ PAL_y) :
    ∃ scr, PAL_char PAL_y sg screen x y c size = some scr ∧
      ∀ i j sx sy : Nat, i < 6 → j < 8 → sx < size &&& 0x0f → sy < size >>> 4 →
        (PAL_charTable.getD (6 * c + i) 0).testBit j = false →
        pixel scr (x + i * (size &&& 0x0f) + sx) (y + j * (size >>> 4) + sy) = false ∧
        (pixel scr (x + i * (size &&& 0x0f) + sx) (y + j * (size >>> 4) + sy)
            = pixel screen (x + i * (size &&& 0x0f) + sx) (y + j * (size >>> 4) + sy) ↔
          pixel screen (x + i * (size &&& 0x0f) + sx) (y + j * (size >>> 4) + sy) = false) := by
  obtain ⟨scr, h1, h2, _⟩ := PAL_char_pixels PAL_y sg screen x y c size hP hs hc hx hy
  refine ⟨scr, h1, ?_⟩
  intro i j sx sy hi hj hsx hsy hbit
  have h := h2 i j sx sy hi hj hsx hsy
  rw [hbit] at h
  refine ⟨h, ?_⟩
  rw [h]
  exact eq_comm

/-- Witness of C14 amended: a space (code 32) at `(0, 0)` with `size = 0x11` on
an all-white 120-row screen. -/
theorem C14_char_background_witness :
    ((120 : Nat) ≤ 255 ∧ ((false : Bool) = true → (120 : Nat) ≤ 128) ∧ (32 : Nat) < 256 ∧
      0 + 6 * ((0x11 : Nat) &&& 0x0f) ≤ 128 ∧ 0 + 8 * ((0x11 : Nat) >>> 4) ≤ 120) ∧
    ∃ scr, PAL_char 120 false (fun _ => toByte 255) 0 0 32 0x11 = some scr ∧
      ∀ i j sx sy : Nat, i < 6 → j < 8 → sx < (0x11 : Nat) &&& 0x0f → sy < (0x11 : Nat) >>> 4 →
        (PAL_charTable.getD (6 * 32 + i) 0).testBit j = false →
        pixel scr (0 + i * ((0x11 : Nat) &&& 0x0f) + sx) (0 + j * ((0x11 : Nat) >>> 4) + sy)
          = false ∧
        (pixel scr (0 + i * ((0x11 : Nat) &&& 0x0f) + sx) (0 + j * ((0x11 : Nat) >>> 4) + sy)
            = pixel (fun _ => toByte 255) (0 + i * ((0x11 : Nat) &&& 0x0f) + sx)
                (0 + j * ((0x11 : Nat) >>> 4) + sy) ↔
          pixel (fun _ => toByte 255) (0 + i * ((0x11 : Nat) &&& 0x0f) + sx)
            (0 + j * ((0x11 : Nat) >>> 4) + sy) = false) :=
  ⟨⟨by decide, by decide, by decide, by decide, by decide⟩,
    C14_char_background 120 false (fun _ => toByte 255) 0 0 32 0x11 (by decide) (by decide)
      (by decide) (by decide) (by decide)⟩
/-! ## PAL_write, PAL_constWrite -/

/-- The loop of `PAL_write` over the non-zero bytes `cs` followed by a zero
byte, entered at column `(a + n * step) mod 256`: one `PAL_char` per byte of
`cs`, each `step = 6 * (size & 0x0f)` further, modulo 256. -/
theorem PAL_write_loop_eq (lig size a : Nat) (rest : List Nat) :
    ∀ (cs : List Nat) (n : Nat), (∀ c ∈ cs, c ≠ 0) →
      PAL_write_loop lig size (cs ++ 0 :: rest) ((a + n * (6 * (size &&& 0x0f))) % 256)
        = some ((cs.enumFrom n).map (fun kc =>
            ((a + kc.1 * (6 * (size &&& 0x0f))) % 256, lig, kc.2, size))) := by
  intro cs
  induction cs with
  | nil =>
    intro n _
    simp [PAL_write_loop]
  | cons c cs ih =>
    intro n hcs
    have hc : c ≠ 0 := hcs c (List.mem_cons_self _ _)
    have hstep : ((a + n * (6 * (size &&& 0x0f))) % 256 + 6 * (size &&& 0x0f)) % 256
        = (a + (n + 1) * (6 * (size &&& 0x0f))) % 256 := by
      generalize 6 * (size &&& 0x0f) = S
      rw [Nat.succ_mul]; omega
    rw [List.cons_append, PAL_write_loop, if_neg hc, hstep,
      ih (n + 1) (fun c' hc' => hcs c' (List.mem_cons_of_mem _ hc'))]
    rfl

theorem PAL_constWrite_loop_eq (lig size a : Nat) (rest : List Nat) :
    ∀ (cs : List Nat) (n : Nat), (∀ c ∈ cs, c ≠ 0) →
      PAL_constWrite_loop lig size (cs ++ 0 :: rest) ((a + n * (6 * (size &&& 0x0f))) % 256)
        = some ((cs.enumFrom n).map (fun kc =>
            ((a + kc.1 * (6 * (size &&& 0x0f))) % 256, lig, kc.2, size))) := by
  intro cs
  induction cs with
  | nil =>
    intro n _
    simp [PAL_constWrite_loop]
  | cons c cs ih =>
    intro n hcs
    have hc : c ≠ 0 := hcs c (List.mem_cons_self _ _)
    have hstep : ((a + n * (6 * (size &&& 0x0f))) % 256 + 6 * (size &&& 0x0f)) % 256
        = (a + (n + 1) * (6 * (size &&& 0x0f))) % 256 := by
      generalize 6 * (size &&& 0x0f) = S
      rw [Nat.succ_mul]; omega
    rw [List.cons_append, PAL_constWrite_loop, if_neg hc, hstep,
      ih (n + 1) (fun c' hc' => hcs c' (List.mem_cons_of_mem _ hc'))]
    rfl

theorem write_entry_eq (lig col size : Nat) (cs : List Nat) :
    (cs.enumFrom 0).map (fun kc =>
        ((6 * col + kc.1 * (6 * (size &&& 0x0f))) % 256, (lig <<< 3) % 256, kc.2, size))
      = cs.enum.map (fun kc =>
        ((6 * col + kc.1 * 6 * (size &&& 0x0f)) % 256, (8 * lig) % 256, kc.2, size)) := by
  unfold List.enum
  apply List.map_congr_left
  intro kc _
  rw [Nat.shiftLeft_eq, Nat.mul_assoc, show lig * 2 ^ 3 = 8 * lig by omega]

/-- C16: for every `lig`, `col`, `size` and framebuffer, `PAL_write` and
`PAL_constWrite` called with a string whose first byte is the terminator
perform no `PAL_char` call and return with the framebuffer unchanged. -/
theorem C16_write_empty (PAL_y : Nat) (sg : Bool) (screen : Nat → Byte) (lig col size : Nat)
    (rest : List Nat) :
    PAL_write_calls lig col (0 :: rest) size = some [] ∧
      PAL_write PAL_y sg screen lig col (0 :: rest) size = some screen ∧
      PAL_constWrite_calls lig col (0 :: rest) size = some [] ∧
      PAL_constWrite PAL_y sg screen lig col (0 :: rest) size = some screen := by
  have hw : PAL_write_calls lig col (0 :: rest) size = some [] := by
    unfold PAL_write_calls
    rw [PAL_write_loop, if_pos rfl]
  have hcw : PAL_constWrite_calls lig col (0 :: rest) size = some [] := by
    unfold PAL_constWrite_calls
    rw [PAL_constWrite_loop, if_pos rfl]
  refine ⟨hw, ?_, hcw, ?_⟩
  · unfold PAL_write
    rw [hw]
    rfl
  · unfold PAL_constWrite
    rw [hcw]
    rfl
/-! ## PAL_picture -/

theorem PAL_picture_reverse_step (rc c : Nat) :
    ((rc <<< 1) % 256) ||| (c &&& 1) = 2 * (rc % 128) + c % 2 := by
  have h1 : (rc <<< 1) % 256 = 2 ^ 1 * (rc % 128) := by
    rw [Nat.shiftLeft_eq]; omega
  rw [h1, Nat.and_one_is_mod, ← Nat.mul_add_lt_is_or (by omega)]

/-- The loop over `k` of `PAL_picture` reverses the bits of `c`, whatever
`rc` held before. -/
theorem PAL_picture_reverse_eq (rc c : Nat) (hc : c < 256) :
    PAL_picture_reverse 8 rc c = bitReverse8 c := by
  have s : ∀ n r d : Nat,
      PAL_picture_reverse (n + 1) r d = PAL_picture_reverse n (2 * (r % 128) + d % 2) (d / 2) := by
    intro n r d
    rw [PAL_picture_reverse, PAL_picture_reverse_step, Nat.shiftRight_eq_div_pow, Nat.pow_one]
  rw [s, s, s, s, s, s, s, s, PAL_picture_reverse]
  have e1 : (2 * (rc % 128) + c % 2) % 128 = 2 * (rc % 64) + c % 2 := by omega
  rw [e1]
  have e2 : (2 * (2 * (rc % 64) + c % 2) + c / 2 % 2) % 128
      = 4 * (rc % 32) + 2 * (c % 2) + c / 2 % 2 := by omega
  rw [e2]
  have e3 : (2 * (4 * (rc % 32) + 2 * (c % 2) + c / 2 % 2) + c / 2 / 2 % 2) % 128
      = 8 * (rc % 16) + 4 * (c % 2) + 2 * (c / 2 % 2) + c / 2 / 2 % 2 := by omega
  rw [e3]
  have e4 : (2 * (8 * (rc % 16) + 4 * (c % 2) + 2 * (c / 2 % 2) + c / 2 / 2 % 2)
        + c / 2 / 2 / 2 % 2) % 128
      = 16 * (rc % 8) + 8 * (c % 2) + 4 * (c / 2 % 2) + 2 * (c / 2 / 2 % 2)
        + c / 2 / 2 / 2 % 2 := by omega
  rw [e4]
  have e5 : (2 * (16 * (rc % 8) + 8 * (c % 2) + 4 * (c / 2 % 2) + 2 * (c / 2 / 2 % 2)
        + c / 2 / 2 / 2 % 2) + c / 2 / 2 / 2 / 2 % 2) % 128
      = 32 * (rc % 4) + 16 * (c % 2) + 8 * (c / 2 % 2) + 4 * (c / 2 / 2 % 2)
        + 2 * (c / 2 / 2 / 2 % 2) + c / 2 / 2 / 2 / 2 % 2 := by omega
  rw [e5]
  have e6 : (2 * (32 * (rc % 4) + 16 * (c % 2) + 8 * (c / 2 % 2) + 4 * (c / 2 / 2 % 2)
        + 2 * (c / 2 / 2 / 2 % 2) + c / 2 / 2 / 2 / 2 % 2) + c / 2 / 2 / 2 / 2 / 2 % 2) % 128
      = 64 * (rc % 2) + 32 * (c % 2) + 16 * (c / 2 % 2) + 8 * (c / 2 / 2 % 2)
        + 4 * (c / 2 / 2 / 2 % 2) + 2 * (c / 2 / 2 / 2 / 2 % 2)
        + c / 2 / 2 / 2 / 2 / 2 % 2 := by omega
  rw [e6]
  have e7 : (2 * (64 * (rc % 2) + 32 * (c % 2) + 16 * (c / 2 % 2) + 8 * (c / 2 / 2 % 2)
        + 4 * (c / 2 / 2 / 2 % 2) + 2 * (c / 2 / 2 / 2 / 2 % 2)
        + c / 2 / 2 / 2 / 2 / 2 % 2) + c / 2 / 2 / 2 / 2 / 2 / 2 % 2) % 128
      = 64 * (c % 2) + 32 * (c / 2 % 2) + 16 * (c / 2 / 2 % 2)
        + 8 * (c / 2 / 2 / 2 % 2) + 4 * (c / 2 / 2 / 2 / 2 % 2)
        + 2 * (c / 2 / 2 / 2 / 2 / 2 % 2) + c / 2 / 2 / 2 / 2 / 2 / 2 % 2 := by omega
  rw [e7]
  clear e1 e2 e3 e4 e5 e6 e7 s
  unfold bitReverse8
  simp only [Nat.div_div_eq_div_mul, Nat.reduceMul]
  have h7 : c / 128 % 2 = c / 128 := by omega
  rw [h7]
  ring

theorem bitReverse8_lt (c : Nat) : bitReverse8 c < 256 := by
  unfold bitReverse8
  omega

set_option maxRecDepth 100000 in
theorem bitReverse8_testBit_all :
    ∀ c, c < 256 → ∀ k, k < 8 → (bitReverse8 c).testBit k = c.testBit (7 - k) := by
  decide

theorem bitReverse8_testBit (c k : Nat) (hc : c < 256) (hk : k < 8) :
    (bitReverse8 c).testBit k = c.testBit (7 - k) :=
  bitReverse8_testBit_all c hc k hk

/-- The loop over `i` of `PAL_picture` inside one framebuffer row: the byte at
`x + i + k + py` becomes the reversal of source byte `p + k`, for `k < n`;
the other bytes are unchanged. -/
theorem PAL_picture_row_eq (bm : Nat → Byte) (rc0 : Nat → Nat) (x py : Nat)
    (hpy : py + 256 ≤ 65536) :
    ∀ (n i p : Nat) (screen : Nat → Byte), x + i + n ≤ 256 →
      (∀ k, k < n → PAL_picture_row bm rc0 x py n i p screen (x + i + k + py)
          = toByte (bitReverse8 (bm (p + k)).val)) ∧
      (∀ o, (∀ k, k < n → o ≠ x + i + k + py) →
        PAL_picture_row bm rc0 x py n i p screen o = screen o) := by
  intro n
  induction n with
  | zero =>
    intro i p screen _
    exact ⟨fun k hk => absurd hk (Nat.not_lt_zero k), fun o _ => rfl⟩
  | succ n ih =>
    intro i p screen hb
    have haddr : ((x + i) % 256 + py) % 65536 = x + i + py := by omega
    have hrow : PAL_picture_row bm rc0 x py (n + 1) i p screen
        = PAL_picture_row bm rc0 x py n (i + 1) (p + 1)
            (fun o => if o = x + i + py then toByte (bitReverse8 (bm p).val) else screen o) := by
      rw [PAL_picture_row]
      simp only [haddr, PAL_picture_reverse_eq _ _ (bm p).isLt]
    obtain ⟨ih1, ih2⟩ := ih (i + 1) (p + 1)
      (fun o => if o = x + i + py then toByte (bitReverse8 (bm p).val) else screen o) (by omega)
    rw [hrow]
    constructor
    · intro k hk
      rcases Nat.eq_zero_or_pos k with h0 | hpos
      · subst h0
        rw [ih2 _ (fun k' _ => by omega)]
        simp
      · obtain ⟨k', rfl⟩ : ∃ k', k = k' + 1 := ⟨k - 1, by omega⟩
        have e1 : x + i + (k' + 1) + py = x + (i + 1) + k' + py := by omega
        have e2 : p + (k' + 1) = p + 1 + k' := by omega
        rw [e1, e2]
        exact ih1 k' (by omega)
    · intro o ho
      rw [ih2 o (fun k' hk' => by have := ho (k' + 1) (by omega); omega)]
      have := ho 0 (by omega)
      show (if o = x + i + py then _ else screen o) = screen o
      exact if_neg (by omega)

/-- The loop over `j` of `PAL_picture`: the byte `16 * (y + j + r) + x + i`
becomes the reversal of source byte `p + r * sx + i`, for `r < n`, `i < sx`;
the other bytes are unchanged. -/
theorem PAL_picture_rows_eq (bm : Nat → Byte) (rc0 : Nat → Nat) (x y sx : Nat)
    (hx : x + sx ≤ 16) :
    ∀ (n j p : Nat) (screen : Nat → Byte), y + j + n ≤ 4000 →
      (∀ r i, r < n → i < sx →
        PAL_picture_rows bm rc0 x y sx n j p screen (16 * (y + j + r) + x + i)
          = toByte (bitReverse8 (bm (p + r * sx + i)).val)) ∧
      (∀ o, (∀ r i, r < n → i < sx → o ≠ 16 * (y + j + r) + x + i) →
        PAL_picture_rows bm rc0 x y sx n j p screen o = screen o) := by
  intro n
  induction n with
  | zero =>
    intro j p screen _
    exact ⟨fun r i hr _ => absurd hr (Nat.not_lt_zero r), fun o _ => rfl⟩
  | succ n ih =>
    intro j p screen hb
    have hpy : ((y + j) <<< 4) % 65536 = 16 * (y + j) := by
      rw [Nat.shiftLeft_eq]; omega
    obtain ⟨r1, r2⟩ := PAL_picture_row_eq bm rc0 x (16 * (y + j)) (by omega) sx 0 p screen
      (by omega)
    obtain ⟨ih1, ih2⟩ := ih (j + 1) (p + sx)
      (PAL_picture_row bm rc0 x (16 * (y + j)) sx 0 p screen) (by omega)
    rw [PAL_picture_rows, hpy]
    constructor
    · intro r i hr hi
      rcases Nat.eq_zero_or_pos r with h0 | hpos
      · subst h0
        rw [ih2 _ (fun r' i' _ hi' => by omega)]
        have e1 : 16 * (y + j + 0) + x + i = x + 0 + i + 16 * (y + j) := by omega
        rw [e1, r1 i hi, Nat.zero_mul, Nat.add_zero]
      · obtain ⟨r', rfl⟩ : ∃ r', r = r' + 1 := ⟨r - 1, by omega⟩
        have e1 : 16 * (y + j + (r' + 1)) + x + i = 16 * (y + (j + 1) + r') + x + i := by omega
        have e2 : p + (r' + 1) * sx + i = p + sx + r' * sx + i := by
          rw [Nat.succ_mul]; omega
        rw [e1, e2]
        exact ih1 r' i (by omega) hi
    · intro o ho
      rw [ih2 o (fun r' i' hr' hi' => by have := ho (r' + 1) i' (by omega) hi'; omega)]
      exact r2 o (fun k hk => by have := ho 0 k (by omega) hk; omega)

/-- C17: for a picture inside the framebuffer (`x/8 + sx/8 <= 16`,
`y + sy <= PAL_y`), after `PAL_picture(x,y,bm,sx,sy)` the framebuffer byte
`16*(y+j) + x/8 + i` is the bit reversal of the source byte `bm[j*(sx/8) + i]`
(its bit `k` is bit `7 - k` of the source) for every `j < sy`, `i < sx/8`, and
every other byte is unchanged; the result does not depend on the value the
uninitialised `rc` holds.  In particular, for an 8x8 all-set bitmap at
`(0,0)`, the 64 pixels of `[0,8) x [0,8)` are set and every other pixel keeps
its value. -/
theorem C17_picture (PAL_y : Nat) (screen bm : Nat → Byte) (rc0 : Nat → Nat)
    (x y sx sy : Nat) (hP : PAL_y ≤ 255) (hx : x / 8 + sx / 8 ≤ 16) (hy : y + sy ≤ PAL_y) :
    (∀ j i, j < sy → i < sx / 8 → ∀ k, k < 8 →
      (PAL_picture screen bm rc0 x y sx sy (16 * (y + j) + x / 8 + i)).val.testBit k
        = (bm (j * (sx / 8) + i)).val.testBit (7 - k)) ∧
    (∀ o, (∀ j i, j < sy → i < sx / 8 → o ≠ 16 * (y + j) + x / 8 + i) →
      PAL_picture screen bm rc0 x y sx sy o = screen o) ∧
    (∀ rc1 : Nat → Nat,
      PAL_picture screen bm rc1 x y sx sy = PAL_picture screen bm rc0 x y sx sy) ∧
    (∀ ones : Nat → Byte, (∀ j, j < 8 → ones j = toByte 255) →
      (∀ px py, px < 8 → py < 8 → pixel (PAL_picture screen ones rc0 0 0 8 8) px py = true) ∧
      (∀ px py, px < 128 → ¬ (px < 8 ∧ py < 8) →
        pixel (PAL_picture screen ones rc0 0 0 8 8) px py = pixel screen px py)) := by
  have hmain : ∀ rc : Nat → Nat,
      (∀ j i, j < sy → i < sx / 8 →
        PAL_picture screen bm rc x y sx sy (16 * (y + j) + x / 8 + i)
          = toByte (bitReverse8 (bm (j * (sx / 8) + i)).val)) ∧
      (∀ o, (∀ j i, j < sy → i < sx / 8 → o ≠ 16 * (y + j) + x / 8 + i) →
        PAL_picture screen bm rc x y sx sy o = screen o) := by
    intro rc
    obtain ⟨h1, h2⟩ := PAL_picture_rows_eq bm rc (x / 8) y (sx / 8) hx sy 0 0 screen (by omega)
    constructor
    · intro j i hj hi
      have := h1 j i hj hi
      rw [Nat.zero_add] at this
      exact this
    · intro o ho
      exact h2 o ho
  refine ⟨?_, (hmain rc0).2, ?_, ?_⟩
  · intro j i hj hi k hk
    rw [(hmain rc0).1 j i hj hi]
    have hv : (toByte (bitReverse8 (bm (j * (sx / 8) + i)).val)).val
        = bitReverse8 (bm (j * (sx / 8) + i)).val :=
      Nat.mod_eq_of_lt (bitReverse8_lt _)
    rw [hv]
    exact bitReverse8_testBit _ k (bm _).isLt hk
  · intro rc1
    funext o
    by_cases h : ∃ j i, j < sy ∧ i < sx / 8 ∧ o = 16 * (y + j) + x / 8 + i
    · obtain ⟨j, i, hj, hi, rfl⟩ := h
      rw [(hmain rc1).1 j i hj hi, (hmain rc0).1 j i hj hi]
    · have h' : ∀ j i, j < sy → i < sx / 8 → o ≠ 16 * (y + j) + x / 8 + i :=
        fun j i hj hi he => h ⟨j, i, hj, hi, he⟩
      rw [(hmain rc1).2 o h', (hmain rc0).2 o h']
  · intro ones hones
    obtain ⟨h1, h2⟩ := PAL_picture_rows_eq ones rc0 (0 / 8) 0 (8 / 8) (by decide) 8 0 0 screen
      (by decide)
    constructor
    · intro px py hpx hpy
      have hb := h1 py 0 hpy (by decide)
      have e1 : 16 * (0 + 0 + py) + 0 / 8 + 0 = 16 * py + px / 8 := by omega
      have e2 : 0 + py * (8 / 8) + 0 = py := by omega
      rw [e1, e2, hones py hpy] at hb
      unfold pixel PAL_picture
      rw [hb]
      have hpx8 : px % 8 = px := Nat.mod_eq_of_lt hpx
      rw [hpx8]
      interval_cases px <;> decide
    · intro px py hpx hout
      unfold pixel PAL_picture
      rw [h2 _ (fun r i hr hi => by omega)]

/-- Witness of C17: a 16x2 picture at `(8, 3)` on a 120-row screen. -/
theorem C17_picture_witness :
    ((120 : Nat) ≤ 255 ∧ 8 / 8 + 16 / 8 ≤ 16 ∧ 3 + 2 ≤ 120) ∧
    ((∀ j i, j < 2 → i < 16 / 8 → ∀ k, k < 8 →
      (PAL_picture (fun _ => 0) (fun i => toByte (i + 1)) (fun _ => 77) 8 3 16 2
          (16 * (3 + j) + 8 / 8 + i)).val.testBit k
        = ((fun i => toByte (i + 1)) (j * (16 / 8) + i)).val.testBit (7 - k)) ∧
    (∀ o, (∀ j i, j < 2 → i < 16 / 8 → o ≠ 16 * (3 + j) + 8 / 8 + i) →
      PAL_picture (fun _ => 0) (fun i => toByte (i + 1)) (fun _ => 77) 8 3 16 2 o
        = (fun _ => 0) o) ∧
    (∀ rc1 : Nat → Nat,
      PAL_picture (fun _ => 0) (fun i => toByte (i + 1)) rc1 8 3 16 2
        = PAL_picture (fun _ => 0) (fun i => toByte (i + 1)) (fun _ => 77) 8 3 16 2) ∧
    (∀ ones : Nat → Byte, (∀ j, j < 8 → ones j = toByte 255) →
      (∀ px py, px < 8 → py < 8 →
        pixel (PAL_picture (fun _ => 0) ones (fun _ => 77) 0 0 8 8) px py = true) ∧
      (∀ px py, px < 128 → ¬ (px < 8 ∧ py < 8) →
        pixel (PAL_picture (fun _ => 0) ones (fun _ => 77) 0 0 8 8) px py
          = pixel (fun _ => 0) px py))) :=
  ⟨⟨by decide, by decide, by decide⟩,
    C17_picture 120 (fun _ => 0) (fun i => toByte (i + 1)) (fun _ => 77) 8 3 16 2
      (by decide) (by decide) (by decide)⟩
/-! ## C21, C22: the sync branch -/

/-- The controlling expression written `PAL_lineCode != PAL_LINFO` is non-zero
for every line code. -/
theorem PAL_ISR_notInfo_ne_zero (code : Nat) : PAL_ISR_notInfo code ≠ 0 := by
  unfold PAL_ISR_notInfo
  split <;> decide

/-- The events of the sync branch: all four parts, for every line code. -/
theorem PAL_ISR_sync_out (s : PALState) :
    (PAL_ISR_sync s).2 =
      [Out.bsync (if s.PAL_lineCode &&& 1 ≠ 0 then 1 else 0),
       Out.delay (if s.PAL_lineCode &&& 2 ≠ 0 then PAL_DELAY4 else PAL_DELAY28 - 6),
       Out.bsync (if s.PAL_lineCode &&& 4 ≠ 0 then 1 else 0),
       Out.delay (if s.PAL_lineCode &&& 8 ≠ 0 then PAL_DELAY4 else PAL_DELAY28),
       Out.bsync (if s.PAL_lineCode &&& 16 ≠ 0 then 1 else 0),
       Out.delay (if s.PAL_lineCode &&& 32 ≠ 0 then PAL_DELAY4 else PAL_DELAY28),
       Out.bsync (if s.PAL_lineCode &&& 64 ≠ 0 then 1 else 0)] := by
  unfold PAL_ISR_sync
  simp only [if_pos (PAL_ISR_notInfo_ne_zero s.PAL_lineCode)]
  rfl

/-- `PAL_ISR` on an entry that is not a video entry runs `PAL_ISR_sync`. -/
theorem PAL_ISR_on_sync (cin : Nat → Bool) (s : PALState) (code : Nat) (hT : s.TMR0IF = true)
    (hc : PAL_ltype.get? s.PAL_linePtr = some code) (hv : code ≠ PAL_LVIDEO) :
    PAL_ISR cin s =
      some ({ (PAL_ISR_sync { s with PAL_lineCode := code }).1 with TMR0IF := false },
        [Out.bvid 0, Out.bsync 0] ++ (PAL_ISR_sync { s with PAL_lineCode := code }).2) := by
  unfold PAL_ISR
  rw [if_pos hT, hc]
  simp only [if_neg hv]

set_option maxRecDepth 100000 in
theorem packed_bits_fin :
    ∀ f1 f2 f3 f4 : Fin 4,
      (PAL_P1 f1.val ||| PAL_P2 f2.val ||| PAL_P3 f3.val ||| PAL_P4 f4.val) &&& 1
        = f1.val &&& 1 ∧
      (PAL_P1 f1.val ||| PAL_P2 f2.val ||| PAL_P3 f3.val ||| PAL_P4 f4.val) &&& 2
        = f1.val &&& 2 ∧
      (PAL_P1 f1.val ||| PAL_P2 f2.val ||| PAL_P3 f3.val ||| PAL_P4 f4.val) &&& 4
        = (f2.val &&& 1) * 4 ∧
      (PAL_P1 f1.val ||| PAL_P2 f2.val ||| PAL_P3 f3.val ||| PAL_P4 f4.val) &&& 8
        = (f2.val &&& 2) * 4 ∧
      (PAL_P1 f1.val ||| PAL_P2 f2.val ||| PAL_P3 f3.val ||| PAL_P4 f4.val) &&& 16
        = (f3.val &&& 1) * 16 ∧
      (PAL_P1 f1.val ||| PAL_P2 f2.val ||| PAL_P3 f3.val ||| PAL_P4 f4.val) &&& 32
        = (f3.val &&& 2) * 16 ∧
      (PAL_P1 f1.val ||| PAL_P2 f2.val ||| PAL_P3 f3.val ||| PAL_P4 f4.val) &&& 64
        = (f4.val &&& 1) * 64 := by
  decide

/-- The bits of a packed line code, field by field. -/
theorem packed_bits (f1 f2 f3 f4 : Nat) (h1 : f1 < 4) (h2 : f2 < 4) (h3 : f3 < 4) (h4 : f4 < 4) :
      (PAL_P1 f1 ||| PAL_P2 f2 ||| PAL_P3 f3 ||| PAL_P4 f4) &&& 1 = f1 &&& 1 ∧
      (PAL_P1 f1 ||| PAL_P2 f2 ||| PAL_P3 f3 ||| PAL_P4 f4) &&& 2 = f1 &&& 2 ∧
      (PAL_P1 f1 ||| PAL_P2 f2 ||| PAL_P3 f3 ||| PAL_P4 f4) &&& 4 = (f2 &&& 1) * 4 ∧
      (PAL_P1 f1 ||| PAL_P2 f2 ||| PAL_P3 f3 ||| PAL_P4 f4) &&& 8 = (f2 &&& 2) * 4 ∧
      (PAL_P1 f1 ||| PAL_P2 f2 ||| PAL_P3 f3 ||| PAL_P4 f4) &&& 16 = (f3 &&& 1) * 16 ∧
      (PAL_P1 f1 ||| PAL_P2 f2 ||| PAL_P3 f3 ||| PAL_P4 f4) &&& 32 = (f3 &&& 2) * 16 ∧
      (PAL_P1 f1 ||| PAL_P2 f2 ||| PAL_P3 f3 ||| PAL_P4 f4) &&& 64 = (f4 &&& 1) * 64 :=
  packed_bits_fin ⟨f1, h1⟩ ⟨f2, h2⟩ ⟨f3, h3⟩ ⟨f4, h4⟩

theorem and_one_level (f : Nat) : (if f &&& 1 ≠ 0 then 1 else 0) = f &&& 1 := by
  rw [Nat.and_one_is_mod]
  split <;> omega

/-- The events of the sync branch for a packed line code, field by field. -/
theorem PAL_ISR_sync_fields (s : PALState) (f1 f2 f3 f4 : Nat)
    (h1 : f1 < 4) (h2 : f2 < 4) (h3 : f3 < 4) (h4 : f4 < 4)
    (hc : s.PAL_lineCode = PAL_P1 f1 ||| PAL_P2 f2 ||| PAL_P3 f3 ||| PAL_P4 f4) :
    (PAL_ISR_sync s).2 =
      [Out.bsync (f1 &&& 1),
       Out.delay (if f1 &&& 2 ≠ 0 then PAL_DELAY4 else PAL_DELAY28 - 6),
       Out.bsync (f2 &&& 1),
       Out.delay (if f2 &&& 2 ≠ 0 then PAL_DELAY4 else PAL_DELAY28),
       Out.bsync (f3 &&& 1),
       Out.delay (if f3 &&& 2 ≠ 0 then PAL_DELAY4 else PAL_DELAY28),
       Out.bsync (f4 &&& 1)] := by
  obtain ⟨b1, b2, b3, b4, b5, b6, b7⟩ := packed_bits f1 f2 f3 f4 h1 h2 h3 h4
  rw [PAL_ISR_sync_out, hc, b1, b2, b3, b4, b5, b6, b7]
  have e1 := and_one_level f1
  have e2 : (if (f2 &&& 1) * 4 ≠ 0 then 1 else 0) = f2 &&& 1 := by
    rw [Nat.and_one_is_mod]; split <;> omega
  have e3 : (if (f3 &&& 1) * 16 ≠ 0 then 1 else 0) = f3 &&& 1 := by
    rw [Nat.and_one_is_mod]; split <;> omega
  have e4 : (if (f4 &&& 1) * 64 ≠ 0 then 1 else 0) = f4 &&& 1 := by
    rw [Nat.and_one_is_mod]; split <;> omega
  have d2 : ((f2 &&& 2) * 4 ≠ 0) = (f2 &&& 2 ≠ 0) := by
    apply propext; constructor <;> intro h <;> omega
  have d3 : ((f3 &&& 2) * 16 ≠ 0) = (f3 &&& 2 ≠ 0) := by
    apply propext; constructor <;> intro h <;> omega
  simp only [e1, e2, e3, e4, d2, d3]

/-- C21: for every line code packed as `PAL_P1(f1) | PAL_P2(f2) | PAL_P3(f3) |
PAL_P4(f4)` with each field in `{PAL_LOW28, PAL_UP28, PAL_LOW4, PAL_UP4}`, the
sync branch of `PAL_ISR` writes the sync output four times, in order, with
levels bit 0 of `f1`, `f2`, `f3`, `f4`; after each of the first three writes it
holds the short delay `PAL_DELAY4` if the field is a 4-microsecond kind (bit 1
set) and the long delay otherwise (`PAL_DELAY28 - 6` after the first write,
which follows the entry of the routine, `PAL_DELAY28` after the second and the
third); it holds no delay after the fourth.  So does `PAL_ISR` itself, after
the two writes that end the previous line, when the table entry read is such a
code other than the video code 0. -/
theorem C21_sync_fields (f1 f2 f3 f4 : Nat)
    (h1 : f1 < 4) (h2 : f2 < 4) (h3 : f3 < 4) (h4 : f4 < 4) :
    (∀ s : PALState, s.PAL_lineCode = PAL_P1 f1 ||| PAL_P2 f2 ||| PAL_P3 f3 ||| PAL_P4 f4 →
      (PAL_ISR_sync s).2 =
        [Out.bsync (f1 &&& 1),
         Out.delay (if f1 &&& 2 ≠ 0 then PAL_DELAY4 else PAL_DELAY28 - 6),
         Out.bsync (f2 &&& 1),
         Out.delay (if f2 &&& 2 ≠ 0 then PAL_DELAY4 else PAL_DELAY28),
         Out.bsync (f3 &&& 1),
         Out.delay (if f3 &&& 2 ≠ 0 then PAL_DELAY4 else PAL_DELAY28),
         Out.bsync (f4 &&& 1)]) ∧
    (∀ (cin : Nat → Bool) (s : PALState), s.TMR0IF = true →
      PAL_ltype.get? s.PAL_linePtr
        = some (PAL_P1 f1 ||| PAL_P2 f2 ||| PAL_P3 f3 ||| PAL_P4 f4) →
      PAL_P1 f1 ||| PAL_P2 f2 ||| PAL_P3 f3 ||| PAL_P4 f4 ≠ PAL_LVIDEO →
      ∃ s', PAL_ISR cin s = some (s',
        [Out.bvid 0, Out.bsync 0,
         Out.bsync (f1 &&& 1),
         Out.delay (if f1 &&& 2 ≠ 0 then PAL_DELAY4 else PAL_DELAY28 - 6),
         Out.bsync (f2 &&& 1),
         Out.delay (if f2 &&& 2 ≠ 0 then PAL_DELAY4 else PAL_DELAY28),
         Out.bsync (f3 &&& 1),
         Out.delay (if f3 &&& 2 ≠ 0 then PAL_DELAY4 else PAL_DELAY28),
         Out.bsync (f4 &&& 1)])) := by
  refine ⟨fun s hc => PAL_ISR_sync_fields s f1 f2 f3 f4 h1 h2 h3 h4 hc, ?_⟩
  intro cin s hT hc hv
  refine ⟨{ (PAL_ISR_sync { s with
    PAL_lineCode := (PAL_P1 f1 ||| PAL_P2 f2 ||| PAL_P3 f3 ||| PAL_P4 f4) }).1 with
    TMR0IF := false }, ?_⟩
  rw [PAL_ISR_on_sync cin s _ hT hc hv,
    PAL_ISR_sync_fields _ f1 f2 f3 f4 h1 h2 h3 h4 rfl]
  rfl

/-- C21 at the fields of `PAL_L6` (long low, short high, short low, long high),
the entry 50 of the table. -/
theorem C21_sync_fields_witness :
    (PAL_LOW28 < 4 ∧ PAL_UP4 < 4 ∧ PAL_LOW4 < 4 ∧ PAL_UP28 < 4) ∧
    ((∀ s : PALState,
      s.PAL_lineCode = PAL_P1 PAL_LOW28 ||| PAL_P2 PAL_UP4 ||| PAL_P3 PAL_LOW4 ||| PAL_P4 PAL_UP28 →
      (PAL_ISR_sync s).2 =
        [Out.bsync (PAL_LOW28 &&& 1),
         Out.delay (if PAL_LOW28 &&& 2 ≠ 0 then PAL_DELAY4 else PAL_DELAY28 - 6),
         Out.bsync (PAL_UP4 &&& 1),
         Out.delay (if PAL_UP4 &&& 2 ≠ 0 then PAL_DELAY4 else PAL_DELAY28),
         Out.bsync (PAL_LOW4 &&& 1),
         Out.delay (if PAL_LOW4 &&& 2 ≠ 0 then PAL_DELAY4 else PAL_DELAY28),
         Out.bsync (PAL_UP28 &&& 1)]) ∧
    (∀ (cin : Nat → Bool) (s : PALState), s.TMR0IF = true →
      PAL_ltype.get? s.PAL_linePtr
        = some (PAL_P1 PAL_LOW28 ||| PAL_P2 PAL_UP4 ||| PAL_P3 PAL_LOW4 ||| PAL_P4 PAL_UP28) →
      PAL_P1 PAL_LOW28 ||| PAL_P2 PAL_UP4 ||| PAL_P3 PAL_LOW4 ||| PAL_P4 PAL_UP28 ≠ PAL_LVIDEO →
      ∃ s', PAL_ISR cin s = some (s',
        [Out.bvid 0, Out.bsync 0,
         Out.bsync (PAL_LOW28 &&& 1),
         Out.delay (if PAL_LOW28 &&& 2 ≠ 0 then PAL_DELAY4 else PAL_DELAY28 - 6),
         Out.bsync (PAL_UP4 &&& 1),
         Out.delay (if PAL_UP4 &&& 2 ≠ 0 then PAL_DELAY4 else PAL_DELAY28),
         Out.bsync (PAL_LOW4 &&& 1),
         Out.delay (if PAL_LOW4 &&& 2 ≠ 0 then PAL_DELAY4 else PAL_DELAY28),
         Out.bsync (PAL_UP28 &&& 1)]))) :=
  ⟨⟨by decide, by decide, by decide, by decide⟩,
    C21_sync_fields PAL_LOW28 PAL_UP4 PAL_LOW4 PAL_UP28 (by decide) (by decide) (by decide)
      (by decide)⟩

/-- The events of the sync branch for the info code. -/
theorem PAL_ISR_sync_info (s : PALState) (hc : s.PAL_lineCode = PAL_LINFO) :
    (PAL_ISR_sync s).2 =
      [Out.bsync 0, Out.delay PAL_DELAY4, Out.bsync 1,
       Out.delay PAL_DELAY4, Out.bsync 1, Out.delay PAL_DELAY28, Out.bsync 1] := by
  rw [PAL_ISR_sync_fields s PAL_LOW4 PAL_UP4 PAL_UP28 PAL_UP28 (by decide) (by decide) (by decide)
    (by decide) hc]
  decide

/-- C22: what the code does on an info line.  When the entry read is
`PAL_LINFO`, `PAL_ISR` emits all four fields: after the two writes that end
the previous line it writes the sync level 0, holds `PAL_DELAY4`, writes the
level 1, and then, the test `PAL_lineCode != PAL_LINFO` being true for every
code, it holds `PAL_DELAY4`, writes the level 1, holds `PAL_DELAY28` and writes
the level 1 again. -/
theorem C22_info_line_all_fields (cin : Nat → Bool) (s : PALState) (hT : s.TMR0IF = true)
    (hc : PAL_ltype.get? s.PAL_linePtr = some PAL_LINFO) :
    PAL_ISR_notInfo PAL_LINFO ≠ 0 ∧
    ∃ s', PAL_ISR cin s = some (s',
      [Out.bvid 0, Out.bsync 0,
       Out.bsync 0, Out.delay PAL_DELAY4, Out.bsync 1,
       Out.delay PAL_DELAY4, Out.bsync 1, Out.delay PAL_DELAY28, Out.bsync 1]) := by
  refine ⟨PAL_ISR_notInfo_ne_zero _,
    { (PAL_ISR_sync { s with PAL_lineCode := PAL_LINFO }).1 with TMR0IF := false }, ?_⟩
  rw [PAL_ISR_on_sync cin s PAL_LINFO hT hc (by decide), PAL_ISR_sync_info _ rfl]
  rfl

/-- C22 at the reset state with the timer flag set: entry 0 is an info line. -/
theorem C22_info_line_all_fields_witness :
    (({ resetState with TMR0IF := true } : PALState).TMR0IF = true ∧
      PAL_ltype.get? ({ resetState with TMR0IF := true } : PALState).PAL_linePtr
        = some PAL_LINFO) ∧
    (PAL_ISR_notInfo PAL_LINFO ≠ 0 ∧
    ∃ s', PAL_ISR carryClear { resetState with TMR0IF := true } = some (s',
      [Out.bvid 0, Out.bsync 0,
       Out.bsync 0, Out.delay PAL_DELAY4, Out.bsync 1,
       Out.delay PAL_DELAY4, Out.bsync 1, Out.delay PAL_DELAY28, Out.bsync 1])) :=
  ⟨⟨rfl, by decide⟩,
    C22_info_line_all_fields carryClear { resetState with TMR0IF := true } rfl (by decide)⟩
/-! ## C27, C28: the schedule state and the sync output -/

theorem bsyncWrites_append (a b : List Out) :
    bsyncWrites (a ++ b) = bsyncWrites a ++ bsyncWrites b := by
  induction a with
  | nil => rfl
  | cons e a ih => cases e <;> simp [bsyncWrites, ih]

theorem delays_append (a b : List Out) : delays (a ++ b) = delays a ++ delays b := by
  induction a with
  | nil => rfl
  | cons e a ih => cases e <;> simp [delays, ih]

/-- The content branch drives neither the sync pin nor a delay. -/
theorem bsyncWrites_PAL_ISR_line (s : PALState) (cin : Nat → Bool) (ptr : Nat) :
    bsyncWrites (PAL_ISR_line s cin ptr) = [] ∧ delays (PAL_ISR_line s cin ptr) = [] := by
  constructor <;>
  simp [PAL_ISR_line, PAL_shiftLoad, PAL_BLOCK_HEAD, PAL_BLOCK_SHIFT, PAL_BLOCK_LOAD,
    PAL_MAKE_BORDER, RRCF_seq, bsyncWrites, delays]

/-- The sync writes and the delays of a video line do not depend on the path
taken. -/
theorem PAL_ISR_video_sync (cin : Nat → Bool) (s : PALState) :
    bsyncWrites (PAL_ISR_video cin s).2 = [0, 1] ∧ delays (PAL_ISR_video cin s).2 = [3] := by
  rw [PAL_ISR_video_out]
  split
  · rw [bsyncWrites_append, delays_append, (bsyncWrites_PAL_ISR_line _ _ _).1,
      (bsyncWrites_PAL_ISR_line _ _ _).2]
    exact ⟨rfl, rfl⟩
  · exact ⟨rfl, rfl⟩

/-- The schedule variables after a video line. -/
theorem PAL_ISR_video_state (cin : Nat → Bool) (s : PALState) (code : Nat) :
    (PAL_ISR_video cin { s with PAL_lineCode := code }).1.PAL_lineVideo
      = (s.PAL_lineVideo + 1) % 65536 ∧
    (PAL_ISR_video cin { s with PAL_lineCode := code }).1.PAL_frameCtr = s.PAL_frameCtr ∧
    (PAL_ISR_video cin { s with PAL_lineCode := code }).1.PAL_linePtr
      = (if (s.PAL_lineVideo + 1) % 65536 = 287 then s.PAL_linePtr + 1 else s.PAL_linePtr) ∧
    (PAL_ISR_video cin { s with PAL_lineCode := code }).1.PAL_lineIdx
      = (if (s.PAL_lineVideo + 1) % 65536 = 287 then (s.PAL_lineIdx + 1) % 256
          else s.PAL_lineIdx) := by
  unfold PAL_ISR_video
  by_cases h : (s.PAL_lineVideo + 1) % 65536 = 287
  · simp only [h, if_true]
    split <;> exact ⟨rfl, rfl, rfl, rfl⟩
  · simp only [h, if_false]
    split <;> exact ⟨rfl, rfl, rfl, rfl⟩

/-- The schedule variables after a sync line. -/
theorem PAL_ISR_sync_state (s : PALState) (code : Nat) :
    (PAL_ISR_sync { s with PAL_lineCode := code }).1.PAL_lineVideo = 0 ∧
    (PAL_ISR_sync { s with PAL_lineCode := code }).1.PAL_frameCtr
      = (if (s.PAL_lineIdx + 1) % 256 = PAL_ltype.length then (s.PAL_frameCtr + 1) % 4294967296
          else s.PAL_frameCtr) ∧
    (PAL_ISR_sync { s with PAL_lineCode := code }).1.PAL_linePtr
      = (if (s.PAL_lineIdx + 1) % 256 = PAL_ltype.length then 0 else s.PAL_linePtr + 1) ∧
    (PAL_ISR_sync { s with PAL_lineCode := code }).1.PAL_lineIdx
      = (if (s.PAL_lineIdx + 1) % 256 = PAL_ltype.length then 0
          else (s.PAL_lineIdx + 1) % 256) := by
  unfold PAL_ISR_sync
  by_cases h : (s.PAL_lineIdx + 1) % 256 = PAL_ltype.length
  · rw [if_pos h, if_pos h, if_pos h]
    simp only [h, if_true]
    exact ⟨trivial, trivial, trivial, trivial⟩
  · rw [if_neg h, if_neg h, if_neg h]
    simp only [h, if_false]
    exact ⟨trivial, trivial, trivial, trivial⟩

set_option maxRecDepth 100000 in
theorem video_entries_fin :
    ∀ p : Fin 53, PAL_ltype.get? p.val = some PAL_LVIDEO → p.val = 18 ∨ p.val = 44 := by
  decide

/-- The video entries of the table are entries 18 and 44, and neither is the
last entry nor followed by a video entry. -/
theorem video_entries (p : Nat) (h : PAL_ltype.get? p = some PAL_LVIDEO) :
    (p = 18 ∨ p = 44) ∧ PAL_ltype.get? (p + 1) ≠ some PAL_LVIDEO := by
  have hp : p < 53 := by
    by_contra hn
    have : PAL_ltype.get? p = none := List.get?_eq_none.2 (by
      have : PAL_ltype.length = 53 := by decide
      omega)
    rw [this] at h
    exact Option.noConfusion h
  have h1 := video_entries_fin ⟨p, hp⟩ h
  refine ⟨h1, ?_⟩
  rcases h1 with h1 | h1 <;> simp only at h1 <;> subst h1 <;> decide

/-- One invocation of `PAL_ISR` from a state of the traversal: it returns, the
invariant holds again, and the index is kept on a video entry before its last
sub-line (and when no interrupt is pending) and moves to the next entry of the
cycle otherwise. -/
theorem traversalInv_step (cin : Nat → Bool) (s : PALState) (h : traversalInv s) :
    (∃ code, PAL_ltype.get? s.PAL_linePtr = some code) ∧
    ∃ s' out, PAL_ISR cin s = some (s', out) ∧ traversalInv s' ∧
      s'.PAL_lineIdx =
        (if s.TMR0IF = true ∧
            ¬ (PAL_ltype.get? s.PAL_linePtr = some PAL_LVIDEO ∧ s.PAL_lineVideo + 1 < 287)
          then (s.PAL_lineIdx + 1) % PAL_ltype.length else s.PAL_lineIdx) := by
  obtain ⟨hi, hp, hl, hv⟩ := h
  have hlen : PAL_ltype.length = 53 := by decide
  have hget : ∃ code, PAL_ltype.get? s.PAL_linePtr = some code := by
    have hlt : s.PAL_linePtr < PAL_ltype.length := by omega
    exact ⟨_, List.get?_eq_get hlt⟩
  refine ⟨hget, ?_⟩
  obtain ⟨code, hcode⟩ := hget
  by_cases hT : s.TMR0IF = true
  · by_cases hvid : code = PAL_LVIDEO
    · subst hvid
      have hl' := hv hcode
      obtain ⟨hp18, hnext⟩ := video_entries _ hcode
      obtain ⟨e1, _, e3, e4⟩ := PAL_ISR_video_state cin s PAL_LVIDEO
      have hmod : (s.PAL_lineVideo + 1) % 65536 = s.PAL_lineVideo + 1 :=
        Nat.mod_eq_of_lt (by omega)
      rw [hmod] at e1 e3 e4
      refine ⟨_, _, PAL_ISR_on_video cin s hT hcode, ⟨?_, ?_, ?_, ?_⟩, ?_⟩
      · show (PAL_ISR_video cin { s with PAL_lineCode := PAL_LVIDEO }).1.PAL_lineIdx < _
        rw [e4]
        split <;> omega
      · show (PAL_ISR_video cin { s with PAL_lineCode := PAL_LVIDEO }).1.PAL_linePtr
          = (PAL_ISR_video cin { s with PAL_lineCode := PAL_LVIDEO }).1.PAL_lineIdx
        rw [e3, e4]
        split <;> omega
      · show (PAL_ISR_video cin { s with PAL_lineCode := PAL_LVIDEO }).1.PAL_lineVideo ≤ 287
        rw [e1]
        omega
      · show PAL_ltype.get? (PAL_ISR_video cin { s with PAL_lineCode := PAL_LVIDEO }).1.PAL_linePtr
            = some PAL_LVIDEO →
          (PAL_ISR_video cin { s with PAL_lineCode := PAL_LVIDEO }).1.PAL_lineVideo ≤ 286
        rw [e1, e3]
        by_cases h287 : s.PAL_lineVideo + 1 = 287
        · rw [if_pos h287]
          intro hc'
          exact absurd hc' hnext
        · intro _
          omega
      · show (PAL_ISR_video cin { s with PAL_lineCode := PAL_LVIDEO }).1.PAL_lineIdx = _
        rw [e4]
        by_cases h287 : s.PAL_lineVideo + 1 = 287
        · have hc2 : s.TMR0IF = true ∧
              ¬ (PAL_ltype.get? s.PAL_linePtr = some PAL_LVIDEO ∧ s.PAL_lineVideo + 1 < 287) :=
            ⟨hT, fun hh => by omega⟩
          rw [if_pos h287, if_pos hc2, hlen]
          omega
        · have hc2 : ¬ (s.TMR0IF = true ∧
              ¬ (PAL_ltype.get? s.PAL_linePtr = some PAL_LVIDEO ∧ s.PAL_lineVideo + 1 < 287)) :=
            fun hh => hh.2 ⟨hcode, by omega⟩
          rw [if_neg h287, if_neg hc2]
    · obtain ⟨e1, _, e3, e4⟩ := PAL_ISR_sync_state s code
      rw [hlen] at e3 e4
      refine ⟨_, _, PAL_ISR_on_sync cin s code hT hcode hvid, ⟨?_, ?_, ?_, ?_⟩, ?_⟩
      · show (PAL_ISR_sync { s with PAL_lineCode := code }).1.PAL_lineIdx < _
        rw [e4]
        split <;> omega
      · show (PAL_ISR_sync { s with PAL_lineCode := code }).1.PAL_linePtr
          = (PAL_ISR_sync { s with PAL_lineCode := code }).1.PAL_lineIdx
        rw [e3, e4]
        split <;> omega
      · show (PAL_ISR_sync { s with PAL_lineCode := code }).1.PAL_lineVideo ≤ 287
        rw [e1]
        omega
      · show _ → (PAL_ISR_sync { s with PAL_lineCode := code }).1.PAL_lineVideo ≤ 286
        rw [e1]
        intro _
        omega
      · show (PAL_ISR_sync { s with PAL_lineCode := code }).1.PAL_lineIdx = _
        rw [e4]
        have hc2 : s.TMR0IF = true ∧
            ¬ (PAL_ltype.get? s.PAL_linePtr = some PAL_LVIDEO ∧ s.PAL_lineVideo + 1 < 287) := by
          refine ⟨hT, ?_⟩
          rintro ⟨hc', _⟩
          rw [hcode] at hc'
          exact hvid (Option.some.inj hc')
        rw [if_pos hc2, hlen]
        split <;> omega
  · have hc2 : ¬ (s.TMR0IF = true ∧
        ¬ (PAL_ltype.get? s.PAL_linePtr = some PAL_LVIDEO ∧ s.PAL_lineVideo + 1 < 287)) :=
      fun hh => hT hh.1
    refine ⟨s, [], ?_, ⟨hi, hp, hl, hv⟩, ?_⟩
    · unfold PAL_ISR
      rw [if_neg hT]
    · rw [if_neg hc2]

/-- The invariant holds in every state reached from a state where it holds. -/
theorem traversalInv_reachable (s0 : PALState) (h0 : traversalInv s0) :
    ∀ s, Reachable s0 s → traversalInv s := by
  intro s hr
  induction hr with
  | start => exact h0
  | isr cin s s' out _ hstep ih =>
    obtain ⟨_, s'', out', h1, h2, _⟩ := traversalInv_step cin s ih
    rw [h1] at hstep
    simp only [Option.some.injEq, Prod.mk.injEq] at hstep
    rw [← hstep.1]
    exact h2
  | timer s _ ih => exact ih

/-- The invariant makes every run of scan lines succeed, and holds after it. -/
theorem traversalInv_run (cin : Nat → Bool) (s : PALState) (h : traversalInv s) :
    ∀ n, ∃ sn, PAL_run cin n s = some sn ∧ traversalInv sn := by
  intro n
  induction n with
  | zero => exact ⟨s, rfl, h⟩
  | succ n ih =>
    obtain ⟨sn, hsn, hinv⟩ := ih
    have hinv' : traversalInv { sn with TMR0IF := true } := hinv
    obtain ⟨_, s', out, h1, h2, _⟩ := traversalInv_step cin { sn with TMR0IF := true } hinv'
    refine ⟨s', ?_, h2⟩
    simp only [PAL_run, hsn, Option.some_bind, PAL_tick, h1, Option.map_some']

/-- C27: in every state reached from an initial state (index 0, pointer at the
table start, sub-line counter 0) by any number of invocations of `PAL_ISR`, the
schedule index is below 53, the table length, `PAL_linePtr` designates entry
`PAL_lineIdx`, and `PAL_lineVideo <= 287` (`<= 286` on a video entry); so the
table read is in range, the next invocation returns and either keeps the
index (on a video entry before its last sub-line, or without a pending
interrupt) or moves it to the next index of the cycle `0, 1, ..., 52, 0, ...`;
and any number of scan lines run without a failed table read. -/
theorem C27_cyclic_traversal (s0 s : PALState)
    (hi : s0.PAL_lineIdx = 0) (hp : s0.PAL_linePtr = 0) (hl : s0.PAL_lineVideo = 0)
    (hr : Reachable s0 s) :
    PAL_ltype.length = 53 ∧
    s.PAL_lineIdx < 53 ∧ s.PAL_linePtr = s.PAL_lineIdx ∧ s.PAL_lineVideo ≤ 287 ∧
    (PAL_ltype.get? s.PAL_linePtr = some PAL_LVIDEO → s.PAL_lineVideo ≤ 286) ∧
    (∃ code, PAL_ltype.get? s.PAL_linePtr = some code) ∧
    (∀ cin : Nat → Bool, ∃ s' out, PAL_ISR cin s = some (s', out) ∧
      s'.PAL_lineIdx =
        (if s.TMR0IF = true ∧
            ¬ (PAL_ltype.get? s.PAL_linePtr = some PAL_LVIDEO ∧ s.PAL_lineVideo + 1 < 287)
          then (s.PAL_lineIdx + 1) % 53 else s.PAL_lineIdx)) ∧
    (∀ (cin : Nat → Bool) (n : Nat), ∃ sn, PAL_run cin n s = some sn ∧
      sn.PAL_lineIdx < 53 ∧ sn.PAL_linePtr = sn.PAL_lineIdx) := by
  have h0 : traversalInv s0 := by
    refine ⟨by rw [hi]; decide, by rw [hi, hp], by omega, fun _ => by omega⟩
  have hinv := traversalInv_reachable s0 h0 s hr
  have hlen : PAL_ltype.length = 53 := by decide
  obtain ⟨a1, a2, a3, a4⟩ := hinv
  refine ⟨hlen, by omega, a2, a3, a4, (traversalInv_step (fun _ => false) s ⟨a1, a2, a3, a4⟩).1,
    ?_, ?_⟩
  · intro cin
    obtain ⟨_, s', out, h1, _, h3⟩ := traversalInv_step cin s ⟨a1, a2, a3, a4⟩
    rw [hlen] at h3
    exact ⟨s', out, h1, h3⟩
  · intro cin n
    obtain ⟨sn, h1, b1, b2, _, _⟩ := traversalInv_run cin s ⟨a1, a2, a3, a4⟩ n
    exact ⟨sn, h1, by omega, b2⟩

/-- C27 at the reset state once the timer has set its flag. -/
theorem C27_cyclic_traversal_witness :
    (resetState.PAL_lineIdx = 0 ∧ resetState.PAL_linePtr = 0 ∧ resetState.PAL_lineVideo = 0 ∧
      Reachable resetState { resetState with TMR0IF := true }) ∧
    (PAL_ltype.length = 53 ∧
    ({ resetState with TMR0IF := true } : PALState).PAL_lineIdx < 53 ∧
    ({ resetState with TMR0IF := true } : PALState).PAL_linePtr
      = ({ resetState with TMR0IF := true } : PALState).PAL_lineIdx ∧
    ({ resetState with TMR0IF := true } : PALState).PAL_lineVideo ≤ 287 ∧
    (PAL_ltype.get? ({ resetState with TMR0IF := true } : PALState).PAL_linePtr
        = some PAL_LVIDEO →
      ({ resetState with TMR0IF := true } : PALState).PAL_lineVideo ≤ 286) ∧
    (∃ code, PAL_ltype.get? ({ resetState with TMR0IF := true } : PALState).PAL_linePtr
      = some code) ∧
    (∀ cin : Nat → Bool, ∃ s' out,
      PAL_ISR cin { resetState with TMR0IF := true } = some (s', out) ∧
      s'.PAL_lineIdx =
        (if ({ resetState with TMR0IF := true } : PALState).TMR0IF = true ∧
            ¬ (PAL_ltype.get? ({ resetState with TMR0IF := true } : PALState).PAL_linePtr
                = some PAL_LVIDEO ∧
              ({ resetState with TMR0IF := true } : PALState).PAL_lineVideo + 1 < 287)
          then (({ resetState with TMR0IF := true } : PALState).PAL_lineIdx + 1) % 53
          else ({ resetState with TMR0IF := true } : PALState).PAL_lineIdx)) ∧
    (∀ (cin : Nat → Bool) (n : Nat), ∃ sn,
      PAL_run cin n { resetState with TMR0IF := true } = some sn ∧
      sn.PAL_lineIdx < 53 ∧ sn.PAL_linePtr = sn.PAL_lineIdx)) :=
  ⟨⟨rfl, rfl, rfl, Reachable.timer _ Reachable.start⟩,
    C27_cyclic_traversal resetState { resetState with TMR0IF := true } rfl rfl rfl
      (Reachable.timer _ Reachable.start)⟩

/-- The sync events depend on the line code only. -/
theorem PAL_ISR_sync_out_code (s : PALState) (code : Nat) :
    (PAL_ISR_sync { s with PAL_lineCode := code }).2
      = (PAL_ISR_sync { resetState with PAL_lineCode := code }).2 := by
  rw [PAL_ISR_sync_out, PAL_ISR_sync_out]

/-- What one invocation of `PAL_ISR` does to the schedule variables and to the
sync pin, and the delays it holds, from the schedule variables alone. -/
theorem PAL_ISR_view (cin : Nat → Bool) (s : PALState) :
    (PAL_ISR cin s).map (fun r => (timingState r.1, bsyncWrites r.2, delays r.2)) =
      if s.TMR0IF = true then
        (PAL_ltype.get? s.PAL_linePtr).map (fun code =>
          if code = PAL_LVIDEO then
            ((false,
              (if (s.PAL_lineVideo + 1) % 65536 = 287 then s.PAL_linePtr + 1 else s.PAL_linePtr),
              (if (s.PAL_lineVideo + 1) % 65536 = 287 then (s.PAL_lineIdx + 1) % 256
                else s.PAL_lineIdx),
              (s.PAL_lineVideo + 1) % 65536, s.PAL_frameCtr), [0, 0, 1], [3])
          else
            ((false,
              (if (s.PAL_lineIdx + 1) % 256 = PAL_ltype.length then 0 else s.PAL_linePtr + 1),
              (if (s.PAL_lineIdx + 1) % 256 = PAL_ltype.length then 0
                else (s.PAL_lineIdx + 1) % 256),
              0,
              (if (s.PAL_lineIdx + 1) % 256 = PAL_ltype.length
                then (s.PAL_frameCtr + 1) % 4294967296 else s.PAL_frameCtr)),
             0 :: bsyncWrites (PAL_ISR_sync { resetState with PAL_lineCode := code }).2,
             delays (PAL_ISR_sync { resetState with PAL_lineCode := code }).2))
      else some (timingState s, [], []) := by
  by_cases hT : s.TMR0IF = true
  · rw [if_pos hT]
    cases hc : PAL_ltype.get? s.PAL_linePtr with
    | none =>
      unfold PAL_ISR
      rw [if_pos hT, hc]
      rfl
    | some code =>
      by_cases hv : code = PAL_LVIDEO
      · subst hv
        rw [PAL_ISR_on_video cin s hT hc]
        obtain ⟨e1, e2, e3, e4⟩ := PAL_ISR_video_state cin s PAL_LVIDEO
        obtain ⟨b1, b2⟩ := PAL_ISR_video_sync cin { s with PAL_lineCode := PAL_LVIDEO }
        simp only [Option.map_some', if_true, timingState, bsyncWrites_append, delays_append,
          e1, e2, e3, e4, b1, b2]
        rfl
      · rw [PAL_ISR_on_sync cin s code hT hc hv]
        obtain ⟨e1, e2, e3, e4⟩ := PAL_ISR_sync_state s code
        simp only [Option.map_some', if_neg hv, timingState, bsyncWrites_append, delays_append,
          e1, e2, e3, e4, PAL_ISR_sync_out_code s code]
        rfl
  · rw [if_neg hT]
    unfold PAL_ISR
    rw [if_neg hT]
    rfl

/-- C28: for two states that agree on the timer flag, the table pointer, the
schedule index, the sub-line counter and the frame counter, and differ
arbitrarily in `PAL_render`, `PAL_border`, the configured resolution and
offsets, the framebuffer (and the carry flag), one invocation of `PAL_ISR`
fails for both or returns for both, with states that agree again on those
variables and the same sequences of sync-output levels and of delays; in
particular changing `PAL_render` changes none of them.  `PAL_ISR` returns
whenever the pointer is inside the table, and it never writes the
framebuffer, `PAL_render`, `PAL_border` or the configuration. -/
theorem C28_timing_independent (cin1 cin2 : Nat → Bool) (s1 s2 : PALState)
    (h : timingState s1 = timingState s2) :
    (PAL_ISR cin1 s1).map (fun r => (timingState r.1, bsyncWrites r.2, delays r.2))
      = (PAL_ISR cin2 s2).map (fun r => (timingState r.1, bsyncWrites r.2, delays r.2)) ∧
    (∀ rd : Nat,
      (PAL_ISR cin1 { s1 with PAL_render := rd }).map
          (fun r => (timingState r.1, bsyncWrites r.2, delays r.2))
        = (PAL_ISR cin1 s1).map (fun r => (timingState r.1, bsyncWrites r.2, delays r.2))) ∧
    (s1.PAL_linePtr < PAL_ltype.length → ∃ r, PAL_ISR cin1 s1 = some r) ∧
    (∀ s' out, PAL_ISR cin1 s1 = some (s', out) →
      s'.PAL_screen = s1.PAL_screen ∧ s'.PAL_render = s1.PAL_render ∧
        s'.PAL_border = s1.PAL_border ∧ s'.PAL_y = s1.PAL_y ∧
        s'.PAL_shift_y = s1.PAL_shift_y ∧ s'.PAL_max_y = s1.PAL_max_y) := by
  refine ⟨?_, ?_, ?_, ?_⟩
  · rw [PAL_ISR_view, PAL_ISR_view]
    have h' := h
    simp only [timingState, Prod.mk.injEq] at h'
    obtain ⟨hT, hp, hi, hl, hf⟩ := h'
    rw [h, hT, hp, hi, hl, hf]
  · intro rd
    rw [PAL_ISR_view, PAL_ISR_view]
    rfl
  · intro hlt
    unfold PAL_ISR
    by_cases hT : s1.TMR0IF = true
    · rw [if_pos hT, List.get?_eq_get hlt]
      exact ⟨_, rfl⟩
    · rw [if_neg hT]
      exact ⟨_, rfl⟩
  · intro s' out hs
    obtain ⟨a1, a2, a3, a4, a5, a6⟩ := PAL_ISR_keeps cin1 s1 s' out hs
    exact ⟨a6, a4, a5, a1, a2, a3⟩

/-- C28 at two states inside the first video block, at a line of the content
area: one renders a white framebuffer of 120 rows with a white border, the
other has rendering disabled and another resolution. -/
theorem C28_timing_independent_witness :
    timingState { videoState 120 30 with PAL_screen := fun _ => 255, PAL_border := 1 }
      = timingState { videoState 60 30 with PAL_render := 0 } ∧
    ((PAL_ISR carryClear
          { videoState 120 30 with PAL_screen := fun _ => 255, PAL_border := 1 }).map
        (fun r => (timingState r.1, bsyncWrites r.2, delays r.2))
      = (PAL_ISR (fun _ => true) { videoState 60 30 with PAL_render := 0 }).map
        (fun r => (timingState r.1, bsyncWrites r.2, delays r.2)) ∧
    (∀ rd : Nat,
      (PAL_ISR carryClear
          { ({ videoState 120 30 with PAL_screen := fun _ => 255, PAL_border := 1 } : PALState)
            with PAL_render := rd }).map
          (fun r => (timingState r.1, bsyncWrites r.2, delays r.2))
        = (PAL_ISR carryClear
            { videoState 120 30 with PAL_screen := fun _ => 255, PAL_border := 1 }).map
          (fun r => (timingState r.1, bsyncWrites r.2, delays r.2))) ∧
    (({ videoState 120 30 with PAL_screen := fun _ => 255, PAL_border := 1 } : PALState).PAL_linePtr
        < PAL_ltype.length →
      ∃ r, PAL_ISR carryClear
        { videoState 120 30 with PAL_screen := fun _ => 255, PAL_border := 1 } = some r) ∧
    (∀ s' out, PAL_ISR carryClear
        { videoState 120 30 with PAL_screen := fun _ => 255, PAL_border := 1 } = some (s', out) →
      s'.PAL_screen
          = ({ videoState 120 30 with PAL_screen := fun _ => 255, PAL_border := 1 } : PALState).PAL_screen ∧
        s'.PAL_render
          = ({ videoState 120 30 with PAL_screen := fun _ => 255, PAL_border := 1 } : PALState).PAL_render ∧
        s'.PAL_border
          = ({ videoState 120 30 with PAL_screen := fun _ => 255, PAL_border := 1 } : PALState).PAL_border ∧
        s'.PAL_y
          = ({ videoState 120 30 with PAL_screen := fun _ => 255, PAL_border := 1 } : PALState).PAL_y ∧
        s'.PAL_shift_y
          = ({ videoState 120 30 with PAL_screen := fun _ => 255, PAL_border := 1 } : PALState).PAL_shift_y ∧
        s'.PAL_max_y
          = ({ videoState 120 30 with PAL_screen := fun _ => 255, PAL_border := 1 } : PALState).PAL_max_y)) :=
  ⟨rfl, C28_timing_independent carryClear (fun _ => true)
    { videoState 120 30 with PAL_screen := fun _ => 255, PAL_border := 1 }
    { videoState 60 30 with PAL_render := 0 } rfl⟩
/-! ## C29: the vertical layout of an active-video block -/

/-- The content branch reads the framebuffer. -/
theorem fbRead_mem_PAL_ISR_line (s : PALState) (cin : Nat → Bool) (ptr : Nat) :
    Out.fbRead ptr ∈ PAL_ISR_line s cin ptr := by
  unfold PAL_ISR_line
  simp

/-- The `k`-th invocation of `PAL_ISR` inside an active-video block entered
with `PAL_lineVideo = 0` (`k = 1..287`): it returns with `PAL_lineVideo = k`,
and it reads the framebuffer exactly when the test of the content path holds
for `k`; otherwise its events are those of a border-only line. -/
theorem video_block_line (cin : Nat → Bool) (s : PALState)
    (hc : PAL_ltype.get? s.PAL_linePtr = some PAL_LVIDEO) (hl : s.PAL_lineVideo = 0)
    (k : Nat) (hk1 : 1 ≤ k) (hk2 : k ≤ 287) :
    ∃ sk s' out, PAL_run cin (k - 1) s = some sk ∧
      PAL_ISR cin { sk with TMR0IF := true } = some (s', out) ∧
      s'.PAL_lineVideo = k ∧
      sk.PAL_screen = s.PAL_screen ∧
      ((∃ off, Out.fbRead off ∈ out) ↔
        (s.PAL_render ≠ 0 ∧ s.PAL_shift_y ≤ k ∧ k < s.PAL_max_y)) ∧
      (¬ (s.PAL_render ≠ 0 ∧ s.PAL_shift_y ≤ k ∧ k < s.PAL_max_y) →
        out = [Out.bvid 0, Out.bsync 0, Out.bvid 0, Out.bsync 0, Out.delay 3, Out.bsync 1,
          Out.portd (s.PAL_border % 256)]) ∧
      ((s.PAL_render ≠ 0 ∧ s.PAL_shift_y ≤ k ∧ k < s.PAL_max_y) →
        out = [Out.bvid 0, Out.bsync 0, Out.bvid 0, Out.bsync 0, Out.delay 3, Out.bsync 1,
            Out.portd (s.PAL_border % 256)]
          ++ PAL_ISR_line { sk with TMR0IF := true, PAL_lineCode := PAL_LVIDEO } cin
              (PAL_ISR_ptr k s.PAL_shift_y)) := by
  obtain ⟨sk, hsk, hp, _, hlv, _⟩ :=
    PAL_run_sched cin s.PAL_frameCtr s ⟨s.PAL_linePtr, s.PAL_lineIdx, 0, 0⟩ ⟨rfl, rfl, hl, rfl⟩
      (k - 1) _ (schedRun_video s.PAL_linePtr s.PAL_lineIdx 0 hc (k - 1) (by omega))
  obtain ⟨_, ks, km, kr, kb, kscr⟩ := PAL_run_keeps cin s (k - 1) sk hsk
  simp only at hp hlv
  have hc' : PAL_ltype.get? ({ sk with TMR0IF := true } : PALState).PAL_linePtr
      = some PAL_LVIDEO := by
    show PAL_ltype.get? sk.PAL_linePtr = some PAL_LVIDEO
    rw [hp]; exact hc
  have hL : (sk.PAL_lineVideo + 1) % 65536 = k := by
    rw [hlv]; omega
  have hiff : PAL_ISR_content { sk with TMR0IF := true, PAL_lineCode := PAL_LVIDEO } k = true ↔
      (s.PAL_render ≠ 0 ∧ s.PAL_shift_y ≤ k ∧ k < s.PAL_max_y) := by
    rw [PAL_ISR_content_iff]
    show (sk.PAL_render ≠ 0 ∧ sk.PAL_shift_y ≤ k ∧ k < sk.PAL_max_y) ↔ _
    rw [ks, km, kr]
  have hout : (PAL_ISR_video cin { sk with TMR0IF := true, PAL_lineCode := PAL_LVIDEO }).2 =
      if PAL_ISR_content { sk with TMR0IF := true, PAL_lineCode := PAL_LVIDEO } k then
        [Out.bvid 0, Out.bsync 0, Out.delay 3, Out.bsync 1, Out.portd (s.PAL_border % 256)]
          ++ PAL_ISR_line { sk with TMR0IF := true, PAL_lineCode := PAL_LVIDEO } cin
              (PAL_ISR_ptr k s.PAL_shift_y)
      else [Out.bvid 0, Out.bsync 0, Out.delay 3, Out.bsync 1,
        Out.portd (s.PAL_border % 256)] := by
    rw [PAL_ISR_video_out]
    show (if PAL_ISR_content { sk with TMR0IF := true, PAL_lineCode := PAL_LVIDEO }
          ((sk.PAL_lineVideo + 1) % 65536) = true then
        [Out.bvid 0, Out.bsync 0, Out.delay 3, Out.bsync 1] ++ [Out.portd (sk.PAL_border % 256)]
          ++ PAL_ISR_line { sk with TMR0IF := true, PAL_lineCode := PAL_LVIDEO } cin
              (PAL_ISR_ptr ((sk.PAL_lineVideo + 1) % 65536) sk.PAL_shift_y)
      else [Out.bvid 0, Out.bsync 0, Out.delay 3, Out.bsync 1]
        ++ [Out.portd (sk.PAL_border % 256)]) = _
    rw [hL, ks, kb]
    rfl
  refine ⟨sk, _, _, hsk, PAL_ISR_on_video cin { sk with TMR0IF := true } rfl hc', ?_, kscr,
    ?_, ?_, ?_⟩
  · show (PAL_ISR_video cin { sk with TMR0IF := true, PAL_lineCode := PAL_LVIDEO }).1.PAL_lineVideo
      = k
    rw [PAL_ISR_video_lineVideo]
    exact hL
  · show (∃ off, Out.fbRead off ∈ [Out.bvid 0, Out.bsync 0]
      ++ (PAL_ISR_video cin { sk with TMR0IF := true, PAL_lineCode := PAL_LVIDEO }).2) ↔ _
    rw [hout, ← hiff]
    by_cases hcond : PAL_ISR_content { sk with TMR0IF := true, PAL_lineCode := PAL_LVIDEO } k = true
    · rw [if_pos hcond]
      refine ⟨fun _ => hcond, fun _ => ⟨PAL_ISR_ptr k s.PAL_shift_y, ?_⟩⟩
      exact List.mem_append_right _ (List.mem_append_right _ (fbRead_mem_PAL_ISR_line _ _ _))
    · rw [if_neg hcond]
      refine ⟨fun h => ?_, fun h => absurd h hcond⟩
      obtain ⟨off, hoff⟩ := h
      simp at hoff
  · intro hn
    show [Out.bvid 0, Out.bsync 0]
      ++ (PAL_ISR_video cin { sk with TMR0IF := true, PAL_lineCode := PAL_LVIDEO }).2 = _
    rw [hout, if_neg (fun h => hn (hiff.1 h))]
    rfl
  · intro hy
    show [Out.bvid 0, Out.bsync 0]
      ++ (PAL_ISR_video cin { sk with TMR0IF := true, PAL_lineCode := PAL_LVIDEO }).2 = _
    rw [hout, if_pos (hiff.2 hy)]
    rfl

/-- C29: after `PAL_init(R)` with `1 <= R <= 143` and rendering enabled, an
active-video block entered with `PAL_lineVideo = 0` consists of 287
invocations of `PAL_ISR`, the `k`-th leaving `PAL_lineVideo = k`, and the
`k`-th takes the content path (it reads the framebuffer) if and only if
`143 - R <= k < 143 + R`.  For `R <= 142` these are the `2*R` consecutive
lines `143 - R, ..., 142 + R`, preceded by the `142 - R` border-only lines
`1, ..., 142 - R` and followed by the `145 - R` border-only lines
`143 + R, ..., 287`; for `R = 143` they are the `2*R - 1` lines `1, ..., 285`. -/
theorem C29_vertical_layout (cin : Nat → Bool) (s : PALState) (R : Nat)
    (hR1 : 1 ≤ R) (hR : R ≤ 143)
    (hcfg : configured R s) (hrender : s.PAL_render ≠ 0)
    (hc : PAL_ltype.get? s.PAL_linePtr = some PAL_LVIDEO) (hl : s.PAL_lineVideo = 0) :
    (∀ k, 1 ≤ k → k ≤ 287 →
      ∃ sk s' out, PAL_run cin (k - 1) s = some sk ∧
        PAL_ISR cin { sk with TMR0IF := true } = some (s', out) ∧
        s'.PAL_lineVideo = k ∧
        ((∃ off, Out.fbRead off ∈ out) ↔ (143 - R ≤ k ∧ k < 143 + R)) ∧
        (¬ (143 - R ≤ k ∧ k < 143 + R) →
          out = [Out.bvid 0, Out.bsync 0, Out.bvid 0, Out.bsync 0, Out.delay 3, Out.bsync 1,
            Out.portd (s.PAL_border % 256)])) ∧
    (R ≤ 142 →
      (∀ k, 1 ≤ k → k ≤ 287 →
        ((143 - R ≤ k ∧ k < 143 + R) ↔ (142 - R < k ∧ k ≤ (142 - R) + 2 * R))) ∧
      (142 - R) + 2 * R + (145 - R) = 287) ∧
    (R = 143 →
      ∀ k, 1 ≤ k → k ≤ 287 → ((143 - R ≤ k ∧ k < 143 + R) ↔ k ≤ 2 * R - 1)) := by
  obtain ⟨_, hshift, hmax⟩ := configured_values R s (by omega) hcfg
  rw [if_pos hR] at hshift
  refine ⟨?_, ?_, ?_⟩
  · intro k hk1 hk2
    obtain ⟨sk, s', out, h1, h2, h3, _, h5, h6, _⟩ := video_block_line cin s hc hl k hk1 hk2
    have hiff : (s.PAL_render ≠ 0 ∧ s.PAL_shift_y ≤ k ∧ k < s.PAL_max_y) ↔
        (143 - R ≤ k ∧ k < 143 + R) := by
      rw [hmax, hshift]
      constructor
      · rintro ⟨_, a, b⟩
        exact ⟨a, by omega⟩
      · rintro ⟨a, b⟩
        exact ⟨hrender, a, by omega⟩
    refine ⟨sk, s', out, h1, h2, h3, h5.trans hiff, fun hn => h6 (fun h => hn (hiff.1 h))⟩
  · intro hR2
    refine ⟨fun k hk1 hk2 => ?_, by omega⟩
    constructor <;> rintro ⟨a, b⟩ <;> constructor <;> omega
  · intro hR2 k hk1 hk2
    subst hR2
    constructor
    · rintro ⟨_, b⟩; omega
    · intro h; constructor <;> omega

/-- C29 at the start of the first video block, after `PAL_init(100)`. -/
theorem C29_vertical_layout_witness :
    ((1 : Nat) ≤ 100 ∧ (100 : Nat) ≤ 143 ∧ configured 100 (videoState 100 0) ∧
      (videoState 100 0).PAL_render ≠ 0 ∧
      PAL_ltype.get? (videoState 100 0).PAL_linePtr = some PAL_LVIDEO ∧
      (videoState 100 0).PAL_lineVideo = 0) ∧
    ((∀ k, 1 ≤ k → k ≤ 287 →
      ∃ sk s' out, PAL_run carryClear (k - 1) (videoState 100 0) = some sk ∧
        PAL_ISR carryClear { sk with TMR0IF := true } = some (s', out) ∧
        s'.PAL_lineVideo = k ∧
        ((∃ off, Out.fbRead off ∈ out) ↔ (143 - 100 ≤ k ∧ k < 143 + 100)) ∧
        (¬ (143 - 100 ≤ k ∧ k < 143 + 100) →
          out = [Out.bvid 0, Out.bsync 0, Out.bvid 0, Out.bsync 0, Out.delay 3, Out.bsync 1,
            Out.portd ((videoState 100 0).PAL_border % 256)])) ∧
    ((100 : Nat) ≤ 142 →
      (∀ k, 1 ≤ k → k ≤ 287 →
        ((143 - 100 ≤ k ∧ k < 143 + 100) ↔ (142 - 100 < k ∧ k ≤ (142 - 100) + 2 * 100))) ∧
      (142 - 100) + 2 * 100 + (145 - 100) = 287) ∧
    ((100 : Nat) = 143 →
      ∀ k, 1 ≤ k → k ≤ 287 → ((143 - 100 ≤ k ∧ k < 143 + 100) ↔ k ≤ 2 * 100 - 1))) :=
  ⟨⟨by decide, by decide, ⟨rfl, rfl, rfl⟩, by decide, by decide, rfl⟩,
    C29_vertical_layout carryClear (videoState 100 0) 100 (by decide) (by decide) ⟨rfl, rfl, rfl⟩
      (by decide) (by decide) rfl⟩
/-! ## C23, C30: the bits on the luminance pin -/

theorem portdWrites_append (a b : List Out) :
    portdWrites (a ++ b) = portdWrites a ++ portdWrites b := by
  induction a with
  | nil => rfl
  | cons e a ih => cases e <;> simp [portdWrites, ih]

theorem luminance_append (a b : List Out) : luminance (a ++ b) = luminance a ++ luminance b := by
  unfold luminance
  rw [portdWrites_append, List.map_append]

set_option maxRecDepth 100000 in
theorem luminance_RRCF_seq_fin :
    ∀ (b : Fin 256) (c : Bool),
      luminance (RRCF_seq 7 b.val c) = (List.range 7).map (fun i => b.val / 2 ^ (i + 1) % 2) ∧
      (portdWrites (RRCF_seq 7 b.val c)).length = 7 := by
  decide

/-- The seven `RRCF PORTD` of `PAL_BLOCK_SHIFT` put bits 1 to 7 of the byte on
the luminance pin, in that order, whatever the carry flag was. -/
theorem luminance_PAL_BLOCK_SHIFT (b : Nat) (hb : b < 256) (c : Bool) :
    luminance (PAL_BLOCK_SHIFT b c) = (List.range 7).map (fun i => b / 2 ^ (i + 1) % 2) :=
  (luminance_RRCF_seq_fin ⟨b, hb⟩ c).1

/-- The luminance values of the shift/load pairs. -/
theorem luminance_PAL_shiftLoad (s : PALState) (cin : Nat → Bool) (ptr : Nat) :
    ∀ n k, luminance (PAL_shiftLoad s cin ptr n k)
      = (List.range n).flatMap (fun j =>
          (List.range 7).map (fun i => (s.PAL_screen (ptr + (k + j))).val / 2 ^ (i + 1) % 2)
            ++ [(s.PAL_screen (ptr + (k + (j + 1)))).val / 2 ^ 0 % 2]) := by
  intro n
  induction n with
  | zero => intro k; rfl
  | succ n ih =>
    intro k
    refine Eq.trans ?_ (flatMap_range_succ _ n).symm
    rw [PAL_shiftLoad, luminance_append, luminance_append, ih (k + 1),
      luminance_PAL_BLOCK_SHIFT _ (s.PAL_screen (ptr + k)).isLt]
    have e1 : ∀ j : Nat, k + 1 + j = k + (j + 1) := by intro j; omega
    have e2 : luminance (PAL_BLOCK_LOAD s (ptr + k + 1))
        = [(s.PAL_screen (ptr + (k + (0 + 1)))).val / 2 ^ 0 % 2] := by
      simp [luminance, PAL_BLOCK_LOAD, portdWrites, Nat.add_assoc]
    simp only [e1, e2, Nat.add_zero]

/-- Regrouping a head, pairs of a tail and the next head, and a last tail. -/
theorem flatMap_regroup {α : Type} (f : Nat → α) (g : Nat → List α) (n : Nat) :
    [f 0] ++ (List.range n).flatMap (fun j => g j ++ [f (j + 1)]) ++ g n
      = (List.range (n + 1)).flatMap (fun j => f j :: g j) := by
  induction n with
  | zero => simp [List.range_succ]
  | succ n ih =>
    rw [List.range_succ, List.flatMap_append, List.range_succ (n := n + 1), List.flatMap_append,
      ← ih]
    simp

theorem bits_by_byte (B : Nat → Nat) :
    (List.range 16).flatMap (fun j =>
        (B j / 2 ^ 0 % 2) :: (List.range 7).map (fun i => B j / 2 ^ (i + 1) % 2))
      = (List.range 128).map (fun n => B (n / 8) / 2 ^ (n % 8) % 2) := by
  rfl

/-- The luminance values of the content branch before the right border: for
`n = 0..127`, bit `n mod 8` of the byte at `ptr + n / 8`. -/
theorem luminance_PAL_ISR_line_body (s : PALState) (cin : Nat → Bool) (ptr : Nat) :
    luminance ([Out.fbRead ptr] ++ PAL_BLOCK_HEAD s ptr ++ PAL_shiftLoad s cin ptr 15 0
        ++ PAL_BLOCK_SHIFT (s.PAL_screen (ptr + 15)).val (cin 15))
      = (List.range 128).map (fun n => (s.PAL_screen (ptr + n / 8)).val / 2 ^ (n % 8) % 2) := by
  rw [luminance_append, luminance_append, luminance_append,
    luminance_PAL_shiftLoad, luminance_PAL_BLOCK_SHIFT _ (s.PAL_screen (ptr + 15)).isLt]
  have h0 : luminance [Out.fbRead ptr] = [] := rfl
  have h1 : luminance (PAL_BLOCK_HEAD s ptr) = [(s.PAL_screen (ptr + 0)).val / 2 ^ 0 % 2] := by
    simp [luminance, PAL_BLOCK_HEAD, portdWrites]
  rw [h0, h1, List.nil_append]
  have hre := flatMap_regroup (fun j => (s.PAL_screen (ptr + j)).val / 2 ^ 0 % 2)
    (fun j => (List.range 7).map (fun i => (s.PAL_screen (ptr + j)).val / 2 ^ (i + 1) % 2)) 15
  simp only [Nat.zero_add] at hre ⊢
  rw [hre, bits_by_byte (fun j => (s.PAL_screen (ptr + j)).val)]

/-- The content branch is its 128 pixel writes followed by the right border. -/
theorem PAL_ISR_line_eq (s : PALState) (cin : Nat → Bool) (ptr : Nat) :
    PAL_ISR_line s cin ptr
      = ([Out.fbRead ptr] ++ PAL_BLOCK_HEAD s ptr ++ PAL_shiftLoad s cin ptr 15 0
          ++ PAL_BLOCK_SHIFT (s.PAL_screen (ptr + 15)).val (cin 15))
        ++ [Out.portd (s.PAL_border % 256)] := rfl

theorem div_pow_mod_two (b i : Nat) : b / 2 ^ i % 2 = (b.testBit i).toNat := by
  rw [Nat.testBit_to_div_mod]
  by_cases h : b / 2 ^ i % 2 = 1
  · simp [h]
  · have h0 : b / 2 ^ i % 2 = 0 := by omega
    simp [h0]

theorem range_flatMap_16_8 {α : Type} (F : Nat → Nat → α) :
    (List.range 16).flatMap (fun j => (List.range 8).map (fun i => F j i))
      = (List.range 128).map (fun n => F (n / 8) (n % 8)) := by
  rfl

/-- The events of `PAL_ISR` on a content-path line: the end of the previous
line, the horizontal sync, the left border, the 128 pixel writes (`vals`,
with the framebuffer reads between them) and the right border. -/
theorem PAL_ISR_content_line (cin : Nat → Bool) (s : PALState) (hT : s.TMR0IF = true)
    (hc : PAL_ltype.get? s.PAL_linePtr = some PAL_LVIDEO)
    (hcond : PAL_ISR_content s ((s.PAL_lineVideo + 1) % 65536) = true) :
    ∃ s' out vals, PAL_ISR cin s = some (s', out) ∧
      portdWrites out = [s.PAL_border % 256] ++ vals ++ [s.PAL_border % 256] ∧
      vals.length = 128 ∧
      vals.map (fun v => v % 2)
        = (List.range 128).map (fun n =>
            (s.PAL_screen (PAL_ISR_ptr ((s.PAL_lineVideo + 1) % 65536) s.PAL_shift_y
              + n / 8)).val / 2 ^ (n % 8) % 2) ∧
      fbReads out = PAL_ISR_ptr ((s.PAL_lineVideo + 1) % 65536) s.PAL_shift_y ::
        (List.range 16).map
          (fun j => PAL_ISR_ptr ((s.PAL_lineVideo + 1) % 65536) s.PAL_shift_y + j) := by
  obtain ⟨s', hs'⟩ := PAL_ISR_video_events cin s hT hc
  rw [if_pos hcond] at hs'
  have hbody := luminance_PAL_ISR_line_body s cin
    (PAL_ISR_ptr ((s.PAL_lineVideo + 1) % 65536) s.PAL_shift_y)
  refine ⟨s', _, portdWrites ([Out.fbRead (PAL_ISR_ptr ((s.PAL_lineVideo + 1) % 65536) s.PAL_shift_y)]
      ++ PAL_BLOCK_HEAD s (PAL_ISR_ptr ((s.PAL_lineVideo + 1) % 65536) s.PAL_shift_y)
      ++ PAL_shiftLoad s cin (PAL_ISR_ptr ((s.PAL_lineVideo + 1) % 65536) s.PAL_shift_y) 15 0
      ++ PAL_BLOCK_SHIFT
          (s.PAL_screen (PAL_ISR_ptr ((s.PAL_lineVideo + 1) % 65536) s.PAL_shift_y + 15)).val
          (cin 15)), hs', ?_, ?_, hbody, ?_⟩
  · rw [portdWrites_append, portdWrites_append, PAL_ISR_line_eq, portdWrites_append]
    rfl
  · have hlen := congrArg List.length hbody
    unfold luminance at hlen
    rw [List.length_map, List.length_map, List.length_range] at hlen
    exact hlen
  · rw [fbReads_append, fbReads_append, fbReads_PAL_ISR_line]
    rfl

set_option maxRecDepth 100000 in
/-- C23, counterexample: with framebuffer byte 0 equal to `0x01` (bit 0 set, bit
7 clear) and the other bytes 0, the line that shows row 0 puts on the
luminance pin, after the left border, the value 1 first and then seven times
0: bit 0 leaves first, not bit 7. -/
theorem C23_counterexample :
    (1 : Nat).testBit 0 = true ∧ (1 : Nat).testBit 7 = false ∧
    (PAL_ISR carryClear
        { videoState 120 22 with PAL_screen := fun i => if i = 0 then 1 else 0 }).map
      (fun r => ((fbReads r.2).take 2, (luminance r.2).take 9))
      = some ([0, 0], [0, 1, 0, 0, 0, 0, 0, 0, 0]) := by
  decide

/-- C23, amended: on a content-path line `PAL_ISR` reads the 16 consecutive
bytes of the resolved row (the first also by the dummy read) and writes
`PORTD` 130 times: the left border, 128 pixel values and the right border.
Bit 0 of the pixel values, the luminance, shows the bytes of the row in order
and within each byte the bits least-significant first: bit 0 first, bit 7
last. -/
theorem C23_shift_out_order (cin : Nat → Bool) (s : PALState) (hT : s.TMR0IF = true)
    (hc : PAL_ltype.get? s.PAL_linePtr = some PAL_LVIDEO)
    (hcond : PAL_ISR_content s ((s.PAL_lineVideo + 1) % 65536) = true) :
    ∃ s' out, PAL_ISR cin s = some (s', out) ∧
      fbReads out = PAL_ISR_ptr ((s.PAL_lineVideo + 1) % 65536) s.PAL_shift_y ::
        (List.range 16).map
          (fun j => PAL_ISR_ptr ((s.PAL_lineVideo + 1) % 65536) s.PAL_shift_y + j) ∧
      (portdWrites out).length = 130 ∧
      luminance out
        = [s.PAL_border % 256 % 2]
          ++ (List.range 16).flatMap (fun j =>
              (List.range 8).map (fun i =>
                ((s.PAL_screen (PAL_ISR_ptr ((s.PAL_lineVideo + 1) % 65536) s.PAL_shift_y
                  + j)).val.testBit i).toNat))
          ++ [s.PAL_border % 256 % 2] := by
  obtain ⟨s', out, vals, h1, h2, h3, h4, h5⟩ := PAL_ISR_content_line cin s hT hc hcond
  refine ⟨s', out, h1, h5, ?_, ?_⟩
  · rw [h2, List.length_append, List.length_append, h3]
    rfl
  · unfold luminance
    rw [h2, List.map_append, List.map_append, h4, range_flatMap_16_8]
    simp only [div_pow_mod_two]
    rfl

/-- C23 (amended) at sub-line 31 of the first video block, after
`PAL_init(120)`, on a black framebuffer. -/
theorem C23_shift_out_order_witness :
    ((videoState 120 30).TMR0IF = true ∧
      PAL_ltype.get? (videoState 120 30).PAL_linePtr = some PAL_LVIDEO ∧
      PAL_ISR_content (videoState 120 30) (((videoState 120 30).PAL_lineVideo + 1) % 65536)
        = true) ∧
    ∃ s' out, PAL_ISR carryClear (videoState 120 30) = some (s', out) ∧
      fbReads out
        = PAL_ISR_ptr (((videoState 120 30).PAL_lineVideo + 1) % 65536)
            (videoState 120 30).PAL_shift_y ::
          (List.range 16).map
            (fun j => PAL_ISR_ptr (((videoState 120 30).PAL_lineVideo + 1) % 65536)
              (videoState 120 30).PAL_shift_y + j) ∧
      (portdWrites out).length = 130 ∧
      luminance out
        = [(videoState 120 30).PAL_border % 256 % 2]
          ++ (List.range 16).flatMap (fun j =>
              (List.range 8).map (fun i =>
                (((videoState 120 30).PAL_screen
                  (PAL_ISR_ptr (((videoState 120 30).PAL_lineVideo + 1) % 65536)
                    (videoState 120 30).PAL_shift_y + j)).val.testBit i).toNat))
          ++ [(videoState 120 30).PAL_border % 256 % 2] :=
  ⟨⟨rfl, by decide, by decide⟩,
    C23_shift_out_order carryClear (videoState 120 30) rfl (by decide) (by decide)⟩

/-- The `i`-th pixel of the closed form. -/
theorem linePixels_getElem? (x0 y0 x1 y1 : Int) (i : Nat)
    (hi : i ≤ max (x1 - x0).natAbs (y1 - y0).natAbs) :
    (linePixels x0 y0 x1 y1)[i]? = some
      (if (y1 - y0).natAbs < (x1 - x0).natAbs then
        (x0 + (if x1 - x0 < 0 then -1 else 1) * (i : Int),
         y0 + (if y1 - y0 < 0 then -1 else 1)
           * (((2 * (y1 - y0).natAbs * i + (x1 - x0).natAbs) / (2 * (x1 - x0).natAbs) : Nat) : Int))
      else
        (x0 + (if x1 - x0 < 0 then -1 else 1)
           * (((2 * (x1 - x0).natAbs * i + (y1 - y0).natAbs) / (2 * (y1 - y0).natAbs) : Nat) : Int),
         y0 + (if y1 - y0 < 0 then -1 else 1) * (i : Int))) := by
  unfold linePixels
  simp only
  by_cases h : (y1 - y0).natAbs < (x1 - x0).natAbs
  · rw [if_pos h, if_pos h, List.getElem?_map, List.getElem?_range (by omega)]
    rfl
  · rw [if_neg h, if_neg h, List.getElem?_map, List.getElem?_range (by omega)]
    rfl

/-- The closed form stays within half a pixel of the ideal line. -/
theorem lineMinor_half (M m i : Nat) (hmM : m ≤ M) :
    2 * |(M : Int) * (lineMinor M m i : Int) - (m : Int) * (i : Int)| ≤ (M : Int) := by
  rcases Nat.eq_zero_or_pos M with h0 | hM
  · subst h0
    have : m = 0 := by omega
    subst this
    simp
  · obtain ⟨h1, h2⟩ := lineMinor_bounds M m i hM
    have h1' : 2 * (M : Int) * (lineMinor M m i : Int) ≤ 2 * (m : Int) * (i : Int) + (M : Int) := by
      exact_mod_cast h1
    have h2' : 2 * (m : Int) * (i : Int) + (M : Int)
        < 2 * (M : Int) * ((lineMinor M m i : Int) + 1) := by
      exact_mod_cast h2
    rcases abs_cases ((M : Int) * (lineMinor M m i : Int) - (m : Int) * (i : Int))
      with ⟨h, _⟩ | ⟨h, _⟩ <;> rw [h] <;> linarith

/-- The signed offsets of a pixel of the closed form from the start of the line
give the half-pixel bound along the minor axis. -/
theorem linePixels_half (x0 y0 x1 y1 : Int) (p : Int × Int) (hp : p ∈ linePixels x0 y0 x1 y1) :
    2 * |((x1 - x0).natAbs : Int) * (p.2 - y0) * (if y1 - y0 < 0 then -1 else 1)
        - ((y1 - y0).natAbs : Int) * (p.1 - x0) * (if x1 - x0 < 0 then -1 else 1)|
      ≤ ((max (x1 - x0).natAbs (y1 - y0).natAbs : Nat) : Int) := by
  have hsx : (if x1 - x0 < 0 then (-1 : Int) else 1) = 1 ∨
      (if x1 - x0 < 0 then (-1 : Int) else 1) = -1 := by split <;> simp
  have hsy : (if y1 - y0 < 0 then (-1 : Int) else 1) = 1 ∨
      (if y1 - y0 < 0 then (-1 : Int) else 1) = -1 := by split <;> simp
  unfold linePixels at hp
  simp only at hp
  generalize (if x1 - x0 < 0 then (-1 : Int) else 1) = sx at hsx hp ⊢
  generalize (if y1 - y0 < 0 then (-1 : Int) else 1) = sy at hsy hp ⊢
  by_cases h : (y1 - y0).natAbs < (x1 - x0).natAbs
  · simp only [if_pos h, List.mem_map, List.mem_range] at hp
    obtain ⟨i, _, rfl⟩ := hp
    have hb := lineMinor_half (x1 - x0).natAbs (y1 - y0).natAbs i (by omega)
    have e : ((x1 - x0).natAbs : Int)
          * (y0 + sy * (lineMinor (x1 - x0).natAbs (y1 - y0).natAbs i : Int) - y0) * sy
        - ((y1 - y0).natAbs : Int) * (x0 + sx * (i : Int) - x0) * sx
        = ((x1 - x0).natAbs : Int) * (lineMinor (x1 - x0).natAbs (y1 - y0).natAbs i : Int)
          - ((y1 - y0).natAbs : Int) * (i : Int) := by
      rcases hsx with hx | hx <;> rcases hsy with hy | hy <;> rw [hx, hy] <;> ring
    simp only
    rw [e, Nat.max_eq_left (by omega)]
    exact hb
  · simp only [if_neg h, List.mem_map, List.mem_range] at hp
    obtain ⟨i, _, rfl⟩ := hp
    have hb := lineMinor_half (y1 - y0).natAbs (x1 - x0).natAbs i (by omega)
    have e : ((x1 - x0).natAbs : Int) * (y0 + sy * (i : Int) - y0) * sy
        - ((y1 - y0).natAbs : Int)
          * (x0 + sx * (lineMinor (y1 - y0).natAbs (x1 - x0).natAbs i : Int) - x0) * sx
        = -(((y1 - y0).natAbs : Int) * (lineMinor (y1 - y0).natAbs (x1 - x0).natAbs i : Int)
          - ((x1 - x0).natAbs : Int) * (i : Int)) := by
      rcases hsx with hx | hx <;> rcases hsy with hy | hy <;> rw [hx, hy] <;> ring
    simp only
    rw [e, abs_neg, Nat.max_eq_right (by omega)]
    exact hb

/-- C25: for all `char` endpoints, with `a = |x1-x0|`, `b = |y1-y0|` and `sx`,
`sy` the step signs, `PAL_line` terminates and the pixels it draws are, in
order, those of the Bresenham reference: `a + 1` pixels
`(x0 + sx*i, y0 + sy*floor((2*b*i + a)/(2*a)))`, `i = 0..a`, when `a > b`, and
`b + 1` pixels `(x0 + sx*floor((2*a*i + b)/(2*b)), y0 + sy*i)`, `i = 0..b`,
otherwise.  Every drawn pixel `(x,y)` is within half a pixel of the ideal line
along the minor axis: `2*|a*(y-y0)*sy - b*(x-x0)*sx| <= max(a,b)`.  This holds
in all eight octants, with every `int` operation of the code wrapped to 16
bits and every `char` to 8 bits. -/
theorem C25_bresenham_reference (sg : Bool) (fuel : Nat) (x0 y0 x1 y1 : Int)
    (hx0 : isChar sg x0) (hy0 : isChar sg y0) (hx1 : isChar sg x1) (hy1 : isChar sg y1)
    (hfuel : max (x1 - x0).natAbs (y1 - y0).natAbs ≤ fuel) :
    ∃ calls, PAL_line_calls sg fuel x0 y0 x1 y1 = some calls ∧
      calls.length = max (x1 - x0).natAbs (y1 - y0).natAbs + 1 ∧
      (∀ i, i ≤ max (x1 - x0).natAbs (y1 - y0).natAbs →
        calls[i]? = some
          (if (y1 - y0).natAbs < (x1 - x0).natAbs then
            (x0 + (if x1 - x0 < 0 then -1 else 1) * (i : Int),
             y0 + (if y1 - y0 < 0 then -1 else 1)
               * (((2 * (y1 - y0).natAbs * i + (x1 - x0).natAbs)
                    / (2 * (x1 - x0).natAbs) : Nat) : Int))
          else
            (x0 + (if x1 - x0 < 0 then -1 else 1)
               * (((2 * (x1 - x0).natAbs * i + (y1 - y0).natAbs)
                    / (2 * (y1 - y0).natAbs) : Nat) : Int),
             y0 + (if y1 - y0 < 0 then -1 else 1) * (i : Int)))) ∧
      (∀ p ∈ calls,
        2 * |((x1 - x0).natAbs : Int) * (p.2 - y0) * (if y1 - y0 < 0 then -1 else 1)
            - ((y1 - y0).natAbs : Int) * (p.1 - x0) * (if x1 - x0 < 0 then -1 else 1)|
          ≤ ((max (x1 - x0).natAbs (y1 - y0).natAbs : Nat) : Int)) := by
  refine ⟨_, PAL_line_calls_eq sg fuel x0 y0 x1 y1 hx0 hy0 hx1 hy1 hfuel, ?_,
    fun i hi => linePixels_getElem? x0 y0 x1 y1 i hi,
    fun p hp => linePixels_half x0 y0 x1 y1 p hp⟩
  unfold linePixels
  simp only
  split
  · rw [List.length_map, List.length_range, Nat.max_eq_left (by omega)]
  · rw [List.length_map, List.length_range, Nat.max_eq_right (by omega)]

/-- C25 at the line from `(5,9)` to `(0,7)`, with unsigned `char`: `x` drives,
both steps are negative. -/
theorem C25_bresenham_reference_witness :
    (isChar false 5 ∧ isChar false 9 ∧ isChar false 0 ∧ isChar false 7 ∧
      max ((0 : Int) - 5).natAbs ((7 : Int) - 9).natAbs ≤ 255) ∧
    ∃ calls, PAL_line_calls false 255 5 9 0 7 = some calls ∧
      calls.length = max ((0 : Int) - 5).natAbs ((7 : Int) - 9).natAbs + 1 ∧
      (∀ i, i ≤ max ((0 : Int) - 5).natAbs ((7 : Int) - 9).natAbs →
        calls[i]? = some
          (if ((7 : Int) - 9).natAbs < ((0 : Int) - 5).natAbs then
            (5 + (if (0 : Int) - 5 < 0 then -1 else 1) * (i : Int),
             9 + (if (7 : Int) - 9 < 0 then -1 else 1)
               * (((2 * ((7 : Int) - 9).natAbs * i + ((0 : Int) - 5).natAbs)
                    / (2 * ((0 : Int) - 5).natAbs) : Nat) : Int))
          else
            (5 + (if (0 : Int) - 5 < 0 then -1 else 1)
               * (((2 * ((0 : Int) - 5).natAbs * i + ((7 : Int) - 9).natAbs)
                    / (2 * ((7 : Int) - 9).natAbs) : Nat) : Int),
             9 + (if (7 : Int) - 9 < 0 then -1 else 1) * (i : Int)))) ∧
      (∀ p ∈ calls,
        2 * |(((0 : Int) - 5).natAbs : Int) * (p.2 - 9) * (if (7 : Int) - 9 < 0 then -1 else 1)
            - (((7 : Int) - 9).natAbs : Int) * (p.1 - 5) * (if (0 : Int) - 5 < 0 then -1 else 1)|
          ≤ ((max ((0 : Int) - 5).natAbs ((7 : Int) - 9).natAbs : Nat) : Int)) :=
  ⟨⟨by decide, by decide, by decide, by decide, by decide⟩,
    C25_bresenham_reference false 255 5 9 0 7 (by decide) (by decide) (by decide) (by decide)
      (by decide)⟩
/-! ## C26: the circle as a polygon -/

theorem tdiv_1000_bound (z : Int) (h : -255000 ≤ z) (h2 : z ≤ 255000) :
    -255 ≤ Int.tdiv z 1000 ∧ Int.tdiv z 1000 ≤ 255 := by
  rcases le_or_lt 0 z with hz | hz
  · rw [Int.tdiv_eq_ediv hz (by decide)]
    omega
  · have e : Int.tdiv z 1000 = -(Int.tdiv (-z) 1000) := by
      rw [Int.neg_tdiv, neg_neg]
    rw [e, Int.tdiv_eq_ediv (by omega) (by decide)]
    omega

/-- One coordinate of a sample: no conversion wraps when the table value is
within `[-1000, 1000]` and the radius and the centre are `char`s. -/
theorem PAL_circle_coord (sg : Bool) (t r x : Int) (ht : -1000 ≤ t ∧ t ≤ 1000)
    (hr : isChar sg r) (hx : isChar sg x) :
    toInt32 (Int.tdiv (toInt32 (toInt16 t * r)) 1000 + x) = x + Int.tdiv (t * r) 1000 := by
  have hr' : -128 ≤ r ∧ r ≤ 255 := by
    unfold isChar at hr; cases sg <;> simp at hr <;> omega
  have hx' : -128 ≤ x ∧ x ≤ 255 := by
    unfold isChar at hx; cases sg <;> simp at hx <;> omega
  have e1 : toInt16 t = t := toInt16_id t (by omega) (by omega)
  have hlo : -255000 ≤ t * r := by
    nlinarith [mul_nonneg (sub_nonneg.2 ht.2) (sub_nonneg.2 hr'.2),
      mul_nonneg (sub_nonneg.2 ht.1) (sub_nonneg.2 (show (-255 : Int) ≤ r by omega))]
  have hhi : t * r ≤ 255000 := by
    nlinarith [mul_nonneg (sub_nonneg.2 ht.2) (sub_nonneg.2 (show (-255 : Int) ≤ r by omega)),
      mul_nonneg (sub_nonneg.2 ht.1) (sub_nonneg.2 hr'.2)]
  have e2 : toInt32 (t * r) = t * r := by unfold toInt32; omega
  obtain ⟨b1, b2⟩ := tdiv_1000_bound (t * r) hlo hhi
  rw [e1, e2]
  unfold toInt32
  omega

/-- The loop of `PAL_circle` over positive angles joins each sample to the
next one. -/
theorem PAL_circle_loop_pos (sg : Bool) (sinE3 cosE3 : Int → Int) (x y r : Int) :
    ∀ (angles : List Int) (a0 : Int), (∀ a ∈ angles, 0 < a) →
      PAL_circle_loop sg sinE3 cosE3 x y r angles
          (PAL_circle_sample sinE3 cosE3 x y r a0).1 (PAL_circle_sample sinE3 cosE3 x y r a0).2
        = (List.zip (a0 :: angles) angles).map (fun pq =>
            (toChar sg (PAL_circle_sample sinE3 cosE3 x y r pq.1).1,
             toChar sg (PAL_circle_sample sinE3 cosE3 x y r pq.1).2,
             toChar sg (PAL_circle_sample sinE3 cosE3 x y r pq.2).1,
             toChar sg (PAL_circle_sample sinE3 cosE3 x y r pq.2).2)) := by
  intro angles
  induction angles with
  | nil => intro a0 _; rfl
  | cons a rest ih =>
    intro a0 h
    have ha : a > 0 := h a (List.mem_cons_self _ _)
    rw [PAL_circle_loop]
    simp only [if_pos ha]
    rw [ih a (fun b hb => h b (List.mem_cons_of_mem _ hb))]
    rfl

theorem PAL_circle_zip :
    List.zip ((0 : Int) :: (List.range 24).map (fun (k : Nat) => 15 * ((k : Int) + 1)))
        ((List.range 24).map (fun (k : Nat) => 15 * ((k : Int) + 1)))
      = (List.range 24).map (fun (k : Nat) => (15 * (k : Int), 15 * ((k : Int) + 1))) := by
  decide

/-- The lines of `PAL_circle`: the `k`-th joins the sample at `15*k` degrees to
the sample at `15*(k+1)` degrees, `k = 0..23`. -/
theorem PAL_circle_lines_eq (sg : Bool) (sinE3 cosE3 : Int → Int) (x y r : Int) :
    PAL_circle_lines sg sinE3 cosE3 x y r
      = (List.range 24).map (fun (k : Nat) =>
          (toChar sg (PAL_circle_sample sinE3 cosE3 x y r (15 * (k : Int))).1,
           toChar sg (PAL_circle_sample sinE3 cosE3 x y r (15 * (k : Int))).2,
           toChar sg (PAL_circle_sample sinE3 cosE3 x y r (15 * ((k : Int) + 1))).1,
           toChar sg (PAL_circle_sample sinE3 cosE3 x y r (15 * ((k : Int) + 1))).2)) := by
  unfold PAL_circle_lines
  rw [PAL_circle_angles_eq, PAL_circle_loop_first, PAL_circle_loop_pos, PAL_circle_zip,
    List.map_map]
  · rfl
  · intro a ha
    obtain ⟨k, _, rfl⟩ := List.mem_map.1 ha
    omega

/-- C26: with `sinE3`/`cosE3` the external sine and cosine scaled by 1000
(values within `[-1000, 1000]`, `sinE3(360) = sinE3(0)`,
`cosE3(360) = cosE3(0)`) and `char` arguments, the sample at angle `a` is
`(cx + trunc(sinE3(a)*r/1000), cy + trunc(cosE3(a)*r/1000))`, computed without
overflow, and `PAL_circle(cx,cy,r,mode)` issues exactly 24 `PAL_line` calls and
nothing else: the `k`-th (`k = 0..23`) joins the sample at `15*k` degrees to
the sample at `15*(k+1) mod 360` degrees, the last one joining the 345-degree
sample back to the 0-degree sample.  The coordinates are passed as `char`s,
which changes nothing when the samples fit a `char`. -/
theorem C26_circle_polygon (PAL_y : Nat) (sg : Bool) (fuel : Nat) (sinE3 cosE3 : Int → Int)
    (screen : Nat → Byte) (cx cy r : Int) (mode : Nat)
    (hx : isChar sg cx) (hy : isChar sg cy) (hr : isChar sg r)
    (hsin : ∀ a, -1000 ≤ sinE3 a ∧ sinE3 a ≤ 1000)
    (hcos : ∀ a, -1000 ≤ cosE3 a ∧ cosE3 a ≤ 1000)
    (hs360 : sinE3 360 = sinE3 0) (hc360 : cosE3 360 = cosE3 0) :
    (∀ a, PAL_circle_sample sinE3 cosE3 cx cy r a
      = (cx + Int.tdiv (sinE3 a * r) 1000, cy + Int.tdiv (cosE3 a * r) 1000)) ∧
    PAL_circle_lines sg sinE3 cosE3 cx cy r
      = (List.range 24).map (fun (k : Nat) =>
          (toChar sg (PAL_circle_sample sinE3 cosE3 cx cy r (15 * (k : Int))).1,
           toChar sg (PAL_circle_sample sinE3 cosE3 cx cy r (15 * (k : Int))).2,
           toChar sg (PAL_circle_sample sinE3 cosE3 cx cy r (15 * ((k : Int) + 1) % 360)).1,
           toChar sg (PAL_circle_sample sinE3 cosE3 cx cy r (15 * ((k : Int) + 1) % 360)).2)) ∧
    (PAL_circle_lines sg sinE3 cosE3 cx cy r).length = 24 ∧
    PAL_circle PAL_y sg fuel sinE3 cosE3 screen cx cy r mode
      = PAL_lines PAL_y sg fuel mode screen (PAL_circle_lines sg sinE3 cosE3 cx cy r) ∧
    (∀ a, isChar sg (PAL_circle_sample sinE3 cosE3 cx cy r a).1 →
      isChar sg (PAL_circle_sample sinE3 cosE3 cx cy r a).2 →
      toChar sg (PAL_circle_sample sinE3 cosE3 cx cy r a).1
          = cx + Int.tdiv (sinE3 a * r) 1000 ∧
        toChar sg (PAL_circle_sample sinE3 cosE3 cx cy r a).2
          = cy + Int.tdiv (cosE3 a * r) 1000) := by
  have hsample : ∀ a, PAL_circle_sample sinE3 cosE3 cx cy r a
      = (cx + Int.tdiv (sinE3 a * r) 1000, cy + Int.tdiv (cosE3 a * r) 1000) := by
    intro a
    unfold PAL_circle_sample
    rw [PAL_circle_coord sg (sinE3 a) r cx (hsin a) hr hx,
      PAL_circle_coord sg (cosE3 a) r cy (hcos a) hr hy]
  have h360 : PAL_circle_sample sinE3 cosE3 cx cy r 360
      = PAL_circle_sample sinE3 cosE3 cx cy r 0 := by
    rw [hsample, hsample, hs360, hc360]
  have hlines := PAL_circle_lines_eq sg sinE3 cosE3 cx cy r
  refine ⟨hsample, ?_, ?_, rfl, ?_⟩
  · rw [hlines]
    apply List.map_congr_left
    intro k hk
    rw [List.mem_range] at hk
    rcases Nat.lt_or_ge k 23 with h | h
    · have e : 15 * ((k : Int) + 1) % 360 = 15 * ((k : Int) + 1) := by omega
      rw [e]
    · have hk23 : k = 23 := by omega
      subst hk23
      have e1 : 15 * (((23 : Nat) : Int) + 1) = 360 := by decide
      have e2 : (360 : Int) % 360 = 0 := by decide
      rw [e1, e2, h360]
  · rw [hlines, List.length_map, List.length_range]
  · intro a h1 h2
    rw [toChar_id sg _ h1, toChar_id sg _ h2, hsample]
    exact ⟨rfl, rfl⟩

/-- C26 at the centre `(64,60)` with radius 10 on a black framebuffer of 120
rows, with unsigned `char`, for a square-wave table in place of the sine and
a constant in place of the cosine. -/
theorem C26_circle_polygon_witness :
    (isChar false 64 ∧ isChar false 60 ∧ isChar false 10 ∧
      (∀ a : Int, -1000 ≤ (fun (a : Int) => if a % 360 < 180 then (500 : Int) else -500) a ∧
        (fun (a : Int) => if a % 360 < 180 then (500 : Int) else -500) a ≤ 1000) ∧
      (∀ a : Int, -1000 ≤ (fun (_ : Int) => (1000 : Int)) a ∧
        (fun (_ : Int) => (1000 : Int)) a ≤ 1000) ∧
      (fun (a : Int) => if a % 360 < 180 then (500 : Int) else -500) 360
        = (fun (a : Int) => if a % 360 < 180 then (500 : Int) else -500) 0 ∧
      (fun (_ : Int) => (1000 : Int)) 360 = (fun (_ : Int) => (1000 : Int)) 0) ∧
    ((∀ a, PAL_circle_sample (fun (a : Int) => if a % 360 < 180 then (500 : Int) else -500)
        (fun (_ : Int) => (1000 : Int)) 64 60 10 a
      = (64 + Int.tdiv ((fun (a : Int) => if a % 360 < 180 then (500 : Int) else -500) a * 10) 1000,
         60 + Int.tdiv ((fun (_ : Int) => (1000 : Int)) a * 10) 1000)) ∧
    PAL_circle_lines false (fun (a : Int) => if a % 360 < 180 then (500 : Int) else -500)
        (fun (_ : Int) => (1000 : Int)) 64 60 10
      = (List.range 24).map (fun (k : Nat) =>
          (toChar false (PAL_circle_sample
              (fun (a : Int) => if a % 360 < 180 then (500 : Int) else -500)
              (fun (_ : Int) => (1000 : Int)) 64 60 10 (15 * (k : Int))).1,
           toChar false (PAL_circle_sample
              (fun (a : Int) => if a % 360 < 180 then (500 : Int) else -500)
              (fun (_ : Int) => (1000 : Int)) 64 60 10 (15 * (k : Int))).2,
           toChar false (PAL_circle_sample
              (fun (a : Int) => if a % 360 < 180 then (500 : Int) else -500)
              (fun (_ : Int) => (1000 : Int)) 64 60 10 (15 * ((k : Int) + 1) % 360)).1,
           toChar false (PAL_circle_sample
              (fun (a : Int) => if a % 360 < 180 then (500 : Int) else -500)
              (fun (_ : Int) => (1000 : Int)) 64 60 10 (15 * ((k : Int) + 1) % 360)).2)) ∧
    (PAL_circle_lines false (fun (a : Int) => if a % 360 < 180 then (500 : Int) else -500)
        (fun (_ : Int) => (1000 : Int)) 64 60 10).length = 24 ∧
    PAL_circle 120 false 255 (fun (a : Int) => if a % 360 < 180 then (500 : Int) else -500)
        (fun (_ : Int) => (1000 : Int)) (fun _ => 0) 64 60 10 PAL_COLOR_WHITE
      = PAL_lines 120 false 255 PAL_COLOR_WHITE (fun _ => 0)
          (PAL_circle_lines false (fun (a : Int) => if a % 360 < 180 then (500 : Int) else -500)
            (fun (_ : Int) => (1000 : Int)) 64 60 10) ∧
    (∀ a, isChar false (PAL_circle_sample
          (fun (a : Int) => if a % 360 < 180 then (500 : Int) else -500)
          (fun (_ : Int) => (1000 : Int)) 64 60 10 a).1 →
      isChar false (PAL_circle_sample
          (fun (a : Int) => if a % 360 < 180 then (500 : Int) else -500)
          (fun (_ : Int) => (1000 : Int)) 64 60 10 a).2 →
      toChar false (PAL_circle_sample
            (fun (a : Int) => if a % 360 < 180 then (500 : Int) else -500)
            (fun (_ : Int) => (1000 : Int)) 64 60 10 a).1
          = 64 + Int.tdiv
              ((fun (a : Int) => if a % 360 < 180 then (500 : Int) else -500) a * 10) 1000 ∧
        toChar false (PAL_circle_sample
            (fun (a : Int) => if a % 360 < 180 then (500 : Int) else -500)
            (fun (_ : Int) => (1000 : Int)) 64 60 10 a).2
          = 60 + Int.tdiv ((fun (_ : Int) => (1000 : Int)) a * 10) 1000)) :=
  ⟨⟨by decide, by decide, by decide,
      fun a => by simp only []; split <;> decide,
      fun _ => by simp only []; decide, by decide, rfl⟩,
    C26_circle_polygon 120 false 255 (fun (a : Int) => if a % 360 < 180 then (500 : Int) else -500)
      (fun (_ : Int) => (1000 : Int)) (fun _ => 0) 64 60 10 PAL_COLOR_WHITE
      (by decide) (by decide) (by decide)
      (fun a => by simp only []; split <;> decide)
      (fun _ => by simp only []; decide) (by decide) rfl⟩
/-! ## The delays of one invocation -/

/-- The delays of the sync branch: at most `PAL_DELAY28 - 6`, `PAL_DELAY28` and
`PAL_DELAY28` microseconds. -/
theorem delays_PAL_ISR_sync (s : PALState) :
    (delays (PAL_ISR_sync s).2).sum ≤ 54 := by
  rw [PAL_ISR_sync_out]
  simp only [delays, List.sum_cons, List.sum_nil, PAL_DELAY4, PAL_DELAY28]
  split <;> split <;> split <;> omega

/-- `PAL_ISR` is straight-line code: it returns whenever the table pointer is
inside the table, and the `Delay_us` calls of one invocation add up to at most
54 microseconds (3 on a video line). -/
theorem PAL_ISR_delay_budget (cin : Nat → Bool) (s : PALState) :
    (s.PAL_linePtr < PAL_ltype.length → ∃ r, PAL_ISR cin s = some r) ∧
    ∀ s' out, PAL_ISR cin s = some (s', out) → (delays out).sum ≤ 54 := by
  constructor
  · intro hlt
    unfold PAL_ISR
    by_cases hT : s.TMR0IF = true
    · rw [if_pos hT, List.get?_eq_get hlt]
      exact ⟨_, rfl⟩
    · rw [if_neg hT]
      exact ⟨_, rfl⟩
  · intro s' out h
    have hv := PAL_ISR_view cin s
    rw [h] at hv
    by_cases hT : s.TMR0IF = true
    · rw [if_pos hT] at hv
      cases hc : PAL_ltype.get? s.PAL_linePtr with
      | none => rw [hc] at hv; simp at hv
      | some code =>
        rw [hc] at hv
        simp only [Option.map_some', Option.some.injEq] at hv
        by_cases hvid : code = PAL_LVIDEO
        · rw [if_pos hvid] at hv
          have hd : delays out = [3] := (Prod.mk.inj (Prod.mk.inj hv).2).2
          rw [hd]
          decide
        · rw [if_neg hvid] at hv
          have hd : delays out = delays (PAL_ISR_sync { resetState with PAL_lineCode := code }).2 :=
            (Prod.mk.inj (Prod.mk.inj hv).2).2
          rw [hd]
          exact delays_PAL_ISR_sync _
    · rw [if_neg hT] at hv
      simp only [Option.map_some', Option.some.injEq] at hv
      have hd : delays out = [] := (Prod.mk.inj (Prod.mk.inj hv).2).2
      rw [hd]
      decide
/-! ## C31: drawing a line twice in toggle mode -/

/-- The pixels of the closed form are pairwise distinct. -/
theorem linePixels_nodup (x0 y0 x1 y1 : Int) : (linePixels x0 y0 x1 y1).Nodup := by
  have hsx : (if x1 - x0 < 0 then (-1 : Int) else 1) = 1 ∨
      (if x1 - x0 < 0 then (-1 : Int) else 1) = -1 := by split <;> simp
  have hsy : (if y1 - y0 < 0 then (-1 : Int) else 1) = 1 ∨
      (if y1 - y0 < 0 then (-1 : Int) else 1) = -1 := by split <;> simp
  by_cases hab : (y1 - y0).natAbs < (x1 - x0).natAbs
  · rw [linePixels_x x0 y0 x1 y1 hab]
    exact (lineList_shape (x1 - x0).natAbs (y1 - y0).natAbs (by omega)
      x0 y0 _ (if y1 - y0 < 0 then (-1 : Int) else 1) hsx).2.2.2.2
  · rw [linePixels_y x0 y0 x1 y1 hab]
    exact List.Nodup.map Prod.swap_injective
      (lineList_shape (y1 - y0).natAbs (x1 - x0).natAbs (by omega)
        y0 x0 _ (if x1 - x0 < 0 then (-1 : Int) else 1) hsy).2.2.2.2

set_option maxRecDepth 100000 in
theorem byte_xor_val : ∀ (b : Byte) (k : Fin 8),
    (toByte (b.val ^^^ 1 <<< k.val)).val = b.val ^^^ 1 <<< k.val := by
  decide

/-- Two toggles of one byte commute. -/
theorem byte_toggle_comm (b : Byte) (k j : Fin 8) :
    toByte ((toByte (b.val ^^^ 1 <<< k.val)).val ^^^ 1 <<< j.val)
      = toByte ((toByte (b.val ^^^ 1 <<< j.val)).val ^^^ 1 <<< k.val) := by
  rw [byte_xor_val, byte_xor_val, Nat.xor_assoc, Nat.xor_comm (1 <<< k.val), ← Nat.xor_assoc]

/-- Two `PAL_setPixel` in toggle mode commute. -/
theorem PAL_setPixel_toggle_comm (PAL_y : Nat) (screen : Nat → Byte) (x y u v : Int) :
    PAL_setPixel PAL_y (PAL_setPixel PAL_y screen x y PAL_COLOR_REVERSE) u v PAL_COLOR_REVERSE
      = PAL_setPixel PAL_y (PAL_setPixel PAL_y screen u v PAL_COLOR_REVERSE) x y
          PAL_COLOR_REVERSE := by
  have hk : x.toNat &&& 7 < 8 := Nat.lt_succ_of_le Nat.and_le_right
  have hj : u.toNat &&& 7 < 8 := Nat.lt_succ_of_le Nat.and_le_right
  by_cases h1 : x < 0 ∨ y < 0 ∨ 128 ≤ x ∨ (PAL_y : Int) ≤ y
  · rw [PAL_setPixel_outside PAL_y screen x y _ h1, PAL_setPixel_outside PAL_y _ x y _ h1]
  by_cases h2 : u < 0 ∨ v < 0 ∨ 128 ≤ u ∨ (PAL_y : Int) ≤ v
  · rw [PAL_setPixel_outside PAL_y screen u v _ h2, PAL_setPixel_outside PAL_y _ u v _ h2]
  rw [PAL_setPixel_raw PAL_y (PAL_setPixel PAL_y screen x y PAL_COLOR_REVERSE) u v _ h2,
    PAL_setPixel_raw PAL_y (PAL_setPixel PAL_y screen u v PAL_COLOR_REVERSE) x y _ h1,
    PAL_setPixel_raw PAL_y screen x y _ h1, PAL_setPixel_raw PAL_y screen u v _ h2]
  funext i
  generalize (toInt16 (toInt16 (y * 128) + x) / 8).toNat = a
  generalize (toInt16 (toInt16 (v * 128) + u) / 8).toNat = c
  simp only [PAL_COLOR_REVERSE]
  by_cases hia : i = a <;> by_cases hic : i = c
  · subst hia
    subst hic
    simp only [if_true]
    exact (byte_toggle_comm (screen i) ⟨x.toNat &&& 7, hk⟩ ⟨u.toNat &&& 7, hj⟩)
  · subst hia
    have hci : ¬ c = i := fun h => hic h.symm
    simp only [if_true, hic, hci, if_false]
  · subst hic
    have hai : ¬ a = i := fun h => hia h.symm
    simp only [if_true, hia, hai, if_false]
  · simp only [hia, hic, if_false]

/-- A toggle commutes with drawing a list of pixels in toggle mode. -/
theorem PAL_draw_toggle_comm (PAL_y : Nat) (x y : Int) (calls : List (Int × Int)) :
    ∀ screen : Nat → Byte,
      PAL_setPixel PAL_y (PAL_draw PAL_y PAL_COLOR_REVERSE screen calls) x y PAL_COLOR_REVERSE
        = PAL_draw PAL_y PAL_COLOR_REVERSE (PAL_setPixel PAL_y screen x y PAL_COLOR_REVERSE)
            calls := by
  induction calls with
  | nil => intro screen; rfl
  | cons q rest ih =>
    intro screen
    have h1 : ∀ s : Nat → Byte, PAL_draw PAL_y PAL_COLOR_REVERSE s (q :: rest)
        = PAL_draw PAL_y PAL_COLOR_REVERSE (PAL_setPixel PAL_y s q.1 q.2 PAL_COLOR_REVERSE) rest :=
      fun _ => rfl
    rw [h1, h1, ih, PAL_setPixel_toggle_comm]

/-- Drawing a list of pixels twice in toggle mode restores the framebuffer. -/
theorem PAL_draw_toggle_twice (PAL_y : Nat) (calls : List (Int × Int)) :
    ∀ screen : Nat → Byte,
      PAL_draw PAL_y PAL_COLOR_REVERSE (PAL_draw PAL_y PAL_COLOR_REVERSE screen calls) calls
        = screen := by
  induction calls with
  | nil => intro screen; rfl
  | cons q rest ih =>
    intro screen
    have h1 : ∀ s : Nat → Byte, PAL_draw PAL_y PAL_COLOR_REVERSE s (q :: rest)
        = PAL_draw PAL_y PAL_COLOR_REVERSE (PAL_setPixel PAL_y s q.1 q.2 PAL_COLOR_REVERSE) rest :=
      fun _ => rfl
    rw [h1, h1, PAL_draw_toggle_comm,
      PAL_setPixel_toggle_twice PAL_y screen q.1 q.2 PAL_COLOR_REVERSE (by decide), ih]

/-- C31: for every framebuffer and all `char` endpoints, `PAL_line` terminates
(fuel for `max(|x1-x0|,|y1-y0|)` iterations is enough), the pixels it visits
are pairwise distinct, so each is visited exactly once per call, and calling
`PAL_line(x0,y0,x1,y1,PAL_COLOR_REVERSE)` twice in a row gives back the
framebuffer the first call started from, byte for byte. -/
theorem C31_toggle_line_involution (PAL_y : Nat) (sg : Bool) (fuel : Nat) (screen : Nat → Byte)
    (x0 y0 x1 y1 : Int)
    (hx0 : isChar sg x0) (hy0 : isChar sg y0) (hx1 : isChar sg x1) (hy1 : isChar sg y1)
    (hfuel : max (x1 - x0).natAbs (y1 - y0).natAbs ≤ fuel) :
    ∃ calls scr, PAL_line_calls sg fuel x0 y0 x1 y1 = some calls ∧ calls.Nodup ∧
      PAL_line PAL_y sg fuel screen x0 y0 x1 y1 PAL_COLOR_REVERSE = some scr ∧
      PAL_line PAL_y sg fuel scr x0 y0 x1 y1 PAL_COLOR_REVERSE = some screen := by
  have hc := PAL_line_calls_eq sg fuel x0 y0 x1 y1 hx0 hy0 hx1 hy1 hfuel
  have h2 : PAL_line PAL_y sg fuel
      (PAL_draw PAL_y PAL_COLOR_REVERSE screen (linePixels x0 y0 x1 y1)) x0 y0 x1 y1
      PAL_COLOR_REVERSE = some screen := by
    unfold PAL_line
    rw [hc, Option.map_some', PAL_draw_toggle_twice]
  refine ⟨linePixels x0 y0 x1 y1,
    PAL_draw PAL_y PAL_COLOR_REVERSE screen (linePixels x0 y0 x1 y1), hc,
    linePixels_nodup x0 y0 x1 y1, ?_, h2⟩
  unfold PAL_line
  rw [hc, Option.map_some']

/-- C31 at the line from `(0,0)` to `(5,3)`, with unsigned `char`, on a
framebuffer of 120 rows whose byte `i` holds `i mod 256`. -/
theorem C31_toggle_line_involution_witness :
    (isChar false 0 ∧ isChar false 0 ∧ isChar false 5 ∧ isChar false 3 ∧
      max ((5 : Int) - 0).natAbs ((3 : Int) - 0).natAbs ≤ 255) ∧
    ∃ calls scr, PAL_line_calls false 255 0 0 5 3 = some calls ∧ calls.Nodup ∧
      PAL_line 120 false 255 (fun i => toByte i) 0 0 5 3 PAL_COLOR_REVERSE = some scr ∧
      PAL_line 120 false 255 scr 0 0 5 3 PAL_COLOR_REVERSE = some (fun i => toByte i) :=
  ⟨⟨by decide, by decide, by decide, by decide, by decide⟩,
    C31_toggle_line_involution 120 false 255 (fun i => toByte i) 0 0 5 3 (by decide) (by decide)
      (by decide) (by decide) (by decide)⟩
/-! ## C32: the rectangle in toggle mode -/

/-- After drawing a list of pixels in toggle mode, a pixel of the screen is
inverted exactly if it occurs an odd number of times in the list. -/
theorem pixel_draw_toggle (PAL_y : Nat) (hP : PAL_y ≤ 255) (calls : List (Int × Int)) :
    ∀ (screen : Nat → Byte) (px py : Nat), px < 128 →
      pixel (PAL_draw PAL_y PAL_COLOR_REVERSE screen calls) px py
        = if py < PAL_y ∧ calls.count ((px : Int), (py : Int)) % 2 = 1
            then !pixel screen px py else pixel screen px py := by
  induction calls with
  | nil =>
    intro screen px py _
    simp [PAL_draw]
  | cons q rest ih =>
    intro screen px py hpx
    have hstep : PAL_draw PAL_y PAL_COLOR_REVERSE screen (q :: rest)
        = PAL_draw PAL_y PAL_COLOR_REVERSE
            (PAL_setPixel PAL_y screen q.1 q.2 PAL_COLOR_REVERSE) rest := rfl
    rw [hstep, ih _ px py hpx, pixel_setPixel PAL_y screen q.1 q.2 PAL_COLOR_REVERSE hP px py hpx,
      List.count_cons]
    simp only [PAL_COLOR_REVERSE]
    by_cases hq : q = ((px : Int), (py : Int))
    · have hbeq : (q == ((px : Int), (py : Int))) = true := beq_iff_eq.2 hq
      have h1 : q.1 = (px : Int) := by rw [hq]
      have h2 : q.2 = (py : Int) := by rw [hq]
      rw [hbeq, if_pos rfl]
      by_cases hpy : py < PAL_y
      · have hin : 0 ≤ q.1 ∧ q.1 < 128 ∧ 0 ≤ q.2 ∧ q.2 < (PAL_y : Int)
            ∧ q.1 = (px : Int) ∧ q.2 = (py : Int) :=
          ⟨by omega, by omega, by omega, by omega, h1, h2⟩
        rw [if_pos hin]
        by_cases hodd : List.count ((px : Int), (py : Int)) rest % 2 = 1
        · rw [if_pos ⟨hpy, hodd⟩, if_neg (fun h => by omega)]
          exact Bool.not_not _
        · rw [if_neg (fun h => hodd h.2), if_pos ⟨hpy, by omega⟩]
      · have hout : ¬ (0 ≤ q.1 ∧ q.1 < 128 ∧ 0 ≤ q.2 ∧ q.2 < (PAL_y : Int)
            ∧ q.1 = (px : Int) ∧ q.2 = (py : Int)) :=
          fun h => hpy (by omega)
        rw [if_neg hout, if_neg (fun h => hpy h.1), if_neg (fun h => hpy h.1)]
    · have hne : (q == ((px : Int), (py : Int))) = false := by
        rw [beq_eq_false_iff_ne]; exact hq
      have hout : ¬ (0 ≤ q.1 ∧ q.1 < 128 ∧ 0 ≤ q.2 ∧ q.2 < (PAL_y : Int)
          ∧ q.1 = (px : Int) ∧ q.2 = (py : Int)) :=
        fun h => hq (Prod.ext h.2.2.2.2.1 h.2.2.2.2.2)
      rw [if_neg hout]
      simp only [hne, Bool.false_eq_true, if_false, Nat.add_zero]

theorem count_of_nodup (p : Int × Int) :
    ∀ l : List (Int × Int), l.Nodup → l.count p = if p ∈ l then 1 else 0 := by
  intro l
  induction l with
  | nil => intro _; rfl
  | cons q rest ih =>
    intro h
    obtain ⟨hq, hrest⟩ := List.nodup_cons.1 h
    rw [List.count_cons, ih hrest]
    by_cases hqp : q = p
    · subst hqp
      rw [if_neg hq, if_pos (beq_iff_eq.2 rfl), if_pos (List.mem_cons_self _ _)]
    · have hne : (q == p) = false := by
        rw [beq_eq_false_iff_ne]; exact hqp
      have hiff : p ∈ q :: rest ↔ p ∈ rest := by
        rw [List.mem_cons]
        constructor
        · rintro (h | h)
          · exact absurd h.symm hqp
          · exact h
        · exact Or.inr
      simp only [hne, Bool.false_eq_true, if_false, Nat.add_zero, hiff]

/-- A pixel occurs at most once among the pixels of a line. -/
theorem count_linePixels (x0 y0 x1 y1 : Int) (p : Int × Int) :
    (linePixels x0 y0 x1 y1).count p = if p ∈ linePixels x0 y0 x1 y1 then 1 else 0 :=
  count_of_nodup p _ (linePixels_nodup x0 y0 x1 y1)

/-- The number of times a pixel occurs among the pixels of the four lines of a
rectangle with `x0 < x1` and `y0 < y1`. -/
theorem count_rectangle_pixels (x0 y0 x1 y1 : Int) (hx01 : x0 < x1) (hy01 : y0 < y1)
    (p : Int × Int) :
    ((PAL_rectangle_lines x0 y0 x1 y1).flatMap
        (fun l => linePixels l.1 l.2.1 l.2.2.1 l.2.2.2)).count p
      = (if p.2 = y0 ∧ x0 ≤ p.1 ∧ p.1 ≤ x1 then 1 else 0)
        + (if p.1 = x1 ∧ y0 ≤ p.2 ∧ p.2 ≤ y1 then 1 else 0)
        + (if p.2 = y1 ∧ x0 ≤ p.1 ∧ p.1 ≤ x1 then 1 else 0)
        + (if p.1 = x0 ∧ y0 ≤ p.2 ∧ p.2 ≤ y1 then 1 else 0) := by
  simp only [PAL_rectangle_lines, List.flatMap_cons, List.flatMap_nil, List.append_nil,
    List.count_append, count_linePixels,
    mem_linePixels_horizontal, mem_linePixels_vertical,
    min_eq_left hx01.le, max_eq_right hx01.le, min_eq_left hy01.le, max_eq_right hy01.le,
    min_eq_right hx01.le, max_eq_left hx01.le, min_eq_right hy01.le, max_eq_left hy01.le]
  omega

/-- C32: for corners with `0 <= x0 < x1 < 128` and `y0 < y1 < PAL_y`,
`PAL_rectangle(x0,y0,x1,y1,PAL_COLOR_REVERSE)` returns, each of its four lines
visits the pixels of the Bresenham closed form, and among these pixels each of
the four corners `(x0,y0)`, `(x1,y0)`, `(x1,y1)`, `(x0,y1)` occurs twice (once in
each of the two lines meeting there), every other perimeter pixel once and
every other pixel never.  So afterwards every perimeter pixel except the four
corners is inverted, and the corners and all other pixels keep their value. -/
theorem C32_rectangle_toggle (PAL_y : Nat) (sg : Bool) (fuel : Nat) (screen : Nat → Byte)
    (x0 y0 x1 y1 : Int) (hP : PAL_y ≤ 255)
    (hx0 : 0 ≤ x0) (hx01 : x0 < x1) (hx1 : x1 < 128)
    (hy01 : y0 < y1) (hy1 : y1 < (PAL_y : Int))
    (hcy0 : isChar sg y0) (hcy1 : isChar sg y1)
    (hfuel : max (x1 - x0).natAbs (y1 - y0).natAbs ≤ fuel) :
    ∃ scr, PAL_rectangle PAL_y sg fuel screen x0 y0 x1 y1 PAL_COLOR_REVERSE = some scr ∧
      (∀ l ∈ PAL_rectangle_lines x0 y0 x1 y1,
        PAL_line_calls sg fuel l.1 l.2.1 l.2.2.1 l.2.2.2
          = some (linePixels l.1 l.2.1 l.2.2.1 l.2.2.2)) ∧
      (∀ p : Int × Int,
        ((PAL_rectangle_lines x0 y0 x1 y1).flatMap
            (fun l => linePixels l.1 l.2.1 l.2.2.1 l.2.2.2)).count p
          = if (p.1 = x0 ∨ p.1 = x1) ∧ (p.2 = y0 ∨ p.2 = y1) then 2
            else if x0 ≤ p.1 ∧ p.1 ≤ x1 ∧ y0 ≤ p.2 ∧ p.2 ≤ y1 ∧
                (p.1 = x0 ∨ p.1 = x1 ∨ p.2 = y0 ∨ p.2 = y1) then 1
            else 0) ∧
      (∀ px py : Nat, px < 128 →
        pixel scr px py =
          if (x0 ≤ (px : Int) ∧ (px : Int) ≤ x1 ∧ y0 ≤ (py : Int) ∧ (py : Int) ≤ y1 ∧
                ((px : Int) = x0 ∨ (px : Int) = x1 ∨ (py : Int) = y0 ∨ (py : Int) = y1)) ∧
              ¬ (((px : Int) = x0 ∨ (px : Int) = x1) ∧ ((py : Int) = y0 ∨ (py : Int) = y1))
            then !pixel screen px py else pixel screen px py) := by
  have hcx0 := isChar_of_range sg x0 hx0 (by omega)
  have hcx1 := isChar_of_range sg x1 (by omega) hx1
  have hchars : ∀ l ∈ PAL_rectangle_lines x0 y0 x1 y1,
      isChar sg l.1 ∧ isChar sg l.2.1 ∧ isChar sg l.2.2.1 ∧ isChar sg l.2.2.2 ∧
        max (l.2.2.1 - l.1).natAbs (l.2.2.2 - l.2.1).natAbs ≤ fuel := by
    intro l hl
    simp only [PAL_rectangle_lines, List.mem_cons, List.mem_singleton, List.not_mem_nil,
      or_false] at hl
    rcases hl with rfl | rfl | rfl | rfl
    · exact ⟨hcx0, hcy0, hcx1, hcy0, by simp only; omega⟩
    · exact ⟨hcx1, hcy0, hcx1, hcy1, by simp only; omega⟩
    · exact ⟨hcx1, hcy1, hcx0, hcy1, by simp only; omega⟩
    · exact ⟨hcx0, hcy1, hcx0, hcy0, by simp only; omega⟩
  have hlines := PAL_lines_eq PAL_y sg fuel PAL_COLOR_REVERSE (PAL_rectangle_lines x0 y0 x1 y1)
    screen hchars
  have hcount : ∀ p : Int × Int,
      ((PAL_rectangle_lines x0 y0 x1 y1).flatMap
          (fun l => linePixels l.1 l.2.1 l.2.2.1 l.2.2.2)).count p
        = if (p.1 = x0 ∨ p.1 = x1) ∧ (p.2 = y0 ∨ p.2 = y1) then 2
          else if x0 ≤ p.1 ∧ p.1 ≤ x1 ∧ y0 ≤ p.2 ∧ p.2 ≤ y1 ∧
              (p.1 = x0 ∨ p.1 = x1 ∨ p.2 = y0 ∨ p.2 = y1) then 1
          else 0 := by
    intro p
    rw [count_rectangle_pixels x0 y0 x1 y1 hx01 hy01 p]
    split_ifs <;> omega
  refine ⟨_, hlines, ?_, hcount, ?_⟩
  · intro l hl
    obtain ⟨h1, h2, h3, h4, h5⟩ := hchars l hl
    exact PAL_line_calls_eq sg fuel l.1 l.2.1 l.2.2.1 l.2.2.2 h1 h2 h3 h4 h5
  · intro px py hpx
    rw [pixel_draw_toggle PAL_y hP _ screen px py hpx, hcount ((px : Int), (py : Int))]
    simp only
    by_cases hcor : ((px : Int) = x0 ∨ (px : Int) = x1) ∧ ((py : Int) = y0 ∨ (py : Int) = y1)
    · rw [if_pos hcor]
      have h1 : ¬ (py < PAL_y ∧ 2 % 2 = 1) := fun h => absurd h.2 (by decide)
      rw [if_neg h1, if_neg (fun h => h.2 hcor)]
    · rw [if_neg hcor]
      by_cases hper : x0 ≤ (px : Int) ∧ (px : Int) ≤ x1 ∧ y0 ≤ (py : Int) ∧ (py : Int) ≤ y1 ∧
          ((px : Int) = x0 ∨ (px : Int) = x1 ∨ (py : Int) = y0 ∨ (py : Int) = y1)
      · have hpy : py < PAL_y := by
          obtain ⟨_, _, _, h4, _⟩ := hper
          omega
        have h1 : py < PAL_y ∧ 1 % 2 = 1 := ⟨hpy, by decide⟩
        rw [if_pos hper, if_pos h1, if_pos ⟨hper, hcor⟩]
      · have h1 : ¬ (py < PAL_y ∧ 0 % 2 = 1) := fun h => absurd h.2 (by decide)
        rw [if_neg hper, if_neg h1, if_neg (fun h => hper h.1)]

/-- C32 at the rectangle from `(2,1)` to `(5,3)` on a white framebuffer of
height 120, with unsigned `char`. -/
theorem C32_rectangle_toggle_witness :
    ((120 : Nat) ≤ 255 ∧ (0 : Int) ≤ 2 ∧ (2 : Int) < 5 ∧ (5 : Int) < 128 ∧
      (1 : Int) < 3 ∧ (3 : Int) < ((120 : Nat) : Int) ∧
      isChar false 1 ∧ isChar false 3 ∧
      max ((5 : Int) - 2).natAbs ((3 : Int) - 1).natAbs ≤ 255) ∧
    ∃ scr, PAL_rectangle 120 false 255 (fun _ => toByte 255) 2 1 5 3 PAL_COLOR_REVERSE
        = some scr ∧
      (∀ l ∈ PAL_rectangle_lines 2 1 5 3,
        PAL_line_calls false 255 l.1 l.2.1 l.2.2.1 l.2.2.2
          = some (linePixels l.1 l.2.1 l.2.2.1 l.2.2.2)) ∧
      (∀ p : Int × Int,
        ((PAL_rectangle_lines 2 1 5 3).flatMap
            (fun l => linePixels l.1 l.2.1 l.2.2.1 l.2.2.2)).count p
          = if (p.1 = 2 ∨ p.1 = 5) ∧ (p.2 = 1 ∨ p.2 = 3) then 2
            else if 2 ≤ p.1 ∧ p.1 ≤ 5 ∧ 1 ≤ p.2 ∧ p.2 ≤ 3 ∧
                (p.1 = 2 ∨ p.1 = 5 ∨ p.2 = 1 ∨ p.2 = 3) then 1
            else 0) ∧
      (∀ px py : Nat, px < 128 →
        pixel scr px py =
          if (2 ≤ (px : Int) ∧ (px : Int) ≤ 5 ∧ 1 ≤ (py : Int) ∧ (py : Int) ≤ 3 ∧
                ((px : Int) = 2 ∨ (px : Int) = 5 ∨ (py : Int) = 1 ∨ (py : Int) = 3)) ∧
              ¬ (((px : Int) = 2 ∨ (px : Int) = 5) ∧ ((py : Int) = 1 ∨ (py : Int) = 3))
            then !pixel (fun _ => toByte 255) px py else pixel (fun _ => toByte 255) px py) :=
  ⟨⟨by decide, by decide, by decide, by decide, by decide, by decide, by decide, by decide,
      by decide⟩,
    C32_rectangle_toggle 120 false 255 (fun _ => toByte 255) 2 1 5 3 (by decide) (by decide)
      (by decide) (by decide) (by decide) (by decide) (by decide) (by decide) (by decide)⟩
/-! ## C33: the glyph lookup -/

/-- The loop over `i` of `PAL_char` returns exactly when the `n` bytes it reads
from `ptr` on are inside the table. -/
theorem PAL_char_columns_isSome (sg : Bool) (table : List Nat) (x y mx my : Nat) :
    ∀ (n i ptr : Nat), 0 < n →
      ((PAL_char_columns sg table x y mx my n i ptr).isSome = true ↔ ptr + n ≤ table.length) := by
  intro n
  induction n with
  | zero => intro i ptr h; exact absurd h (Nat.lt_irrefl 0)
  | succ n ih =>
    intro i ptr _
    rw [PAL_char_columns]
    cases hget : table[ptr]? with
    | none =>
      have hlen : table.length ≤ ptr := List.getElem?_eq_none_iff.1 hget
      simp only [Option.isSome_none, Bool.false_eq_true, false_iff]
      omega
    | some c =>
      have hlt : ptr < table.length := by
        by_contra hn
        have : table[ptr]? = none := List.getElem?_eq_none_iff.2 (by omega)
        rw [this] at hget
        exact Option.noConfusion hget
      simp only [Option.isSome_map']
      rcases Nat.eq_zero_or_pos n with h0 | hpos
      · subst h0
        simp only [PAL_char_columns, Option.isSome_some, true_iff]
        omega
      · rw [ih (i + 1) (ptr + 1) hpos]
        omega

set_option maxRecDepth 100000 in
theorem PAL_charTable_all_bytes : PAL_charTable.all (fun b => decide (b < 256)) = true := by
  rfl

theorem PAL_charTable_bytes : ∀ b ∈ PAL_charTable, b < 256 := by
  intro b hb
  exact of_decide_eq_true (List.all_eq_true.1 PAL_charTable_all_bytes b hb)

set_option maxRecDepth 100000 in
theorem PAL_charTable_space : ∀ i : Fin 6, PAL_charTable[6 * 32 + i.val]? = some 0 := by
  decide

/-- C33: `PAL_charTable` holds `1536 = 256 * 6` entries, all bytes; for every
character code `c < 256` and every column `i < 6` the index `6*c + i` is inside
the table, and `PAL_char`, which reads the six entries from `6*c` on, finds
them all (it returns) for every position and size; a code that is not an
8-bit value would make it read outside the table.  The six entries of code 32
(space) are zero. -/
theorem C33_glyph_lookup_total (PAL_y : Nat) (sg : Bool) (screen : Nat → Byte)
    (x y c size : Nat) :
    PAL_charTable.length = 1536 ∧ 1536 = 256 * 6 ∧
    (∀ b ∈ PAL_charTable, b < 256) ∧
    (c < 256 → ∀ i, i < 6 →
      6 * c + i < PAL_charTable.length ∧ ∃ b, PAL_charTable[6 * c + i]? = some b) ∧
    ((PAL_char_calls sg x y c size).isSome = true ↔ c < 256) ∧
    ((PAL_char PAL_y sg screen x y c size).isSome = true ↔ c < 256) ∧
    (∀ i, i < 6 → PAL_charTable[6 * 32 + i]? = some 0) := by
  have hlen := PAL_charTable_length
  have hcalls : (PAL_char_calls sg x y c size).isSome = true ↔ c < 256 := by
    unfold PAL_char_calls
    simp only
    rw [PAL_char_columns_isSome sg PAL_charTable x y _ _ 6 0 (c * 6) (by decide), hlen]
    omega
  refine ⟨hlen, by decide, PAL_charTable_bytes, ?_, hcalls, ?_, ?_⟩
  · intro hc i hi
    have hlt : 6 * c + i < PAL_charTable.length := by rw [hlen]; omega
    exact ⟨hlt, _, List.getElem?_eq_getElem hlt⟩
  · unfold PAL_char
    rw [Option.isSome_map']
    exact hcalls
  · intro i hi
    exact PAL_charTable_space ⟨i, hi⟩

/-- Witness of C33: the letter `A` (code 65) at `(10, 20)` with `size = 0x11`;
its six table entries are at indices 390..395 and `PAL_char` returns. -/
theorem C33_glyph_lookup_total_witness :
    (65 : Nat) < 256 ∧ (PAL_char_calls false 10 20 65 0x11).isSome = true ∧
      (∀ i, i < 6 → 6 * 65 + i < PAL_charTable.length ∧ ∃ b, PAL_charTable[6 * 65 + i]? = some b) :=
  ⟨by decide,
   (C33_glyph_lookup_total 120 false (fun _ => toByte 0) 10 20 65 0x11).2.2.2.2.1.2 (by decide),
   (C33_glyph_lookup_total 120 false (fun _ => toByte 0) 10 20 65 0x11).2.2.2.1 (by decide)⟩
/-! ## C15: PAL_write and PAL_constWrite as a sequence of PAL_char calls -/

/-- Running a list of `PAL_char` calls is the left fold of `PAL_char` over the
list, each call working on the framebuffer left by the one before. -/
theorem PAL_chars_eq_foldlM (PAL_y : Nat) (sg : Bool) :
    ∀ (l : List (Nat × Nat × Nat × Nat)) (screen : Nat → Byte),
      PAL_chars PAL_y sg screen l
        = List.foldlM (fun scr q => PAL_char PAL_y sg scr q.1 q.2.1 q.2.2.1 q.2.2.2) screen l := by
  intro l
  induction l with
  | nil => intro screen; rfl
  | cons q rest ih =>
    intro screen
    rw [PAL_chars, List.foldlM_cons]
    have hfun : (fun scr => PAL_chars PAL_y sg scr rest)
        = fun scr => List.foldlM
            (fun scr q => PAL_char PAL_y sg scr q.1 q.2.1 q.2.2.1 q.2.2.2) scr rest :=
      funext ih
    rw [hfun]
    rfl

/-- `PAL_char` returns for every 8-bit character code. -/
theorem PAL_char_returns (PAL_y : Nat) (sg : Bool) (screen : Nat → Byte) (x y c size : Nat)
    (hc : c < 256) : ∃ scr, PAL_char PAL_y sg screen x y c size = some scr := by
  have h : (PAL_char PAL_y sg screen x y c size).isSome = true := by
    unfold PAL_char PAL_char_calls
    simp only
    rw [Option.isSome_map',
      PAL_char_columns_isSome sg PAL_charTable x y _ _ 6 0 (c * 6) (by decide),
      PAL_charTable_length]
    omega
  exact Option.isSome_iff_exists.1 h

/-- A sequence of `PAL_char` calls with 8-bit character codes returns. -/
theorem PAL_chars_returns (PAL_y : Nat) (sg : Bool) :
    ∀ (l : List (Nat × Nat × Nat × Nat)) (screen : Nat → Byte),
      (∀ q ∈ l, q.2.2.1 < 256) → ∃ scr, PAL_chars PAL_y sg screen l = some scr := by
  intro l
  induction l with
  | nil => intro screen _; exact ⟨screen, rfl⟩
  | cons q rest ih =>
    intro screen hl
    obtain ⟨scr1, h1⟩ := PAL_char_returns PAL_y sg screen q.1 q.2.1 q.2.2.1 q.2.2.2
      (hl q (List.mem_cons_self _ _))
    obtain ⟨scr2, h2⟩ := ih scr1 (fun q' hq' => hl q' (List.mem_cons_of_mem _ hq'))
    refine ⟨scr2, ?_⟩
    rw [PAL_chars, h1]
    exact h2

/-- C15: for a string `s` made of the non-zero bytes `cs`, a zero byte, and
anything after it, `PAL_write(lig,col,s,size)` and `PAL_constWrite` perform
exactly one `PAL_char` call per byte of `cs`, in string order, the `k`-th at
`x = (6*col + k*6*(size & 0x0F)) mod 256`, `y = (8*lig) mod 256`, with the same
`size`.  Their result is that of running `PAL_char` on these arguments one
after the other, each call on the framebuffer the previous one left (the left
fold of `PAL_char` from the initial framebuffer); for the empty string it is
the framebuffer itself, for a string `c :: cs` it is `PAL_char` of `c` at
`(6*col) mod 256` followed by the remaining calls; and when the bytes are
8-bit values both functions return, with the same framebuffer. -/
theorem C15_write (PAL_y : Nat) (sg : Bool) (screen : Nat → Byte) (lig col size : Nat)
    (cs rest : List Nat) (hcs : ∀ c ∈ cs, c ≠ 0) :
    PAL_write_calls lig col (cs ++ 0 :: rest) size
        = some (cs.enum.map (fun kc =>
            ((6 * col + kc.1 * 6 * (size &&& 0x0f)) % 256, (8 * lig) % 256, kc.2, size))) ∧
      PAL_write PAL_y sg screen lig col (cs ++ 0 :: rest) size
        = List.foldlM (fun scr q => PAL_char PAL_y sg scr q.1 q.2.1 q.2.2.1 q.2.2.2) screen
            (cs.enum.map (fun kc =>
              ((6 * col + kc.1 * 6 * (size &&& 0x0f)) % 256, (8 * lig) % 256, kc.2, size))) ∧
      PAL_constWrite_calls lig col (cs ++ 0 :: rest) size
        = some (cs.enum.map (fun kc =>
            ((6 * col + kc.1 * 6 * (size &&& 0x0f)) % 256, (8 * lig) % 256, kc.2, size))) ∧
      PAL_constWrite PAL_y sg screen lig col (cs ++ 0 :: rest) size
        = List.foldlM (fun scr q => PAL_char PAL_y sg scr q.1 q.2.1 q.2.2.1 q.2.2.2) screen
            (cs.enum.map (fun kc =>
              ((6 * col + kc.1 * 6 * (size &&& 0x0f)) % 256, (8 * lig) % 256, kc.2, size))) ∧
      (∀ (c : Nat) (cs1 : List Nat), cs = c :: cs1 →
        PAL_write PAL_y sg screen lig col (cs ++ 0 :: rest) size
          = (PAL_char PAL_y sg screen ((6 * col) % 256) ((8 * lig) % 256) c size).bind
              (fun scr => List.foldlM
                (fun scr q => PAL_char PAL_y sg scr q.1 q.2.1 q.2.2.1 q.2.2.2) scr
                ((cs1.enumFrom 1).map (fun kc =>
                  ((6 * col + kc.1 * 6 * (size &&& 0x0f)) % 256, (8 * lig) % 256,
                    kc.2, size))))) ∧
      ((∀ c ∈ cs, c < 256) →
        ∃ scr, PAL_write PAL_y sg screen lig col (cs ++ 0 :: rest) size = some scr ∧
          PAL_constWrite PAL_y sg screen lig col (cs ++ 0 :: rest) size = some scr) := by
  have h0 : (col * 6) % 256 = (6 * col + 0 * (6 * (size &&& 0x0f))) % 256 := by
    rw [Nat.zero_mul, Nat.add_zero, Nat.mul_comm]
  have hw : PAL_write_calls lig col (cs ++ 0 :: rest) size
      = some (cs.enum.map (fun kc =>
          ((6 * col + kc.1 * 6 * (size &&& 0x0f)) % 256, (8 * lig) % 256, kc.2, size))) := by
    unfold PAL_write_calls
    rw [h0, PAL_write_loop_eq _ size (6 * col) rest cs 0 hcs, write_entry_eq]
  have hcw : PAL_constWrite_calls lig col (cs ++ 0 :: rest) size
      = some (cs.enum.map (fun kc =>
          ((6 * col + kc.1 * 6 * (size &&& 0x0f)) % 256, (8 * lig) % 256, kc.2, size))) := by
    unfold PAL_constWrite_calls
    rw [h0, PAL_constWrite_loop_eq _ size (6 * col) rest cs 0 hcs, write_entry_eq]
  have hW : PAL_write PAL_y sg screen lig col (cs ++ 0 :: rest) size
      = List.foldlM (fun scr q => PAL_char PAL_y sg scr q.1 q.2.1 q.2.2.1 q.2.2.2) screen
          (cs.enum.map (fun kc =>
            ((6 * col + kc.1 * 6 * (size &&& 0x0f)) % 256, (8 * lig) % 256, kc.2, size))) := by
    unfold PAL_write
    rw [hw, Option.some_bind, PAL_chars_eq_foldlM]
  have hCW : PAL_constWrite PAL_y sg screen lig col (cs ++ 0 :: rest) size
      = List.foldlM (fun scr q => PAL_char PAL_y sg scr q.1 q.2.1 q.2.2.1 q.2.2.2) screen
          (cs.enum.map (fun kc =>
            ((6 * col + kc.1 * 6 * (size &&& 0x0f)) % 256, (8 * lig) % 256, kc.2, size))) := by
    unfold PAL_constWrite
    rw [hcw, Option.some_bind, PAL_chars_eq_foldlM]
  refine ⟨hw, hW, hcw, hCW, ?_, ?_⟩
  · intro c cs1 hcons
    rw [hW, hcons]
    unfold List.enum
    rw [List.enumFrom_cons, List.map_cons, List.foldlM_cons]
    simp only [Nat.zero_mul, Nat.add_zero, Nat.zero_add]
    rfl
  · intro hb
    have hall : ∀ q ∈ cs.enum.map (fun kc =>
        ((6 * col + kc.1 * 6 * (size &&& 0x0f)) % 256, (8 * lig) % 256, kc.2, size)),
        q.2.2.1 < 256 := by
      intro q hq
      obtain ⟨kc, hkc, rfl⟩ := List.mem_map.1 hq
      exact hb kc.2 (List.snd_mem_of_mem_enum hkc)
    obtain ⟨scr, hscr⟩ := PAL_chars_returns PAL_y sg _ screen hall
    refine ⟨scr, ?_, ?_⟩
    · rw [hW, ← PAL_chars_eq_foldlM]; exact hscr
    · rw [hCW, ← PAL_chars_eq_foldlM]; exact hscr

/-- Witness of C15: the string "Hi" at text line 2, column 3, with
`size = 0x12`, followed in memory by other bytes: `H` is drawn at `(18, 16)`,
then `i` at `(30, 16)` on the framebuffer that `H` left, and both functions
return. -/
theorem C15_write_witness :
    (∀ c ∈ [72, 105], c ≠ 0) ∧
    PAL_write_calls 2 3 ([72, 105] ++ 0 :: [7]) 0x12
        = some [(18, 16, 72, 0x12), (30, 16, 105, 0x12)] ∧
    PAL_write 120 false (fun _ => 0) 2 3 ([72, 105] ++ 0 :: [7]) 0x12
        = List.foldlM (fun scr q => PAL_char 120 false scr q.1 q.2.1 q.2.2.1 q.2.2.2)
            (fun _ => 0) [(18, 16, 72, 0x12), (30, 16, 105, 0x12)] ∧
    PAL_constWrite 120 false (fun _ => 0) 2 3 ([72, 105] ++ 0 :: [7]) 0x12
        = List.foldlM (fun scr q => PAL_char 120 false scr q.1 q.2.1 q.2.2.1 q.2.2.2)
            (fun _ => 0) [(18, 16, 72, 0x12), (30, 16, 105, 0x12)] ∧
    (∃ scr, PAL_write 120 false (fun _ => 0) 2 3 ([72, 105] ++ 0 :: [7]) 0x12 = some scr ∧
      PAL_constWrite 120 false (fun _ => 0) 2 3 ([72, 105] ++ 0 :: [7]) 0x12 = some scr) :=
  ⟨by decide,
   (C15_write 120 false (fun _ => 0) 2 3 0x12 [72, 105] [7] (by decide)).1,
   (C15_write 120 false (fun _ => 0) 2 3 0x12 [72, 105] [7] (by decide)).2.1,
   (C15_write 120 false (fun _ => 0) 2 3 0x12 [72, 105] [7] (by decide)).2.2.2.1,
   (C15_write 120 false (fun _ => 0) 2 3 0x12 [72, 105] [7] (by decide)).2.2.2.2.2 (by decide)⟩

end PAL
